import Mathlib

/-!
# The command console engine of `src/engine/shared/console.cpp`

A shallow embedding of `CConsole`: the line tokenizer (`ExecuteLineStroked`,
`ParseStart`), the argument validator (`ParseArgs`, `NextParam`), the command
registry (`FindCommand`, `AddCommandSorted`, `Register`, `RegisterTemp`,
`DeregisterTemp`, `DeregisterTempAll`, `Chain`), the execution queue
(`StoreCommands`) and script execution (`ExecuteFile`).

Conventions of the embedding.

* A C string is the list of its characters before the terminating NUL; a
  pointer into a buffer is the suffix of the buffer that starts there.
* The declarations of `console.h`, `protocol.h`, `config.h`, `storage.h` and
  the helpers of `base/system.h` are not part of the sources at hand.  Their
  constants are the fields of `Env`; the string helpers are modelled below.
* Everything the console makes observable (a `Print`, a notification of the
  audit hook, a callback invocation, an `OpenFile`) is appended to the `trace`
  of the console state.  The handlers of `console.cpp` (`Con_Echo`, `Con_Exec`,
  `ConToggle`, `ConToggleStroke`, `ConCommandAccess`, `ConCommandStatus`,
  `ConUserCommandStatus`, `IntVariableCommand`, `ColVariableCommand`,
  `StrVariableCommand`) are run.  A handler that is not part of the console is
  opaque: its invocation is recorded and it is taken not to re-enter the
  console.
* A `float` is kept as a rational number; rounding is not modelled.
-/

namespace Console

/-- A C string without its terminator. -/
abbrev Str := List Char

/-! ## Constants and collaborators declared outside the sources -/

/-- One entry of `config_variables.h`, a `MACRO_CONFIG_INT` (kind 0),
`MACRO_CONFIG_COL` (kind 1) or `MACRO_CONFIG_STR` (any other kind): the script
name, the flags and the description, the member `Name` of `g_Config` it
stands for, and the arguments `Def`, `Min`, `Max` (numbers), `Len` and the
default `DefStr` of a string. -/
structure ConfigVariable where
  ScriptName : Str
  Flags : Nat
  kind : Nat
  Desc : Str
  Name : Str := []
  Def : Int := 0
  Min : Int := 0
  Max : Int := 0
  Len : Nat := 0
  DefStr : Str := []

/-- Modelled from the spec: a colour of base/color.h (`ColorHSLA`,
`ColorRGBA`), which is not under src/: the four `float` components `x`, `y`,
`z` (`h`, `s`, `l` or `r`, `g`, `b`) and `a`. -/
structure Color where
  x : Rat
  y : Rat
  z : Rat
  a : Rat

/-- The constants of the headers and the external collaborators (storage,
kernel, configuration table) that `console.cpp` refers to. -/
structure Env where
  /-- The characters `str_skip_whitespaces` steps over. -/
  isSkipWs : Char → Bool
  /-- The characters at which `str_skip_to_whitespace` stops. -/
  isStopWs : Char → Bool
  /-- The value of `str_toint` on a string. -/
  str_toint : Str → Int
  /-- The value of `sizeof(CResult::m_aStringStorage)`. -/
  storageSize : Nat
  MAX_CLIENTS : Nat
  VICTIM_NONE : Int
  VICTIM_ME : Int
  VICTIM_ALL : Int
  CLIENT_ID_GAME : Int
  CLIENT_ID_NO_GAME : Int
  ACCESS_LEVEL_ADMIN : Int
  ACCESS_LEVEL_HELPER : Int
  ACCESS_LEVEL_USER : Int
  OUTPUT_LEVEL_STANDARD : Int
  OUTPUT_LEVEL_DEBUG : Int
  CFGFLAG_SERVER : Nat
  CFGFLAG_CLIENT : Nat
  CFGFLAG_CHAT : Nat
  CFGFLAG_GAME : Nat
  CFGFLAG_STORE : Nat
  CFGFLAG_NONTEEHISTORIC : Nat
  CFGFLAG_COLLIGHT : Nat
  CFGFLAG_COLALPHA : Nat
  CMDFLAG_TEST : Nat
  TEMPCMD_NAME_LENGTH : Nat
  TEMPCMD_HELP_LENGTH : Nat
  TEMPCMD_PARAMS_LENGTH : Nat
  /-- The value of `sizeof(CCommand)`. -/
  sizeofCCommand : Nat
  /-- The storage type `IStorage::TYPE_ALL`. -/
  TYPE_ALL : Int
  /-- The default of the parameter `InterpretSemicolons` of `ExecuteLine`. -/
  defaultInterpretSemicolons : Bool
  /-- The default of the parameter `ClientID` of `ExecuteLine`. -/
  defaultClientID : Int
  /-- The text `str_format` writes for `%d` and `%i`. -/
  fmt_int : Int → Str
  /-- The text `str_format` writes for `%u`. -/
  fmt_unsigned : Nat → Str
  /-- The text `str_format` writes for `%06X`. -/
  fmt_hex06 : Nat → Str
  /-- The value of `str_utf8_check` on a string. -/
  str_utf8_check : Str → Bool
  /-- The bytes `str_utf8_encode` writes for a character code. -/
  str_utf8_encode : Char → Str
  /-- The value of `str_isallnum` on a string. -/
  str_isallnum : Str → Bool
  /-- The value of `str_toulong_base(str, base)`, as an `unsigned`. -/
  str_toulong_base : Str → Nat → Nat
  /-- The value of `round_truncate` of base/math.h. -/
  round_truncate : Rat → Int
  /-- The colour `ColorHSLA(h, s, l)`. -/
  ColorHSLA : Rat → Rat → Rat → Color
  /-- The colour `ColorHSLA(col, alpha)` of a packed value. -/
  ColorHSLAPacked : Nat → Bool → Color
  /-- The value of `ColorHSLA::UnclampLighting`. -/
  UnclampLighting : Color → Color
  /-- The value of `color_cast<ColorHSLA>` on a `ColorRGBA`. -/
  color_cast_hsla : Color → Color
  /-- The value of `color_cast<ColorRGBA>` on a `ColorHSLA`. -/
  color_cast_rgba : Color → Color
  /-- The value of `ColorHSLA::Pack(Darkest, Alpha)`. -/
  PackHSLA : Color → Rat → Bool → Nat
  /-- The value of `ColorRGBA::Pack(Alpha)`. -/
  PackRGBA : Color → Bool → Nat
  /-- Whether `Kernel()->RequestInterface<IStorage>()` yields a storage. -/
  kernelStorage : Bool
  /-- The lines `CLineReader` reads from a file that `IStorage::OpenFile`
  opens, `none` when the file cannot be opened. -/
  OpenFile : Str → Int → Option (List Str)
  /-- The entries of `config_variables.h`, in order. -/
  configVariables : List ConfigVariable

/-! ## The string helpers of `base/system.h` -/

/-- Modelled from the spec: `str_skip_whitespaces` of base/system.h, which is
not under src/; it returns the position of the first character that is not
whitespace. -/
def str_skip_whitespaces (env : Env) : Str → Str
  | [] => []
  | c :: cs => if env.isSkipWs c then str_skip_whitespaces env cs else c :: cs

/-- Modelled from the spec: `str_skip_to_whitespace` of base/system.h, which
is not under src/; it returns the position of the first whitespace character
(or the end of the string). -/
def str_skip_to_whitespace (env : Env) : Str → Str
  | [] => []
  | c :: cs => if env.isStopWs c then c :: cs else str_skip_to_whitespace env cs

/-- The C string that starts where `s` starts once a NUL has been written at
`str_skip_to_whitespace s`: the characters of `s` before the first
whitespace. -/
def tokenBefore (env : Env) : Str → Str
  | [] => []
  | c :: cs => if env.isStopWs c then [] else c :: tokenBefore env cs

/-- Modelled from the spec: `str_copy(dst, src, dst_size)` of base/system.h,
which is not under src/; `dst` receives at most `dst_size - 1` characters of
`src` and a terminator. -/
def str_copy (src : Str) (dst_size : Nat) : Str :=
  src.take (dst_size - 1)

/-- Modelled from the spec: `str_append(dst, src, dst_size)` of
base/system.h, which is not under src/; `src` is put behind `dst` as far as
`dst_size - 1` characters and a terminator allow. -/
def str_append (dst src : Str) (dst_size : Nat) : Str :=
  (dst ++ src).take (dst_size - 1)

/-- Modelled from the spec: `str_escape(&dst, src, end)` of base/system.h,
which is not under src/, with `room` for `end - dst`: the characters of `src`
with a backslash before every `"` and `\\`, as far as the room allows. -/
def str_escape : Str → Nat → Str
  | [], _ => []
  | ch :: rest, room =>
    if 1 < room then
      if ch = '"' ∨ ch = '\\' then
        if 2 < room then '\\' :: ch :: str_escape rest (room - 2) else []
      else ch :: str_escape rest (room - 1)
    else []

/-- Modelled from the spec: `str_comp` of base/system.h (the C library
`strcmp`), which is not under src/: negative, zero or positive as `a` is
smaller than, equal to or greater than `b` in the order of the character
codes. -/
def str_comp : Str → Str → Int
  | [], [] => 0
  | [], _ :: _ => -1
  | _ :: _, [] => 1
  | a :: as, b :: bs =>
    if a.toNat < b.toNat then -1
    else if b.toNat < a.toNat then 1
    else str_comp as bs

/-- Modelled from the spec: `str_comp_nocase` of base/system.h, which is not
under src/: `str_comp` on the lower-cased strings. -/
def str_comp_nocase (a b : Str) : Int :=
  str_comp (a.map Char.toLower) (b.map Char.toLower)

/-- Modelled from the spec: `str_startswith(str, prefix)` of base/system.h,
which is not under src/: the rest of `str` after `prefix`, or null. -/
def str_startswith : Str → Str → Option Str
  | s, [] => some s
  | [], _ :: _ => none
  | c :: cs, p :: ps => if c = p then str_startswith cs ps else none

/-- Modelled from the spec: `clamp` of base/math.h, which is not under
src/. -/
def clamp (val lo hi : Int) : Int :=
  if val < lo then lo else if val > hi then hi else val

/-! ## The parsed result -/

/-- The fields of `CConsole::CResult` the console code reads and writes.
`m_apArgs` holds the argument strings, `m_NumArgs` is its length. -/
structure CResult where
  m_ClientID : Int
  m_pCommand : Str
  m_pArgsStart : Str
  m_apArgs : List Str
  m_Victim : Int
deriving DecidableEq, Repr

namespace CResult

/-- Modelled from the spec: `CResult::AddArgument` of console.h, which is not
under src/; the argument becomes the last positional argument. -/
def AddArgument (r : CResult) (pArg : Str) : CResult :=
  { r with m_apArgs := r.m_apArgs ++ [pArg] }

/-- Modelled from the spec: `IResult::NumArguments` of console.h, which is not
under src/; the number of positional arguments. -/
def NumArguments (r : CResult) : Nat := r.m_apArgs.length

/-- The function `CResult::GetString`. -/
def GetString (r : CResult) (Index : Nat) : Str :=
  if Index ≥ r.m_apArgs.length then [] else r.m_apArgs.getD Index []

/-- The function `CResult::GetInteger`. -/
def GetInteger (env : Env) (r : CResult) (Index : Nat) : Int :=
  if Index ≥ r.m_apArgs.length then 0 else env.str_toint (r.m_apArgs.getD Index [])

/-- The function `CResult::GetColor`. -/
def GetColor (env : Env) (r : CResult) (Index : Nat) (Light : Bool) : Color :=
  let hsl := env.ColorHSLA 0 0 0
  if Index ≥ r.m_apArgs.length then hsl
  else
    let pStr := r.m_apArgs.getD Index []
    if env.str_isallnum pStr ∨
        ((pStr.head? = some '-' ∨ pStr.head? = some '+') ∧ env.str_isallnum pStr.tail) then
      let hsl1 := env.ColorHSLAPacked (env.str_toulong_base pStr 10) true
      if Light then env.UnclampLighting hsl1 else hsl1
    else if pStr.head? = some '$' then
      let rgb : Color := { x := 0, y := 0, z := 0, a := 1 }
      let Len := pStr.length
      if Len = 4 then
        let Num := env.str_toulong_base pStr.tail 16
        env.color_cast_hsla
          { rgb with
            x := ((((Num >>> 8) &&& 0x0F) + ((Num >>> 4) &&& 0xF0) : Nat) : Rat) / 255,
            y := ((((Num >>> 4) &&& 0x0F) + ((Num >>> 0) &&& 0xF0) : Nat) : Rat) / 255,
            z := ((((Num >>> 0) &&& 0x0F) + ((Num <<< 4) &&& 0xF0) : Nat) : Rat) / 255 }
      else if Len = 7 then
        let Num := env.str_toulong_base pStr.tail 16
        env.color_cast_hsla
          { rgb with
            x := ((((Num >>> 16) &&& 0xFF : Nat) : Rat)) / 255,
            y := ((((Num >>> 8) &&& 0xFF : Nat) : Rat)) / 255,
            z := ((((Num >>> 0) &&& 0xFF : Nat) : Rat)) / 255 }
      else hsl
    else if str_comp_nocase pStr "red".toList = 0 then env.ColorHSLA (0 / 6) 1 (1 / 2)
    else if str_comp_nocase pStr "yellow".toList = 0 then env.ColorHSLA (1 / 6) 1 (1 / 2)
    else if str_comp_nocase pStr "green".toList = 0 then env.ColorHSLA (2 / 6) 1 (1 / 2)
    else if str_comp_nocase pStr "cyan".toList = 0 then env.ColorHSLA (3 / 6) 1 (1 / 2)
    else if str_comp_nocase pStr "blue".toList = 0 then env.ColorHSLA (4 / 6) 1 (1 / 2)
    else if str_comp_nocase pStr "magenta".toList = 0 then env.ColorHSLA (5 / 6) 1 (1 / 2)
    else if str_comp_nocase pStr "white".toList = 0 then env.ColorHSLA 0 0 1
    else if str_comp_nocase pStr "gray".toList = 0 then env.ColorHSLA 0 0 (1 / 2)
    else if str_comp_nocase pStr "black".toList = 0 then env.ColorHSLA 0 0 0
    else hsl

/-- The function `CResult::GetVictim`. -/
def GetVictim (r : CResult) : Int := r.m_Victim

/-- The function `CResult::ResetVictim`. -/
def ResetVictim (env : Env) (r : CResult) : CResult :=
  { r with m_Victim := env.VICTIM_NONE }

/-- The function `CResult::HasVictim`. -/
def HasVictim (env : Env) (r : CResult) : Bool :=
  r.m_Victim != env.VICTIM_NONE

/-- The function `CResult::SetVictim(int)`. -/
def SetVictim (env : Env) (r : CResult) (Victim : Int) : CResult :=
  { r with m_Victim := clamp Victim env.VICTIM_NONE ((env.MAX_CLIENTS : Int) - 1) }

/-- The function `CResult::SetVictim(const char *)`. -/
def SetVictimStr (env : Env) (r : CResult) (pVictim : Str) : CResult :=
  if str_comp pVictim "me".toList = 0 then { r with m_Victim := env.VICTIM_ME }
  else if str_comp pVictim "all".toList = 0 then { r with m_Victim := env.VICTIM_ALL }
  else { r with m_Victim := clamp (env.str_toint pVictim) 0 ((env.MAX_CLIENTS : Int) - 1) }

end CResult

/-- Modelled from the spec: a `CResult` as its constructor (console.h, not
under src/) and `ExecuteLineStroked` set it up: no arguments, no victim, the
client id filled in. -/
def CResult.init (env : Env) (ClientID : Int) : CResult :=
  { m_ClientID := ClientID, m_pCommand := [], m_pArgsStart := [], m_apArgs := [],
    m_Victim := env.VICTIM_NONE }

/-! ## Tokenizer and argument validator -/

/-- The function `CConsole::ParseStart`: copy at most `Length - 1` characters (and no more
than the storage holds), take the first whitespace-delimited token as the
command and what follows the one whitespace character after it as the
argument text.  The second component is the returned error code. -/
def ParseStart (env : Env) (pResult : CResult) (pString : Str) (Length : Nat) : CResult × Int :=
  let Len := if Length < env.storageSize then Length else env.storageSize
  let storage := str_copy pString Len
  let pStr := str_skip_whitespaces env storage
  let pEnd := str_skip_to_whitespace env pStr
  ({ pResult with m_pCommand := tokenBefore env pStr, m_pArgsStart := pEnd.tail }, 0)

/-- The function `CConsole::NextParam`: advance the format pointer by one directive, over
a bracketed hint and one space after it; the result is the new format
pointer, whose first character (NUL at the end) is the returned directive. -/
def NextParam : Str → Str
  | [] => []
  | _ :: rest =>
    if rest.head? = some '[' then
      match rest.dropWhile (fun c => c != ']') with
      | [] => []
      | _ :: after => if after.head? = some ' ' then after.tail else after
    else rest

/-- The in-place unescaping loop of `ParseArgs` for a quoted token, started
behind the opening quote: the characters written through `pDst`, and the
text behind the closing quote (`none` when the terminator is reached
first). -/
def unescapeQuoted : Str → Str × Option Str
  | [] => ([], none)
  | c :: cs =>
    if c = '"' then ([], some cs)
    else if c = '\\' then
      match cs with
      | [] => let (out, rest) := unescapeQuoted []; ('\\' :: out, rest)
      | d :: cs2 =>
        if d = '\\' then let (out, rest) := unescapeQuoted cs2; ('\\' :: out, rest)
        else if d = '"' then let (out, rest) := unescapeQuoted cs2; ('"' :: out, rest)
        else let (out, rest) := unescapeQuoted (d :: cs2); ('\\' :: out, rest)
    else
      let (out, rest) := unescapeQuoted cs; (c :: out, rest)

/-- The search `while(Command)` of `ParseArgs` for a `v` directive in the
rest of the format once the text has run out. -/
def findVictimDirective : Nat → Str → Bool
  | 0, _ => false
  | fuel + 1, pFormat =>
    match pFormat with
    | [] => false
    | Command :: _ =>
      if Command = 'v' then true
      else findVictimDirective fuel (NextParam pFormat)

/-- The main loop of `CConsole::ParseArgs`; `pFormat` is the format pointer
(its head is `Command`), `pStr` the read position and `Optional` the flag.
The loop runs at most once per character of the format, which is what
`fuel` counts. -/
def ParseArgsLoop (env : Env) : Nat → Str → Bool → Str → CResult → CResult × Int
  | 0, _, _, _, r => (r, 0)
  | fuel + 1, pFormat, Optional, pStr, r =>
    match pFormat with
    | [] => (r, 0)
    | Command :: _ =>
      if Command = '?' then
        ParseArgsLoop env fuel (NextParam pFormat) true pStr r
      else
        let pStr := str_skip_whitespaces env pStr
        match pStr with
        | [] =>
          if !Optional then (r, 1)
          else if findVictimDirective (pFormat.length + 1) pFormat then
            (r.SetVictim env env.VICTIM_ME, 0)
          else (r, 0)
        | c :: cs =>
          if c = '"' then
            match unescapeQuoted cs with
            | (out, none) => (r.AddArgument (out ++ cs.drop out.length), 1)
            | (out, some rest) =>
              ParseArgsLoop env fuel (NextParam pFormat) Optional rest (r.AddArgument out)
          else if Command = 'r' then
            (r.AddArgument pStr, 0)
          else
            let isTok := Command = 'v' ∨ Command = 'i' ∨ Command = 'f' ∨ Command = 's'
            let pEnd := if isTok then str_skip_to_whitespace env pStr else pStr
            let arg := if isTok then tokenBefore env pStr else []
            let r := r.AddArgument arg
            let r := if Command = 'v' then r.SetVictimStr env arg else r
            ParseArgsLoop env fuel (NextParam pFormat) Optional pEnd.tail r

/-- The function `CConsole::ParseArgs`: the result with the arguments added and the victim
set, and the returned error code. -/
def ParseArgs (env : Env) (pResult : CResult) (pFormat : Str) : CResult × Int :=
  ParseArgsLoop env (pFormat.length + 1) pFormat false pResult.m_pArgsStart
    (pResult.ResetVictim env)

/-! ## The console state -/

/-- The constant fields of `CIntVariableData`: `m_pVariable` is the member of
`g_Config` the pointer refers to, by its name.  The field `m_OldValue`, which
the handler writes, is kept in the console state (`OldValue`). -/
structure CIntVariableData where
  m_pVariable : Str
  m_Min : Int
  m_Max : Int
deriving DecidableEq, Repr

/-- The constant fields of `CColVariableData`, see `CIntVariableData`. -/
structure CColVariableData where
  m_pVariable : Str
  m_Light : Bool
  m_Alpha : Bool
deriving DecidableEq, Repr

/-- The constant fields of `CStrVariableData`: `m_pStr` is the member of
`g_Config` the pointer refers to, by its name; the buffer `m_pOldValue` points
to is kept in the console state (`OldValue`). -/
structure CStrVariableData where
  m_pStr : Str
  m_MaxSize : Nat
deriving DecidableEq, Repr

/-- A command callback together with its user data.  `null` is the null
function pointer.  The handlers `console.cpp` defines are named, the variable
handlers with the `Data` block their user data points to; a handler defined
elsewhere is `handler fn user`.  `Con_Chain fn user next` stands for
`Con_Chain` with a `CChain` user data holding the chain function, its user
data and the wrapped callback. -/
inductive Callback where
  | null
  | Con_Echo
  | Con_Exec
  | ConToggle
  | ConToggleStroke
  | ConCommandAccess
  | ConCommandStatus
  | ConUserCommandStatus
  | IntVariableCommand (pData : CIntVariableData)
  | ColVariableCommand (pData : CColVariableData)
  | StrVariableCommand (pData : CStrVariableData)
  | handler (fn : Nat) (user : Nat)
  | Con_Chain (fn : Nat) (user : Nat) (next : Callback)
deriving DecidableEq, Repr

/-- The text handed to `Print`: a string, or the result of `str_format` into
a buffer of `size` bytes, kept as the call's format and string arguments
(`str_format` is not under src/). -/
inductive Msg where
  | text (s : Str)
  | str_format (size : Nat) (fmt : Str) (args : List Str)
deriving DecidableEq, Repr

/-- What the console makes observable. -/
inductive Event where
  /-- A call `Print(Level, pFrom, pStr)`. -/
  | print (Level : Int) (pFrom : Str) (pStr : Msg)
  /-- A call of the audit hook `m_pfnTeeHistorianCommandCallback`. -/
  | historian (ClientID : Int) (FlagMask : Nat) (pName : Str) (Result : CResult)
  /-- An invocation of a command callback with a result. -/
  | call (cb : Callback) (Result : CResult)
  /-- A call `m_pStorage->OpenFile(pFilename, IOFLAG_READ, StorageType)`. -/
  | openFile (pFilename : Str) (StorageType : Int)
deriving DecidableEq, Repr

/-- The fields of `CConsole::CCommand`; `m_Callback` is `m_pfnCallback`
with `m_pUserData`, the list order is the `m_pNext` chain. -/
structure CCommand where
  m_pName : Str
  m_pHelp : Str
  m_pParams : Str
  m_Flags : Nat
  m_Temp : Bool
  m_AccessLevel : Int
  m_Callback : Callback
deriving DecidableEq, Repr

/-- An entry of `CExecutionQueue`. -/
structure CQueueEntry where
  m_Callback : Callback
  m_Result : CResult
deriving DecidableEq, Repr

/-- The global `g_Config`: the two members the interpreter reads, and the
other members by name, those of a `MACRO_CONFIG_INT` in `m_Ints`, of a
`MACRO_CONFIG_COL` in `m_Cols`, of a `MACRO_CONFIG_STR` in `m_Strs`.  A member
that is not listed has the value 0 or the empty string. -/
structure CConfig where
  m_SvTestingCommands : Int
  m_SvMap : Str
  m_Ints : List (Str × Int) := []
  m_Cols : List (Str × Nat) := []
  m_Strs : List (Str × Str) := []
deriving DecidableEq, Repr

namespace CConfig

/-- The value of the `int` member `m_<Name>`. -/
def getInt (cfg : CConfig) (Name : Str) : Int :=
  if Name = "SvTestingCommands".toList then cfg.m_SvTestingCommands
  else (cfg.m_Ints.lookup Name).getD 0

/-- The assignment `m_<Name> = Val` to an `int` member. -/
def setInt (cfg : CConfig) (Name : Str) (Val : Int) : CConfig :=
  if Name = "SvTestingCommands".toList then { cfg with m_SvTestingCommands := Val }
  else { cfg with m_Ints := (Name, Val) :: cfg.m_Ints.filter (fun p => p.1 ≠ Name) }

/-- The value of the `unsigned` member `m_<Name>` of a colour. -/
def getCol (cfg : CConfig) (Name : Str) : Nat :=
  (cfg.m_Cols.lookup Name).getD 0

/-- The assignment `m_<Name> = Val` to the member of a colour. -/
def setCol (cfg : CConfig) (Name : Str) (Val : Nat) : CConfig :=
  { cfg with m_Cols := (Name, Val) :: cfg.m_Cols.filter (fun p => p.1 ≠ Name) }

/-- The string in the member `m_<Name>`. -/
def getStr (cfg : CConfig) (Name : Str) : Str :=
  if Name = "SvMap".toList then cfg.m_SvMap
  else (cfg.m_Strs.lookup Name).getD []

/-- A write of the string `Val` into the member `m_<Name>`. -/
def setStr (cfg : CConfig) (Name : Str) (Val : Str) : CConfig :=
  if Name = "SvMap".toList then { cfg with m_SvMap := Val }
  else { cfg with m_Strs := (Name, Val) :: cfg.m_Strs.filter (fun p => p.1 ≠ Name) }

end CConfig

/-- The state of a `CConsole`.  `m_pFirstCommand` is the command list,
`m_pRecycleList` the freelist, `m_TempCommands` the number of bytes in use
in the arena, `m_ExecutionQueue` the queue from `m_pFirst` on, `m_pFirstExec`
the names of the files being executed (innermost first),
`m_pfnTeeHistorianCommandCallback` the audit hook (`none` is null),
`OldValue` the fields `m_OldValue` and the buffers `m_pOldValue` of the static
`Data` blocks of the constructor, each under the name of its variable. -/
structure CConsole where
  m_FlagMask : Nat
  m_AccessLevel : Int
  m_StoreCommands : Bool
  m_Cheated : Bool
  m_pFirstCommand : List CCommand
  m_pRecycleList : List CCommand
  m_TempCommands : Nat
  m_ExecutionQueue : List CQueueEntry
  m_pFirstExec : List Str
  m_pfnTeeHistorianCommandCallback : Option Nat
  m_pStorage : Bool
  g_Config : CConfig
  trace : List Event
  OldValue : CConfig := { m_SvTestingCommands := 0, m_SvMap := [] }
deriving DecidableEq, Repr

/-- Why a run of the model stops without a result: the fuel that bounds the
nesting of the calls back into the console is used up, or a null callback is
called. -/
inductive Fault where
  | outOfFuel
  | nullCallback
deriving DecidableEq, Repr

/-- After a sub-command: go on with the next part of the line, or `return`
from `ExecuteLineStroked`. -/
inductive Flow where
  | next
  | ret
deriving DecidableEq, Repr

/-- A call a handler of `console.cpp` makes back into the console:
`ExecuteFile(pFilename, ClientID, LogFailure, StorageType)`, made by
`Con_Exec`, or `ExecuteLine(pStr, ClientID, InterpretSemicolons)`, made by
`ConToggle` and `ConToggleStroke`. -/
inductive Reentry where
  | ExecuteFile (pFilename : Str) (ClientID : Int) (LogFailure : Bool) (StorageType : Int)
  | ExecuteLine (pStr : Str) (ClientID : Int) (InterpretSemicolons : Bool)
deriving DecidableEq, Repr

/-- The console as the callbacks see it: what a call back into it returns.
The functions of the interpreter take it as a parameter; `reentry` ties the
knot. -/
abbrev ReenterFn := Reentry → CConsole → Except Fault CConsole

/-- Append events to the trace. -/
def traceAppend (c : CConsole) (es : List Event) : CConsole :=
  { c with trace := c.trace ++ es }

/-- Append an event to the trace. -/
def CConsole.log (c : CConsole) (e : Event) : CConsole :=
  { c with trace := c.trace ++ [e] }

/-- The function `CConsole::Print`: the call is handed to the output sink. -/
def Print (c : CConsole) (Level : Int) (pFrom : Str) (pStr : Msg) : CConsole :=
  c.log (Event.print Level pFrom pStr)

/-- Whether `Flags & Mask` is non-zero. -/
def hasFlag (Flags Mask : Nat) : Bool := (Flags &&& Mask) != 0

/-! ## Lookup and dispatch -/

/-- The function `CConsole::FindCommand` on the command list. -/
def FindCommand : List CCommand → Str → Nat → Option CCommand
  | [], _, _ => none
  | pCommand :: rest, pName, FlagMask =>
    if hasFlag pCommand.m_Flags FlagMask then
      if str_comp_nocase pCommand.m_pName pName = 0 then some pCommand
      else FindCommand rest pName FlagMask
    else FindCommand rest pName FlagMask

/-- The strings `m_paStrokeStr[Stroke]`. -/
def m_paStrokeStr (Stroke : Bool) : Str := if Stroke then ['1'] else ['0']

/-- Modelled from the spec: `CCommandInfo::SetAccessLevel` of console.h, which
is not under src/; the access level is kept within the range from the admin
level to the user level. -/
def CCommand.SetAccessLevel (env : Env) (cmd : CCommand) (AccessLevel : Int) : CCommand :=
  { cmd with m_AccessLevel := clamp AccessLevel env.ACCESS_LEVEL_ADMIN env.ACCESS_LEVEL_USER }

/-- Apply `f` in place to the descriptor `FindCommand` returns. -/
def updateFound (f : CCommand → CCommand) : List CCommand → Str → Nat → List CCommand
  | [], _, _ => []
  | pCommand :: rest, pName, FlagMask =>
    if hasFlag pCommand.m_Flags FlagMask then
      if str_comp_nocase pCommand.m_pName pName = 0 then f pCommand :: rest
      else pCommand :: updateFound f rest pName FlagMask
    else pCommand :: updateFound f rest pName FlagMask

/-- The texts `"enabled"` and `"disabled"` of `ConCommandAccess`. -/
def enabledText (b : Bool) : Str :=
  if b then "enabled".toList else "disabled".toList

/-- The function `CConsole::ConCommandAccess`. -/
def ConCommandAccess (env : Env) (pResult : CResult) (c : CConsole) : CConsole :=
  match FindCommand c.m_pFirstCommand (pResult.GetString 0) env.CFGFLAG_SERVER with
  | some pCommand =>
    if pResult.NumArguments = 2 then
      let pCommand1 := pCommand.SetAccessLevel env (pResult.GetInteger env 1)
      let l := updateFound (fun cmd => cmd.SetAccessLevel env (pResult.GetInteger env 1))
        c.m_pFirstCommand (pResult.GetString 0) env.CFGFLAG_SERVER
      let c1 := { c with m_pFirstCommand := l }
      let c2 := Print c1 env.OUTPUT_LEVEL_STANDARD "console".toList
        (Msg.str_format 128 "moderator access for '%s' is now %s".toList
          [pResult.GetString 0, enabledText (decide (pCommand1.m_AccessLevel ≠ 0))])
      let c3 := Print c2 env.OUTPUT_LEVEL_STANDARD "console".toList
        (Msg.str_format 128 "helper access for '%s' is now %s".toList
          [pResult.GetString 0,
           enabledText (decide (pCommand1.m_AccessLevel ≥ env.ACCESS_LEVEL_HELPER))])
      Print c3 env.OUTPUT_LEVEL_STANDARD "console".toList
        (Msg.str_format 128 "user access for '%s' is now %s".toList
          [pResult.GetString 0,
           enabledText (decide (pCommand1.m_AccessLevel ≥ env.ACCESS_LEVEL_USER))])
    else
      let c2 := Print c env.OUTPUT_LEVEL_STANDARD "console".toList
        (Msg.str_format 128 "moderator access for '%s' is %s".toList
          [pResult.GetString 0, enabledText (decide (pCommand.m_AccessLevel ≠ 0))])
      let c3 := Print c2 env.OUTPUT_LEVEL_STANDARD "console".toList
        (Msg.str_format 128 "helper access for '%s' is %s".toList
          [pResult.GetString 0,
           enabledText (decide (pCommand.m_AccessLevel ≥ env.ACCESS_LEVEL_HELPER))])
      Print c3 env.OUTPUT_LEVEL_STANDARD "console".toList
        (Msg.str_format 128 "user access for '%s' is %s".toList
          [pResult.GetString 0,
           enabledText (decide (pCommand.m_AccessLevel ≥ env.ACCESS_LEVEL_USER))])
  | none =>
    Print c env.OUTPUT_LEVEL_STANDARD "console".toList
      (Msg.str_format 128 "No such command: '%s'.".toList [pResult.GetString 0])

/-- The loop of `ConCommandStatus` over the command list: the console with
the lines printed so far, the buffer `aBuf` and the counter `Used`. -/
def commandStatusLoop (env : Env) (FlagMask : Nat) (AccessLevel : Int) :
    List CCommand → Str → Nat → CConsole → CConsole × Str × Nat
  | [], aBuf, Used, c => (c, aBuf, Used)
  | pCommand :: rest, aBuf, Used, c =>
    if hasFlag pCommand.m_Flags FlagMask ∧ pCommand.m_AccessLevel ≥ AccessLevel then
      let Length := pCommand.m_pName.length
      if Used + Length + 2 < 240 then
        if Used > 0 then
          commandStatusLoop env FlagMask AccessLevel rest
            (str_append (str_append aBuf ", ".toList 240) pCommand.m_pName 240)
            (Used + 2 + Length) c
        else
          commandStatusLoop env FlagMask AccessLevel rest
            (str_append aBuf pCommand.m_pName 240) (Used + Length) c
      else
        commandStatusLoop env FlagMask AccessLevel rest (str_copy pCommand.m_pName 240) Length
          (Print c env.OUTPUT_LEVEL_STANDARD "console".toList (Msg.text aBuf))
    else commandStatusLoop env FlagMask AccessLevel rest aBuf Used c

/-- The function `CConsole::ConCommandStatus`. -/
def ConCommandStatus (env : Env) (pResult : CResult) (c : CConsole) : CConsole :=
  match commandStatusLoop env c.m_FlagMask
      (clamp (pResult.GetInteger env 0) env.ACCESS_LEVEL_ADMIN env.ACCESS_LEVEL_USER)
      c.m_pFirstCommand [] 0 c with
  | (c1, aBuf, Used) =>
    if Used > 0 then Print c1 env.OUTPUT_LEVEL_STANDARD "console".toList (Msg.text aBuf)
    else c1

/-- The function `CConsole::ConUserCommandStatus`.  The client id of the local `Result`,
which the C code leaves unset and `ConCommandStatus` does not read, is 0. -/
def ConUserCommandStatus (env : Env) (c : CConsole) : CConsole :=
  let Result := { CResult.init env 0 with m_pCommand := "access_status".toList }
  ConCommandStatus env (Result.AddArgument (str_copy (env.fmt_int env.ACCESS_LEVEL_USER) 4)) c

/-- The function `IntVariableCommand`. -/
def IntVariableCommand (env : Env) (pData : CIntVariableData) (pResult : CResult)
    (c : CConsole) : CConsole :=
  if pResult.NumArguments ≠ 0 then
    let Val := pResult.GetInteger env 0
    let Val2 :=
      if pData.m_Min ≠ pData.m_Max then
        let Val1 := if Val < pData.m_Min then pData.m_Min else Val
        if pData.m_Max ≠ 0 ∧ Val1 > pData.m_Max then pData.m_Max else Val1
      else Val
    let c1 := { c with g_Config := c.g_Config.setInt pData.m_pVariable Val2 }
    if pResult.m_ClientID ≠ env.CLIENT_ID_GAME then
      { c1 with OldValue := c1.OldValue.setInt pData.m_pVariable Val2 }
    else c1
  else
    Print c env.OUTPUT_LEVEL_STANDARD "console".toList
      (Msg.str_format 32 "Value: %d".toList [env.fmt_int (c.g_Config.getInt pData.m_pVariable)])

/-- The function `ColVariableCommand`. -/
def ColVariableCommand (env : Env) (pData : CColVariableData) (pResult : CResult)
    (c : CConsole) : CConsole :=
  if pResult.NumArguments ≠ 0 then
    let Col := pResult.GetColor env 0 pData.m_Light
    let Val := env.PackHSLA Col (if pData.m_Light then 1 / 2 else 0) pData.m_Alpha
    let c1 := { c with g_Config := c.g_Config.setCol pData.m_pVariable Val }
    if pResult.m_ClientID ≠ env.CLIENT_ID_GAME then
      { c1 with OldValue := c1.OldValue.setCol pData.m_pVariable Val }
    else c1
  else
    let Cur := c.g_Config.getCol pData.m_pVariable
    let c1 := Print c env.OUTPUT_LEVEL_STANDARD "console".toList
      (Msg.str_format 256 "Value: %u".toList [env.fmt_unsigned Cur])
    let hsl0 := env.ColorHSLAPacked Cur true
    let hsl := if pData.m_Light then env.UnclampLighting hsl0 else hsl0
    let c2 := Print c1 env.OUTPUT_LEVEL_STANDARD "console".toList
      (Msg.str_format 256 "H: %d°, S: %d%%, L: %d%%".toList
        [env.fmt_int (env.round_truncate (hsl.x * 360)),
         env.fmt_int (env.round_truncate (hsl.y * 100)),
         env.fmt_int (env.round_truncate (hsl.z * 100))])
    let rgb := env.color_cast_rgba hsl
    let c3 := Print c2 env.OUTPUT_LEVEL_STANDARD "console".toList
      (Msg.str_format 256 "R: %d, G: %d, B: %d, #%06X".toList
        [env.fmt_int (env.round_truncate (rgb.x * 255)),
         env.fmt_int (env.round_truncate (rgb.y * 255)),
         env.fmt_int (env.round_truncate (rgb.z * 255)),
         env.fmt_hex06 (env.PackRGBA rgb false)])
    if pData.m_Alpha then
      Print c3 env.OUTPUT_LEVEL_STANDARD "console".toList
        (Msg.str_format 256 "A: %d%%".toList [env.fmt_int (env.round_truncate (hsl.a * 100))])
    else c3

/-- The loop `while(*pString)` of `StrVariableCommand` for a string that is
not valid UTF-8: every character is encoded anew as long as the buffer of
`MaxSize` bytes has room; `Length` bytes are written so far. -/
def utf8Recode (env : Env) (MaxSize : Nat) : Str → Nat → Str
  | [], _ => []
  | ch :: rest, Length =>
    if Length + (env.str_utf8_encode ch).length < MaxSize then
      env.str_utf8_encode ch ++
        utf8Recode env MaxSize rest (Length + (env.str_utf8_encode ch).length)
    else []

/-- The function `StrVariableCommand`. -/
def StrVariableCommand (env : Env) (pData : CStrVariableData) (pResult : CResult)
    (c : CConsole) : CConsole :=
  if pResult.NumArguments ≠ 0 then
    let pString := pResult.GetString 0
    let Val :=
      if !env.str_utf8_check pString then utf8Recode env pData.m_MaxSize pString 0
      else str_copy pString pData.m_MaxSize
    let c1 := { c with g_Config := c.g_Config.setStr pData.m_pStr Val }
    if pResult.m_ClientID ≠ env.CLIENT_ID_GAME then
      { c1 with OldValue := c1.OldValue.setStr pData.m_pStr (str_copy Val pData.m_MaxSize) }
    else c1
  else
    Print c env.OUTPUT_LEVEL_STANDARD "console".toList
      (Msg.str_format 1024 "Value: %s".toList [c.g_Config.getStr pData.m_pStr])

/-- The callback `ConToggle` and `ConToggleStroke` look at: the wrapped callback of a
chained command, the callback itself otherwise. -/
def chainedCallback : Callback → Callback
  | Callback.Con_Chain _ _ next => next
  | cb => cb

/-- The function `CConsole::ConToggle`.  The line built by `str_format` into the buffer
of 128 bytes is executed by `ExecuteLine` with the defaults of its other
parameters. -/
def ConToggle (env : Env) (reenter : ReenterFn) (pResult : CResult) (c : CConsole) :
    Except Fault CConsole :=
  match FindCommand c.m_pFirstCommand (pResult.GetString 0) c.m_FlagMask with
  | some pCommand =>
    match chainedCallback pCommand.m_Callback with
    | Callback.IntVariableCommand pData =>
      let Val :=
        if c.g_Config.getInt pData.m_pVariable = pResult.GetInteger env 1 then
          pResult.GetInteger env 2
        else pResult.GetInteger env 1
      reenter
        (Reentry.ExecuteLine (str_copy (pResult.GetString 0 ++ ' ' :: env.fmt_int Val) 128)
          env.defaultClientID env.defaultInterpretSemicolons) c
    | Callback.StrVariableCommand pData =>
      let pStr :=
        if str_comp (c.g_Config.getStr pData.m_pStr) (pResult.GetString 1) = 0 then
          pResult.GetString 2
        else pResult.GetString 1
      let aBuf := str_copy (pResult.GetString 0 ++ " \"".toList) 128
      let aBuf1 := aBuf ++ str_escape pStr (128 - aBuf.length)
      reenter
        (Reentry.ExecuteLine (str_append aBuf1 "\"".toList 128)
          env.defaultClientID env.defaultInterpretSemicolons) c
    | Callback.ColVariableCommand pData =>
      let Darkest : Rat := if pData.m_Light then 1 / 2 else 0
      let Val :=
        if c.g_Config.getCol pData.m_pVariable =
            env.PackHSLA (pResult.GetColor env 1 pData.m_Light) Darkest pData.m_Alpha then
          pResult.GetColor env 2 pData.m_Light
        else pResult.GetColor env 1 pData.m_Light
      reenter
        (Reentry.ExecuteLine
          (str_copy (pResult.GetString 0 ++
            ' ' :: env.fmt_unsigned (env.PackHSLA Val Darkest pData.m_Alpha)) 128)
          env.defaultClientID env.defaultInterpretSemicolons) c
    | _ =>
      Except.ok (Print c env.OUTPUT_LEVEL_STANDARD "console".toList
        (Msg.str_format 128 "Invalid command: '%s'.".toList [pResult.GetString 0]))
  | none =>
    Except.ok (Print c env.OUTPUT_LEVEL_STANDARD "console".toList
      (Msg.str_format 128 "No such command: '%s'.".toList [pResult.GetString 0]))

/-- The function `CConsole::ConToggleStroke`. -/
def ConToggleStroke (env : Env) (reenter : ReenterFn) (pResult : CResult) (c : CConsole) :
    Except Fault CConsole :=
  match FindCommand c.m_pFirstCommand (pResult.GetString 1) c.m_FlagMask with
  | some pCommand =>
    match chainedCallback pCommand.m_Callback with
    | Callback.IntVariableCommand _ =>
      let Val :=
        if pResult.GetInteger env 0 = 0 then pResult.GetInteger env 3
        else pResult.GetInteger env 2
      reenter
        (Reentry.ExecuteLine (str_copy (pResult.GetString 1 ++ ' ' :: env.fmt_int Val) 128)
          env.defaultClientID env.defaultInterpretSemicolons) c
    | _ =>
      Except.ok (Print c env.OUTPUT_LEVEL_STANDARD "console".toList
        (Msg.str_format 128 "Invalid command: '%s'.".toList [pResult.GetString 1]))
  | none =>
    Except.ok (Print c env.OUTPUT_LEVEL_STANDARD "console".toList
      (Msg.str_format 128 "No such command: '%s'.".toList [pResult.GetString 1]))

/-- One call `pfnCallback(&Result, pUserData)`.  The call is recorded and the
handler is run if it is one of `console.cpp`; a handler defined elsewhere and
the chain function that `Con_Chain` calls are opaque. -/
def invoke (env : Env) (reenter : ReenterFn) (cb : Callback) (Result : CResult)
    (c : CConsole) : Except Fault CConsole :=
  match cb with
  | Callback.null => Except.error Fault.nullCallback
  | Callback.Con_Echo =>
    Except.ok (Print (c.log (Event.call cb Result)) env.OUTPUT_LEVEL_STANDARD
      "console".toList (Msg.text (Result.GetString 0)))
  | Callback.Con_Exec =>
    reenter (Reentry.ExecuteFile (Result.GetString 0) (-1) true env.TYPE_ALL)
      (c.log (Event.call cb Result))
  | Callback.ConToggle => ConToggle env reenter Result (c.log (Event.call cb Result))
  | Callback.ConToggleStroke =>
    ConToggleStroke env reenter Result (c.log (Event.call cb Result))
  | Callback.ConCommandAccess =>
    Except.ok (ConCommandAccess env Result (c.log (Event.call cb Result)))
  | Callback.ConCommandStatus =>
    Except.ok (ConCommandStatus env Result (c.log (Event.call cb Result)))
  | Callback.ConUserCommandStatus =>
    Except.ok (ConUserCommandStatus env (c.log (Event.call cb Result)))
  | Callback.IntVariableCommand pData =>
    Except.ok (IntVariableCommand env pData Result (c.log (Event.call cb Result)))
  | Callback.ColVariableCommand pData =>
    Except.ok (ColVariableCommand env pData Result (c.log (Event.call cb Result)))
  | Callback.StrVariableCommand pData =>
    Except.ok (StrVariableCommand env pData Result (c.log (Event.call cb Result)))
  | Callback.handler _ _ => Except.ok (c.log (Event.call cb Result))
  | Callback.Con_Chain _ _ _ => Except.ok (c.log (Event.call cb Result))

/-- The loop `for(int i = 0; i < MAX_CLIENTS; i++)` of `ExecuteLineStroked`
with `n` rounds left, the next of them for the slot `i`. -/
def invokeVictims (env : Env) (reenter : ReenterFn) (cb : Callback) :
    Nat → Nat → CResult → CConsole → Except Fault CConsole
  | 0, _, _, c => Except.ok c
  | n + 1, i, Result, c =>
    match invoke env reenter cb (Result.SetVictim env i) c with
    | Except.error e => Except.error e
    | Except.ok c1 => invokeVictims env reenter cb n (i + 1) (Result.SetVictim env i) c1

/-- The body of the loop of `ExecuteLineStroked` behind `ParseStart`, for one
sub-command: lookup, context check, access check, argument validation,
queueing or invocation. -/
def dispatch (env : Env) (reenter : ReenterFn) (Stroke : Bool) (ClientID : Int)
    (Result : CResult) (c : CConsole) : Except Fault (Flow × CConsole) :=
  if Result.m_pCommand = [] then Except.ok (Flow.ret, c)
  else
    match FindCommand c.m_pFirstCommand Result.m_pCommand c.m_FlagMask with
    | none =>
      if Stroke then
        Except.ok (Flow.next, Print c env.OUTPUT_LEVEL_STANDARD "console".toList
          (Msg.str_format 256 "No such command: %s.".toList [Result.m_pCommand]))
      else Except.ok (Flow.next, c)
    | some pCommand =>
      if ClientID = env.CLIENT_ID_GAME ∧ ¬ hasFlag pCommand.m_Flags env.CFGFLAG_GAME then
        if Stroke then
          Except.ok (Flow.next, Print c env.OUTPUT_LEVEL_STANDARD "console".toList
            (Msg.str_format 96 "Command '%s' cannot be executed from a map.".toList
              [Result.m_pCommand]))
        else Except.ok (Flow.next, c)
      else if ClientID = env.CLIENT_ID_NO_GAME ∧ hasFlag pCommand.m_Flags env.CFGFLAG_GAME then
        if Stroke then
          Except.ok (Flow.next,
            Print
              (Print c env.OUTPUT_LEVEL_STANDARD "console".toList
                (Msg.str_format 96
                  "Command '%s' cannot be executed from a non-map config file.".toList
                  [Result.m_pCommand]))
              env.OUTPUT_LEVEL_STANDARD "console".toList
              (Msg.str_format 96
                "Hint: Put the command in '%s.cfg' instead of '%s.map.cfg' ".toList
                [c.g_Config.m_SvMap, c.g_Config.m_SvMap]))
        else Except.ok (Flow.next, c)
      else if pCommand.m_AccessLevel ≥ c.m_AccessLevel then
        let IsStrokeCommand : Bool := Result.m_pCommand.head? = some '+'
        let Result1 := if IsStrokeCommand then Result.AddArgument (m_paStrokeStr Stroke) else Result
        if Stroke || IsStrokeCommand then
          match ParseArgs env Result1 pCommand.m_pParams with
          | (Result2, Error) =>
            if Error ≠ 0 then
              Except.ok (Flow.next, Print c env.OUTPUT_LEVEL_STANDARD "console".toList
                (Msg.str_format 256 "Invalid arguments... Usage: %s %s".toList
                  [pCommand.m_pName, pCommand.m_pParams]))
            else if c.m_StoreCommands ∧ hasFlag pCommand.m_Flags env.CFGFLAG_STORE then
              Except.ok (Flow.next,
                { c with m_ExecutionQueue := c.m_ExecutionQueue ++
                    [{ m_Callback := pCommand.m_Callback, m_Result := Result2 }] })
            else if hasFlag pCommand.m_Flags env.CMDFLAG_TEST ∧
                c.g_Config.m_SvTestingCommands = 0 then
              Except.ok (Flow.ret, c)
            else
              let c1 :=
                if c.m_pfnTeeHistorianCommandCallback.isSome ∧
                    ¬ hasFlag pCommand.m_Flags env.CFGFLAG_NONTEEHISTORIC then
                  c.log (Event.historian ClientID c.m_FlagMask pCommand.m_pName Result2)
                else c
              let Result3 :=
                if Result2.GetVictim = env.VICTIM_ME then Result2.SetVictim env ClientID
                else Result2
              let run :=
                if Result3.HasVictim env ∧ Result3.GetVictim = env.VICTIM_ALL then
                  invokeVictims env reenter pCommand.m_Callback env.MAX_CLIENTS 0 Result3 c1
                else invoke env reenter pCommand.m_Callback Result3 c1
              match run with
              | Except.error e => Except.error e
              | Except.ok c2 =>
                Except.ok (Flow.next,
                  if hasFlag pCommand.m_Flags env.CMDFLAG_TEST then { c2 with m_Cheated := true }
                  else c2)
        else Except.ok (Flow.next, c)
      else if Stroke then
        Except.ok (Flow.next, Print c env.OUTPUT_LEVEL_STANDARD "console".toList
          (Msg.str_format 256 "Access for command %s denied.".toList [Result.m_pCommand]))
      else Except.ok (Flow.next, c)

/-- The scan `while(*pEnd)` of `ExecuteLineStroked` from `pStr` on: the
distance `pEnd - pStr` at which it stops, and `pNextPart` (`none` is
null). -/
def scanSubcommand (InterpretSemicolons : Bool) : Bool → Str → Nat × Option Str
  | _, [] => (0, none)
  | InString, c :: cs =>
    if c = '"' then
      let (n, next) := scanSubcommand InterpretSemicolons (!InString) cs; (n + 1, next)
    else if c = '\\' then
      match cs with
      | [] => let (n, next) := scanSubcommand InterpretSemicolons InString []; (n + 1, next)
      | d :: cs2 =>
        if d = '"' then
          let (n, next) := scanSubcommand InterpretSemicolons InString cs2; (n + 2, next)
        else
          let (n, next) := scanSubcommand InterpretSemicolons InString (d :: cs2); (n + 1, next)
    else if !InString && InterpretSemicolons then
      if c = ';' then (0, some cs)
      else if c = '#' then (0, none)
      else let (n, next) := scanSubcommand InterpretSemicolons InString cs; (n + 1, next)
    else
      let (n, next) := scanSubcommand InterpretSemicolons InString cs; (n + 1, next)

/-- The loop `while(pStr && *pStr)` of `ExecuteLineStroked`; `pStr` is `none`
for the null pointer.  Every round consumes a character of the line, which
is what `fuel` counts. -/
def lineLoop (env : Env) (reenter : ReenterFn) (Stroke : Bool) (ClientID : Int)
    (InterpretSemicolons : Bool) : Nat → Option Str → CConsole → Except Fault CConsole
  | _, none, c => Except.ok c
  | _, some [], c => Except.ok c
  | 0, some (_ :: _), _ => Except.error Fault.outOfFuel
  | fuel + 1, some (a :: as), c =>
    match scanSubcommand InterpretSemicolons false (a :: as) with
    | (n, pNextPart) =>
      match ParseStart env (CResult.init env ClientID) (a :: as) (n + 1) with
      | (Result, rc) =>
        if rc ≠ 0 then Except.ok c
        else
          match dispatch env reenter Stroke ClientID Result c with
          | Except.error e => Except.error e
          | Except.ok (Flow.ret, c1) => Except.ok c1
          | Except.ok (Flow.next, c1) =>
            lineLoop env reenter Stroke ClientID InterpretSemicolons fuel pNextPart c1

/-- The function `CConsole::ExecuteLineStroked`; `Stroke` is `true` for 1 (press) and
`false` for 0 (release). -/
def ExecuteLineStroked (env : Env) (reenter : ReenterFn) (Stroke : Bool) (pStr : Str)
    (ClientID : Int) (InterpretSemicolons : Bool) (c : CConsole) : Except Fault CConsole :=
  match str_startswith pStr "mc;".toList with
  | some pWithoutPrefix =>
    lineLoop env reenter Stroke ClientID true pWithoutPrefix.length (some pWithoutPrefix) c
  | none =>
    lineLoop env reenter Stroke ClientID InterpretSemicolons pStr.length (some pStr) c

/-- The function `CConsole::ExecuteLine`: press, then release. -/
def ExecuteLine (env : Env) (reenter : ReenterFn) (pStr : Str) (ClientID : Int)
    (InterpretSemicolons : Bool) (c : CConsole) : Except Fault CConsole :=
  match ExecuteLineStroked env reenter true pStr ClientID InterpretSemicolons c with
  | Except.error e => Except.error e
  | Except.ok c1 => ExecuteLineStroked env reenter false pStr ClientID InterpretSemicolons c1

/-- The loop `while((pLine = lr.Get())) ExecuteLine(pLine, ClientID)` of
`ExecuteFile`. -/
def executeLines (env : Env) (reenter : ReenterFn) (ClientID : Int) :
    List Str → CConsole → Except Fault CConsole
  | [], c => Except.ok c
  | pLine :: rest, c =>
    match ExecuteLine env reenter pLine ClientID env.defaultInterpretSemicolons c with
    | Except.error e => Except.error e
    | Except.ok c1 => executeLines env reenter ClientID rest c1

/-- The calls back into the console, with a bound on their nesting: a call
of depth `fuel + 1` runs `ExecuteFile` or `ExecuteLine` with the calls its
callbacks make at depth `fuel`.  The case of `Reentry.ExecuteFile` is the function
`CConsole::ExecuteFile`; a call of it that the guard at the head of the
function ends needs no depth. -/
def reentry (env : Env) : Nat → ReenterFn
  | 0, Reentry.ExecuteFile pFilename _ _ _, c =>
    if c.m_pFirstExec.any (fun pCur => str_comp pFilename pCur = 0) then Except.ok c
    else Except.error Fault.outOfFuel
  | 0, Reentry.ExecuteLine _ _ _, _ => Except.error Fault.outOfFuel
  | fuel + 1, Reentry.ExecuteFile pFilename ClientID LogFailure StorageType, c =>
    if c.m_pFirstExec.any (fun pCur => str_comp pFilename pCur = 0) then Except.ok c
    else
      let c1 := if c.m_pStorage then c else { c with m_pStorage := env.kernelStorage }
      if !c1.m_pStorage then Except.ok c1
      else
        let pPrev := c1.m_pFirstExec
        let c2 := { c1 with m_pFirstExec := pFilename :: c1.m_pFirstExec }
        let c3 := c2.log (Event.openFile pFilename StorageType)
        match env.OpenFile pFilename StorageType with
        | some lines =>
          let c4 := Print c3 env.OUTPUT_LEVEL_STANDARD "console".toList
            (Msg.str_format 128 "executing '%s'".toList [pFilename])
          match executeLines env (reentry env fuel) ClientID lines c4 with
          | Except.error e => Except.error e
          | Except.ok c5 => Except.ok { c5 with m_pFirstExec := pPrev }
        | none =>
          let c4 :=
            if LogFailure then
              Print c3 env.OUTPUT_LEVEL_STANDARD "console".toList
                (Msg.str_format 128 "failed to open '%s'".toList [pFilename])
            else c3
          Except.ok { c4 with m_pFirstExec := pPrev }
  | fuel + 1, Reentry.ExecuteLine pStr ClientID InterpretSemicolons, c =>
    ExecuteLine env (reentry env fuel) pStr ClientID InterpretSemicolons c

/-- The function `CConsole::ExecuteFile`.  The first argument bounds the nesting depth of
the calls back into the console: `ExecuteFile` of depth `fuel + 1` runs the
callbacks of its lines with depth `fuel`; a call that the guard at the head of
the function ends needs no depth. -/
def ExecuteFile (env : Env) (fuel : Nat) (pFilename : Str) (ClientID : Int) (LogFailure : Bool)
    (StorageType : Int) (c : CConsole) : Except Fault CConsole :=
  reentry env fuel (Reentry.ExecuteFile pFilename ClientID LogFailure StorageType) c

/-- The loop of `StoreCommands` over the entries of the execution queue, from
`m_pFirst` along `m_pNext`.  The entries are those the queue holds when the
loop starts.  A callback appends to the queue only by a call back into the
console that executes a line, and the callbacks of `console.cpp` that make
such a call (`Con_Exec`, `ConToggle`, `ConToggleStroke`) belong to commands
that are registered without the STORE flag, of which no entry is queued; for
a queue without such a callback this is the loop of the C code. -/
def runQueue (env : Env) (reenter : ReenterFn) : List CQueueEntry → CConsole →
    Except Fault CConsole
  | [], c => Except.ok c
  | pEntry :: rest, c =>
    match invoke env reenter pEntry.m_Callback pEntry.m_Result c with
    | Except.error e => Except.error e
    | Except.ok c1 => runQueue env reenter rest c1

/-- The function `CConsole::StoreCommands`. -/
def StoreCommands (env : Env) (reenter : ReenterFn) (Store : Bool) (c : CConsole) :
    Except Fault CConsole :=
  if !Store then
    match runQueue env reenter c.m_ExecutionQueue c with
    | Except.error e => Except.error e
    | Except.ok c1 => Except.ok { c1 with m_ExecutionQueue := [], m_StoreCommands := Store }
  else Except.ok { c with m_StoreCommands := Store }

/-! ## The command registry -/

/-- The loop of `AddCommandSorted` that walks `p` along the list and links
the command behind the first `p` whose successor is null or not smaller. -/
def insertBehind (pCommand : CCommand) : List CCommand → List CCommand
  | [] => []
  | p :: rest =>
    match rest with
    | [] => [p, pCommand]
    | pNext :: _ =>
      if str_comp pCommand.m_pName pNext.m_pName ≤ 0 then p :: pCommand :: rest
      else p :: insertBehind pCommand rest

/-- The function `CConsole::AddCommandSorted` on the command list.  In the front branch
the command's `m_pNext` becomes the old first command only if that one has a
successor, and null otherwise. -/
def AddCommandSorted (pCommand : CCommand) : List CCommand → List CCommand
  | [] => [pCommand]
  | first :: rest =>
    if str_comp pCommand.m_pName first.m_pName ≤ 0 then
      match rest with
      | [] => [pCommand]
      | _ :: _ => pCommand :: first :: rest
    else insertBehind pCommand (first :: rest)

/-- The fields `Register` assigns, and the access level it sets for a
command with the chat flag. -/
def registerFields (env : Env) (pName pParams : Str) (Flags : Nat) (cb : Callback)
    (pHelp : Str) (cmd : CCommand) : CCommand :=
  let cmd1 := { cmd with m_Callback := cb, m_pName := pName, m_pHelp := pHelp,
                         m_pParams := pParams, m_Flags := Flags, m_Temp := false }
  if hasFlag cmd1.m_Flags env.CFGFLAG_CHAT then cmd1.SetAccessLevel env env.ACCESS_LEVEL_USER
  else cmd1

/-- Modelled from the spec: a descriptor as `new CCommand()` leaves it; the
constructor of `CCommandInfo` (console.h, not under src/) sets the most
privileged access level. -/
def CCommand.new (env : Env) : CCommand :=
  { m_pName := [], m_pHelp := [], m_pParams := [], m_Flags := 0, m_Temp := false,
    m_AccessLevel := env.ACCESS_LEVEL_ADMIN, m_Callback := Callback.null }

/-- The function `CConsole::Register`. -/
def Register (env : Env) (pName pParams : Str) (Flags : Nat) (cb : Callback) (pHelp : Str)
    (c : CConsole) : CConsole :=
  match FindCommand c.m_pFirstCommand pName Flags with
  | none =>
    let pCommand := registerFields env pName pParams Flags cb pHelp (CCommand.new env)
    { c with m_pFirstCommand := AddCommandSorted pCommand c.m_pFirstCommand }
  | some _ =>
    let l := updateFound (registerFields env pName pParams Flags cb pHelp) c.m_pFirstCommand
      pName Flags
    { c with m_pFirstCommand := l }

/-- The function `CConsole::RegisterTemp`.  The arena `m_TempCommands` (a
`CHeap`, whose code is not under src/) is modelled from the spec as a bump
allocator: `Allocate(n)` takes `n` more bytes, `Reset` frees all of them. -/
def RegisterTemp (env : Env) (pName pParams : Str) (Flags : Nat) (pHelp : Str)
    (c : CConsole) : CConsole :=
  match c.m_pRecycleList with
  | pCommand :: recycleNext =>
    let cmd := { pCommand with
      m_pName := str_copy pName env.TEMPCMD_NAME_LENGTH,
      m_pHelp := str_copy pHelp env.TEMPCMD_HELP_LENGTH,
      m_pParams := str_copy pParams env.TEMPCMD_PARAMS_LENGTH,
      m_Callback := Callback.null, m_Flags := Flags, m_Temp := true }
    { c with m_pRecycleList := recycleNext,
             m_pFirstCommand := AddCommandSorted cmd c.m_pFirstCommand }
  | [] =>
    let cmd := { CCommand.new env with
      m_pName := str_copy pName env.TEMPCMD_NAME_LENGTH,
      m_pHelp := str_copy pHelp env.TEMPCMD_HELP_LENGTH,
      m_pParams := str_copy pParams env.TEMPCMD_PARAMS_LENGTH,
      m_Callback := Callback.null, m_Flags := Flags, m_Temp := true }
    { c with
      m_TempCommands := c.m_TempCommands + env.sizeofCCommand + env.TEMPCMD_NAME_LENGTH +
        env.TEMPCMD_HELP_LENGTH + env.TEMPCMD_PARAMS_LENGTH,
      m_pFirstCommand := AddCommandSorted cmd c.m_pFirstCommand }

/-- The loop of `DeregisterTemp` behind the first command: unlink the first
successor that is temporary and has the name; the new list and the unlinked
descriptor. -/
def unlinkNext (pName : Str) : List CCommand → List CCommand × Option CCommand
  | [] => ([], none)
  | pCommand :: rest =>
    match rest with
    | [] => ([pCommand], none)
    | pNext :: rest2 =>
      if pNext.m_Temp ∧ str_comp pNext.m_pName pName = 0 then (pCommand :: rest2, some pNext)
      else
        let (l, removed) := unlinkNext pName (pNext :: rest2)
        (pCommand :: l, removed)

/-- The function `CConsole::DeregisterTemp`. -/
def DeregisterTemp (pName : Str) (c : CConsole) : CConsole :=
  match c.m_pFirstCommand with
  | [] => c
  | first :: rest =>
    if first.m_Temp ∧ str_comp first.m_pName pName = 0 then
      { c with m_pFirstCommand := rest, m_pRecycleList := first :: c.m_pRecycleList }
    else
      match unlinkNext pName (first :: rest) with
      | (l, some pRemoved) =>
        { c with m_pFirstCommand := l, m_pRecycleList := pRemoved :: c.m_pRecycleList }
      | (l, none) => { c with m_pFirstCommand := l }

/-- The loops `for(; p && p->m_Temp; p = p->m_pNext)` of `DeregisterTempAll`:
step over a run of temporary descriptors. -/
def skipTemp : List CCommand → List CCommand
  | [] => []
  | p :: rest => if p.m_Temp then skipTemp rest else p :: rest

/-- The second loop of `DeregisterTempAll`, seen from a successor pointer:
a run of temporary descriptors is stepped over, a permanent descriptor is
kept and the loop goes on behind it. -/
def unlinkTemp : List CCommand → List CCommand
  | [] => []
  | pNext :: rest => if pNext.m_Temp then unlinkTemp rest else pNext :: unlinkTemp rest

/-- The function `CConsole::DeregisterTempAll`. -/
def DeregisterTempAll (c : CConsole) : CConsole :=
  { c with m_pFirstCommand := unlinkTemp (skipTemp c.m_pFirstCommand),
           m_TempCommands := 0, m_pRecycleList := [] }

/-- The function `CConsole::Chain`. -/
def Chain (env : Env) (pName : Str) (pfnChainFunc : Nat) (pUser : Nat) (c : CConsole) :
    CConsole :=
  match FindCommand c.m_pFirstCommand pName c.m_FlagMask with
  | none =>
    Print c env.OUTPUT_LEVEL_DEBUG "console".toList
      (Msg.str_format 256 "failed to chain '%s'".toList [pName])
  | some _ =>
    let wrap := fun (cmd : CCommand) =>
      { cmd with m_Callback := Callback.Con_Chain pfnChainFunc pUser cmd.m_Callback }
    { c with m_pFirstCommand := updateFound wrap c.m_pFirstCommand pName c.m_FlagMask }

/-- The `Register` call a line of `config_variables.h` expands to in the
constructor, with the static `Data` block of the line as user data. -/
def registerConfigVariable (env : Env) (v : ConfigVariable) (c : CConsole) : CConsole :=
  if v.kind = 0 then
    Register env v.ScriptName "?i".toList v.Flags
      (Callback.IntVariableCommand { m_pVariable := v.Name, m_Min := v.Min, m_Max := v.Max })
      v.Desc c
  else if v.kind = 1 then
    Register env v.ScriptName "?i".toList v.Flags
      (Callback.ColVariableCommand
        { m_pVariable := v.Name, m_Light := hasFlag v.Flags env.CFGFLAG_COLLIGHT,
          m_Alpha := hasFlag v.Flags env.CFGFLAG_COLALPHA })
      v.Desc c
  else
    Register env v.ScriptName "?r".toList v.Flags
      (Callback.StrVariableCommand { m_pStr := v.Name, m_MaxSize := v.Len }) v.Desc c

/-- The `#include "config_variables.h"` of the constructor. -/
def registerConfigVariables (env : Env) : List ConfigVariable → CConsole → CConsole
  | [], c => c
  | v :: rest, c => registerConfigVariables env rest (registerConfigVariable env v c)

/-- The initial values of the static `Data` blocks of the constructor: the
field `m_OldValue` is `Def`, the buffer `OldValue[Len]` holds `Def`. -/
def initialOldValue : List ConfigVariable → CConfig
  | [] => { m_SvTestingCommands := 0, m_SvMap := [] }
  | v :: rest =>
    if v.kind = 0 then (initialOldValue rest).setInt v.Name v.Def
    else if v.kind = 1 then (initialOldValue rest).setCol v.Name v.Def.toNat
    else (initialOldValue rest).setStr v.Name (str_copy v.DefStr v.Len)

/-- The function `CConsole::CConsole(int FlagMask)`; `cfg` is the state of `g_Config`. -/
def CConsole.new (env : Env) (FlagMask : Nat) (cfg : CConfig) : CConsole :=
  let c0 : CConsole :=
    { m_FlagMask := FlagMask, m_AccessLevel := env.ACCESS_LEVEL_ADMIN, m_StoreCommands := true,
      m_Cheated := false, m_pFirstCommand := [], m_pRecycleList := [], m_TempCommands := 0,
      m_ExecutionQueue := [], m_pFirstExec := [], m_pfnTeeHistorianCommandCallback := none,
      m_pStorage := false, g_Config := cfg, trace := [],
      OldValue := initialOldValue env.configVariables }
  let c1 := Register env "echo".toList "r[text]".toList env.CFGFLAG_SERVER Callback.Con_Echo
    "Echo the text".toList c0
  let c2 := Register env "exec".toList "r[file]".toList (env.CFGFLAG_SERVER ||| env.CFGFLAG_CLIENT)
    Callback.Con_Exec "Execute the specified file".toList c1
  let c3 := Register env "toggle".toList "s[config-option] i[value 1] i[value 2]".toList
    (env.CFGFLAG_SERVER ||| env.CFGFLAG_CLIENT) Callback.ConToggle "Toggle config value".toList c2
  let c4 := Register env "+toggle".toList "s[config-option] i[value 1] i[value 2]".toList
    env.CFGFLAG_CLIENT Callback.ConToggleStroke "Toggle config value via keypress".toList c3
  let c5 := Register env "access_level".toList "s[command] ?i[accesslevel]".toList
    env.CFGFLAG_SERVER Callback.ConCommandAccess
    "Specify command accessibility (admin = 0, moderator = 1, helper = 2, all = 3)".toList c4
  let c6 := Register env "access_status".toList "i[accesslevel]".toList env.CFGFLAG_SERVER
    Callback.ConCommandStatus
    "List all commands which are accessible for admin = 0, moderator = 1, helper = 2, all = 3".toList
    c5
  let c7 := Register env "cmdlist".toList [] (env.CFGFLAG_SERVER ||| env.CFGFLAG_CHAT)
    Callback.ConUserCommandStatus "List all commands which are accessible for users".toList c6
  let c8 := registerConfigVariables env env.configVariables c7
  { c8 with m_Cheated := false }

/-! ## A concrete environment -/

/-- Modelled from the spec: `str_toint` of base/system.h (the C library
`atoi`), which is not under src/, on an optional sign followed by decimal
digits; the value of the digits before the first other character. -/
def atoiDigits : Int → Str → Int
  | acc, [] => acc
  | acc, c :: cs => if c.isDigit then atoiDigits (acc * 10 + (c.toNat - 48 : Nat)) cs else acc

/-- Modelled from the spec: `str_toint`, see `atoiDigits`. -/
def atoi : Str → Int
  | '-' :: cs => - atoiDigits 0 cs
  | '+' :: cs => atoiDigits 0 cs
  | cs => atoiDigits 0 cs

/-- Modelled from the spec: the text `str_format` writes for `%d`, the
decimal digits behind a minus sign for a negative number. -/
def fmtInt (v : Int) : Str :=
  if v < 0 then '-' :: Nat.toDigits 10 v.natAbs else Nat.toDigits 10 v.toNat

/-- Modelled from the spec: the text `str_format` writes for `%06X`, the
hexadecimal digits in upper case, filled with zeros in front to six
characters. -/
def fmtHex06 (n : Nat) : Str :=
  let d := (Nat.toDigits 16 n).map Char.toUpper
  List.replicate (6 - d.length) '0' ++ d

/-- Modelled from the spec: `str_toulong_base` of base/system.h (the C
library `strtoul`), which is not under src/, on a string of digits of the
base; the value of the digits before the first other character. -/
def toulongDigits (base : Nat) : Nat → Str → Nat
  | acc, [] => acc
  | acc, c :: cs =>
    let d :=
      if c.isDigit then c.toNat - 48
      else if 'a'.toNat ≤ c.toNat ∧ c.toNat ≤ 'f'.toNat then c.toNat - 87
      else if 'A'.toNat ≤ c.toNat ∧ c.toNat ≤ 'F'.toNat then c.toNat - 55
      else base
    if d < base then toulongDigits base (acc * base + d) cs else acc

/-- Modelled from the spec: `round_truncate` of base/math.h, the conversion
`(int)f`, which drops the fraction. -/
def roundTruncate (q : Rat) : Int :=
  if 0 ≤ q then Int.floor q else - Int.floor (- q)

/-- Modelled from the spec: the colour of a packed value, one byte for each
component; the alpha byte counts only if `alpha` is set. -/
def colorOfPacked (col : Nat) (alpha : Bool) : Color :=
  { x := (((col >>> 16) &&& 0xFF : Nat) : Rat) / 255,
    y := (((col >>> 8) &&& 0xFF : Nat) : Rat) / 255,
    z := (((col >>> 0) &&& 0xFF : Nat) : Rat) / 255,
    a := if alpha then (((col >>> 24) &&& 0xFF : Nat) : Rat) / 255 else 1 }

/-- Modelled from the spec: the packed value of a colour, one byte for each
component. -/
def packColor (col : Color) (alpha : Bool) : Nat :=
  let byte := fun (q : Rat) => (roundTruncate (q * 255)).toNat % 256
  (if alpha then byte col.a <<< 24 else 0) + (byte col.x <<< 16) + (byte col.y <<< 8) + byte col.z

/-- Modelled from the spec: an environment with client slots 0..63; the
values of the other constants (declared in headers that are not under src/)
are those the names suggest, the file system holds the two scripts
`a.cfg` and `b.cfg`, there are no configuration variables.  Strings are taken
to be valid UTF-8 with one byte for a character; of the colour functions of
base/color.h only the packing is given, the conversions between the colour
spaces and the lighting are stand-ins that leave the components as they
are. -/
def ddnet : Env :=
  { isSkipWs := fun c => c = ' ' || c = '\t' || c = '\n' || c = '\r',
    isStopWs := fun c => c = ' ' || c = '\t' || c = '\n',
    str_toint := atoi,
    storageSize := 8193,
    MAX_CLIENTS := 64,
    VICTIM_NONE := -3, VICTIM_ME := -2, VICTIM_ALL := -1,
    CLIENT_ID_GAME := -2, CLIENT_ID_NO_GAME := -3,
    ACCESS_LEVEL_ADMIN := 0, ACCESS_LEVEL_HELPER := 2, ACCESS_LEVEL_USER := 3,
    OUTPUT_LEVEL_STANDARD := 0, OUTPUT_LEVEL_DEBUG := 2,
    CFGFLAG_SERVER := 4, CFGFLAG_CLIENT := 2, CFGFLAG_CHAT := 32, CFGFLAG_GAME := 64,
    CFGFLAG_STORE := 8, CFGFLAG_NONTEEHISTORIC := 128, CMDFLAG_TEST := 1024,
    CFGFLAG_COLLIGHT := 2048, CFGFLAG_COLALPHA := 4096,
    TEMPCMD_NAME_LENGTH := 32, TEMPCMD_HELP_LENGTH := 192, TEMPCMD_PARAMS_LENGTH := 96,
    sizeofCCommand := 80,
    TYPE_ALL := -2,
    defaultInterpretSemicolons := true,
    defaultClientID := -1,
    fmt_int := fmtInt,
    fmt_unsigned := fun n => Nat.toDigits 10 n,
    fmt_hex06 := fmtHex06,
    str_utf8_check := fun _ => true,
    str_utf8_encode := fun c => [c],
    str_isallnum := fun s => s.all Char.isDigit,
    str_toulong_base := fun s base => toulongDigits base 0 s % 4294967296,
    round_truncate := roundTruncate,
    ColorHSLA := fun h s l => { x := h, y := s, z := l, a := 1 },
    ColorHSLAPacked := colorOfPacked,
    UnclampLighting := fun col => col,
    color_cast_hsla := fun col => col,
    color_cast_rgba := fun col => col,
    PackHSLA := fun col _ alpha => packColor col alpha,
    PackRGBA := packColor,
    kernelStorage := true,
    OpenFile := fun pFilename _ =>
      if pFilename = "a.cfg".toList then
        some ["echo one".toList, "exec a.cfg".toList, "exec b.cfg".toList, "echo two".toList]
      else if pFilename = "b.cfg".toList then
        some ["exec a.cfg".toList, "echo three".toList]
      else none,
    configVariables := [] }

/-! ## Notions of the specification -/

/-- The escaped form of a character inside a quoted token: a backslash
becomes two backslashes, a double quote becomes backslash-quote. -/
def escapeChar (c : Char) : Str :=
  if c = '\\' then ['\\', '\\'] else if c = '"' then ['\\', '"'] else [c]

/-- The escaped form of a string. -/
def escapeStr : Str → Str
  | [] => []
  | c :: cs => escapeChar c ++ escapeStr cs

/-- The quoted token for a string: its escaped form wrapped in double
quotes. -/
def quoteArg (t : Str) : Str := '"' :: (escapeStr t ++ ['"'])

/-- The format pointer once `ParseArgs` has stepped over the `?` directives
at its head. -/
def afterMarks : Nat → Str → Str
  | 0, pFormat => pFormat
  | fuel + 1, pFormat =>
    match pFormat with
    | [] => []
    | Command :: _ =>
      if Command = '?' then afterMarks fuel (NextParam pFormat) else pFormat

/-- Whether a `v` directive occurs in the format from `pFormat` on (hints
are not directives). -/
def hasVictimDirective (pFormat : Str) : Bool :=
  findVictimDirective (pFormat.length + 1) pFormat

/-- Invoke a callback once for every slot of a list, in order, each time
with the victim of the result set to the slot and nothing else changed. -/
def invokeSlots (env : Env) (reenter : ReenterFn) (cb : Callback) :
    List Nat → CResult → CConsole → Except Fault CConsole
  | [], _, c => Except.ok c
  | i :: rest, Result, c =>
    match invoke env reenter cb { Result with m_Victim := (i : Int) } c with
    | Except.error e => Except.error e
    | Except.ok c1 => invokeSlots env reenter cb rest Result c1

/-- A server console with one more command, `kick` with the format `v` and
an outside handler, and with buffering switched off. -/
def kickConsole : CConsole :=
  { Register ddnet "kick".toList "v[id]".toList ddnet.CFGFLAG_SERVER (Callback.handler 7 0)
      "Kick a player".toList
      (CConsole.new ddnet ddnet.CFGFLAG_SERVER { m_SvTestingCommands := 0, m_SvMap := [] })
    with m_StoreCommands := false }

/-- The line `s1;s2;...;sk` for the list of its parts. -/
def joinSemi : List Str → Str
  | [] => []
  | [s] => s
  | s :: t :: rest => s ++ ';' :: joinSemi (t :: rest)

/-- The first whitespace-delimited token of a string. -/
def firstToken (env : Env) (s : Str) : Str :=
  (s.dropWhile env.isSkipWs).takeWhile (fun c => !env.isStopWs c)

/-- The rest of a string: what follows the whitespace character behind the
first token. -/
def argumentTail (env : Env) (s : Str) : Str :=
  ((s.dropWhile env.isSkipWs).dropWhile (fun c => !env.isStopWs c)).tail

/-- The sub-command of a client for a part of a line: the command name is the
first token, the argument text is the rest. -/
def subcommandOf (env : Env) (ClientID : Int) (s : Str) : CResult :=
  { CResult.init env ClientID with m_pCommand := firstToken env s,
                                   m_pArgsStart := argumentTail env s }

/-- Dispatch a list of sub-commands in order; a sub-command after which
`ExecuteLineStroked` returns ends the processing. -/
def dispatchAll (env : Env) (reenter : ReenterFn) (Stroke : Bool) (ClientID : Int) :
    List CResult → CConsole → Except Fault CConsole
  | [], c => Except.ok c
  | R :: rest, c =>
    match dispatch env reenter Stroke ClientID R c with
    | Except.error e => Except.error e
    | Except.ok (Flow.ret, c1) => Except.ok c1
    | Except.ok (Flow.next, c1) => dispatchAll env reenter Stroke ClientID rest c1

/-- A character that is neither a double quote, a backslash, `;` nor `#`. -/
def plainChar (c : Char) : Prop := c ≠ '"' ∧ c ≠ '\\' ∧ c ≠ ';' ∧ c ≠ '#'

/-- Whether a text that is entered inside (`true`) or outside (`false`) a
quoted region ends inside one, when every double quote toggles the state. -/
def endsInString : Bool → Str → Bool
  | InString, [] => InString
  | InString, c :: cs => endsInString (if c = '"' then !InString else InString) cs

/-- A callback whose code is not part of `console.cpp`: a handler defined
elsewhere, or `Con_Chain`, which only calls the chain function defined
elsewhere.  Its invocation is only recorded. -/
def Callback.isOpaque : Callback → Bool
  | Callback.handler _ _ => true
  | Callback.Con_Chain _ _ _ => true
  | _ => false

/-- The line of a client holds one sub-command, which names a command of the
list `cmds` that is found under `FlagMask`, passes the context check and the
access check for `AccessLevel`, carries the STORE flag and has valid
arguments; `e` is the queue entry for it: the callback of the command and the
result `ParseArgs` has filled on the press pass. -/
def Queues (env : Env) (cmds : List CCommand) (FlagMask : Nat) (AccessLevel : Int)
    (line : Str) (ClientID : Int) (InterpretSemicolons : Bool) (e : CQueueEntry) : Prop :=
  str_startswith line "mc;".toList = none ∧
  scanSubcommand InterpretSemicolons false line = (line.length, none) ∧
  ∃ pCommand : CCommand,
    (ParseStart env (CResult.init env ClientID) line (line.length + 1)).1.m_pCommand ≠ [] ∧
    FindCommand cmds (ParseStart env (CResult.init env ClientID) line (line.length + 1)).1.m_pCommand
      FlagMask = some pCommand ∧
    ¬ (ClientID = env.CLIENT_ID_GAME ∧ ¬ hasFlag pCommand.m_Flags env.CFGFLAG_GAME) ∧
    ¬ (ClientID = env.CLIENT_ID_NO_GAME ∧ hasFlag pCommand.m_Flags env.CFGFLAG_GAME) ∧
    pCommand.m_AccessLevel ≥ AccessLevel ∧
    hasFlag pCommand.m_Flags env.CFGFLAG_STORE = true ∧
    ParseArgs env
      (if (ParseStart env (CResult.init env ClientID) line (line.length + 1)).1.m_pCommand.head?
            = some '+' then
        (ParseStart env (CResult.init env ClientID) line (line.length + 1)).1.AddArgument
          (m_paStrokeStr true)
       else (ParseStart env (CResult.init env ClientID) line (line.length + 1)).1)
      pCommand.m_pParams = (e.m_Result, 0) ∧
    e.m_Callback = pCommand.m_Callback

/-- The press pass `ExecuteLineStroked(1, ...)` for a list of submitted
lines (line, client, semicolon option), in order. -/
def pressAll (env : Env) (reenter : ReenterFn) :
    List (Str × Int × Bool) → CConsole → Except Fault CConsole
  | [], c => Except.ok c
  | s :: rest, c =>
    match ExecuteLineStroked env reenter true s.1 s.2.1 s.2.2 c with
    | Except.error e => Except.error e
    | Except.ok c1 => pressAll env reenter rest c1

/-- The call `ExecuteLine` for a list of submitted lines, in order. -/
def executeAll (env : Env) (reenter : ReenterFn) :
    List (Str × Int × Bool) → CConsole → Except Fault CConsole
  | [], c => Except.ok c
  | s :: rest, c =>
    match ExecuteLine env reenter s.1 s.2.1 s.2.2 c with
    | Except.error e => Except.error e
    | Except.ok c1 => executeAll env reenter rest c1

/-- The console with entries appended to the execution queue. -/
def enqueue (c : CConsole) (es : List CQueueEntry) : CConsole :=
  { c with m_ExecutionQueue := c.m_ExecutionQueue ++ es }

/-- A client console with buffering enabled and a command `gfx_mode` that
carries the STORE flag and has an outside handler. -/
def storeConsole : CConsole :=
  Register ddnet "gfx_mode".toList "i[mode]".toList (ddnet.CFGFLAG_CLIENT ||| ddnet.CFGFLAG_STORE)
    (Callback.handler 9 1) "Set the mode".toList
    (CConsole.new ddnet ddnet.CFGFLAG_CLIENT { m_SvTestingCommands := 0, m_SvMap := [] })

/-- The arguments of one `RegisterTemp` call. -/
structure TempCommand where
  pName : Str
  pParams : Str
  Flags : Nat
  pHelp : Str

/-- The call `RegisterTemp` for a batch of commands, in order. -/
def registerTemps (env : Env) : List TempCommand → CConsole → CConsole
  | [], c => c
  | t :: rest, c => registerTemps env rest (RegisterTemp env t.pName t.pParams t.Flags t.pHelp c)

/-- The descriptor `RegisterTemp` creates in fresh arena storage: name, help
and format cut to their storage lengths, a null callback, marked
temporary. -/
def tempDescriptor (env : Env) (t : TempCommand) : CCommand :=
  { CCommand.new env with
    m_pName := str_copy t.pName env.TEMPCMD_NAME_LENGTH,
    m_pHelp := str_copy t.pHelp env.TEMPCMD_HELP_LENGTH,
    m_pParams := str_copy t.pParams env.TEMPCMD_PARAMS_LENGTH,
    m_Callback := Callback.null, m_Flags := t.Flags, m_Temp := true }

/-- The names along a command list are in non-decreasing `str_comp`
order. -/
def NamesSorted : List CCommand → Prop
  | [] => True
  | [_] => True
  | a :: b :: rest => str_comp a.m_pName b.m_pName ≤ 0 ∧ NamesSorted (b :: rest)

/-- The property `NamesSorted` can be checked by evaluation. -/
def NamesSorted.decide : (l : List CCommand) → Decidable (NamesSorted l)
  | [] => isTrue trivial
  | [_] => isTrue trivial
  | a :: b :: rest =>
    have : Decidable (NamesSorted (b :: rest)) := NamesSorted.decide (b :: rest)
    inferInstanceAs (Decidable (str_comp a.m_pName b.m_pName ≤ 0 ∧ NamesSorted (b :: rest)))

instance (l : List CCommand) : Decidable (NamesSorted l) := NamesSorted.decide l

/-- The console after a first batch of temporary commands, `DeregisterTempAll`
and a second batch, starting from a freshly constructed console. -/
def churn (env : Env) (FlagMask : Nat) (cfg : CConfig) (batch1 batch2 : List TempCommand) :
    CConsole :=
  registerTemps env batch2
    (DeregisterTempAll (registerTemps env batch1 (CConsole.new env FlagMask cfg)))

/-- Ten temporary commands `a0 .. a9`. -/
def batchA : List TempCommand :=
  "0123456789".toList.map (fun d =>
    { pName := ['a', d], pParams := [], Flags := 4, pHelp := [] })

/-- Ten temporary commands `m9 .. m0`. -/
def batchM : List TempCommand :=
  "9876543210".toList.map (fun d =>
    { pName := ['m', d], pParams := "r".toList, Flags := 4, pHelp := "vote".toList })

/-- A console whose command list has at least two descriptors, all of them
permanent, whose freelist is empty and whose arena is unused. -/
def Settled (c : CConsole) : Prop :=
  2 ≤ c.m_pFirstCommand.length ∧ (∀ x ∈ c.m_pFirstCommand, x.m_Temp = false) ∧
    c.m_pRecycleList = [] ∧ c.m_TempCommands = 0

/-- The arena bytes one `RegisterTemp` call allocates when the freelist is
empty. -/
def tempSize (env : Env) : Nat :=
  env.sizeofCCommand + env.TEMPCMD_NAME_LENGTH + env.TEMPCMD_HELP_LENGTH +
    env.TEMPCMD_PARAMS_LENGTH

/-- A server console with the commands `say` (format `?r[message]`), `slap`
and `+slap` (format `v[id]`), all with outside handlers, and with buffering
switched off. -/
def sayConsole : CConsole :=
  { Register ddnet "+slap".toList "v[id]".toList ddnet.CFGFLAG_SERVER (Callback.handler 13 0)
      "Slap while the key is held".toList
      (Register ddnet "slap".toList "v[id]".toList ddnet.CFGFLAG_SERVER (Callback.handler 12 0)
        "Slap a player".toList
        (Register ddnet "say".toList "?r[message]".toList ddnet.CFGFLAG_SERVER
          (Callback.handler 11 0) "Say in chat".toList
          (CConsole.new ddnet ddnet.CFGFLAG_SERVER { m_SvTestingCommands := 0, m_SvMap := [] })))
    with m_StoreCommands := false }

/-- Whether a double quote that is not part of an escape sequence occurs in
the text behind an opening quote: `\\` and `\"` are escape sequences, any
other `"` closes the quoted token. -/
def closesQuote : Str → Bool
  | [] => false
  | c :: cs =>
    if c = '"' then true
    else if c = '\\' then
      match cs with
      | [] => false
      | d :: cs2 =>
        if d = '\\' then closesQuote cs2
        else if d = '"' then closesQuote cs2
        else closesQuote (d :: cs2)
    else closesQuote cs

/-- One entry of a format: the directive character and, if there is one, the
text of the hint behind it with the flag for one space behind the hint. -/
structure FormatItem where
  directive : Char
  hint : Option (Str × Bool)

/-- The text of a format entry: the directive, then `[hint]` and the
space. -/
def FormatItem.render (d : FormatItem) : Str :=
  d.directive ::
    (match d.hint with
     | none => []
     | some (h, sp) => '[' :: (h ++ ']' :: (if sp then [' '] else [])))

/-- The format string for a list of entries. -/
def renderFormat : List FormatItem → Str
  | [] => []
  | d :: ds => d.render ++ renderFormat ds

/-- A format entry whose directive is neither `[` nor a space and whose hint
holds no `]`. -/
def FormatItem.WellFormed (d : FormatItem) : Prop :=
  d.directive ≠ '[' ∧ d.directive ≠ ' ' ∧ ∀ h sp, d.hint = some (h, sp) → ']' ∉ h

/-- The entry without its hint group (the hint and the space behind it). -/
def FormatItem.dropHint (d : FormatItem) : FormatItem :=
  { d with hint := none }

/-- The loop of `ParseArgs` over the directives of a format, the hints set
aside: what `ParseArgsLoop` does when the format pointer steps from directive
to directive. -/
def parseDirectives (env : Env) : List Char → Bool → Str → CResult → CResult × Int
  | [], _, _, r => (r, 0)
  | Command :: rest, Optional, pStr, r =>
    if Command = '?' then parseDirectives env rest true pStr r
    else
      match str_skip_whitespaces env pStr with
      | [] =>
        if !Optional then (r, 1)
        else if decide ('v' ∈ Command :: rest) then (r.SetVictim env env.VICTIM_ME, 0)
        else (r, 0)
      | c :: cs =>
        if c = '"' then
          match unescapeQuoted cs with
          | (out, none) => (r.AddArgument (out ++ cs.drop out.length), 1)
          | (out, some rest2) => parseDirectives env rest Optional rest2 (r.AddArgument out)
        else if Command = 'r' then
          (r.AddArgument (c :: cs), 0)
        else
          let isTok := Command = 'v' ∨ Command = 'i' ∨ Command = 'f' ∨ Command = 's'
          let pEnd := if isTok then str_skip_to_whitespace env (c :: cs) else c :: cs
          let arg := if isTok then tokenBefore env (c :: cs) else []
          let r1 := r.AddArgument arg
          let r2 := if Command = 'v' then r1.SetVictimStr env arg else r1
          parseDirectives env rest Optional pEnd.tail r2

/-- The whitespace-delimited tokens of a text, at most `fuel` of them. -/
def tokensFuel (env : Env) : Nat → Str → List Str
  | 0, _ => []
  | fuel + 1, s =>
    match s.dropWhile env.isSkipWs with
    | [] => []
    | c :: cs =>
      (c :: cs).takeWhile (fun x => !env.isStopWs x) ::
        tokensFuel env fuel ((c :: cs).dropWhile (fun x => !env.isStopWs x)).tail

/-- The whitespace-delimited tokens of a text, in order. -/
def tokens (env : Env) (s : Str) : List Str := tokensFuel env s.length s

/-- The arguments and the error code the specification assigns to a list of
directives and a list of tokens: `?` makes what follows optional, every
other directive takes the next token; text that runs out at a directive is
an error unless the directive is optional. -/
def assignTokens : List Char → Bool → List Str → List Str × Int
  | [], _, _ => ([], 0)
  | Command :: rest, Optional, toks =>
    if Command = '?' then assignTokens rest true toks
    else
      match toks with
      | [] => ([], if Optional then 0 else 1)
      | t :: ts => (t :: (assignTokens rest Optional ts).1, (assignTokens rest Optional ts).2)

/-- A directive that takes one token: `i`, `f`, `s` or `v`. -/
def tokenDirective (c : Char) : Prop := c = 'i' ∨ c = 'f' ∨ c = 's' ∨ c = 'v'

/-- The entry `?`. -/
def optionalMark : FormatItem := { directive := '?', hint := none }

/-- A server console with a command `tune` that carries the GAME flag and a
command `shutdown` that does not, both with outside handlers, with a map
named `dm1` and with buffering switched off. -/
def mapConsole : CConsole :=
  { Register ddnet "tune".toList "s[name] i[value]".toList
      (ddnet.CFGFLAG_SERVER ||| ddnet.CFGFLAG_GAME) (Callback.handler 21 0) "Tune".toList
      (Register ddnet "shutdown".toList [] ddnet.CFGFLAG_SERVER (Callback.handler 22 0)
        "Shut down".toList
        (CConsole.new ddnet ddnet.CFGFLAG_SERVER
          { m_SvTestingCommands := 0, m_SvMap := "dm1".toList }))
    with m_StoreCommands := false }

/-- The events of the audit hook for a dispatched command: one notification
if a hook is installed and the command is not flagged non-historic. -/
def auditEvents (env : Env) (c : CConsole) (ClientID : Int) (pCommand : CCommand)
    (Result : CResult) : List Event :=
  if c.m_pfnTeeHistorianCommandCallback.isSome ∧
      ¬ hasFlag pCommand.m_Flags env.CFGFLAG_NONTEEHISTORIC then
    [Event.historian ClientID c.m_FlagMask pCommand.m_pName Result]
  else []

/-- The console after a command has run: marked as using test features if
the command is test-only. -/
def markCheated (env : Env) (pCommand : CCommand) (c : CConsole) : CConsole :=
  if hasFlag pCommand.m_Flags env.CMDFLAG_TEST then { c with m_Cheated := true } else c

/-- The results `ParseStart` fills for the sub-commands of a line, in the
order in which the loop of `ExecuteLineStroked` cuts them off: the part up to
the next separator is parsed, the scan goes on behind the separator. -/
def partsLoop (env : Env) (ClientID : Int) (InterpretSemicolons : Bool) :
    Nat → Option Str → List CResult
  | _, none => []
  | _, some [] => []
  | 0, some (_ :: _) => []
  | fuel + 1, some (a :: as) =>
    (ParseStart env (CResult.init env ClientID) (a :: as)
        ((scanSubcommand InterpretSemicolons false (a :: as)).1 + 1)).1 ::
      partsLoop env ClientID InterpretSemicolons fuel
        (scanSubcommand InterpretSemicolons false (a :: as)).2

/-- The sub-commands of a line as `ExecuteLineStroked` sees them: a leading
`mc;` is cut off and switches the splitting on. -/
def lineParts (env : Env) (pStr : Str) (ClientID : Int) (InterpretSemicolons : Bool) :
    List CResult :=
  match str_startswith pStr "mc;".toList with
  | some pWithoutPrefix =>
    partsLoop env ClientID true pWithoutPrefix.length (some pWithoutPrefix)
  | none => partsLoop env ClientID InterpretSemicolons pStr.length (some pStr)

/-- The resolution of the victim `me` in `ExecuteLineStroked`:
`if(Result.GetVictim() == CResult::VICTIM_ME) Result.SetVictim(ClientID)`. -/
def resolveVictim (env : Env) (ClientID : Int) (Result : CResult) : CResult :=
  if Result.GetVictim = env.VICTIM_ME then Result.SetVictim env ClientID else Result

/-- A result with arguments put in front of its own. -/
def prependArgs (pre : List Str) (r : CResult) : CResult :=
  { r with m_apArgs := pre ++ r.m_apArgs }

/-- The console with events put in front of its trace. -/
def shiftTrace (t : List Event) (c : CConsole) : CConsole :=
  { c with trace := t ++ c.trace }

/-- A check of `ExecuteLineStroked` that the found command `pCommand` fails:
the map context check, the non-map context check, the access check or, where
the arguments are parsed (press pass or stroke command), the validation of
the arguments. -/
def FailsCheck (env : Env) (Stroke : Bool) (ClientID : Int) (Result : CResult) (c : CConsole)
    (pCommand : CCommand) : Prop :=
  (ClientID = env.CLIENT_ID_GAME ∧ ¬ hasFlag pCommand.m_Flags env.CFGFLAG_GAME) ∨
  (ClientID = env.CLIENT_ID_NO_GAME ∧ hasFlag pCommand.m_Flags env.CFGFLAG_GAME) ∨
  ¬ (pCommand.m_AccessLevel ≥ c.m_AccessLevel) ∨
  ((Stroke = true ∨ Result.m_pCommand.head? = some '+') ∧
    (ParseArgs env
      (if Result.m_pCommand.head? = some '+' then Result.AddArgument (m_paStrokeStr Stroke)
       else Result) pCommand.m_pParams).2 ≠ 0)

instance (env : Env) (Stroke : Bool) (ClientID : Int) (Result : CResult) (c : CConsole)
    (pCommand : CCommand) : Decidable (FailsCheck env Stroke ClientID Result c pCommand) := by
  unfold FailsCheck
  infer_instance

/-- A sub-command with a non-empty name that fails: the lookup finds no
command, or the command that is found fails a check. -/
def FailsDispatch (env : Env) (Stroke : Bool) (ClientID : Int) (Result : CResult)
    (c : CConsole) : Prop :=
  Result.m_pCommand ≠ [] ∧
    ∀ pCommand ∈ FindCommand c.m_pFirstCommand Result.m_pCommand c.m_FlagMask,
      FailsCheck env Stroke ClientID Result c pCommand

instance (env : Env) (Stroke : Bool) (ClientID : Int) (Result : CResult) (c : CConsole) :
    Decidable (FailsDispatch env Stroke ClientID Result c) := by
  unfold FailsDispatch
  infer_instance

/-- The messages `ExecuteLineStroked` prints for a failing sub-command, in the
order of its checks: unknown command, map context, non-map context (with the
hint), then, with access granted, the usage line of the validation error, else
the access message; all but the usage line on the press pass only. -/
def failureMessages (env : Env) (Stroke : Bool) (ClientID : Int) (Result : CResult)
    (c : CConsole) : List Event :=
  match FindCommand c.m_pFirstCommand Result.m_pCommand c.m_FlagMask with
  | none =>
    if Stroke then
      [Event.print env.OUTPUT_LEVEL_STANDARD "console".toList
        (Msg.str_format 256 "No such command: %s.".toList [Result.m_pCommand])]
    else []
  | some pCommand =>
    if ClientID = env.CLIENT_ID_GAME ∧ ¬ hasFlag pCommand.m_Flags env.CFGFLAG_GAME then
      if Stroke then
        [Event.print env.OUTPUT_LEVEL_STANDARD "console".toList
          (Msg.str_format 96 "Command '%s' cannot be executed from a map.".toList
            [Result.m_pCommand])]
      else []
    else if ClientID = env.CLIENT_ID_NO_GAME ∧ hasFlag pCommand.m_Flags env.CFGFLAG_GAME then
      if Stroke then
        [Event.print env.OUTPUT_LEVEL_STANDARD "console".toList
          (Msg.str_format 96
            "Command '%s' cannot be executed from a non-map config file.".toList
            [Result.m_pCommand]),
         Event.print env.OUTPUT_LEVEL_STANDARD "console".toList
          (Msg.str_format 96
            "Hint: Put the command in '%s.cfg' instead of '%s.map.cfg' ".toList
            [c.g_Config.m_SvMap, c.g_Config.m_SvMap])]
      else []
    else if pCommand.m_AccessLevel ≥ c.m_AccessLevel then
      [Event.print env.OUTPUT_LEVEL_STANDARD "console".toList
        (Msg.str_format 256 "Invalid arguments... Usage: %s %s".toList
          [pCommand.m_pName, pCommand.m_pParams])]
    else if Stroke then
      [Event.print env.OUTPUT_LEVEL_STANDARD "console".toList
        (Msg.str_format 256 "Access for command %s denied.".toList [Result.m_pCommand])]
    else []

/-- The console with events put into its trace behind the first `k`
events. -/
def insertEvents (k : Nat) (es : List Event) (c : CConsole) : CConsole :=
  { c with trace := c.trace.take k ++ es ++ c.trace.drop k }

/-- The function `CConsole::SetTeeHistorianCommandCallback`; the hook and its
user data are one value, `none` is the null pointer. -/
def SetTeeHistorianCommandCallback (pfnCallback : Option Nat) (c : CConsole) : CConsole :=
  { c with m_pfnTeeHistorianCommandCallback := pfnCallback }

/-- A client console with buffering enabled, an audit hook installed, and a
command `follow` with the format `v[id]` that carries the STORE flag and has
an outside handler. -/
def queueConsole : CConsole :=
  SetTeeHistorianCommandCallback (some 1)
    (Register ddnet "follow".toList "v[id]".toList (ddnet.CFGFLAG_CLIENT ||| ddnet.CFGFLAG_STORE)
      (Callback.handler 31 0) "Follow a player".toList
      (CConsole.new ddnet ddnet.CFGFLAG_CLIENT { m_SvTestingCommands := 0, m_SvMap := [] }))

/-- The result `ParseArgs` fills for the line `follow` with one argument from
the client `ClientID`, with the victim as given. -/
def followResult (ClientID : Int) (arg : Str) (Victim : Int) : CResult :=
  { m_ClientID := ClientID, m_pCommand := "follow".toList, m_pArgsStart := arg,
    m_apArgs := [arg], m_Victim := Victim }

/-- The state of the constructor before its first `Register` call: the empty
registry. -/
def emptyConsole (env : Env) (FlagMask : Nat) (cfg : CConfig) : CConsole :=
  { m_FlagMask := FlagMask, m_AccessLevel := env.ACCESS_LEVEL_ADMIN, m_StoreCommands := true,
    m_Cheated := false, m_pFirstCommand := [], m_pRecycleList := [], m_TempCommands := 0,
    m_ExecutionQueue := [], m_pFirstExec := [], m_pfnTeeHistorianCommandCallback := none,
    m_pStorage := false, g_Config := cfg, trace := [] }

/-- The names along the command list. -/
def commandNames (c : CConsole) : List Str := c.m_pFirstCommand.map (fun x => x.m_pName)

/-- No two descriptors of a command list have case-insensitively equal names
and a context flag in common. -/
def NamesUnique (l : List CCommand) : Prop :=
  l.Pairwise (fun x y => ¬ (str_comp_nocase x.m_pName y.m_pName = 0 ∧ hasFlag x.m_Flags y.m_Flags))

/-- The console `queueConsole` with buffering switched off, as
`StoreCommands(false)` leaves it. -/
def directConsole : CConsole :=
  { queueConsole with m_StoreCommands := false }

/-- The server console `sayConsole` with one more command, `super`, which is
flagged test-only and has an outside handler; test commands are disabled. -/
def testConsole : CConsole :=
  Register ddnet "super".toList [] (ddnet.CFGFLAG_SERVER ||| ddnet.CMDFLAG_TEST)
    (Callback.handler 14 0) "Become super".toList sayConsole

/-- The calls `Chain(pName, f, u)` for a list of interceptors (chain function
and user data), in order. -/
def chainAll (env : Env) (pName : Str) : List (Nat × Nat) → CConsole → CConsole
  | [], c => c
  | (f, u) :: rest, c => chainAll env pName rest (Chain env pName f u c)

/-- The callback of a command after interceptors have been installed around
`cb` in order: the newest interceptor is the outermost. -/
def wrapAll : List (Nat × Nat) → Callback → Callback
  | [], cb => cb
  | (f, u) :: rest, cb => wrapAll rest (Callback.Con_Chain f u cb)

/-- The function `CConsole::Con_Chain` where every chain function forwards once: the call
of `Con_Chain` with the `CChain` data `(f, u, next)`, which is the call
`f(pResult, u, next)`, is recorded, and the interceptor calls `next` with the
same result; a callback that is not `Con_Chain` is invoked as usual. -/
def invokeForwarding (env : Env) (reenter : ReenterFn) :
    Callback → CResult → CConsole → Except Fault CConsole
  | Callback.Con_Chain f u next, R, c =>
    invokeForwarding env reenter next R (c.log (Event.call (Callback.Con_Chain f u next) R))
  | cb, R, c => invoke env reenter cb R c

/-- The calls of the interceptors installed in order around `cb`, in the order
in which they are made when each forwards: newest first, each with the
next-older callback as the one to forward to. -/
def chainCalls : List (Nat × Nat) → Callback → CResult → List Event
  | [], _, _ => []
  | (f, u) :: rest, cb, R =>
    chainCalls rest (Callback.Con_Chain f u cb) R ++ [Event.call (Callback.Con_Chain f u cb) R]

/-- The descriptor with its callback wrapped by `Chain`: the callback becomes
`Con_Chain` with the chain function, its user data and the old callback. -/
def wrapCallback (f u : Nat) (cmd : CCommand) : CCommand :=
  { cmd with m_Callback := Callback.Con_Chain f u cmd.m_Callback }

/-- A call of one of the registry operations, with its arguments. -/
inductive RegistryOp where
  | register (pName pParams : Str) (Flags : Nat) (cb : Callback) (pHelp : Str)
  | registerTemp (pName pParams : Str) (Flags : Nat) (pHelp : Str)
  | deregisterTemp (pName : Str)
  | deregisterTempAll
  | chain (pName : Str) (pfnChainFunc pUser : Nat)
deriving DecidableEq, Repr

/-- The effect of a registry operation on the console. -/
def RegistryOp.apply (env : Env) : RegistryOp → CConsole → CConsole
  | RegistryOp.register pName pParams Flags cb pHelp, c =>
    Register env pName pParams Flags cb pHelp c
  | RegistryOp.registerTemp pName pParams Flags pHelp, c =>
    RegisterTemp env pName pParams Flags pHelp c
  | RegistryOp.deregisterTemp pName, c => DeregisterTemp pName c
  | RegistryOp.deregisterTempAll, c => DeregisterTempAll c
  | RegistryOp.chain pName pfnChainFunc pUser, c => Chain env pName pfnChainFunc pUser c

/-- A finite sequence of registry operations, applied in order. -/
def applyOps (env : Env) : List RegistryOp → CConsole → CConsole
  | [], c => c
  | op :: rest, c => applyOps env rest (op.apply env c)

/-- The number of permanent descriptors in the command list. -/
def permanentCount (c : CConsole) : Nat :=
  c.m_pFirstCommand.countP (fun x => !x.m_Temp)

/-- A call of an operation of the console: a registry operation, a line (one
pass or both), a file, or `StoreCommands`. -/
inductive ConsoleOp where
  | registry (op : RegistryOp)
  | executeLineStroked (Stroke : Bool) (pStr : Str) (ClientID : Int) (InterpretSemicolons : Bool)
  | executeLine (pStr : Str) (ClientID : Int) (InterpretSemicolons : Bool)
  | executeFile (pFilename : Str) (ClientID : Int) (LogFailure : Bool) (StorageType : Int)
  | storeCommands (Store : Bool)
deriving DecidableEq, Repr

/-- The effect of an operation of the console; `depth` bounds the nesting of
the files that `exec` runs. -/
def ConsoleOp.run (env : Env) (depth : Nat) : ConsoleOp → CConsole → Except Fault CConsole
  | ConsoleOp.registry op, c => Except.ok (op.apply env c)
  | ConsoleOp.executeLineStroked Stroke pStr ClientID InterpretSemicolons, c =>
    ExecuteLineStroked env (reentry env depth) Stroke pStr ClientID InterpretSemicolons c
  | ConsoleOp.executeLine pStr ClientID InterpretSemicolons, c =>
    ExecuteLine env (reentry env depth) pStr ClientID InterpretSemicolons c
  | ConsoleOp.executeFile pFilename ClientID LogFailure StorageType, c =>
    ExecuteFile env depth pFilename ClientID LogFailure StorageType c
  | ConsoleOp.storeCommands Store, c => StoreCommands env (reentry env depth) Store c

/-- A finite sequence of operations of the console, run in order; the run
stops at the first operation that does not return. -/
def runOps (env : Env) (depth : Nat) : List ConsoleOp → CConsole → Except Fault CConsole
  | [], c => Except.ok c
  | op :: rest, c =>
    match op.run env depth c with
    | Except.error e => Except.error e
    | Except.ok c1 => runOps env depth rest c1

/-- The operations considered for a console with the flag mask `FlagMask`:
`Register` is called with a callback that is not null, `RegisterTemp` with
flags of which none is in the flag mask. -/
def ConsoleOp.Admissible (FlagMask : Nat) : ConsoleOp → Prop
  | ConsoleOp.registry (RegistryOp.register _ _ _ cb _) => cb ≠ Callback.null
  | ConsoleOp.registry (RegistryOp.registerTemp _ _ Flags _) => hasFlag Flags FlagMask = false
  | _ => True

instance (FlagMask : Nat) (op : ConsoleOp) : Decidable (op.Admissible FlagMask) := by
  unfold ConsoleOp.Admissible
  split <;> infer_instance

/-- The flag mask is `FlagMask`, every descriptor of the command list that
carries a flag of the mask has a callback, and so has every entry of the
execution queue. -/
def CallbacksSet (FlagMask : Nat) (c : CConsole) : Prop :=
  c.m_FlagMask = FlagMask ∧
  (∀ x ∈ c.m_pFirstCommand, hasFlag x.m_Flags FlagMask = true → x.m_Callback ≠ Callback.null) ∧
  (∀ e ∈ c.m_ExecutionQueue, e.m_Callback ≠ Callback.null)

/-- A run that ends in a state with the callbacks set, or ends because the
nesting depth of the files is used up: no null callback is called. -/
def SafeResult (FlagMask : Nat) (r : Except Fault CConsole) : Prop :=
  match r with
  | Except.ok c => CallbacksSet FlagMask c
  | Except.error e => e = Fault.outOfFuel

/-- The test of `DeregisterTemp` on a descriptor: temporary and with the
name `pName` exactly (`str_comp`). -/
def isTempNamed (pName : Str) (x : CCommand) : Bool :=
  x.m_Temp && decide (str_comp x.m_pName pName = 0)

/-- The console with the first temporary descriptor named `pName` unlinked
from the command list and put at the head of the freelist; unchanged if
there is no such descriptor. -/
def unlinkFirstTemp (pName : Str) (c : CConsole) : CConsole :=
  { c with
    m_pFirstCommand := c.m_pFirstCommand.eraseP (isTempNamed pName),
    m_pRecycleList := (c.m_pFirstCommand.find? (isTempNamed pName)).toList ++ c.m_pRecycleList }

/-- The descriptor `RegisterTemp` makes of the head `r` of the freelist: name,
help and format cut to their storage lengths are written into its storage, the
callback is null, the flags are the given ones, it is marked temporary. -/
def recycledDescriptor (env : Env) (t : TempCommand) (r : CCommand) : CCommand :=
  { r with
    m_pName := str_copy t.pName env.TEMPCMD_NAME_LENGTH,
    m_pHelp := str_copy t.pHelp env.TEMPCMD_HELP_LENGTH,
    m_pParams := str_copy t.pParams env.TEMPCMD_PARAMS_LENGTH,
    m_Callback := Callback.null, m_Flags := t.Flags, m_Temp := true }

/-- The victim a `v` token stands for: the marker `VICTIM_ME` for the token
`me`, the marker `VICTIM_ALL` for the token `all`, otherwise the integer value
of the token clamped to the client slots `0 .. MAX_CLIENTS - 1`. -/
def victimOf (env : Env) (tok : Str) : Int :=
  if tok = "me".toList then env.VICTIM_ME
  else if tok = "all".toList then env.VICTIM_ALL
  else clamp (env.str_toint tok) 0 ((env.MAX_CLIENTS : Int) - 1)

/-- The function `CConsole::ExecuteLineFlag`: the line is executed under the given flag
mask, then the old flag mask is put back. -/
def ExecuteLineFlag (env : Env) (reenter : ReenterFn) (pStr : Str) (FlagMask : Nat)
    (ClientID : Int) (InterpretSemicolons : Bool) (c : CConsole) : Except Fault CConsole :=
  let Temp := c.m_FlagMask
  match ExecuteLine env reenter pStr ClientID InterpretSemicolons
      { c with m_FlagMask := FlagMask } with
  | Except.error e => Except.error e
  | Except.ok c1 => Except.ok { c1 with m_FlagMask := Temp }

/-- A top-level call on the console: one of the operations of `ConsoleOp`, or
`ExecuteLineFlag`. -/
inductive SessionOp where
  | console (op : ConsoleOp)
  | executeLineFlag (pStr : Str) (FlagMask : Nat) (ClientID : Int) (InterpretSemicolons : Bool)
deriving DecidableEq, Repr

/-- The effect of a top-level call. -/
def SessionOp.run (env : Env) (depth : Nat) : SessionOp → CConsole → Except Fault CConsole
  | SessionOp.console op, c => op.run env depth c
  | SessionOp.executeLineFlag pStr FlagMask ClientID InterpretSemicolons, c =>
    ExecuteLineFlag env (reentry env depth) pStr FlagMask ClientID InterpretSemicolons c

/-- A finite sequence of top-level calls, run in order; the state between two
calls is the state the earlier call has returned. -/
def runSession (env : Env) (depth : Nat) : List SessionOp → CConsole → Except Fault CConsole
  | [], c => Except.ok c
  | op :: rest, c =>
    match op.run env depth c with
    | Except.error e => Except.error e
    | Except.ok c1 => runSession env depth rest c1

/-- The environment `ddnet` with a file system that holds the one script
`settings.cfg`, whose one line is `gfx_mode 1`. -/
def ddnetFiles : Env :=
  { ddnet with
    OpenFile := fun pFilename _ =>
      if pFilename = "settings.cfg".toList then some ["gfx_mode 1".toList] else none }

/-- The queue entry for the line `gfx_mode 1` of the console on the console
`storeConsole`. -/
def gfxEntry : CQueueEntry :=
  { m_Callback := Callback.handler 9 1,
    m_Result := { m_ClientID := -1, m_pCommand := "gfx_mode".toList, m_pArgsStart := "1".toList,
                  m_apArgs := ["1".toList], m_Victim := -3 } }

/-- A client console as the constructor leaves it. -/
def clientConsole : CConsole :=
  CConsole.new ddnet ddnet.CFGFLAG_CLIENT { m_SvTestingCommands := 0, m_SvMap := [] }

/-- A session on the client console: the command `follow` is registered with
the STORE flag, the line `follow 3` of client 5 is executed while buffering is
enabled, and buffering is switched off. -/
def followSession : List SessionOp :=
  [SessionOp.console (ConsoleOp.registry
     (RegistryOp.register "follow".toList "v[id]".toList 10 (Callback.handler 31 0)
       "Follow a player".toList)),
   SessionOp.console (ConsoleOp.executeLine "follow 3".toList 5 true),
   SessionOp.console (ConsoleOp.storeCommands false)]

/-- The state at the end of the session `followSession`: the queue has been
drained, the one call is recorded, buffering is off. -/
def followSessionEnd : CConsole :=
  { Register ddnet "follow".toList "v[id]".toList 10 (Callback.handler 31 0)
      "Follow a player".toList clientConsole with
    m_StoreCommands := false,
    trace := [Event.call (Callback.handler 31 0) (followResult 5 "3".toList 3)] }

/-- The console `testConsole` with test commands enabled. -/
def testConsoleEnabled : CConsole :=
  { testConsole with g_Config := { m_SvTestingCommands := 1, m_SvMap := [] } }

/-- The descriptor of the command `super` of `testConsole`. -/
def superCommand : CCommand :=
  { m_pName := "super".toList, m_pHelp := "Become super".toList, m_pParams := [],
    m_Flags := 1028, m_Temp := false, m_AccessLevel := 0, m_Callback := Callback.handler 14 0 }

/-- The result `ParseArgs` fills for the line `super` of the console. -/
def superResult : CResult :=
  { m_ClientID := -1, m_pCommand := "super".toList, m_pArgsStart := [], m_apArgs := [],
    m_Victim := -3 }

/-- A descriptor without its access level. -/
def levelless (x : CCommand) : CCommand := { x with m_AccessLevel := 0 }

/-- The console with the command list, `g_Config`, the old values and the
trace replaced. -/
def CConsole.touch (c : CConsole) (l : List CCommand) (g o : CConfig) (t : List Event) :
    CConsole :=
  { c with m_pFirstCommand := l, g_Config := g, OldValue := o, trace := t }

/-- The callback invocations among the events, in order. -/
def callsOf : List Event → List (Callback × CResult)
  | [] => []
  | Event.call cb R :: es => (cb, R) :: callsOf es
  | Event.print _ _ _ :: es => callsOf es
  | Event.historian _ _ _ _ :: es => callsOf es
  | Event.openFile _ _ :: es => callsOf es

/-- The state `d` differs from `c` as the run of a handler that makes no call
back into the console allows: at most in the access levels of the commands,
in `g_Config`, in the old values and by events appended to the trace, none of
which is a callback invocation. -/
def LocalStep (c d : CConsole) : Prop :=
  d = c.touch d.m_pFirstCommand d.g_Config d.OldValue d.trace ∧
  d.m_pFirstCommand.map levelless = c.m_pFirstCommand.map levelless ∧
  ∃ es, d.trace = c.trace ++ es ∧ callsOf es = []

/-- A callback whose handler calls back into the console: `Con_Exec` calls
`ExecuteFile`, `ConToggle` and `ConToggleStroke` call `ExecuteLine`. -/
def Callback.reenters : Callback → Bool
  | Callback.Con_Exec => true
  | Callback.ConToggle => true
  | Callback.ConToggleStroke => true
  | _ => false

/-- A property of the console state that the steps of the interpreter keep:
an event appended to the trace, an entry appended to the queue while
buffering is enabled, the assignment `m_Cheated = true`, and what the handlers
of `console.cpp` write (access levels, `g_Config`, old values, output). -/
structure Stable (P : CConsole → Prop) : Prop where
  hlog : ∀ c e, P c → P (c.log e)
  henq : ∀ c es, P c → c.m_StoreCommands = true → P (enqueue c es)
  hcheat : ∀ c, P c → P { c with m_Cheated := true }
  hlocal : ∀ c d, LocalStep c d → P c → P d

/-- The environment `ddnet` with two configuration variables of
`MACRO_CONFIG_INT`: `gfx_x` (member `GfxX`), a client variable that carries
the STORE flag, and `cl_x` (member `ClX`), a client variable without it; both
have the default 0 and no bounds. -/
def ddnetVars : Env :=
  { ddnet with
    configVariables :=
      [{ ScriptName := "gfx_x".toList, Flags := 10, kind := 0, Desc := "Width".toList,
         Name := "GfxX".toList },
       { ScriptName := "cl_x".toList, Flags := 2, kind := 0, Desc := "Position".toList,
         Name := "ClX".toList }] }

/-- A client console as the constructor leaves it in the environment
`ddnetVars`: buffering is enabled. -/
def varsConsole : CConsole :=
  CConsole.new ddnetVars ddnetVars.CFGFLAG_CLIENT { m_SvTestingCommands := 0, m_SvMap := [] }

/-- The queue entry for the line `gfx_x 1` of the console on the console
`varsConsole`. -/
def gfxXEntry : CQueueEntry :=
  { m_Callback := Callback.IntVariableCommand
      { m_pVariable := "GfxX".toList, m_Min := 0, m_Max := 0 },
    m_Result := { m_ClientID := -1, m_pCommand := "gfx_x".toList, m_pArgsStart := "1".toList,
                  m_apArgs := ["1".toList], m_Victim := -3 } }

/-- The descriptor of the command `+toggle` as the constructor registers it
on a client console. -/
def toggleStrokeCommand : CCommand :=
  { m_pName := "+toggle".toList, m_pHelp := "Toggle config value via keypress".toList,
    m_pParams := "s[config-option] i[value 1] i[value 2]".toList, m_Flags := 2, m_Temp := false,
    m_AccessLevel := 0, m_Callback := Callback.ConToggleStroke }

/-- The result `ParseArgs` fills for the text `+toggle cl_x 1 0`, without the
stroke token. -/
def toggleStrokeResult : CResult :=
  { m_ClientID := -1, m_pCommand := "+toggle".toList, m_pArgsStart := "cl_x 1 0".toList,
    m_apArgs := ["cl_x".toList, "1".toList, "0".toList], m_Victim := -3 }

/-- The result of the line `cl_x v` that `+toggle` executes. -/
def clXResult (v : Str) : CResult :=
  { m_ClientID := -1, m_pCommand := "cl_x".toList, m_pArgsStart := v, m_apArgs := [v],
    m_Victim := -3 }

/-- The callback of the variable `cl_x` of the environment `ddnetVars`. -/
def clXCallback : Callback :=
  Callback.IntVariableCommand { m_pVariable := "ClX".toList, m_Min := 0, m_Max := 0 }

/-- The console `varsConsole` after the press pass of the line
`+toggle cl_x 1 0`: the variable is 1. -/
def togglePressed : CConsole :=
  { varsConsole with
    g_Config := varsConsole.g_Config.setInt "ClX".toList 1,
    OldValue := varsConsole.OldValue.setInt "ClX".toList 1,
    trace :=
      [Event.call Callback.ConToggleStroke (prependArgs ["1".toList] toggleStrokeResult),
       Event.call clXCallback (clXResult "1".toList)] }

/-- The console `varsConsole` after both passes of the line
`+toggle cl_x 1 0`: the variable is 0 again. -/
def toggleReleased : CConsole :=
  { varsConsole with
    g_Config := togglePressed.g_Config.setInt "ClX".toList 0,
    OldValue := togglePressed.OldValue.setInt "ClX".toList 0,
    trace :=
      [Event.call Callback.ConToggleStroke (prependArgs ["1".toList] toggleStrokeResult),
       Event.call clXCallback (clXResult "1".toList),
       Event.call Callback.ConToggleStroke (prependArgs ["0".toList] toggleStrokeResult),
       Event.call clXCallback (clXResult "0".toList)] }

/-! ## Properties -/

/-! ### Helpers of the argument validator -/

theorem str_skip_whitespaces_of_all (env : Env) (s : Str)
    (h : ∀ c ∈ s, env.isSkipWs c = true) : str_skip_whitespaces env s = [] := by
  induction s with
  | nil => rfl
  | cons c cs ih =>
    have hc : env.isSkipWs c = true := h c (List.mem_cons_self c cs)
    have hcs : ∀ d ∈ cs, env.isSkipWs d = true := fun d hd => h d (List.mem_cons_of_mem c hd)
    simp [str_skip_whitespaces, hc, ih hcs]

theorem NextParam_length_le (f : Str) : (NextParam f).length ≤ f.length - 1 := by
  cases f with
  | nil => simp [NextParam]
  | cons c rest =>
    have hdrop : (rest.dropWhile (fun c => c != ']')).length ≤ rest.length :=
      (List.dropWhile_suffix _).length_le
    simp only [NextParam]
    split
    · split
      · simp
      · rename_i x after heq
        rw [heq] at hdrop
        split
        · simp at hdrop ⊢
          omega
        · simp at hdrop ⊢
          omega
    · simp

theorem NextParam_length_lt (c : Char) (cs : Str) :
    (NextParam (c :: cs)).length < (c :: cs).length := by
  have h := NextParam_length_le (c :: cs)
  simp at h ⊢
  omega

theorem unescapeQuoted_quote (cs : Str) : unescapeQuoted ('"' :: cs) = ([], some cs) := by
  cases cs <;> simp [unescapeQuoted]

theorem unescapeQuoted_other (c : Char) (cs : Str) (h1 : c ≠ '"') (h2 : c ≠ '\\') :
    unescapeQuoted (c :: cs) = (c :: (unescapeQuoted cs).1, (unescapeQuoted cs).2) := by
  cases cs <;> simp [unescapeQuoted, h1, h2]

theorem unescapeQuoted_bs_bs (cs : Str) :
    unescapeQuoted ('\\' :: '\\' :: cs) =
      ('\\' :: (unescapeQuoted cs).1, (unescapeQuoted cs).2) := by
  simp [unescapeQuoted]

theorem unescapeQuoted_bs_quote (cs : Str) :
    unescapeQuoted ('\\' :: '"' :: cs) =
      ('"' :: (unescapeQuoted cs).1, (unescapeQuoted cs).2) := by
  simp [unescapeQuoted]

theorem unescapeQuoted_escapeStr (t rest : Str) :
    unescapeQuoted (escapeStr t ++ '"' :: rest) = (t, some rest) := by
  induction t with
  | nil => simp [escapeStr, unescapeQuoted_quote]
  | cons c cs ih =>
    by_cases h1 : c = '\\'
    · subst h1
      simp [escapeStr, escapeChar, unescapeQuoted_bs_bs, ih]
    · by_cases h2 : c = '"'
      · subst h2
        simp [escapeStr, escapeChar, unescapeQuoted_bs_quote, ih]
      · simp [escapeStr, escapeChar, unescapeQuoted_other, ih, h1, h2]

/-! ### Quoted arguments -/

/-- C5. Quoting round trip: `ParseArgs` with the format `s[x]` on an argument
text that is the quoted, escaped form of a string `t` (every backslash
doubled, every double quote preceded by a backslash, the whole wrapped in
double quotes) returns success and adds exactly one argument, which is `t`;
the victim stays unset. -/
theorem ParseArgs_quoting_round_trip (env : Env) (hq : env.isSkipWs '"' = false)
    (r : CResult) (t : Str) (h : r.m_pArgsStart = quoteArg t) :
    ParseArgs env r "s[x]".toList =
      ({ r with m_apArgs := r.m_apArgs ++ [t], m_Victim := env.VICTIM_NONE }, 0) := by
  have hs : str_skip_whitespaces env ('"' :: (escapeStr t ++ ['"'])) =
      '"' :: (escapeStr t ++ ['"']) := by
    simp [str_skip_whitespaces, hq]
  have hn : NextParam ['s', '[', 'x', ']'] = [] := by decide
  simp only [ParseArgs, h, quoteArg, String.toList, List.length_cons, List.length_nil]
  simp only [ParseArgsLoop, hs, unescapeQuoted_escapeStr, hn]
  simp [CResult.AddArgument, CResult.ResetVictim]
  simpa [quoteArg] using h

/-- The witness of C5: the argument text `"a\"b"` yields the single token
`a"b`. -/
theorem ParseArgs_quoting_round_trip_witness :
    ParseArgs ddnet { CResult.init ddnet 0 with m_pArgsStart := "\"a\\\"b\"".toList } "s[x]".toList
      = ({ CResult.init ddnet 0 with m_pArgsStart := "\"a\\\"b\"".toList,
                                     m_apArgs := ["a\"b".toList],
                                     m_Victim := ddnet.VICTIM_NONE }, 0) :=
  ParseArgs_quoting_round_trip ddnet (by decide)
    { CResult.init ddnet 0 with m_pArgsStart := "\"a\\\"b\"".toList } "a\"b".toList (by decide)

/-! ### The optional tail -/

theorem clamp_of_mem (v lo hi : Int) (h1 : lo ≤ v) (h2 : v ≤ hi) : clamp v lo hi = v := by
  unfold clamp
  rw [if_neg (by omega), if_neg (by omega)]

theorem ParseArgsLoop_no_text (env : Env) (r : CResult) (tail : Str)
    (hws : ∀ c ∈ tail, env.isSkipWs c = true) :
    ∀ (fuel : Nat) (fmt : Str) (opt : Bool), fmt.length < fuel →
      ParseArgsLoop env fuel fmt opt tail r =
        match afterMarks fuel fmt with
        | [] => (r, 0)
        | d :: ds =>
          if !(opt || decide (fmt.head? = some '?')) then (r, 1)
          else if hasVictimDirective (d :: ds) then (r.SetVictim env env.VICTIM_ME, 0)
          else (r, 0) := by
  intro fuel
  induction fuel with
  | zero => intro fmt opt h; omega
  | succ n ih =>
    intro fmt opt hlen
    cases fmt with
    | nil => simp [ParseArgsLoop, afterMarks]
    | cons c cs =>
      by_cases hc : c = '?'
      · subst hc
        have hlt := NextParam_length_lt '?' cs
        have hn : (NextParam ('?' :: cs)).length < n := by omega
        have := ih (NextParam ('?' :: cs)) true hn
        simp only [ParseArgsLoop, afterMarks, if_true, this]
        cases afterMarks n (NextParam ('?' :: cs)) <;> simp
      · simp only [ParseArgsLoop, afterMarks, if_neg hc, str_skip_whitespaces_of_all env tail hws]
        simp [hc, hasVictimDirective]

/-- C6. Optional-tail default: for a format that starts with `?` and an
argument text that is empty or holds only whitespace, `ParseArgs` returns
success and adds no argument; the victim is the `me` marker if a `v`
directive occurs from the first directive behind the `?` on, and stays unset
(`VICTIM_NONE`) otherwise. -/
theorem ParseArgs_optional_tail_default (env : Env)
    (hlo : env.VICTIM_NONE ≤ env.VICTIM_ME) (hhi : env.VICTIM_ME ≤ (env.MAX_CLIENTS : Int) - 1)
    (r : CResult) (fmt : Str) (hopt : fmt.head? = some '?')
    (hws : ∀ c ∈ r.m_pArgsStart, env.isSkipWs c = true) :
    ParseArgs env r fmt =
      ({ r with m_Victim :=
          if hasVictimDirective (afterMarks (fmt.length + 1) fmt) then env.VICTIM_ME
          else env.VICTIM_NONE }, 0) := by
  have h := ParseArgsLoop_no_text env (r.ResetVictim env) r.m_pArgsStart hws
    (fmt.length + 1) fmt false (Nat.lt_succ_self _)
  simp only [ParseArgs, h]
  cases hm : afterMarks (fmt.length + 1) fmt with
  | nil => simp [hasVictimDirective, findVictimDirective, CResult.ResetVictim]
  | cons d ds =>
    simp only [hopt, decide_True, Bool.or_true, Bool.not_true]
    by_cases hv : hasVictimDirective (d :: ds) = true
    · simp [hv, CResult.SetVictim, CResult.ResetVictim, clamp_of_mem _ _ _ hlo hhi]
    · simp [hv, CResult.ResetVictim]

/-- The witness of C6: the format `?i v` on a blank argument text sets the
victim to `me` and adds no argument. -/
theorem ParseArgs_optional_tail_default_witness :
    ParseArgs ddnet { CResult.init ddnet 5 with m_pArgsStart := "  ".toList } "?i v".toList =
      ({ CResult.init ddnet 5 with m_pArgsStart := "  ".toList, m_Victim := ddnet.VICTIM_ME }, 0) :=
  ParseArgs_optional_tail_default ddnet (by decide) (by decide)
    { CResult.init ddnet 5 with m_pArgsStart := "  ".toList } "?i v".toList (by decide) (by decide)

/-! ### Access gating -/

/-- C2. Access gating: when the press dispatch of a sub-command finds a
command, the context check passes and the access level of the console is
greater than the access level of the command, the dispatch only prints
`Access for command <name> denied.`: the state is otherwise unchanged, so no
callback is invoked, the audit hook is not called and nothing is enqueued.
Hence a press dispatch invokes or enqueues a command only if the access
level of the console is at most that of the command. -/
theorem dispatch_access_denied (env : Env) (reenter : ReenterFn) (ClientID : Int)
    (Result : CResult) (c : CConsole) (pCommand : CCommand)
    (hname : Result.m_pCommand ≠ [])
    (hfind : FindCommand c.m_pFirstCommand Result.m_pCommand c.m_FlagMask = some pCommand)
    (hmap : ¬ (ClientID = env.CLIENT_ID_GAME ∧ ¬ hasFlag pCommand.m_Flags env.CFGFLAG_GAME))
    (hnomap : ¬ (ClientID = env.CLIENT_ID_NO_GAME ∧ hasFlag pCommand.m_Flags env.CFGFLAG_GAME))
    (hlevel : c.m_AccessLevel > pCommand.m_AccessLevel) :
    dispatch env reenter true ClientID Result c =
      Except.ok (Flow.next,
        { c with trace := c.trace ++
            [Event.print env.OUTPUT_LEVEL_STANDARD "console".toList
              (Msg.str_format 256 "Access for command %s denied.".toList [Result.m_pCommand])] }) := by
  have hl : ¬ (pCommand.m_AccessLevel ≥ c.m_AccessLevel) := by omega
  unfold dispatch
  rw [if_neg hname]
  simp only [hfind]
  rw [if_neg hmap, if_neg hnomap, if_neg hl]
  simp [Print, CConsole.log]

/-- The witness of C2: a console of access level 2 rejects `echo hi`, whose
command has access level 0. -/
theorem dispatch_access_denied_witness :
    dispatch ddnet (reentry ddnet 0) true (-1)
        (ParseStart ddnet (CResult.init ddnet (-1)) "echo hi".toList 8).1
        { kickConsole with m_AccessLevel := 2 } =
      Except.ok (Flow.next,
        { kickConsole with
          m_AccessLevel := 2,
          trace := [Event.print 0 "console".toList
            (Msg.str_format 256 "Access for command %s denied.".toList ["echo".toList])] }) :=
  dispatch_access_denied ddnet (reentry ddnet 0) (-1)
    (ParseStart ddnet (CResult.init ddnet (-1)) "echo hi".toList 8).1
    { kickConsole with m_AccessLevel := 2 }
    { m_pName := "echo".toList, m_pHelp := "Echo the text".toList, m_pParams := "r[text]".toList,
      m_Flags := 4, m_Temp := false, m_AccessLevel := 0, m_Callback := Callback.Con_Echo }
    (by decide) (by decide) (by decide) (by decide) (by decide)

/-! ### Victim broadcast -/

theorem invokeSlots_victim (env : Env) (reenter : ReenterFn) (cb : Callback) (v : Int) :
    ∀ (l : List Nat) (R : CResult) (c : CConsole),
      invokeSlots env reenter cb l { R with m_Victim := v } c =
        invokeSlots env reenter cb l R c := by
  intro l
  induction l with
  | nil => intro R c; rfl
  | cons i rest ih =>
    intro R c
    simp only [invokeSlots]
    cases invoke env reenter cb { R with m_Victim := (i : Int) } c with
    | error e => rfl
    | ok c1 => exact ih R c1

theorem SetVictim_slot (env : Env) (hnone : env.VICTIM_NONE ≤ 0) (R : CResult) (i : Nat)
    (hi : i < env.MAX_CLIENTS) : R.SetVictim env i = { R with m_Victim := (i : Int) } := by
  have h : clamp (i : Int) env.VICTIM_NONE ((env.MAX_CLIENTS : Int) - 1) = (i : Int) :=
    clamp_of_mem _ _ _ (by omega) (by omega)
  simp [CResult.SetVictim, h]

theorem invokeVictims_eq_invokeSlots (env : Env) (reenter : ReenterFn) (cb : Callback)
    (hnone : env.VICTIM_NONE ≤ 0) :
    ∀ (n i : Nat) (R : CResult) (c : CConsole), i + n ≤ env.MAX_CLIENTS →
      invokeVictims env reenter cb n i R c =
        invokeSlots env reenter cb (List.range' i n) R c := by
  intro n
  induction n with
  | zero => intro i R c _; rfl
  | succ n ih =>
    intro i R c hle
    have hset := SetVictim_slot env hnone R i (by omega)
    simp only [invokeVictims, List.range'_succ, invokeSlots, hset]
    cases invoke env reenter cb { R with m_Victim := (i : Int) } c with
    | error e => rfl
    | ok c1 =>
      simp only []
      rw [ih (i + 1) _ c1 (by omega)]
      exact invokeSlots_victim env reenter cb (i : Int) _ R c1

theorem invokeSlots_handler (env : Env) (reenter : ReenterFn) (fn user : Nat) (R : CResult) :
    ∀ (l : List Nat) (c : CConsole),
      invokeSlots env reenter (Callback.handler fn user) l R c =
        Except.ok (traceAppend c
          (l.map (fun i => Event.call (Callback.handler fn user) { R with m_Victim := (i : Int) }))) := by
  intro l
  induction l with
  | nil => intro c; simp [invokeSlots, traceAppend]
  | cons i rest ih =>
    intro c
    simp [invokeSlots, invoke, ih, CConsole.log, traceAppend]

/-- C3. Victim broadcast: a press dispatch that passes lookup, context check,
access check and argument validation with the parsed victim equal to the
`all` marker, and that is neither queued nor dropped as a test command,
invokes the callback of the command once for each of the slots
`0 .. MAX_CLIENTS - 1` in increasing order, the invocation for slot `i` with
the victim `i` and the parsed arguments unchanged.  For an outside handler
this appends exactly `MAX_CLIENTS` call events to the trace. -/
theorem dispatch_victim_all (env : Env) (reenter : ReenterFn) (ClientID : Int)
    (Result Result2 : CResult) (c : CConsole) (pCommand : CCommand)
    (hnone : env.VICTIM_NONE ≤ 0) (hme : env.VICTIM_ALL ≠ env.VICTIM_ME)
    (hall : env.VICTIM_ALL ≠ env.VICTIM_NONE)
    (hname : Result.m_pCommand ≠ [])
    (hfind : FindCommand c.m_pFirstCommand Result.m_pCommand c.m_FlagMask = some pCommand)
    (hmap : ¬ (ClientID = env.CLIENT_ID_GAME ∧ ¬ hasFlag pCommand.m_Flags env.CFGFLAG_GAME))
    (hnomap : ¬ (ClientID = env.CLIENT_ID_NO_GAME ∧ hasFlag pCommand.m_Flags env.CFGFLAG_GAME))
    (hlevel : pCommand.m_AccessLevel ≥ c.m_AccessLevel)
    (hparse : ParseArgs env
        (if Result.m_pCommand.head? = some '+' then Result.AddArgument (m_paStrokeStr true)
         else Result) pCommand.m_pParams = (Result2, 0))
    (hvictim : Result2.m_Victim = env.VICTIM_ALL)
    (hdirect : ¬ (c.m_StoreCommands ∧ hasFlag pCommand.m_Flags env.CFGFLAG_STORE))
    (htest : ¬ (hasFlag pCommand.m_Flags env.CMDFLAG_TEST ∧ c.g_Config.m_SvTestingCommands = 0)) :
    (dispatch env reenter true ClientID Result c =
      match invokeSlots env reenter pCommand.m_Callback (List.range env.MAX_CLIENTS) Result2
          (if c.m_pfnTeeHistorianCommandCallback.isSome ∧
              ¬ hasFlag pCommand.m_Flags env.CFGFLAG_NONTEEHISTORIC then
            c.log (Event.historian ClientID c.m_FlagMask pCommand.m_pName Result2)
           else c) with
      | Except.error e => Except.error e
      | Except.ok c2 =>
        Except.ok (Flow.next,
          if hasFlag pCommand.m_Flags env.CMDFLAG_TEST then { c2 with m_Cheated := true } else c2))
    ∧ (List.range env.MAX_CLIENTS).length = env.MAX_CLIENTS
    ∧ ∀ (fn user : Nat) (c1 : CConsole), pCommand.m_Callback = Callback.handler fn user →
        invokeSlots env reenter pCommand.m_Callback (List.range env.MAX_CLIENTS) Result2 c1 =
          Except.ok (traceAppend c1
            ((List.range env.MAX_CLIENTS).map
              (fun i => Event.call (Callback.handler fn user) { Result2 with m_Victim := (i : Int) }))) := by
  refine ⟨?_, List.length_range _, ?_⟩
  · have hv1 : ¬ (Result2.GetVictim = env.VICTIM_ME) := by
      simp only [CResult.GetVictim, hvictim]; exact hme
    have hv2 : (Result2.HasVictim env = true ∧ Result2.GetVictim = env.VICTIM_ALL) := by
      simp [CResult.GetVictim, CResult.HasVictim, hvictim, hall]
    unfold dispatch
    rw [if_neg hname]
    simp only [hfind]
    rw [if_neg hmap, if_neg hnomap, if_pos hlevel]
    simp only [Bool.true_or, if_true, decide_eq_true_eq, hparse]
    rw [if_neg (by simp), if_neg hdirect, if_neg htest]
    simp only [if_neg hv1, if_pos hv2]
    rw [invokeVictims_eq_invokeSlots env reenter _ hnone _ 0 _ _ (by omega),
      ← List.range_eq_range']
  · intro fn user c1 hcb
    rw [hcb]
    exact invokeSlots_handler env reenter fn user Result2 _ c1

/-- The witness of C3: on a server console the line `kick all` calls the
handler of `kick` 64 times, for the victims 0, 1, ..., 63, each time with
the one argument `all`. -/
theorem dispatch_victim_all_witness :
    dispatch ddnet (reentry ddnet 0) true (-1)
        (ParseStart ddnet (CResult.init ddnet (-1)) "kick all".toList 9).1 kickConsole =
      Except.ok (Flow.next, traceAppend kickConsole
        ((List.range 64).map (fun i => Event.call (Callback.handler 7 0)
          { m_ClientID := -1, m_pCommand := "kick".toList, m_pArgsStart := "all".toList,
            m_apArgs := ["all".toList], m_Victim := (i : Int) }))) := by
  have h := dispatch_victim_all ddnet (reentry ddnet 0) (-1)
    (ParseStart ddnet (CResult.init ddnet (-1)) "kick all".toList 9).1
    { m_ClientID := -1, m_pCommand := "kick".toList, m_pArgsStart := "all".toList,
      m_apArgs := ["all".toList], m_Victim := -1 }
    kickConsole
    { m_pName := "kick".toList, m_pHelp := "Kick a player".toList, m_pParams := "v[id]".toList,
      m_Flags := 4, m_Temp := false, m_AccessLevel := 0, m_Callback := Callback.handler 7 0 }
    (by decide) (by decide) (by decide) (by decide) (by decide) (by decide) (by decide)
    (by decide) (by decide) (by decide) (by decide) (by decide)
  rw [h.1, h.2.2 7 0 _ rfl]
  rfl

theorem scanSubcommand_nil (interp inStr : Bool) : scanSubcommand interp inStr [] = (0, none) := by
  simp [scanSubcommand]

theorem scanSubcommand_quote (interp inStr : Bool) (cs : Str) :
    scanSubcommand interp inStr ('"' :: cs) =
      ((scanSubcommand interp (!inStr) cs).1 + 1, (scanSubcommand interp (!inStr) cs).2) := by
  cases cs <;> simp [scanSubcommand]

theorem scanSubcommand_bs_nil (interp inStr : Bool) :
    scanSubcommand interp inStr ['\\'] = (1, none) := by
  simp [scanSubcommand]

theorem scanSubcommand_bs_quote (interp inStr : Bool) (cs : Str) :
    scanSubcommand interp inStr ('\\' :: '"' :: cs) =
      ((scanSubcommand interp inStr cs).1 + 2, (scanSubcommand interp inStr cs).2) := by
  simp [scanSubcommand]

theorem scanSubcommand_bs_other (interp inStr : Bool) (d : Char) (cs : Str) (hd : d ≠ '"') :
    scanSubcommand interp inStr ('\\' :: d :: cs) =
      ((scanSubcommand interp inStr (d :: cs)).1 + 1, (scanSubcommand interp inStr (d :: cs)).2) := by
  simp [scanSubcommand, hd]

theorem scanSubcommand_plain (interp inStr : Bool) (c : Char) (cs : Str) (h1 : c ≠ '"')
    (h2 : c ≠ '\\') :
    scanSubcommand interp inStr (c :: cs) =
      if (!inStr && interp) = true then
        if c = ';' then (0, some cs)
        else if c = '#' then (0, none)
        else ((scanSubcommand interp inStr cs).1 + 1, (scanSubcommand interp inStr cs).2)
      else ((scanSubcommand interp inStr cs).1 + 1, (scanSubcommand interp inStr cs).2) := by
  cases cs <;> simp [scanSubcommand, h1, h2]


theorem scanSubcommand_spec (interp : Bool) :
    ∀ (k : Nat) (s : Str) (inStr : Bool), s.length ≤ k →
      (scanSubcommand interp inStr s).1 ≤ s.length ∧
      (∀ rest, (scanSubcommand interp inStr s).2 = some rest →
        rest = s.drop ((scanSubcommand interp inStr s).1 + 1) ∧
        (scanSubcommand interp inStr s).1 + 1 + rest.length = s.length) ∧
      (interp = false → scanSubcommand interp inStr s = (s.length, none)) := by
  intro k
  induction k with
  | zero =>
    intro s inStr h
    have : s = [] := List.length_eq_zero.mp (by omega)
    subst this
    simp [scanSubcommand_nil]
  | succ k ih =>
    intro s inStr h
    cases s with
    | nil => simp [scanSubcommand_nil]
    | cons c cs =>
      have hcs : cs.length ≤ k := by simpa using h
      by_cases h1 : c = '"'
      · subst h1
        obtain ⟨a1, a2, a3⟩ := ih cs (!inStr) hcs
        rw [scanSubcommand_quote]
        refine ⟨by simp; omega, ?_, ?_⟩
        · intro rest hr
          obtain ⟨b1, b2⟩ := a2 rest hr
          refine ⟨by simpa using b1, by simp; omega⟩
        · intro hi
          rw [a3 hi]
          simp
      · by_cases h2 : c = '\\'
        · subst h2
          cases cs with
          | nil => simp [scanSubcommand_bs_nil]
          | cons d cs2 =>
            by_cases hd : d = '"'
            · subst hd
              have hcs2 : cs2.length ≤ k := by simp at hcs; omega
              obtain ⟨a1, a2, a3⟩ := ih cs2 inStr hcs2
              rw [scanSubcommand_bs_quote]
              refine ⟨by simp; omega, ?_, ?_⟩
              · intro rest hr
                obtain ⟨b1, b2⟩ := a2 rest hr
                refine ⟨by simpa using b1, by simp; omega⟩
              · intro hi
                rw [a3 hi]
                simp
            · obtain ⟨a1, a2, a3⟩ := ih (d :: cs2) inStr hcs
              rw [scanSubcommand_bs_other _ _ _ _ hd]
              refine ⟨by simp at a1 ⊢; omega, ?_, ?_⟩
              · intro rest hr
                obtain ⟨b1, b2⟩ := a2 rest hr
                refine ⟨by simpa using b1, by simp at b2 ⊢; omega⟩
              · intro hi
                rw [a3 hi]
                simp
        · obtain ⟨a1, a2, a3⟩ := ih cs inStr hcs
          rw [scanSubcommand_plain _ _ _ _ h1 h2]
          split
          · split
            · refine ⟨by simp, ?_, ?_⟩
              · intro rest hr
                simp at hr
                subst hr
                simp
                omega
              · intro hi; simp_all
            · split
              · refine ⟨by simp, by simp, ?_⟩
                intro hi; simp_all
              · refine ⟨by simp; omega, ?_, ?_⟩
                · intro rest hr
                  obtain ⟨b1, b2⟩ := a2 rest hr
                  refine ⟨by simpa using b1, by simp; omega⟩
                · intro hi
                  rw [a3 hi]
                  simp
          · refine ⟨by simp; omega, ?_, ?_⟩
            · intro rest hr
              obtain ⟨b1, b2⟩ := a2 rest hr
              refine ⟨by simpa using b1, by simp; omega⟩
            · intro hi
              rw [a3 hi]
              simp

theorem str_copy_append (pre x : Str) (n : Nat) (h : n - 1 ≤ pre.length) :
    str_copy (pre ++ x) n = str_copy pre n := by
  simp [str_copy, List.take_append_of_le_length h]

theorem ParseStart_append (env : Env) (R : CResult) (pre x : Str) (n : Nat)
    (h : n ≤ pre.length) :
    ParseStart env R (pre ++ x) (n + 1) = ParseStart env R pre (n + 1) := by
  unfold ParseStart
  have h2 : (if n + 1 < env.storageSize then n + 1 else env.storageSize) - 1 ≤ pre.length := by
    split <;> omega
  simp only [str_copy_append pre x _ h2]

theorem ParseStart_snd (env : Env) (R : CResult) (s : Str) (n : Nat) :
    (ParseStart env R s n).2 = 0 := rfl

theorem ParseStart_fits (env : Env) (R : CResult) (s : Str) (h : s.length < env.storageSize) :
    ParseStart env R s (s.length + 1) =
      ({ R with m_pCommand := tokenBefore env (str_skip_whitespaces env s),
                m_pArgsStart := (str_skip_to_whitespace env (str_skip_whitespaces env s)).tail }, 0) := by
  unfold ParseStart
  have h2 : str_copy s (if s.length + 1 < env.storageSize then s.length + 1 else env.storageSize)
      = s := by
    unfold str_copy
    apply List.take_of_length_le
    split <;> omega
  simp only [h2]

theorem lineLoop_none (env : Env) (reenter : ReenterFn) (Stroke : Bool) (cid : Int)
    (interp : Bool) (fuel : Nat) (c : CConsole) :
    lineLoop env reenter Stroke cid interp fuel none c = Except.ok c := by
  cases fuel <;> simp [lineLoop]

theorem lineLoop_nil (env : Env) (reenter : ReenterFn) (Stroke : Bool) (cid : Int)
    (interp : Bool) (fuel : Nat) (c : CConsole) :
    lineLoop env reenter Stroke cid interp fuel (some []) c = Except.ok c := by
  cases fuel <;> simp [lineLoop]

/-- One round of the loop on a line that is not empty. -/
theorem lineLoop_step (env : Env) (reenter : ReenterFn) (Stroke : Bool) (cid : Int)
    (interp : Bool) (fuel : Nat) (a : Char) (as : Str) (c : CConsole) :
    lineLoop env reenter Stroke cid interp (fuel + 1) (some (a :: as)) c =
      match dispatch env reenter Stroke cid
          (ParseStart env (CResult.init env cid) (a :: as)
            ((scanSubcommand interp false (a :: as)).1 + 1)).1 c with
      | Except.error e => Except.error e
      | Except.ok (Flow.ret, c1) => Except.ok c1
      | Except.ok (Flow.next, c1) =>
        lineLoop env reenter Stroke cid interp fuel (scanSubcommand interp false (a :: as)).2 c1 := by
  simp only [lineLoop]
  rw [if_neg (by simp [ParseStart_snd])]

theorem count_skip_whitespaces (env : Env) (x : Char) (hx : env.isSkipWs x = false) (s : Str) :
    (str_skip_whitespaces env s).count x = s.count x := by
  induction s with
  | nil => rfl
  | cons c cs ih =>
    by_cases hc : env.isSkipWs c = true
    · have hne : c ≠ x := by
        intro h; subst h; simp [hx] at hc
      simp [str_skip_whitespaces, hc, ih, List.count_cons, hne]
    · simp [str_skip_whitespaces, hc]

theorem count_token_tail (env : Env) (x : Char) (hx : env.isStopWs x = false) (s : Str) :
    (tokenBefore env s).count x + (str_skip_to_whitespace env s).tail.count x = s.count x := by
  induction s with
  | nil => rfl
  | cons c cs ih =>
    by_cases hc : env.isStopWs c = true
    · have hne : c ≠ x := by
        intro h; subst h; simp [hx] at hc
      simp [tokenBefore, str_skip_to_whitespace, hc, List.count_cons, hne]
    · simp [tokenBefore, str_skip_to_whitespace, hc, List.count_cons]
      omega

/-! ### Lines without semicolon splitting -/

/-- C10 as stated fails: a line that starts with `mc;` is split at `;` even
when the call passes `InterpretSemicolons = false` (two commands are
dispatched, neither tail holds a `;`), and a `;` in the first token of a
line becomes part of the command name, not of the argument tail. -/
theorem ExecuteLineStroked_mc_prefix_splits :
    ExecuteLineStroked ddnet (reentry ddnet 0) true "mc;echo a;echo b".toList (-1) false
        kickConsole =
      Except.ok (traceAppend kickConsole
        [Event.call Callback.Con_Echo
           { m_ClientID := -1, m_pCommand := "echo".toList, m_pArgsStart := "a".toList,
             m_apArgs := ["a".toList], m_Victim := -3 },
         Event.print 0 "console".toList (Msg.text "a".toList),
         Event.call Callback.Con_Echo
           { m_ClientID := -1, m_pCommand := "echo".toList, m_pArgsStart := "b".toList,
             m_apArgs := ["b".toList], m_Victim := -3 },
         Event.print 0 "console".toList (Msg.text "b".toList)])
    ∧ (ParseStart ddnet (CResult.init ddnet (-1)) "a;b c".toList 6).1.m_pCommand = "a;b".toList
    ∧ (ParseStart ddnet (CResult.init ddnet (-1)) "a;b c".toList 6).1.m_pArgsStart = "c".toList :=
  ⟨rfl, rfl, rfl⟩

/-- C10, amended. For every line that does not start with `mc;`,
`ExecuteLineStroked` called with `InterpretSemicolons = false` dispatches at
most one command: the line is not split, and the one sub-command handed to
the dispatch is what `ParseStart` extracts from the whole line.  When the
line fits the result storage (and `;` is not a whitespace character), every
`;` of the line is kept in the command name or the argument text of that
sub-command. -/
theorem ExecuteLineStroked_no_split (env : Env) (reenter : ReenterFn) (Stroke : Bool)
    (line : Str) (ClientID : Int) (c : CConsole)
    (hmc : str_startswith line "mc;".toList = none) :
    (ExecuteLineStroked env reenter Stroke line ClientID false c =
      if line = [] then Except.ok c
      else
        match dispatch env reenter Stroke ClientID
            (ParseStart env (CResult.init env ClientID) line (line.length + 1)).1 c with
        | Except.error e => Except.error e
        | Except.ok (_, c1) => Except.ok c1)
    ∧ (env.isSkipWs ';' = false → env.isStopWs ';' = false → line.length < env.storageSize →
        (ParseStart env (CResult.init env ClientID) line (line.length + 1)).1.m_pCommand.count ';'
          + (ParseStart env (CResult.init env ClientID) line
              (line.length + 1)).1.m_pArgsStart.count ';'
          = line.count ';') := by
  constructor
  · unfold ExecuteLineStroked
    simp only [hmc]
    cases line with
    | nil => simp [lineLoop_nil]
    | cons a as =>
      have hscan := (scanSubcommand_spec false (a :: as).length (a :: as) false (le_refl _)).2.2 rfl
      have hlen : (a :: as).length = as.length + 1 := rfl
      rw [hlen, lineLoop_step, hscan]
      simp only [lineLoop_none, hlen]
      rw [if_neg (by simp)]
      cases dispatch env reenter Stroke ClientID
          (ParseStart env (CResult.init env ClientID) (a :: as) (as.length + 1 + 1)).1 c with
      | error e => rfl
      | ok p =>
        obtain ⟨f, c1⟩ := p
        cases f <;> rfl
  · intro h1 h2 hfit
    rw [ParseStart_fits env _ line hfit]
    simp only []
    rw [count_token_tail env ';' h2, count_skip_whitespaces env ';' h1]

/-- The witness of C10: without splitting, `echo a;b` is one command with the
argument `a;b`. -/
theorem ExecuteLineStroked_no_split_witness :
    ExecuteLineStroked ddnet (reentry ddnet 0) true "echo a;b".toList (-1) false kickConsole =
      Except.ok (traceAppend kickConsole
        [Event.call Callback.Con_Echo
           { m_ClientID := -1, m_pCommand := "echo".toList, m_pArgsStart := "a;b".toList,
             m_apArgs := ["a;b".toList], m_Victim := -3 },
         Event.print 0 "console".toList (Msg.text "a;b".toList)]) :=
  (ExecuteLineStroked_no_split ddnet (reentry ddnet 0) true "echo a;b".toList (-1)
    kickConsole (by decide)).1.trans rfl

/-! ### Splitting a line at semicolons -/

theorem str_skip_whitespaces_eq_dropWhile (env : Env) (s : Str) :
    str_skip_whitespaces env s = s.dropWhile env.isSkipWs := by
  induction s with
  | nil => rfl
  | cons c cs ih => by_cases h : env.isSkipWs c = true <;> simp [str_skip_whitespaces, h, ih]

theorem str_skip_to_whitespace_eq_dropWhile (env : Env) (s : Str) :
    str_skip_to_whitespace env s = s.dropWhile (fun c => !env.isStopWs c) := by
  induction s with
  | nil => rfl
  | cons c cs ih => by_cases h : env.isStopWs c = true <;> simp [str_skip_to_whitespace, h, ih]

theorem tokenBefore_eq_takeWhile (env : Env) (s : Str) :
    tokenBefore env s = s.takeWhile (fun c => !env.isStopWs c) := by
  induction s with
  | nil => rfl
  | cons c cs ih => by_cases h : env.isStopWs c = true <;> simp [tokenBefore, h, ih]

theorem ParseStart_subcommandOf (env : Env) (ClientID : Int) (s : Str)
    (h : s.length < env.storageSize) :
    (ParseStart env (CResult.init env ClientID) s (s.length + 1)).1 = subcommandOf env ClientID s := by
  rw [ParseStart_fits env _ s h]
  simp [subcommandOf, firstToken, argumentTail, str_skip_whitespaces_eq_dropWhile,
    str_skip_to_whitespace_eq_dropWhile, tokenBefore_eq_takeWhile]

theorem scanSubcommand_plain_sep (s t : Str) (h : ∀ c ∈ s, plainChar c) :
    scanSubcommand true false (s ++ ';' :: t) = (s.length, some t) := by
  induction s with
  | nil => simp [scanSubcommand_plain]
  | cons c cs ih =>
    obtain ⟨h1, h2, h3, h4⟩ := h c (List.mem_cons_self c cs)
    have hcs : ∀ d ∈ cs, plainChar d := fun d hd => h d (List.mem_cons_of_mem c hd)
    simp [scanSubcommand_plain _ _ _ _ h1 h2, h3, h4, ih hcs]

theorem scanSubcommand_plain_end (s : Str) (h : ∀ c ∈ s, plainChar c) :
    scanSubcommand true false s = (s.length, none) := by
  induction s with
  | nil => simp [scanSubcommand_nil]
  | cons c cs ih =>
    obtain ⟨h1, h2, h3, h4⟩ := h c (List.mem_cons_self c cs)
    have hcs : ∀ d ∈ cs, plainChar d := fun d hd => h d (List.mem_cons_of_mem c hd)
    simp [scanSubcommand_plain _ _ _ _ h1 h2, h3, h4, ih hcs]

theorem dispatch_empty_command (env : Env) (reenter : ReenterFn) (Stroke : Bool)
    (ClientID : Int) (R : CResult) (c : CConsole) (h : R.m_pCommand = []) :
    dispatch env reenter Stroke ClientID R c = Except.ok (Flow.ret, c) := by
  unfold dispatch
  rw [if_pos h]

theorem lineLoop_joinSemi (env : Env) (reenter : ReenterFn) (Stroke : Bool) (ClientID : Int) :
    ∀ (ss : List Str) (fuel : Nat) (c : CConsole),
      (∀ s ∈ ss, ∀ ch ∈ s, plainChar ch) → (∀ s ∈ ss, s.length < env.storageSize) →
      (joinSemi ss).length ≤ fuel →
      lineLoop env reenter Stroke ClientID true fuel (some (joinSemi ss)) c =
        dispatchAll env reenter Stroke ClientID (ss.map (subcommandOf env ClientID)) c := by
  intro ss
  induction ss with
  | nil => intro fuel c _ _ _; simp [joinSemi, lineLoop_nil, dispatchAll]
  | cons s rest ih =>
    intro fuel c hplain hfit hfuel
    have hs : ∀ ch ∈ s, plainChar ch := hplain s (List.mem_cons_self s rest)
    have hsfit : s.length < env.storageSize := hfit s (List.mem_cons_self s rest)
    cases rest with
    | nil =>
      cases s with
      | nil =>
        have he : (subcommandOf env ClientID []).m_pCommand = [] := by
          simp [subcommandOf, firstToken]
        simp [joinSemi, lineLoop_nil, dispatchAll, dispatch_empty_command _ _ _ _ _ _ he]
      | cons a as =>
        cases fuel with
        | zero => simp [joinSemi] at hfuel
        | succ fuel =>
          simp only [joinSemi, List.map, dispatchAll]
          rw [lineLoop_step, scanSubcommand_plain_end (a :: as) hs,
            ParseStart_subcommandOf env ClientID (a :: as) hsfit]
          simp only [lineLoop_none]
    | cons t rest2 =>
      have hrest : ∀ s' ∈ t :: rest2, ∀ ch ∈ s', plainChar ch :=
        fun s' hs' => hplain s' (List.mem_cons_of_mem s hs')
      have hrfit : ∀ s' ∈ t :: rest2, s'.length < env.storageSize :=
        fun s' hs' => hfit s' (List.mem_cons_of_mem s hs')
      have hj : joinSemi (s :: t :: rest2) = s ++ ';' :: joinSemi (t :: rest2) := rfl
      rw [hj] at hfuel ⊢
      cases fuel with
      | zero => simp at hfuel
      | succ fuel =>
        have hne : ∃ a as, s ++ ';' :: joinSemi (t :: rest2) = a :: as := by
          cases s with
          | nil => exact ⟨_, _, rfl⟩
          | cons a as => exact ⟨a, as ++ ';' :: joinSemi (t :: rest2), rfl⟩
        obtain ⟨a, as, haas⟩ := hne
        have hstep := lineLoop_step env reenter Stroke ClientID true fuel a as c
        rw [← haas] at hstep
        rw [hstep, scanSubcommand_plain_sep s _ hs]
        simp only []
        rw [ParseStart_append env _ s _ s.length (le_refl _),
          ParseStart_subcommandOf env ClientID s hsfit]
        have hfuel2 : (joinSemi (t :: rest2)).length ≤ fuel := by
          simp at hfuel; omega
        simp only [List.map, dispatchAll]
        cases dispatch env reenter Stroke ClientID (subcommandOf env ClientID s) c with
        | error e => rfl
        | ok p =>
          obtain ⟨f, c1⟩ := p
          cases f with
          | ret => rfl
          | next =>
            simp only []
            rw [ih fuel c1 hrest hrfit hfuel2]
            rfl

/-- C1 as stated fails: the line `mc;echo hi` has the form `s1;s2` with the
parts `mc` and `echo hi`, but `ExecuteLineStroked` strips the prefix `mc;` and
processes one sub-command only; the part `mc` is never looked up, whereas
dispatching both parts would first report `No such command: mc.`. -/
theorem ExecuteLineStroked_mc_part_not_dispatched :
    joinSemi ["mc".toList, "echo hi".toList] = "mc;echo hi".toList
    ∧ ExecuteLineStroked ddnet (reentry ddnet 0) true "mc;echo hi".toList (-1) true
        kickConsole =
      Except.ok (traceAppend kickConsole
        [Event.call Callback.Con_Echo
           { m_ClientID := -1, m_pCommand := "echo".toList, m_pArgsStart := "hi".toList,
             m_apArgs := ["hi".toList], m_Victim := -3 },
         Event.print 0 "console".toList (Msg.text "hi".toList)])
    ∧ dispatchAll ddnet (reentry ddnet 0) true (-1)
        (["mc".toList, "echo hi".toList].map (subcommandOf ddnet (-1))) kickConsole =
      Except.ok (traceAppend kickConsole
        [Event.print 0 "console".toList
           (Msg.str_format 256 "No such command: %s.".toList ["mc".toList]),
         Event.call Callback.Con_Echo
           { m_ClientID := -1, m_pCommand := "echo".toList, m_pArgsStart := "hi".toList,
             m_apArgs := ["hi".toList], m_Victim := -3 },
         Event.print 0 "console".toList (Msg.text "hi".toList)]) :=
  ⟨rfl, rfl, rfl⟩

/-- C1, amended. For every line `s1;s2;...;sk` that does not start with
`mc;`, in which no part contains a double quote, a backslash, `;` or `#` and
every part is shorter than the result storage and has a non-empty command
name, `ExecuteLineStroked` with semicolon splitting enabled dispatches the
`k` sub-commands in left-to-right order, the i-th with the command name equal
to the first whitespace-delimited token of `si` and the argument text equal
to the rest of `si` behind the whitespace character that ends the token; the
processing ends early only where the dispatch of a sub-command returns from
the function (a dropped test-only command) or faults. -/
theorem ExecuteLineStroked_splits (env : Env) (reenter : ReenterFn) (Stroke : Bool)
    (ss : List Str) (ClientID : Int) (c : CConsole)
    (hmc : str_startswith (joinSemi ss) "mc;".toList = none)
    (hplain : ∀ s ∈ ss, ∀ ch ∈ s, plainChar ch)
    (hfit : ∀ s ∈ ss, s.length < env.storageSize)
    (hname : ∀ s ∈ ss, firstToken env s ≠ []) :
    ExecuteLineStroked env reenter Stroke (joinSemi ss) ClientID true c =
      dispatchAll env reenter Stroke ClientID (ss.map (subcommandOf env ClientID)) c
    ∧ (ss.map (subcommandOf env ClientID)).length = ss.length
    ∧ ∀ R ∈ ss.map (subcommandOf env ClientID), R.m_pCommand ≠ [] := by
  refine ⟨?_, List.length_map _ _, ?_⟩
  · unfold ExecuteLineStroked
    simp only [hmc]
    exact lineLoop_joinSemi env reenter Stroke ClientID ss _ c hplain hfit (le_refl _)
  · intro R hR
    obtain ⟨s, hs, rfl⟩ := List.mem_map.mp hR
    exact hname s hs

/-- The witness of C1: `echo hi; echo bye` on a server console invokes the
callback of `echo` twice, first with the single argument `hi`, then with the
single argument `bye`. -/
theorem ExecuteLineStroked_splits_witness :
    ExecuteLineStroked ddnet (reentry ddnet 0) true "echo hi; echo bye".toList (-1) true
        kickConsole =
      Except.ok (traceAppend kickConsole
        [Event.call Callback.Con_Echo
           { m_ClientID := -1, m_pCommand := "echo".toList, m_pArgsStart := "hi".toList,
             m_apArgs := ["hi".toList], m_Victim := -3 },
         Event.print 0 "console".toList (Msg.text "hi".toList),
         Event.call Callback.Con_Echo
           { m_ClientID := -1, m_pCommand := "echo".toList, m_pArgsStart := "bye".toList,
             m_apArgs := ["bye".toList], m_Victim := -3 },
         Event.print 0 "console".toList (Msg.text "bye".toList)]) :=
  (ExecuteLineStroked_splits ddnet (reentry ddnet 0) true
    ["echo hi".toList, " echo bye".toList] (-1) kickConsole (by decide)
    (by simp [plainChar]) (by simp [ddnet]) (by decide)).1.trans rfl

/-! ### Comments -/

theorem str_startswith_mc_append (pre post : Str) :
    str_startswith (pre ++ '#' :: post) "mc;".toList =
      (str_startswith pre "mc;".toList).map (fun w => w ++ '#' :: post) := by
  rcases pre with _ | ⟨a, _ | ⟨b, _ | ⟨d, w⟩⟩⟩
  · simp [str_startswith, String.toList]
  · by_cases ha : a = 'm' <;> simp [str_startswith, String.toList, ha]
  · by_cases ha : a = 'm' <;> by_cases hb : b = 'c' <;>
      simp [str_startswith, String.toList, ha, hb]
  · by_cases ha : a = 'm' <;> by_cases hb : b = 'c' <;> by_cases hd : d = ';' <;>
      simp [str_startswith, String.toList, ha, hb, hd]

theorem str_startswith_mc_some (pre w : Str) (h : str_startswith pre "mc;".toList = some w) :
    pre = 'm' :: 'c' :: ';' :: w := by
  rcases pre with _ | ⟨a, _ | ⟨b, _ | ⟨d, w2⟩⟩⟩
  · simp [str_startswith, String.toList] at h
  · by_cases ha : a = 'm' <;> simp [str_startswith, String.toList, ha] at h
  · by_cases ha : a = 'm' <;> by_cases hb : b = 'c' <;>
      simp [str_startswith, String.toList, ha, hb] at h
  · by_cases ha : a = 'm' <;> by_cases hb : b = 'c' <;> by_cases hd : d = ';' <;>
      simp [str_startswith, String.toList, ha, hb, hd] at h
    subst ha hb hd h
    rfl

theorem scanSubcommand_append_hash (post : Str) :
    ∀ (pre : Str) (inStr : Bool), '\\' ∉ pre → endsInString inStr pre = false →
      (scanSubcommand true inStr (pre ++ '#' :: post)).1 = (scanSubcommand true inStr pre).1 ∧
      (scanSubcommand true inStr (pre ++ '#' :: post)).2 =
        (scanSubcommand true inStr pre).2.map (fun w => w ++ '#' :: post) := by
  intro pre
  induction pre with
  | nil =>
    intro inStr _ hq
    simp only [endsInString] at hq
    subst hq
    simp [scanSubcommand_plain, scanSubcommand_nil]
  | cons c cs ih =>
    intro inStr hbs hq
    have hc : c ≠ '\\' := fun h => hbs (h ▸ List.mem_cons_self _ _)
    have hcs : '\\' ∉ cs := fun h => hbs (List.mem_cons_of_mem _ h)
    by_cases h1 : c = '"'
    · subst h1
      simp only [endsInString, if_true] at hq
      obtain ⟨a1, a2⟩ := ih (!inStr) hcs hq
      simp only [List.cons_append, scanSubcommand_quote, a1, a2]
      trivial
    · simp only [endsInString, if_neg h1] at hq
      obtain ⟨a1, a2⟩ := ih inStr hcs hq
      simp only [List.cons_append, scanSubcommand_plain _ _ _ _ h1 hc]
      split
      · split
        · simp
        · split
          · simp
          · simp [a1, a2]
      · simp [a1, a2]

theorem scanSubcommand_rest_endsInString :
    ∀ (pre : Str) (inStr : Bool) (rest : Str), '\\' ∉ pre →
      (scanSubcommand true inStr pre).2 = some rest →
      endsInString false rest = endsInString inStr pre := by
  intro pre
  induction pre with
  | nil => intro inStr rest _ h; simp [scanSubcommand_nil] at h
  | cons c cs ih =>
    intro inStr rest hbs h
    have hc : c ≠ '\\' := fun h => hbs (h ▸ List.mem_cons_self _ _)
    have hcs : '\\' ∉ cs := fun h => hbs (List.mem_cons_of_mem _ h)
    by_cases h1 : c = '"'
    · subst h1
      rw [scanSubcommand_quote] at h
      simp only [endsInString, if_true]
      exact ih (!inStr) rest hcs h
    · rw [scanSubcommand_plain _ _ _ _ h1 hc] at h
      simp only [endsInString, if_neg h1]
      split at h
      · rename_i hcond
        have hin : inStr = false := by simpa using hcond
        split at h
        · simp at h
          subst h
          rw [hin]
        · split at h
          · simp at h
          · exact ih inStr rest hcs h
      · exact ih inStr rest hcs h

theorem lineLoop_append_hash (env : Env) (reenter : ReenterFn) (Stroke : Bool)
    (ClientID : Int) (post : Str) :
    ∀ (k : Nat) (pre : Str) (f1 f2 : Nat) (c : CConsole), pre.length ≤ k →
      '\\' ∉ pre → endsInString false pre = false →
      (pre ++ '#' :: post).length ≤ f1 → pre.length ≤ f2 →
      lineLoop env reenter Stroke ClientID true f1 (some (pre ++ '#' :: post)) c =
        lineLoop env reenter Stroke ClientID true f2 (some pre) c := by
  intro k
  induction k with
  | zero =>
    intro pre f1 f2 c hk _ _ hf1 _
    have hp : pre = [] := List.length_eq_zero.mp (by omega)
    subst hp
    cases f1 with
    | zero => simp at hf1
    | succ f1 =>
      simp only [List.nil_append, lineLoop_nil]
      rw [lineLoop_step]
      have hscan : scanSubcommand true false ('#' :: post) = (0, none) := by
        simp [scanSubcommand_plain]
      have hcmd : (ParseStart env (CResult.init env ClientID) ('#' :: post) (0 + 1)).1.m_pCommand
          = [] := by
        unfold ParseStart
        have : str_copy ('#' :: post) (if 0 + 1 < env.storageSize then 0 + 1 else env.storageSize)
            = [] := by
          unfold str_copy
          split
          · simp
          · have : env.storageSize - 1 = 0 := by omega
            simp [this]
        simp [this, str_skip_whitespaces, tokenBefore]
      rw [hscan, dispatch_empty_command _ _ _ _ _ _ hcmd]
  | succ k ih =>
    intro pre f1 f2 c hk hbs hq hf1 hf2
    cases pre with
    | nil => exact ih [] f1 f2 c (by simp) hbs hq hf1 hf2
    | cons a as =>
      cases f1 with
      | zero => simp at hf1
      | succ f1 =>
        cases f2 with
        | zero => simp at hf2
        | succ f2 =>
          obtain ⟨a1, a2⟩ := scanSubcommand_append_hash post (a :: as) false hbs hq
          obtain ⟨b1, b2, _⟩ := scanSubcommand_spec true (a :: as).length (a :: as) false (le_refl _)
          have hstep1 := lineLoop_step env reenter Stroke ClientID true f1 a (as ++ '#' :: post) c
          rw [← List.cons_append] at hstep1
          rw [hstep1, lineLoop_step, a1, a2, ParseStart_append env _ (a :: as) _ _ b1]
          cases dispatch env reenter Stroke ClientID
              (ParseStart env (CResult.init env ClientID) (a :: as)
                ((scanSubcommand true false (a :: as)).1 + 1)).1 c with
          | error e => rfl
          | ok p =>
            obtain ⟨f, c1⟩ := p
            cases f with
            | ret => rfl
            | next =>
              simp only []
              cases hn : (scanSubcommand true false (a :: as)).2 with
              | none => simp [lineLoop_none]
              | some rest =>
                obtain ⟨c1', c2'⟩ := b2 rest hn
                have hrbs : '\\' ∉ rest := by
                  intro hmem
                  rw [c1'] at hmem
                  exact hbs (List.mem_of_mem_drop hmem)
                have hrq : endsInString false rest = false := by
                  rw [scanSubcommand_rest_endsInString (a :: as) false rest hbs hn]
                  exact hq
                simp only [Option.map_some']
                simp only [List.length_cons, List.length_append] at hf1 hf2 hk c2'
                exact ih rest f1 f2 c1 (by omega) hrbs hrq
                  (by simp only [List.length_cons, List.length_append]; omega) (by omega)

/-- C9 as stated fails for `InterpretSemicolons = false`: the scan looks for
`#` only when semicolon splitting is enabled, so the line `echo a#b` hands
the text `a#b`, the `#` and what follows it included, to the command. -/
theorem ExecuteLineStroked_hash_kept_without_split :
    ExecuteLineStroked ddnet (reentry ddnet 0) true "echo a#b".toList (-1) false kickConsole =
      Except.ok (traceAppend kickConsole
        [Event.call Callback.Con_Echo
           { m_ClientID := -1, m_pCommand := "echo".toList, m_pArgsStart := "a#b".toList,
             m_apArgs := ["a#b".toList], m_Victim := -3 },
         Event.print 0 "console".toList (Msg.text "a#b".toList)]) :=
  rfl

/-- C9, amended. When semicolon splitting is enabled for the call, a `#`
outside quotes ends the line: for every text `pre` without a backslash that
ends outside a quoted region and every text `post`, `ExecuteLineStroked` on
`pre # post` does exactly what it does on `pre`, so no character at or after
that `#` becomes part of a command name or an argument text and no
sub-command after it is dispatched. -/
theorem ExecuteLineStroked_comment (env : Env) (reenter : ReenterFn) (Stroke : Bool)
    (pre post : Str) (ClientID : Int) (c : CConsole)
    (hbs : '\\' ∉ pre) (hq : endsInString false pre = false) :
    ExecuteLineStroked env reenter Stroke (pre ++ '#' :: post) ClientID true c =
      ExecuteLineStroked env reenter Stroke pre ClientID true c := by
  unfold ExecuteLineStroked
  rw [str_startswith_mc_append]
  cases hm : str_startswith pre "mc;".toList with
  | none =>
    simp only [Option.map_none']
    exact lineLoop_append_hash env reenter Stroke ClientID post pre.length pre _ _ c
      (le_refl _) hbs hq (le_refl _) (le_refl _)
  | some w =>
    have hpre := str_startswith_mc_some pre w hm
    have hwbs : '\\' ∉ w := by
      intro h
      apply hbs
      rw [hpre]
      simp [h]
    have hwq : endsInString false w = false := by
      rw [hpre] at hq
      simpa [endsInString] using hq
    simp only [Option.map_some']
    exact lineLoop_append_hash env reenter Stroke ClientID post w.length w _ _ c
      (le_refl _) hwbs hwq (le_refl _) (le_refl _)

/-- The witness of C9: `echo a # c` runs as `echo a `. -/
theorem ExecuteLineStroked_comment_witness :
    ExecuteLineStroked ddnet (reentry ddnet 0) true "echo a # c".toList (-1) true
        kickConsole =
      Except.ok (traceAppend kickConsole
        [Event.call Callback.Con_Echo
           { m_ClientID := -1, m_pCommand := "echo".toList, m_pArgsStart := "a ".toList,
             m_apArgs := ["a ".toList], m_Victim := -3 },
         Event.print 0 "console".toList (Msg.text "a ".toList)]) :=
  (ExecuteLineStroked_comment ddnet (reentry ddnet 0) true "echo a ".toList " c".toList (-1)
    kickConsole (by decide) (by decide)).trans rfl

/-! ### The handlers of the console -/

theorem callsOf_append (es fs : List Event) : callsOf (es ++ fs) = callsOf es ++ callsOf fs := by
  induction es with
  | nil => rfl
  | cons e rest ih =>
    cases e <;> simp [callsOf, ih]

theorem LocalStep.refl (c : CConsole) : LocalStep c c :=
  ⟨rfl, rfl, [], (List.append_nil _).symm, rfl⟩

theorem LocalStep.trans {c d e : CConsole} (h1 : LocalStep c d) (h2 : LocalStep d e) :
    LocalStep c e := by
  obtain ⟨a1, a2, es, a3, a4⟩ := h1
  obtain ⟨b1, b2, fs, b3, b4⟩ := h2
  refine ⟨?_, b2.trans a2, es ++ fs, ?_, ?_⟩
  · rw [b1, a1]
    rfl
  · rw [b3, a3, List.append_assoc]
  · rw [callsOf_append, a4, b4]
    rfl

theorem LocalStep.print (c : CConsole) (l : Int) (f : Str) (m : Msg) :
    LocalStep c (Print c l f m) :=
  ⟨rfl, rfl, _, rfl, rfl⟩

/-- What a local step leaves as it is. -/
theorem LocalStep.fields {c d : CConsole} (h : LocalStep c d) :
    d.m_FlagMask = c.m_FlagMask ∧ d.m_AccessLevel = c.m_AccessLevel ∧
    d.m_StoreCommands = c.m_StoreCommands ∧ d.m_Cheated = c.m_Cheated ∧
    d.m_pRecycleList = c.m_pRecycleList ∧ d.m_TempCommands = c.m_TempCommands ∧
    d.m_ExecutionQueue = c.m_ExecutionQueue ∧ d.m_pFirstExec = c.m_pFirstExec ∧
    d.m_pfnTeeHistorianCommandCallback = c.m_pfnTeeHistorianCommandCallback ∧
    d.m_pStorage = c.m_pStorage := by
  obtain ⟨h1, _, _⟩ := h
  refine ⟨?_, ?_, ?_, ?_, ?_, ?_, ?_, ?_, ?_, ?_⟩ <;> (rw [h1]; rfl)

theorem updateFound_levelless (env : Env) (lvl : Int) :
    ∀ (l : List CCommand) (n : Str) (m : Nat),
      (updateFound (fun cmd => cmd.SetAccessLevel env lvl) l n m).map levelless =
        l.map levelless := by
  intro l
  induction l with
  | nil => intro n m; rfl
  | cons a rest ih =>
    intro n m
    by_cases h1 : hasFlag a.m_Flags m = true
    · by_cases h2 : str_comp_nocase a.m_pName n = 0
      · simp [updateFound, h1, h2, levelless, CCommand.SetAccessLevel]
      · simp [updateFound, h1, h2, ih]
    · simp [updateFound, h1, ih]

theorem LocalStep.commands (c : CConsole) (l : List CCommand)
    (h : l.map levelless = c.m_pFirstCommand.map levelless) :
    LocalStep c { c with m_pFirstCommand := l } :=
  ⟨rfl, h, [], (List.append_nil _).symm, rfl⟩

theorem LocalStep.thenPrint {c d : CConsole} (h : LocalStep c d) (l : Int) (f : Str) (m : Msg) :
    LocalStep c (Console.Print d l f m) :=
  h.trans (LocalStep.print d l f m)

theorem ConCommandAccess_local (env : Env) (R : CResult) (c : CConsole) :
    LocalStep c (ConCommandAccess env R c) := by
  unfold ConCommandAccess
  split
  · split
    · dsimp only
      repeat apply LocalStep.thenPrint
      exact LocalStep.commands c _ (updateFound_levelless env _ _ _ _)
    · dsimp only
      repeat apply LocalStep.thenPrint
      exact LocalStep.refl c
  · exact LocalStep.print _ _ _ _

theorem commandStatusLoop_local (env : Env) (m : Nat) (lvl : Int) :
    ∀ (l : List CCommand) (aBuf : Str) (Used : Nat) (c : CConsole),
      LocalStep c (commandStatusLoop env m lvl l aBuf Used c).1 := by
  intro l
  induction l with
  | nil => intro aBuf Used c; exact LocalStep.refl c
  | cons a rest ih =>
    intro aBuf Used c
    simp only [commandStatusLoop]
    split
    · split
      · split
        · exact ih _ _ _
        · exact ih _ _ _
      · exact LocalStep.trans (LocalStep.print _ _ _ _) (ih _ _ _)
    · exact ih _ _ _

theorem ConCommandStatus_local (env : Env) (R : CResult) (c : CConsole) :
    LocalStep c (ConCommandStatus env R c) := by
  unfold ConCommandStatus
  have h := commandStatusLoop_local env c.m_FlagMask
    (clamp (R.GetInteger env 0) env.ACCESS_LEVEL_ADMIN env.ACCESS_LEVEL_USER)
    c.m_pFirstCommand [] 0 c
  generalize commandStatusLoop env c.m_FlagMask
    (clamp (R.GetInteger env 0) env.ACCESS_LEVEL_ADMIN env.ACCESS_LEVEL_USER)
    c.m_pFirstCommand [] 0 c = r at h
  obtain ⟨c1, aBuf, Used⟩ := r
  dsimp only
  split
  · exact h.thenPrint _ _ _
  · exact h

theorem ConUserCommandStatus_local (env : Env) (c : CConsole) :
    LocalStep c (ConUserCommandStatus env c) :=
  ConCommandStatus_local env _ c

theorem IntVariableCommand_local (env : Env) (d : CIntVariableData) (R : CResult)
    (c : CConsole) : LocalStep c (IntVariableCommand env d R c) := by
  unfold IntVariableCommand
  split
  · dsimp only
    split
    · exact ⟨rfl, rfl, [], (List.append_nil _).symm, rfl⟩
    · exact ⟨rfl, rfl, [], (List.append_nil _).symm, rfl⟩
  · exact LocalStep.print _ _ _ _

theorem ColVariableCommand_local (env : Env) (d : CColVariableData) (R : CResult)
    (c : CConsole) : LocalStep c (ColVariableCommand env d R c) := by
  unfold ColVariableCommand
  split
  · dsimp only
    split
    · exact ⟨rfl, rfl, [], (List.append_nil _).symm, rfl⟩
    · exact ⟨rfl, rfl, [], (List.append_nil _).symm, rfl⟩
  · dsimp only
    split
    · repeat apply LocalStep.thenPrint
      exact LocalStep.refl c
    · repeat apply LocalStep.thenPrint
      exact LocalStep.refl c

theorem StrVariableCommand_local (env : Env) (d : CStrVariableData) (R : CResult)
    (c : CConsole) : LocalStep c (StrVariableCommand env d R c) := by
  unfold StrVariableCommand
  split
  · dsimp only
    split
    · exact ⟨rfl, rfl, [], (List.append_nil _).symm, rfl⟩
    · exact ⟨rfl, rfl, [], (List.append_nil _).symm, rfl⟩
  · exact LocalStep.print _ _ _ _

/-- A callback that makes no call back into the console: the state it returns
is a local step behind the record of the call. -/
theorem invoke_local (env : Env) (reenter : ReenterFn) (cb : Callback) (R : CResult)
    (c c' : CConsole) (hcb : cb.reenters = false)
    (h : invoke env reenter cb R c = Except.ok c') :
    LocalStep (c.log (Event.call cb R)) c' := by
  cases cb with
  | null => simp [invoke] at h
  | Con_Exec => simp [Callback.reenters] at hcb
  | ConToggle => simp [Callback.reenters] at hcb
  | ConToggleStroke => simp [Callback.reenters] at hcb
  | Con_Echo =>
    simp only [invoke, Except.ok.injEq] at h
    rw [← h]
    exact LocalStep.print _ _ _ _
  | ConCommandAccess =>
    simp only [invoke, Except.ok.injEq] at h
    rw [← h]
    exact ConCommandAccess_local env R _
  | ConCommandStatus =>
    simp only [invoke, Except.ok.injEq] at h
    rw [← h]
    exact ConCommandStatus_local env R _
  | ConUserCommandStatus =>
    simp only [invoke, Except.ok.injEq] at h
    rw [← h]
    exact ConUserCommandStatus_local env _
  | IntVariableCommand d =>
    simp only [invoke, Except.ok.injEq] at h
    rw [← h]
    exact IntVariableCommand_local env d R _
  | ColVariableCommand d =>
    simp only [invoke, Except.ok.injEq] at h
    rw [← h]
    exact ColVariableCommand_local env d R _
  | StrVariableCommand d =>
    simp only [invoke, Except.ok.injEq] at h
    rw [← h]
    exact StrVariableCommand_local env d R _
  | handler f u =>
    simp only [invoke, Except.ok.injEq] at h
    rw [← h]
    exact LocalStep.refl _
  | Con_Chain f u n =>
    simp only [invoke, Except.ok.injEq] at h
    rw [← h]
    exact LocalStep.refl _

/-- A callback that makes no call back into the console returns. -/
theorem invoke_local_ok (env : Env) (reenter : ReenterFn) (cb : Callback) (R : CResult)
    (c : CConsole) (hcb : cb.reenters = false) (hnull : cb ≠ Callback.null) :
    ∃ c', invoke env reenter cb R c = Except.ok c' := by
  cases cb with
  | null => exact absurd rfl hnull
  | Con_Exec => simp [Callback.reenters] at hcb
  | ConToggle => simp [Callback.reenters] at hcb
  | ConToggleStroke => simp [Callback.reenters] at hcb
  | _ => exact ⟨_, rfl⟩

/-- What the toggle handlers do: they print one message, or execute one line
by a call back into the console. -/
theorem ConToggle_cases (env : Env) (reenter : ReenterFn) (R : CResult) (c : CConsole) :
    (∃ m, ConToggle env reenter R c =
        Except.ok (Print c env.OUTPUT_LEVEL_STANDARD "console".toList m))
    ∨ (∃ pStr, ConToggle env reenter R c =
        reenter (Reentry.ExecuteLine pStr env.defaultClientID env.defaultInterpretSemicolons) c) := by
  unfold ConToggle
  split
  · split
    · exact Or.inr ⟨_, rfl⟩
    · exact Or.inr ⟨_, rfl⟩
    · exact Or.inr ⟨_, rfl⟩
    · exact Or.inl ⟨_, rfl⟩
  · exact Or.inl ⟨_, rfl⟩

theorem ConToggleStroke_cases (env : Env) (reenter : ReenterFn) (R : CResult) (c : CConsole) :
    (∃ m, ConToggleStroke env reenter R c =
        Except.ok (Print c env.OUTPUT_LEVEL_STANDARD "console".toList m))
    ∨ (∃ pStr, ConToggleStroke env reenter R c =
        reenter (Reentry.ExecuteLine pStr env.defaultClientID env.defaultInterpretSemicolons) c) := by
  unfold ConToggleStroke
  split
  · split
    · exact Or.inr ⟨_, rfl⟩
    · exact Or.inl ⟨_, rfl⟩
  · exact Or.inl ⟨_, rfl⟩

/-- A callback that calls back into the console: behind the record of the
call it makes one call back, or (a toggle handler) prints one message. -/
theorem invoke_reenters (env : Env) (reenter : ReenterFn) (cb : Callback) (R : CResult)
    (c : CConsole) (hcb : cb.reenters = true) :
    (∃ m, invoke env reenter cb R c =
        Except.ok (Print (c.log (Event.call cb R)) env.OUTPUT_LEVEL_STANDARD "console".toList m))
    ∨ (∃ call, invoke env reenter cb R c = reenter call (c.log (Event.call cb R))) := by
  cases cb with
  | Con_Exec => exact Or.inr ⟨_, rfl⟩
  | ConToggle =>
    rcases ConToggle_cases env reenter R (c.log (Event.call Callback.ConToggle R)) with
      ⟨m, h⟩ | ⟨s, h⟩
    · exact Or.inl ⟨m, h⟩
    · exact Or.inr ⟨_, h⟩
  | ConToggleStroke =>
    rcases ConToggleStroke_cases env reenter R (c.log (Event.call Callback.ConToggleStroke R)) with
      ⟨m, h⟩ | ⟨s, h⟩
    · exact Or.inl ⟨m, h⟩
    · exact Or.inr ⟨_, h⟩
  | _ => simp [Callback.reenters] at hcb

theorem Stable.traceAppend {P : CConsole → Prop} (hS : Stable P) :
    ∀ (es : List Event) (c : CConsole), P c → P (traceAppend c es) := by
  intro es
  induction es with
  | nil => intro c hc; simpa [Console.traceAppend] using hc
  | cons e rest ih =>
    intro c hc
    have h := ih (c.log e) (hS.hlog c e hc)
    simpa [Console.traceAppend, CConsole.log] using h

theorem Stable.local {P : CConsole → Prop} (hS : Stable P) (c d : CConsole)
    (h : LocalStep c d) (hc : P c) : P d :=
  hS.hlocal c d h hc

/-! ### The execution queue -/

theorem invoke_opaque (env : Env) (reenter : ReenterFn) (cb : Callback) (R : CResult)
    (c : CConsole) (h : cb.isOpaque = true) :
    invoke env reenter cb R c = Except.ok (c.log (Event.call cb R)) := by
  cases cb <;> simp [Callback.isOpaque] at h <;> rfl

theorem runQueue_opaque (env : Env) (reenter : ReenterFn) :
    ∀ (es : List CQueueEntry) (c : CConsole), (∀ e ∈ es, e.m_Callback.isOpaque = true) →
      runQueue env reenter es c =
        Except.ok (traceAppend c (es.map (fun e => Event.call e.m_Callback e.m_Result))) := by
  intro es
  induction es with
  | nil => intro c _; simp [runQueue, traceAppend]
  | cons e rest ih =>
    intro c h
    have he := h e (List.mem_cons_self e rest)
    have hrest : ∀ e' ∈ rest, e'.m_Callback.isOpaque = true :=
      fun e' he' => h e' (List.mem_cons_of_mem e he')
    simp [runQueue, invoke_opaque env reenter _ _ _ he, ih _ hrest, traceAppend, CConsole.log]

theorem dispatch_enqueue (env : Env) (reenter : ReenterFn) (ClientID : Int)
    (Result Result2 : CResult) (c : CConsole) (pCommand : CCommand)
    (hname : Result.m_pCommand ≠ [])
    (hfind : FindCommand c.m_pFirstCommand Result.m_pCommand c.m_FlagMask = some pCommand)
    (hmap : ¬ (ClientID = env.CLIENT_ID_GAME ∧ ¬ hasFlag pCommand.m_Flags env.CFGFLAG_GAME))
    (hnomap : ¬ (ClientID = env.CLIENT_ID_NO_GAME ∧ hasFlag pCommand.m_Flags env.CFGFLAG_GAME))
    (hlevel : pCommand.m_AccessLevel ≥ c.m_AccessLevel)
    (hparse : ParseArgs env
        (if Result.m_pCommand.head? = some '+' then Result.AddArgument (m_paStrokeStr true)
         else Result) pCommand.m_pParams = (Result2, 0))
    (hstore : c.m_StoreCommands = true)
    (hflag : hasFlag pCommand.m_Flags env.CFGFLAG_STORE = true) :
    dispatch env reenter true ClientID Result c =
      Except.ok (Flow.next,
        enqueue c [{ m_Callback := pCommand.m_Callback, m_Result := Result2 }]) := by
  unfold dispatch
  rw [if_neg hname]
  simp only [hfind]
  rw [if_neg hmap, if_neg hnomap, if_pos hlevel]
  simp only [Bool.true_or, if_true, decide_eq_true_eq, hparse]
  rw [if_neg (by simp), if_pos ⟨hstore, hflag⟩]
  rfl

theorem dispatch_release_plain (env : Env) (reenter : ReenterFn) (ClientID : Int)
    (Result : CResult) (c : CConsole) (pCommand : CCommand)
    (hname : Result.m_pCommand ≠ [])
    (hplus : Result.m_pCommand.head? ≠ some '+')
    (hfind : FindCommand c.m_pFirstCommand Result.m_pCommand c.m_FlagMask = some pCommand) :
    dispatch env reenter false ClientID Result c = Except.ok (Flow.next, c) := by
  unfold dispatch
  rw [if_neg hname, hfind]
  dsimp only
  by_cases h1 : ClientID = env.CLIENT_ID_GAME ∧ ¬ hasFlag pCommand.m_Flags env.CFGFLAG_GAME
  · rw [if_pos h1]
    rfl
  · rw [if_neg h1]
    by_cases h2 : ClientID = env.CLIENT_ID_NO_GAME ∧ hasFlag pCommand.m_Flags env.CFGFLAG_GAME
    · rw [if_pos h2]
      rfl
    · rw [if_neg h2]
      by_cases h3 : pCommand.m_AccessLevel ≥ c.m_AccessLevel
      · have hp : decide (Result.m_pCommand.head? = some '+') = false := by simp [hplus]
        rw [if_pos h3, hp]
        rfl
      · rw [if_neg h3]
        rfl

theorem ExecuteLineStroked_single (env : Env) (reenter : ReenterFn) (Stroke : Bool)
    (line : Str) (ClientID : Int) (interp : Bool) (c : CConsole)
    (hmc : str_startswith line "mc;".toList = none)
    (hscan : scanSubcommand interp false line = (line.length, none))
    (hne : line ≠ []) :
    ExecuteLineStroked env reenter Stroke line ClientID interp c =
      match dispatch env reenter Stroke ClientID
          (ParseStart env (CResult.init env ClientID) line (line.length + 1)).1 c with
      | Except.error e => Except.error e
      | Except.ok (_, c1) => Except.ok c1 := by
  unfold ExecuteLineStroked
  simp only [hmc]
  cases line with
  | nil => exact absurd rfl hne
  | cons a as =>
    have hlen : (a :: as).length = as.length + 1 := rfl
    rw [hlen, lineLoop_step, ← hlen, hscan]
    simp only [lineLoop_none]
    cases dispatch env reenter Stroke ClientID
        (ParseStart env (CResult.init env ClientID) (a :: as) ((a :: as).length + 1)).1 c with
    | error e => rfl
    | ok p =>
      obtain ⟨f, c1⟩ := p
      cases f <;> rfl

theorem ParseStart_nil_command (env : Env) (R : CResult) (n : Nat) :
    (ParseStart env R [] n).1.m_pCommand = [] := by
  simp [ParseStart, str_copy, str_skip_whitespaces, tokenBefore]

theorem ExecuteLineStroked_queues (env : Env) (reenter : ReenterFn) (line : Str)
    (ClientID : Int) (interp : Bool) (c : CConsole) (e : CQueueEntry)
    (hstore : c.m_StoreCommands = true)
    (h : Queues env c.m_pFirstCommand c.m_FlagMask c.m_AccessLevel line ClientID interp e) :
    ExecuteLineStroked env reenter true line ClientID interp c = Except.ok (enqueue c [e]) := by
  obtain ⟨hmc, hscan, pCommand, hname, hfind, hmap, hnomap, hlevel, hflag, hparse, hcb⟩ := h
  have hne : line ≠ [] := by
    intro h0
    subst h0
    exact hname (ParseStart_nil_command env _ _)
  rw [ExecuteLineStroked_single env reenter true line ClientID interp c hmc hscan hne,
    dispatch_enqueue env reenter ClientID _ e.m_Result c pCommand hname hfind hmap hnomap hlevel
      hparse hstore hflag, ← hcb]

theorem ExecuteLineStroked_release_found (env : Env) (reenter : ReenterFn) (line : Str)
    (ClientID : Int) (interp : Bool) (c : CConsole) (e : CQueueEntry)
    (h : Queues env c.m_pFirstCommand c.m_FlagMask c.m_AccessLevel line ClientID interp e)
    (hplus : (ParseStart env (CResult.init env ClientID) line
      (line.length + 1)).1.m_pCommand.head? ≠ some '+') :
    ExecuteLineStroked env reenter false line ClientID interp c = Except.ok c := by
  obtain ⟨hmc, hscan, pCommand, hname, hfind, _⟩ := h
  have hne : line ≠ [] := by
    intro h0
    subst h0
    exact hname (ParseStart_nil_command env _ _)
  rw [ExecuteLineStroked_single env reenter false line ClientID interp c hmc hscan hne,
    dispatch_release_plain env reenter ClientID _ c pCommand hname hplus hfind]

theorem pressAll_queues (env : Env) (reenter : ReenterFn) (cmds : List CCommand)
    (FlagMask : Nat) (AccessLevel : Int) (subs : List (Str × Int × Bool))
    (entries : List CQueueEntry)
    (hq : List.Forall₂
      (fun s e => Queues env cmds FlagMask AccessLevel s.1 s.2.1 s.2.2 e) subs entries) :
    ∀ c : CConsole, c.m_StoreCommands = true → c.m_pFirstCommand = cmds →
      c.m_FlagMask = FlagMask → c.m_AccessLevel = AccessLevel →
      pressAll env reenter subs c = Except.ok (enqueue c entries) := by
  induction hq with
  | nil => intro c _ _ _ _; simp [pressAll, enqueue]
  | @cons s e subs' entries' h _ ih =>
    intro c hstore h1 h2 h3
    have hs := ExecuteLineStroked_queues env reenter s.1 s.2.1 s.2.2 c e hstore
      (by rw [h1, h2, h3]; exact h)
    simp only [pressAll, hs]
    rw [ih (enqueue c [e]) hstore h1 h2 h3]
    simp [enqueue]

theorem executeAll_queues (env : Env) (reenter : ReenterFn) (cmds : List CCommand)
    (FlagMask : Nat) (AccessLevel : Int) (subs : List (Str × Int × Bool))
    (entries : List CQueueEntry)
    (hq : List.Forall₂
      (fun s e => Queues env cmds FlagMask AccessLevel s.1 s.2.1 s.2.2 e) subs entries) :
    ∀ c : CConsole, c.m_StoreCommands = true → c.m_pFirstCommand = cmds →
      c.m_FlagMask = FlagMask → c.m_AccessLevel = AccessLevel →
      (∀ s ∈ subs, (ParseStart env (CResult.init env s.2.1) s.1
        (s.1.length + 1)).1.m_pCommand.head? ≠ some '+') →
      executeAll env reenter subs c = Except.ok (enqueue c entries) := by
  induction hq with
  | nil => intro c _ _ _ _ _; simp [executeAll, enqueue]
  | @cons s e subs' entries' h _ ih =>
    intro c hstore h1 h2 h3 hplus
    have hs := ExecuteLineStroked_queues env reenter s.1 s.2.1 s.2.2 c e hstore
      (by rw [h1, h2, h3]; exact h)
    have hr := ExecuteLineStroked_release_found env reenter s.1 s.2.1 s.2.2 (enqueue c [e]) e
      (by
        show Queues env c.m_pFirstCommand c.m_FlagMask c.m_AccessLevel s.1 s.2.1 s.2.2 e
        rw [h1, h2, h3]; exact h)
      (hplus s (List.mem_cons_self _ _))
    simp only [executeAll, ExecuteLine, hs, hr]
    rw [ih (enqueue c [e]) hstore h1 h2 h3 (fun s' hs' => hplus s' (List.mem_cons_of_mem _ hs'))]
    simp [enqueue]

theorem runQueue_local (env : Env) (reenter : ReenterFn) :
    ∀ (es : List CQueueEntry) (c : CConsole),
      (∀ e ∈ es, e.m_Callback ≠ Callback.null ∧ e.m_Callback.reenters = false) →
      ∃ c1 evs, runQueue env reenter es c = Except.ok c1 ∧
        c1 = c.touch c1.m_pFirstCommand c1.g_Config c1.OldValue c1.trace ∧
        c1.m_pFirstCommand.map levelless = c.m_pFirstCommand.map levelless ∧
        c1.trace = c.trace ++ evs ∧
        callsOf evs = es.map (fun e => (e.m_Callback, e.m_Result)) := by
  intro es
  induction es with
  | nil =>
    intro c _
    exact ⟨c, [], rfl, rfl, rfl, (List.append_nil _).symm, rfl⟩
  | cons e rest ih =>
    intro c h
    obtain ⟨hnull, hcb⟩ := h e (List.mem_cons_self _ _)
    obtain ⟨c', hc'⟩ := invoke_local_ok env reenter e.m_Callback e.m_Result c hcb hnull
    obtain ⟨a1, a2, fs, a3, a4⟩ := invoke_local env reenter _ _ c c' hcb hc'
    obtain ⟨c1, evs, b1, b2, b3, b4, b5⟩ :=
      ih c' (fun x hx => h x (List.mem_cons_of_mem _ hx))
    refine ⟨c1, Event.call e.m_Callback e.m_Result :: (fs ++ evs), ?_, ?_, b3.trans a2, ?_, ?_⟩
    · simp only [runQueue, hc']
      exact b1
    · rw [b2, a1]
      rfl
    · rw [b4, a3]
      simp [CConsole.log]
    · simp only [callsOf, callsOf_append, a4, b5, List.nil_append, List.map_cons]

/-- C4. Queue replay: with buffering enabled, the press passes of `n` lines
that each hold one sub-command naming a command with the STORE flag (found,
context and access granted, valid arguments) change nothing but the
execution queue, to which they append the `n` entries in the order of
submission, so no callback is invoked; `StoreCommands(false)` then runs the
entries of the queue in that order, each callback once with the result
captured at submission, and leaves the queue empty and buffering off: for
handlers outside `console.cpp` the final state is the one with these calls
recorded; for every handler that makes no call back into the console (the
variable commands of `console.cpp` among them) the drain returns, the
callback invocations it records are those of the entries, in order, and beside
the queue and the buffering flag it changes only what these handlers write
(access levels, `g_Config`, old values, output).  For commands whose names do
not start with `+` the same holds for `ExecuteLine` (press and release
pass). -/
theorem StoreCommands_replays_queue (env : Env) (reenter : ReenterFn) (c : CConsole)
    (subs : List (Str × Int × Bool)) (entries : List CQueueEntry)
    (hstore : c.m_StoreCommands = true)
    (hq : List.Forall₂
      (fun s e => Queues env c.m_pFirstCommand c.m_FlagMask c.m_AccessLevel s.1 s.2.1 s.2.2 e)
      subs entries) :
    pressAll env reenter subs c = Except.ok (enqueue c entries)
    ∧ entries.length = subs.length
    ∧ (enqueue c entries).trace = c.trace
    ∧ StoreCommands env reenter false (enqueue c entries) =
        (match runQueue env reenter (c.m_ExecutionQueue ++ entries) (enqueue c entries) with
         | Except.error e => Except.error e
         | Except.ok c1 =>
           Except.ok { c1 with m_ExecutionQueue := [], m_StoreCommands := false })
    ∧ ((∀ e ∈ c.m_ExecutionQueue ++ entries, e.m_Callback.isOpaque = true) →
        StoreCommands env reenter false (enqueue c entries) =
          Except.ok
            { traceAppend c
                ((c.m_ExecutionQueue ++ entries).map
                  (fun e => Event.call e.m_Callback e.m_Result)) with
              m_ExecutionQueue := [], m_StoreCommands := false })
    ∧ ((∀ e ∈ c.m_ExecutionQueue ++ entries,
          e.m_Callback ≠ Callback.null ∧ e.m_Callback.reenters = false) →
        ∃ c1 evs, StoreCommands env reenter false (enqueue c entries) = Except.ok c1 ∧
          c1.m_ExecutionQueue = [] ∧ c1.m_StoreCommands = false ∧
          c1 = { c.touch c1.m_pFirstCommand c1.g_Config c1.OldValue c1.trace with
                 m_ExecutionQueue := [], m_StoreCommands := false } ∧
          c1.m_pFirstCommand.map levelless = c.m_pFirstCommand.map levelless ∧
          c1.trace = c.trace ++ evs ∧
          callsOf evs = (c.m_ExecutionQueue ++ entries).map (fun e => (e.m_Callback, e.m_Result)))
    ∧ ((∀ s ∈ subs, (ParseStart env (CResult.init env s.2.1) s.1
          (s.1.length + 1)).1.m_pCommand.head? ≠ some '+') →
        executeAll env reenter subs c = Except.ok (enqueue c entries)) := by
  refine ⟨pressAll_queues env reenter _ _ _ subs entries hq c hstore rfl rfl rfl,
    hq.length_eq.symm, rfl, rfl, ?_, ?_,
    executeAll_queues env reenter _ _ _ subs entries hq c hstore rfl rfl rfl⟩
  · intro hop
    have hrun := runQueue_opaque env reenter (c.m_ExecutionQueue ++ entries)
      (enqueue c entries) hop
    simp only [StoreCommands, enqueue, Bool.not_false, if_true] at hrun ⊢
    rw [hrun]
    rfl
  · intro hloc
    obtain ⟨c1, evs, b1, b2, b3, b4, b5⟩ :=
      runQueue_local env reenter (c.m_ExecutionQueue ++ entries) (enqueue c entries) hloc
    refine ⟨{ c1 with m_ExecutionQueue := [], m_StoreCommands := false }, evs, ?_, rfl, rfl,
      ?_, b3, b4, b5⟩
    · simp only [StoreCommands, Bool.not_false, if_true]
      rw [show (enqueue c entries).m_ExecutionQueue = c.m_ExecutionQueue ++ entries from rfl, b1]
    · generalize c1.m_pFirstCommand = l at b2
      generalize c1.g_Config = g at b2
      generalize c1.OldValue = o at b2
      generalize c1.trace = t at b2
      rw [b2]
      rfl

/-- The witness of C4: with buffering enabled the lines `gfx_mode 1`,
`gfx_mode 2`, `gfx_mode 3` invoke nothing; `StoreCommands(false)` then calls
the handler three times, with `1`, `2` and `3` in this order, and empties
the queue. -/
theorem StoreCommands_replays_queue_witness :
    pressAll ddnet (reentry ddnet 0)
        [("gfx_mode 1".toList, -1, true), ("gfx_mode 2".toList, -1, true),
         ("gfx_mode 3".toList, -1, true)] storeConsole =
      Except.ok (enqueue storeConsole
        [{ m_Callback := Callback.handler 9 1,
           m_Result := { m_ClientID := -1, m_pCommand := "gfx_mode".toList,
                         m_pArgsStart := "1".toList, m_apArgs := ["1".toList], m_Victim := -3 } },
         { m_Callback := Callback.handler 9 1,
           m_Result := { m_ClientID := -1, m_pCommand := "gfx_mode".toList,
                         m_pArgsStart := "2".toList, m_apArgs := ["2".toList], m_Victim := -3 } },
         { m_Callback := Callback.handler 9 1,
           m_Result := { m_ClientID := -1, m_pCommand := "gfx_mode".toList,
                         m_pArgsStart := "3".toList, m_apArgs := ["3".toList], m_Victim := -3 } }])
    ∧ StoreCommands ddnet (reentry ddnet 0) false
        (enqueue storeConsole
          [{ m_Callback := Callback.handler 9 1,
             m_Result := { m_ClientID := -1, m_pCommand := "gfx_mode".toList,
                           m_pArgsStart := "1".toList, m_apArgs := ["1".toList], m_Victim := -3 } },
           { m_Callback := Callback.handler 9 1,
             m_Result := { m_ClientID := -1, m_pCommand := "gfx_mode".toList,
                           m_pArgsStart := "2".toList, m_apArgs := ["2".toList], m_Victim := -3 } },
           { m_Callback := Callback.handler 9 1,
             m_Result := { m_ClientID := -1, m_pCommand := "gfx_mode".toList,
                           m_pArgsStart := "3".toList, m_apArgs := ["3".toList],
                           m_Victim := -3 } }]) =
      Except.ok
        { storeConsole with
          m_StoreCommands := false,
          trace :=
            [Event.call (Callback.handler 9 1)
               { m_ClientID := -1, m_pCommand := "gfx_mode".toList, m_pArgsStart := "1".toList,
                 m_apArgs := ["1".toList], m_Victim := -3 },
             Event.call (Callback.handler 9 1)
               { m_ClientID := -1, m_pCommand := "gfx_mode".toList, m_pArgsStart := "2".toList,
                 m_apArgs := ["2".toList], m_Victim := -3 },
             Event.call (Callback.handler 9 1)
               { m_ClientID := -1, m_pCommand := "gfx_mode".toList, m_pArgsStart := "3".toList,
                 m_apArgs := ["3".toList], m_Victim := -3 }] } := by
  have hcmd : ∀ (a : Str), a = "1".toList ∨ a = "2".toList ∨ a = "3".toList →
      Queues ddnet storeConsole.m_pFirstCommand storeConsole.m_FlagMask storeConsole.m_AccessLevel
        ("gfx_mode ".toList ++ a) (-1) true
        { m_Callback := Callback.handler 9 1,
          m_Result := { m_ClientID := -1, m_pCommand := "gfx_mode".toList,
                        m_pArgsStart := a, m_apArgs := [a], m_Victim := -3 } } := by
    intro a ha
    rcases ha with rfl | rfl | rfl <;>
      exact ⟨by decide, by decide,
        { m_pName := "gfx_mode".toList, m_pHelp := "Set the mode".toList,
          m_pParams := "i[mode]".toList, m_Flags := 10, m_Temp := false, m_AccessLevel := 0,
          m_Callback := Callback.handler 9 1 },
        by decide, by decide, by decide, by decide, by decide, by decide, by decide, rfl⟩
  have h := StoreCommands_replays_queue ddnet (reentry ddnet 0) storeConsole
    [("gfx_mode 1".toList, -1, true), ("gfx_mode 2".toList, -1, true),
     ("gfx_mode 3".toList, -1, true)] _ (by decide)
    (List.Forall₂.cons (hcmd _ (Or.inl rfl))
      (List.Forall₂.cons (hcmd _ (Or.inr (Or.inl rfl)))
        (List.Forall₂.cons (hcmd _ (Or.inr (Or.inr rfl))) List.Forall₂.nil)))
  exact ⟨h.1, (h.2.2.2.2.1 (by decide)).trans rfl⟩

/-- A queued variable command is run by the drain: the entry of the line
`gfx_x 1` writes 1 to the variable and to its old value. -/
theorem StoreCommands_sets_variable :
    StoreCommands ddnetVars (reentry ddnetVars 0) false (enqueue varsConsole [gfxXEntry]) =
      Except.ok
        { varsConsole with
          m_StoreCommands := false,
          g_Config := varsConsole.g_Config.setInt "GfxX".toList 1,
          OldValue := varsConsole.OldValue.setInt "GfxX".toList 1,
          trace := [Event.call gfxXEntry.m_Callback gfxXEntry.m_Result] } :=
  rfl

/-! ### The registry: sorted insertion and temporary commands -/

theorem str_comp_not_le_imp (a b : Str) (h : ¬ str_comp a b ≤ 0) : str_comp b a ≤ 0 := by
  induction a generalizing b with
  | nil => cases b <;> simp [str_comp] at h
  | cons x xs ih =>
    cases b with
    | nil => simp [str_comp]
    | cons y ys =>
      simp only [str_comp] at h ⊢
      by_cases h1 : x.toNat < y.toNat
      · simp [h1] at h
      · by_cases h2 : y.toNat < x.toNat
        · simp [h2]
        · simp only [h1, h2, if_false] at h ⊢
          exact ih ys h

theorem NamesSorted_iff_chain (l : List CCommand) :
    NamesSorted l ↔ List.Chain' (fun a b => str_comp a.m_pName b.m_pName ≤ 0) l := by
  induction l with
  | nil => simp [NamesSorted]
  | cons a rest ih =>
    cases rest with
    | nil => simp [NamesSorted]
    | cons b rest2 =>
      simp only [NamesSorted, List.chain'_cons]
      rw [ih]

theorem insertBehind_cons_cons (x p q : CCommand) (rest : List CCommand) :
    insertBehind x (p :: q :: rest) =
      if str_comp x.m_pName q.m_pName ≤ 0 then p :: x :: q :: rest
      else p :: insertBehind x (q :: rest) := by
  simp [insertBehind]

theorem AddCommandSorted_cons_cons (x p q : CCommand) (rest : List CCommand) :
    AddCommandSorted x (p :: q :: rest) =
      if str_comp x.m_pName p.m_pName ≤ 0 then x :: p :: q :: rest
      else insertBehind x (p :: q :: rest) := by
  simp [AddCommandSorted]

theorem insertBehind_split (x : CCommand) :
    ∀ (rest : List CCommand) (p : CCommand),
      ∃ l1 l2, rest = l1 ++ l2 ∧ insertBehind x (p :: rest) = p :: (l1 ++ x :: l2) ∧
        (∀ y ∈ l1, ¬ str_comp x.m_pName y.m_pName ≤ 0) ∧
        (∀ y, l2.head? = some y → str_comp x.m_pName y.m_pName ≤ 0) := by
  intro rest
  induction rest with
  | nil => intro p; exact ⟨[], [], rfl, rfl, by simp, by simp⟩
  | cons q rest2 ih =>
    intro p
    by_cases h : str_comp x.m_pName q.m_pName ≤ 0
    · refine ⟨[], q :: rest2, rfl, ?_, by simp, ?_⟩
      · rw [insertBehind_cons_cons, if_pos h]
        rfl
      · intro y hy
        simp at hy
        subst hy
        exact h
    · obtain ⟨l1, l2, h1, h2, h3, h4⟩ := ih q
      refine ⟨q :: l1, l2, by simp [h1], ?_, ?_, h4⟩
      · rw [insertBehind_cons_cons, if_neg h, h2]
        rfl
      · intro y hy
        rcases List.mem_cons.mp hy with rfl | hy'
        · exact h
        · exact h3 y hy'

theorem AddCommandSorted_split (x : CCommand) (l : List CCommand) (hl : 2 ≤ l.length) :
    ∃ l1 l2, l = l1 ++ l2 ∧ AddCommandSorted x l = l1 ++ x :: l2 ∧
      (∀ y ∈ l1, ¬ str_comp x.m_pName y.m_pName ≤ 0) ∧
      (∀ y, l2.head? = some y → str_comp x.m_pName y.m_pName ≤ 0) := by
  cases l with
  | nil => simp at hl
  | cons first rest =>
    cases rest with
    | nil => simp at hl
    | cons second rest2 =>
      by_cases h : str_comp x.m_pName first.m_pName ≤ 0
      · refine ⟨[], first :: second :: rest2, rfl, ?_, by simp, ?_⟩
        · rw [AddCommandSorted_cons_cons, if_pos h]
          rfl
        · intro y hy
          simp at hy
          subst hy
          exact h
      · obtain ⟨l1, l2, h1, h2, h3, h4⟩ := insertBehind_split x (second :: rest2) first
        refine ⟨first :: l1, l2, by simp [h1], ?_, ?_, h4⟩
        · rw [AddCommandSorted_cons_cons, if_neg h, h2]
          rfl
        · intro y hy
          rcases List.mem_cons.mp hy with rfl | hy'
          · exact h
          · exact h3 y hy'

theorem AddCommandSorted_length (x : CCommand) (l : List CCommand) (hl : 2 ≤ l.length) :
    (AddCommandSorted x l).length = l.length + 1 := by
  obtain ⟨l1, l2, h1, h2, _, _⟩ := AddCommandSorted_split x l hl
  rw [h2, h1]
  simp
  omega

theorem AddCommandSorted_filter_other (p : CCommand → Bool) (x : CCommand)
    (l : List CCommand) (hl : 2 ≤ l.length) (hx : p x = false) :
    (AddCommandSorted x l).filter p = l.filter p := by
  obtain ⟨l1, l2, h1, h2, _, _⟩ := AddCommandSorted_split x l hl
  rw [h2, h1]
  simp [List.filter_cons, hx]

theorem AddCommandSorted_filter_self (p : CCommand → Bool) (x : CCommand)
    (l : List CCommand) (hl : 2 ≤ l.length) (hx : p x = true) :
    ((AddCommandSorted x l).filter p).Perm (x :: l.filter p) := by
  obtain ⟨l1, l2, h1, h2, _, _⟩ := AddCommandSorted_split x l hl
  rw [h2, h1]
  simp only [List.filter_append, List.filter_cons, hx, if_true]
  exact List.perm_middle

theorem AddCommandSorted_sorted (x : CCommand) (l : List CCommand) (hl : 2 ≤ l.length)
    (hs : NamesSorted l) : NamesSorted (AddCommandSorted x l) := by
  obtain ⟨l1, l2, h1, h2, h3, h4⟩ := AddCommandSorted_split x l hl
  rw [NamesSorted_iff_chain] at hs ⊢
  rw [h2]
  rw [h1, List.chain'_append] at hs
  obtain ⟨c1, c2, _⟩ := hs
  rw [List.chain'_append]
  refine ⟨c1, ?_, ?_⟩
  · rw [List.chain'_cons']
    exact ⟨fun y hy => h4 y (by simpa using hy), c2⟩
  · intro y hy z hz
    simp at hz
    subst hz
    exact str_comp_not_le_imp _ _ (h3 y (List.mem_of_mem_getLast? hy))

theorem unlinkTemp_eq_filter (l : List CCommand) :
    unlinkTemp l = l.filter (fun x => !x.m_Temp) := by
  induction l with
  | nil => rfl
  | cons a rest ih => by_cases h : a.m_Temp = true <;> simp [unlinkTemp, h, ih]

theorem unlinkTemp_skipTemp (l : List CCommand) :
    unlinkTemp (skipTemp l) = l.filter (fun x => !x.m_Temp) := by
  induction l with
  | nil => rfl
  | cons a rest ih =>
    by_cases h : a.m_Temp = true
    · simp [skipTemp, h, ih]
    · simp [skipTemp, h, unlinkTemp, unlinkTemp_eq_filter]

theorem registerFields_temp (env : Env) (n p : Str) (f : Nat) (cb : Callback) (h : Str)
    (cmd : CCommand) : (registerFields env n p f cb h cmd).m_Temp = false := by
  unfold registerFields
  dsimp only
  split <;> rfl

theorem registerFields_name (env : Env) (n p : Str) (f : Nat) (cb : Callback) (h : Str)
    (cmd : CCommand) : (registerFields env n p f cb h cmd).m_pName = n := by
  unfold registerFields
  dsimp only
  split <;> rfl

theorem updateFound_length (f : CCommand → CCommand) (l : List CCommand) (n : Str) (m : Nat) :
    (updateFound f l n m).length = l.length := by
  induction l with
  | nil => rfl
  | cons a rest ih =>
    simp only [updateFound]
    split
    · split
      · rfl
      · simp [ih]
    · simp [ih]

theorem updateFound_mem (f : CCommand → CCommand) (l : List CCommand) (n : Str) (m : Nat)
    (y : CCommand) (hy : y ∈ updateFound f l n m) : y ∈ l ∨ ∃ z ∈ l, y = f z := by
  induction l with
  | nil => simp [updateFound] at hy
  | cons a rest ih =>
    simp only [updateFound] at hy
    split at hy
    · split at hy
      · rcases List.mem_cons.mp hy with rfl | h
        · exact Or.inr ⟨a, List.mem_cons_self _ _, rfl⟩
        · exact Or.inl (List.mem_cons_of_mem _ h)
      · rcases List.mem_cons.mp hy with rfl | h
        · exact Or.inl (List.mem_cons_self _ _)
        · rcases ih h with h' | ⟨z, hz, rfl⟩
          · exact Or.inl (List.mem_cons_of_mem _ h')
          · exact Or.inr ⟨z, List.mem_cons_of_mem _ hz, rfl⟩
    · rcases List.mem_cons.mp hy with rfl | h
      · exact Or.inl (List.mem_cons_self _ _)
      · rcases ih h with h' | ⟨z, hz, rfl⟩
        · exact Or.inl (List.mem_cons_of_mem _ h')
        · exact Or.inr ⟨z, List.mem_cons_of_mem _ hz, rfl⟩

theorem AddCommandSorted_mem (x : CCommand) (l : List CCommand) (hl : 2 ≤ l.length)
    (y : CCommand) (hy : y ∈ AddCommandSorted x l) : y = x ∨ y ∈ l := by
  obtain ⟨l1, l2, h1, h2, _, _⟩ := AddCommandSorted_split x l hl
  rw [h2] at hy
  rw [h1]
  simp at hy ⊢
  tauto

theorem Register_settled (env : Env) (n p : Str) (f : Nat) (cb : Callback) (h : Str)
    (c : CConsole) (hc : Settled c) : Settled (Register env n p f cb h c) := by
  obtain ⟨h1, h2, h3, h4⟩ := hc
  unfold Register
  cases FindCommand c.m_pFirstCommand n f with
  | none =>
    refine ⟨?_, ?_, h3, h4⟩
    · simp only [AddCommandSorted_length _ _ h1]
      omega
    · intro y hy
      rcases AddCommandSorted_mem _ _ h1 y hy with rfl | hy'
      · exact registerFields_temp _ _ _ _ _ _ _
      · exact h2 y hy'
  | some _ =>
    refine ⟨?_, ?_, h3, h4⟩
    · simp only [updateFound_length]
      exact h1
    · intro y hy
      rcases updateFound_mem _ _ _ _ y hy with hy' | ⟨z, _, rfl⟩
      · exact h2 y hy'
      · exact registerFields_temp _ _ _ _ _ _ _

theorem registerConfigVariables_settled (env : Env) :
    ∀ (vs : List ConfigVariable) (c : CConsole), Settled c →
      Settled (registerConfigVariables env vs c) := by
  intro vs
  induction vs with
  | nil => intro c hc; exact hc
  | cons v rest ih =>
    intro c hc
    simp only [registerConfigVariables]
    apply ih
    unfold registerConfigVariable
    split
    · exact Register_settled _ _ _ _ _ _ _ hc
    · split
      · exact Register_settled _ _ _ _ _ _ _ hc
      · exact Register_settled _ _ _ _ _ _ _ hc

theorem Register_recycle (env : Env) (n p : Str) (f : Nat) (cb : Callback) (h : Str)
    (c : CConsole) :
    (Register env n p f cb h c).m_pRecycleList = c.m_pRecycleList ∧
      (Register env n p f cb h c).m_TempCommands = c.m_TempCommands := by
  unfold Register
  cases FindCommand c.m_pFirstCommand n f <;> exact ⟨rfl, rfl⟩

theorem FindCommand_exec_echo (cmd : CCommand) (m : Nat) (hn : cmd.m_pName = "echo".toList) :
    FindCommand [cmd] "exec".toList m = none := by
  have h : str_comp_nocase "echo".toList "exec".toList ≠ 0 := by decide
  unfold FindCommand
  rw [hn, if_neg h]
  simp [FindCommand]

theorem Register_exec_after_echo (env : Env) (p : Str) (f : Nat) (cb : Callback) (h : Str)
    (c : CConsole) (E : CCommand) (hl : c.m_pFirstCommand = [E])
    (hn : E.m_pName = "echo".toList) :
    (Register env "exec".toList p f cb h c).m_pFirstCommand =
      [E, registerFields env "exec".toList p f cb h (CCommand.new env)] := by
  have hcmp : ¬ str_comp "exec".toList E.m_pName ≤ 0 := by
    rw [hn]; decide
  unfold Register
  rw [hl, FindCommand_exec_echo E f hn]
  simp only [AddCommandSorted, registerFields_name, if_neg hcmp, insertBehind]

theorem Register_first (env : Env) (n p : Str) (f : Nat) (cb : Callback) (h : Str)
    (c : CConsole) (hl : c.m_pFirstCommand = []) :
    (Register env n p f cb h c).m_pFirstCommand =
      [registerFields env n p f cb h (CCommand.new env)] := by
  unfold Register
  rw [hl]
  simp [FindCommand, AddCommandSorted]

theorem new_settled (env : Env) (FlagMask : Nat) (cfg : CConfig) :
    Settled (CConsole.new env FlagMask cfg) := by
  unfold CConsole.new
  dsimp only
  show Settled (registerConfigVariables env env.configVariables _)
  apply registerConfigVariables_settled
  iterate 5 apply Register_settled
  have h1 := Register_first env "echo".toList "r[text]".toList env.CFGFLAG_SERVER
    Callback.Con_Echo "Echo the text".toList
    { m_FlagMask := FlagMask, m_AccessLevel := env.ACCESS_LEVEL_ADMIN, m_StoreCommands := true,
      m_Cheated := false, m_pFirstCommand := [], m_pRecycleList := [], m_TempCommands := 0,
      m_ExecutionQueue := [], m_pFirstExec := [], m_pfnTeeHistorianCommandCallback := none,
      m_pStorage := false, g_Config := cfg, trace := [],
      OldValue := initialOldValue env.configVariables } rfl
  have h2 := Register_exec_after_echo env "r[file]".toList (env.CFGFLAG_SERVER ||| env.CFGFLAG_CLIENT)
    Callback.Con_Exec "Execute the specified file".toList _ _ h1 (registerFields_name _ _ _ _ _ _ _)
  refine ⟨?_, ?_, ?_, ?_⟩
  · rw [h2]
    simp
  · rw [h2]
    intro x hx
    simp at hx
    rcases hx with rfl | rfl <;> exact registerFields_temp _ _ _ _ _ _ _
  · rw [(Register_recycle _ _ _ _ _ _ _).1, (Register_recycle _ _ _ _ _ _ _).1]
  · rw [(Register_recycle _ _ _ _ _ _ _).2, (Register_recycle _ _ _ _ _ _ _).2]

theorem RegisterTemp_fresh (env : Env) (t : TempCommand) (c : CConsole)
    (h : c.m_pRecycleList = []) :
    RegisterTemp env t.pName t.pParams t.Flags t.pHelp c =
      { c with m_TempCommands := c.m_TempCommands + tempSize env,
               m_pFirstCommand := AddCommandSorted (tempDescriptor env t) c.m_pFirstCommand } := by
  unfold RegisterTemp
  rw [h]
  simp only [tempSize, tempDescriptor, Nat.add_assoc]

theorem registerTemps_spec (env : Env) :
    ∀ (batch : List TempCommand) (c : CConsole), c.m_pRecycleList = [] →
      2 ≤ c.m_pFirstCommand.length →
      (registerTemps env batch c).m_pRecycleList = [] ∧
      (registerTemps env batch c).m_TempCommands =
        c.m_TempCommands + batch.length * tempSize env ∧
      (registerTemps env batch c).m_pFirstCommand.filter (fun x => !x.m_Temp) =
        c.m_pFirstCommand.filter (fun x => !x.m_Temp) ∧
      ((registerTemps env batch c).m_pFirstCommand.filter (fun x => x.m_Temp)).Perm
        (batch.map (tempDescriptor env) ++ c.m_pFirstCommand.filter (fun x => x.m_Temp)) ∧
      (NamesSorted c.m_pFirstCommand → NamesSorted (registerTemps env batch c).m_pFirstCommand) := by
  intro batch
  induction batch with
  | nil => intro c h _; simp [registerTemps, h]
  | cons t rest ih =>
    intro c hr hl
    have hstep := RegisterTemp_fresh env t c hr
    have hl2 : 2 ≤ (AddCommandSorted (tempDescriptor env t) c.m_pFirstCommand).length := by
      rw [AddCommandSorted_length _ _ hl]; omega
    obtain ⟨i1, i2, i3, i4, i5⟩ := ih
      { c with m_TempCommands := c.m_TempCommands + tempSize env,
               m_pFirstCommand := AddCommandSorted (tempDescriptor env t) c.m_pFirstCommand }
      hr hl2
    simp only [registerTemps, hstep]
    refine ⟨i1, ?_, ?_, ?_, ?_⟩
    · rw [i2]
      simp only [List.length_cons]
      ring
    · rw [i3]
      exact AddCommandSorted_filter_other _ _ _ hl rfl
    · refine i4.trans ?_
      have hp := AddCommandSorted_filter_self (fun x => x.m_Temp) (tempDescriptor env t)
        c.m_pFirstCommand hl rfl
      simp only [List.map_cons]
      refine (List.Perm.append_left _ hp).trans ?_
      simp only [List.cons_append]
      exact List.perm_middle
    · intro hs
      exact i5 (AddCommandSorted_sorted _ _ hl hs)

theorem filter_not_temp_of_all (l : List CCommand) (h : ∀ x ∈ l, x.m_Temp = false) :
    l.filter (fun x => !x.m_Temp) = l ∧ l.filter (fun x => x.m_Temp) = [] := by
  constructor
  · apply List.filter_eq_self.mpr
    intro x hx
    simp [h x hx]
  · apply List.filter_eq_nil_iff.mpr
    intro x hx
    simp [h x hx]

/-- C7. Temporary-command churn: starting from a freshly constructed console
(whose command list is sorted), after `RegisterTemp` of a first batch,
`DeregisterTempAll` and `RegisterTemp` of a second batch of the same size,
the temporary descriptors in the registry are exactly those of the second
batch, the permanent descriptors are exactly those of the fresh console in
their original order, the whole list is sorted by name, the arena's used
size equals its used size after the first batch, and the freelist is
empty. -/
theorem temp_churn (env : Env) (FlagMask : Nat) (cfg : CConfig)
    (batch1 batch2 : List TempCommand) (hlen : batch1.length = batch2.length)
    (hsorted : NamesSorted (CConsole.new env FlagMask cfg).m_pFirstCommand) :
    ((churn env FlagMask cfg batch1 batch2).m_pFirstCommand.filter (fun x => x.m_Temp)).Perm
        (batch2.map (tempDescriptor env))
    ∧ (churn env FlagMask cfg batch1 batch2).m_pFirstCommand.filter (fun x => !x.m_Temp) =
        (CConsole.new env FlagMask cfg).m_pFirstCommand
    ∧ NamesSorted (churn env FlagMask cfg batch1 batch2).m_pFirstCommand
    ∧ (churn env FlagMask cfg batch1 batch2).m_TempCommands =
        (registerTemps env batch1 (CConsole.new env FlagMask cfg)).m_TempCommands
    ∧ (churn env FlagMask cfg batch1 batch2).m_pRecycleList = [] := by
  obtain ⟨f1, f2, f3, f4⟩ := new_settled env FlagMask cfg
  obtain ⟨ff1, ff2⟩ := filter_not_temp_of_all _ f2
  obtain ⟨a1, a2, a3, a4, a5⟩ := registerTemps_spec env batch1 (CConsole.new env FlagMask cfg) f3 f1
  have hd : (DeregisterTempAll (registerTemps env batch1 (CConsole.new env FlagMask cfg))).m_pFirstCommand
      = (CConsole.new env FlagMask cfg).m_pFirstCommand := by
    simp only [DeregisterTempAll, unlinkTemp_skipTemp, a3, ff1]
  obtain ⟨b1, b2, b3, b4, b5⟩ := registerTemps_spec env batch2
    (DeregisterTempAll (registerTemps env batch1 (CConsole.new env FlagMask cfg))) rfl
    (by rw [hd]; exact f1)
  unfold churn
  refine ⟨?_, ?_, ?_, ?_, b1⟩
  · rw [hd, ff2, List.append_nil] at b4
    exact b4
  · rw [b3, hd, ff1]
  · apply b5
    rw [hd]
    exact hsorted
  · rw [b2, a2, f4, hlen]
    rfl

/-- The witness of C7: on a server console, after the ten commands
`a0 .. a9`, `DeregisterTempAll` and the ten commands `m9 .. m0`, the list is
sorted and 4000 bytes of the arena are in use, as after the first batch. -/
theorem temp_churn_witness :
    NamesSorted
      (churn ddnet 4 { m_SvTestingCommands := 0, m_SvMap := [] } batchA batchM).m_pFirstCommand
    ∧ (churn ddnet 4 { m_SvTestingCommands := 0, m_SvMap := [] } batchA batchM).m_TempCommands =
        (registerTemps ddnet batchA
          (CConsole.new ddnet 4 { m_SvTestingCommands := 0, m_SvMap := [] })).m_TempCommands
    ∧ (churn ddnet 4 { m_SvTestingCommands := 0, m_SvMap := [] } batchA batchM).m_TempCommands =
        4000 :=
  ⟨(temp_churn ddnet 4 { m_SvTestingCommands := 0, m_SvMap := [] } batchA batchM (by decide)
      (by decide)).2.2.1,
   (temp_churn ddnet 4 { m_SvTestingCommands := 0, m_SvMap := [] } batchA batchM (by decide)
      (by decide)).2.2.2.1, by decide⟩

/-! ### Frame properties of the dispatch -/

theorem invoke_keeps (env : Env) (reenter : ReenterFn) (P : CConsole → Prop)
    (hS : Stable P)
    (hexec : ∀ call c c', P c → reenter call c = Except.ok c' → P c')
    (cb : Callback) (R : CResult) (c c' : CConsole)
    (h : invoke env reenter cb R c = Except.ok c') (hP : P c) : P c' := by
  by_cases hcb : cb.reenters = true
  · rcases invoke_reenters env reenter cb R c hcb with ⟨m, hm⟩ | ⟨call, hcall⟩
    · rw [hm] at h
      simp only [Except.ok.injEq, Print] at h
      rw [← h]
      exact hS.hlog _ _ (hS.hlog _ _ hP)
    · rw [hcall] at h
      exact hexec _ _ _ (hS.hlog _ _ hP) h
  · have hcb' : cb.reenters = false := by simpa using hcb
    exact hS.local _ _ (invoke_local env reenter cb R c c' hcb' h) (hS.hlog _ _ hP)

theorem invokeVictims_keeps (env : Env) (reenter : ReenterFn) (P : CConsole → Prop)
    (hS : Stable P)
    (hexec : ∀ call c c', P c → reenter call c = Except.ok c' → P c')
    (cb : Callback) :
    ∀ (n i : Nat) (R : CResult) (c c' : CConsole),
      invokeVictims env reenter cb n i R c = Except.ok c' → P c → P c' := by
  intro n
  induction n with
  | zero =>
    intro i R c c' h hP
    simp only [invokeVictims, Except.ok.injEq] at h
    subst h
    exact hP
  | succ n ih =>
    intro i R c c' h hP
    simp only [invokeVictims] at h
    cases hi : invoke env reenter cb (R.SetVictim env i) c with
    | error e => rw [hi] at h; simp at h
    | ok c1 =>
      rw [hi] at h
      exact ih _ _ _ _ h (invoke_keeps env reenter P hS hexec cb _ c c1 hi hP)

theorem dispatch_keeps (env : Env) (reenter : ReenterFn) (P : CConsole → Prop)
    (hS : Stable P)
    (hexec : ∀ call c c', P c → reenter call c = Except.ok c' → P c')
    (Stroke : Bool) (ClientID : Int) (R : CResult) (c c' : CConsole) (fl : Flow)
    (h : dispatch env reenter Stroke ClientID R c = Except.ok (fl, c')) (hP : P c) : P c' := by
  unfold dispatch at h
  by_cases h0 : R.m_pCommand = []
  · rw [if_pos h0] at h
    simp only [Except.ok.injEq, Prod.mk.injEq] at h
    rw [← h.2]; exact hP
  · rw [if_neg h0] at h
    cases hfind : FindCommand c.m_pFirstCommand R.m_pCommand c.m_FlagMask with
    | none =>
      rw [hfind] at h
      dsimp only at h
      cases Stroke
      · simp only [Bool.false_eq_true, if_false, Except.ok.injEq, Prod.mk.injEq] at h
        rw [← h.2]; exact hP
      · simp only [if_true, Except.ok.injEq, Prod.mk.injEq, Print] at h
        rw [← h.2]; exact hS.hlog _ _ hP
    | some pCommand =>
      rw [hfind] at h
      dsimp only at h
      by_cases h1 : ClientID = env.CLIENT_ID_GAME ∧ ¬ hasFlag pCommand.m_Flags env.CFGFLAG_GAME
      · rw [if_pos h1] at h
        cases Stroke
        · simp only [Bool.false_eq_true, if_false, Except.ok.injEq, Prod.mk.injEq] at h
          rw [← h.2]; exact hP
        · simp only [if_true, Except.ok.injEq, Prod.mk.injEq, Print] at h
          rw [← h.2]; exact hS.hlog _ _ hP
      · rw [if_neg h1] at h
        by_cases h2 : ClientID = env.CLIENT_ID_NO_GAME ∧ hasFlag pCommand.m_Flags env.CFGFLAG_GAME
        · rw [if_pos h2] at h
          cases Stroke
          · simp only [Bool.false_eq_true, if_false, Except.ok.injEq, Prod.mk.injEq] at h
            rw [← h.2]; exact hP
          · simp only [if_true, Except.ok.injEq, Prod.mk.injEq, Print] at h
            rw [← h.2]; exact hS.hlog _ _ (hS.hlog _ _ hP)
        · rw [if_neg h2] at h
          by_cases h3 : pCommand.m_AccessLevel ≥ c.m_AccessLevel
          · rw [if_pos h3] at h
            by_cases h4 : (Stroke || decide (R.m_pCommand.head? = some '+')) = true
            · rw [if_pos h4] at h
              cases hpa : ParseArgs env
                  (if decide (R.m_pCommand.head? = some '+') = true then
                    R.AddArgument (m_paStrokeStr Stroke) else R) pCommand.m_pParams with
              | mk R2 Error =>
                rw [hpa] at h
                dsimp only at h
                by_cases h5 : Error ≠ 0
                · rw [if_pos h5] at h
                  simp only [Except.ok.injEq, Prod.mk.injEq, Print] at h
                  rw [← h.2]; exact hS.hlog _ _ hP
                · rw [if_neg h5] at h
                  by_cases h6 : c.m_StoreCommands = true ∧
                      hasFlag pCommand.m_Flags env.CFGFLAG_STORE = true
                  · rw [if_pos h6] at h
                    simp only [Except.ok.injEq, Prod.mk.injEq] at h
                    rw [← h.2]
                    exact hS.henq c _ hP h6.1
                  · rw [if_neg h6] at h
                    by_cases h7 : hasFlag pCommand.m_Flags env.CMDFLAG_TEST = true ∧
                        c.g_Config.m_SvTestingCommands = 0
                    · rw [if_pos h7] at h
                      simp only [Except.ok.injEq, Prod.mk.injEq] at h
                      rw [← h.2]; exact hP
                    · rw [if_neg h7] at h
                      have hP1 : P (if c.m_pfnTeeHistorianCommandCallback.isSome = true ∧
                          ¬ hasFlag pCommand.m_Flags env.CFGFLAG_NONTEEHISTORIC = true then
                            c.log (Event.historian ClientID c.m_FlagMask pCommand.m_pName R2)
                          else c) := by
                        split
                        · exact hS.hlog _ _ hP
                        · exact hP
                      split at h
                      · simp at h
                      · rename_i c2 hrun
                        simp only [Except.ok.injEq, Prod.mk.injEq] at h
                        have hP2 : P c2 := by
                          split at hrun <;> split at hrun <;>
                            first
                            | exact invokeVictims_keeps env reenter P hS hexec _ _ _ _ _ _
                                hrun hP1
                            | exact invoke_keeps env reenter P hS hexec _ _ _ _ hrun hP1
                        rw [← h.2]
                        split
                        · exact hS.hcheat _ hP2
                        · exact hP2
            · rw [if_neg h4] at h
              simp only [Except.ok.injEq, Prod.mk.injEq] at h
              rw [← h.2]; exact hP
          · rw [if_neg h3] at h
            cases Stroke
            · simp only [Bool.false_eq_true, if_false, Except.ok.injEq, Prod.mk.injEq] at h
              rw [← h.2]; exact hP
            · simp only [if_true, Except.ok.injEq, Prod.mk.injEq, Print] at h
              rw [← h.2]; exact hS.hlog _ _ hP

theorem lineLoop_keeps (env : Env) (reenter : ReenterFn) (P : CConsole → Prop)
    (hS : Stable P)
    (hexec : ∀ call c c', P c → reenter call c = Except.ok c' → P c')
    (Stroke : Bool) (ClientID : Int) (interp : Bool) :
    ∀ (fuel : Nat) (pStr : Option Str) (c c' : CConsole),
      lineLoop env reenter Stroke ClientID interp fuel pStr c = Except.ok c' → P c → P c' := by
  intro fuel
  induction fuel with
  | zero =>
    intro pStr c c' h hP
    cases pStr with
    | none => rw [lineLoop_none] at h; simp only [Except.ok.injEq] at h; rw [← h]; exact hP
    | some s =>
      cases s with
      | nil => rw [lineLoop_nil] at h; simp only [Except.ok.injEq] at h; rw [← h]; exact hP
      | cons a as => simp [lineLoop] at h
  | succ fuel ih =>
    intro pStr c c' h hP
    cases pStr with
    | none => rw [lineLoop_none] at h; simp only [Except.ok.injEq] at h; rw [← h]; exact hP
    | some s =>
      cases s with
      | nil => rw [lineLoop_nil] at h; simp only [Except.ok.injEq] at h; rw [← h]; exact hP
      | cons a as =>
        rw [lineLoop_step] at h
        cases hd : dispatch env reenter Stroke ClientID
            (ParseStart env (CResult.init env ClientID) (a :: as)
              ((scanSubcommand interp false (a :: as)).1 + 1)).1 c with
        | error e => rw [hd] at h; simp at h
        | ok p =>
          obtain ⟨fl, c1⟩ := p
          rw [hd] at h
          have hP1 := dispatch_keeps env reenter P hS hexec _ _ _ _ _ _ hd hP
          cases fl with
          | ret => simp only [Except.ok.injEq] at h; rw [← h]; exact hP1
          | next => exact ih _ _ _ h hP1

theorem ExecuteLineStroked_keeps (env : Env) (reenter : ReenterFn) (P : CConsole → Prop)
    (hS : Stable P)
    (hexec : ∀ call c c', P c → reenter call c = Except.ok c' → P c')
    (Stroke : Bool) (pStr : Str) (ClientID : Int) (interp : Bool) (c c' : CConsole)
    (h : ExecuteLineStroked env reenter Stroke pStr ClientID interp c = Except.ok c')
    (hP : P c) : P c' := by
  unfold ExecuteLineStroked at h
  split at h <;>
    exact lineLoop_keeps env reenter P hS hexec _ _ _ _ _ _ _ h hP

theorem ExecuteLine_keeps (env : Env) (reenter : ReenterFn) (P : CConsole → Prop)
    (hS : Stable P)
    (hexec : ∀ call c c', P c → reenter call c = Except.ok c' → P c')
    (pStr : Str) (ClientID : Int) (interp : Bool) (c c' : CConsole)
    (h : ExecuteLine env reenter pStr ClientID interp c = Except.ok c') (hP : P c) : P c' := by
  unfold ExecuteLine at h
  cases h1 : ExecuteLineStroked env reenter true pStr ClientID interp c with
  | error e => rw [h1] at h; simp at h
  | ok c1 =>
    rw [h1] at h
    exact ExecuteLineStroked_keeps env reenter P hS hexec _ _ _ _ _ _ h
      (ExecuteLineStroked_keeps env reenter P hS hexec _ _ _ _ _ _ h1 hP)

theorem executeLines_keeps (env : Env) (reenter : ReenterFn) (P : CConsole → Prop)
    (hS : Stable P)
    (hexec : ∀ call c c', P c → reenter call c = Except.ok c' → P c')
    (ClientID : Int) :
    ∀ (lines : List Str) (c c' : CConsole),
      executeLines env reenter ClientID lines c = Except.ok c' → P c → P c' := by
  intro lines
  induction lines with
  | nil =>
    intro c c' h hP
    simp only [executeLines, Except.ok.injEq] at h
    rw [← h]; exact hP
  | cons l rest ih =>
    intro c c' h hP
    simp only [executeLines] at h
    cases h1 : ExecuteLine env reenter l ClientID env.defaultInterpretSemicolons c with
    | error e => rw [h1] at h; simp at h
    | ok c1 =>
      rw [h1] at h
      exact ih _ _ h (ExecuteLine_keeps env reenter P hS hexec _ _ _ _ _ h1 hP)

theorem executeLines_append (env : Env) (reenter : ReenterFn) (ClientID : Int) :
    ∀ (pre : List Str) (line : Str) (post : List Str) (c : CConsole),
      executeLines env reenter ClientID (pre ++ line :: post) c =
        match executeLines env reenter ClientID pre c with
        | Except.error e => Except.error e
        | Except.ok c1 =>
          match ExecuteLine env reenter line ClientID env.defaultInterpretSemicolons c1 with
          | Except.error e => Except.error e
          | Except.ok c2 => executeLines env reenter ClientID post c2 := by
  intro pre
  induction pre with
  | nil => intro line post c; rfl
  | cons l rest ih =>
    intro line post c
    simp only [List.cons_append, executeLines]
    cases ExecuteLine env reenter l ClientID env.defaultInterpretSemicolons c with
    | error e => rfl
    | ok c1 => exact ih line post c1

theorem ExecuteFile_guard (env : Env) (fuel : Nat) (g : Str) (ClientID : Int) (lf : Bool)
    (st : Int) (c : CConsole) (h : ∃ f ∈ c.m_pFirstExec, str_comp g f = 0) :
    ExecuteFile env fuel g ClientID lf st c = Except.ok c := by
  have hany : c.m_pFirstExec.any (fun pCur => decide (str_comp g pCur = 0)) = true := by
    obtain ⟨f, hf, hc⟩ := h
    exact List.any_eq_true.mpr ⟨f, hf, by simp [hc]⟩
  cases fuel with
  | zero =>
    unfold ExecuteFile reentry
    rw [if_pos hany]
  | succ fuel =>
    unfold ExecuteFile reentry
    rw [if_pos hany]

theorem ExecuteFile_stack (env : Env) (fuel : Nat) (f : Str) (ClientID : Int) (lf : Bool)
    (st : Int) (c c' : CConsole)
    (h : ExecuteFile env fuel f ClientID lf st c = Except.ok c') :
    c'.m_pFirstExec = c.m_pFirstExec := by
  cases fuel with
  | zero =>
    unfold ExecuteFile reentry at h
    split at h
    · simp only [Except.ok.injEq] at h
      rw [← h]
    · simp at h
  | succ fuel =>
    unfold ExecuteFile reentry at h
    by_cases hany : c.m_pFirstExec.any (fun pCur => decide (str_comp f pCur = 0)) = true
    · rw [if_pos hany] at h
      simp only [Except.ok.injEq] at h
      rw [← h]
    · rw [if_neg hany] at h
      have hc1 : (if c.m_pStorage = true then c
          else { c with m_pStorage := env.kernelStorage }).m_pFirstExec = c.m_pFirstExec := by
        split <;> rfl
      dsimp only at h
      generalize (if c.m_pStorage = true then c
          else { c with m_pStorage := env.kernelStorage }) = c1 at h hc1
      by_cases hs : (!c1.m_pStorage) = true
      · rw [if_pos hs] at h
        simp only [Except.ok.injEq] at h
        rw [← h, hc1]
      · rw [if_neg hs] at h
        cases hopen : env.OpenFile f st with
        | none =>
          rw [hopen] at h
          simp only [Except.ok.injEq] at h
          rw [← h]
          exact hc1
        | some lines =>
          rw [hopen] at h
          dsimp only at h
          split at h
          · simp at h
          · simp only [Except.ok.injEq] at h
            rw [← h]
            exact hc1

theorem Stable_stack (l : List Str) : Stable (fun x => x.m_pFirstExec = l) :=
  ⟨fun _ _ hx => hx, fun _ _ hx _ => hx, fun _ hx => hx,
    fun _ _ h hx => (h.fields.2.2.2.2.2.2.2.1).trans hx⟩

theorem reentry_stack (env : Env) :
    ∀ (fuel : Nat) (call : Reentry) (c c' : CConsole),
      reentry env fuel call c = Except.ok c' → c'.m_pFirstExec = c.m_pFirstExec := by
  intro fuel
  induction fuel with
  | zero =>
    intro call c c' h
    cases call with
    | ExecuteFile f cid lf st => exact ExecuteFile_stack env 0 f cid lf st c c' h
    | ExecuteLine s cid interp => simp [reentry] at h
  | succ fuel ih =>
    intro call c c' h
    cases call with
    | ExecuteFile f cid lf st => exact ExecuteFile_stack env (fuel + 1) f cid lf st c c' h
    | ExecuteLine s cid interp =>
      exact ExecuteLine_keeps env (reentry env fuel) (fun x => x.m_pFirstExec = c.m_pFirstExec)
        (Stable_stack _) (fun call x x' hx hrun => (ih call x x' hrun).trans hx)
        s cid interp c c' h rfl

theorem ExecuteLine_stack (env : Env) (fuel : Nat) (pStr : Str) (ClientID : Int)
    (interp : Bool) (c c' : CConsole)
    (h : ExecuteLine env (reentry env fuel) pStr ClientID interp c = Except.ok c') :
    c'.m_pFirstExec = c.m_pFirstExec :=
  ExecuteLine_keeps env (reentry env fuel) (fun x => x.m_pFirstExec = c.m_pFirstExec)
    (Stable_stack _) (fun call x x' hx hrun => (reentry_stack env fuel call x x' hrun).trans hx)
    pStr ClientID interp c c' h rfl

/-! ### The recursion guard of `ExecuteFile` -/

/-- C8. Recursion guard: (1) a call `ExecuteFile(g)` with `g` equal
(`str_comp`) to a file name on the in-flight stack returns at once with the
state unchanged: the file is not opened, nothing is printed and no line is
executed; (2) so the `exec` command of a line that names such a file only
records its own invocation and the line loop goes on; (3) the lines of a
file run in file order, those behind any line included; (4) a line leaves
the in-flight stack as it found it, so later lines are guarded alike;
(5) when `ExecuteFile` returns, the in-flight stack is what it was when the
call began. -/
theorem ExecuteFile_recursion_guard (env : Env) :
    (∀ (fuel : Nat) (g : Str) (ClientID : Int) (LogFailure : Bool) (StorageType : Int)
        (c : CConsole), (∃ f ∈ c.m_pFirstExec, str_comp g f = 0) →
        ExecuteFile env fuel g ClientID LogFailure StorageType c = Except.ok c)
    ∧ (∀ (fuel : Nat) (R : CResult) (c : CConsole),
        (∃ f ∈ c.m_pFirstExec, str_comp (R.GetString 0) f = 0) →
        invoke env (reentry env fuel) Callback.Con_Exec R c =
          Except.ok (c.log (Event.call Callback.Con_Exec R)))
    ∧ (∀ (fuel : Nat) (ClientID : Int) (pre : List Str) (line : Str) (post : List Str)
        (c : CConsole),
        executeLines env (reentry env fuel) ClientID (pre ++ line :: post) c =
          match executeLines env (reentry env fuel) ClientID pre c with
          | Except.error e => Except.error e
          | Except.ok c1 =>
            match ExecuteLine env (reentry env fuel) line ClientID
                env.defaultInterpretSemicolons c1 with
            | Except.error e => Except.error e
            | Except.ok c2 => executeLines env (reentry env fuel) ClientID post c2)
    ∧ (∀ (fuel : Nat) (line : Str) (ClientID : Int) (InterpretSemicolons : Bool)
        (c c' : CConsole),
        ExecuteLine env (reentry env fuel) line ClientID InterpretSemicolons c = Except.ok c' →
        c'.m_pFirstExec = c.m_pFirstExec)
    ∧ (∀ (fuel : Nat) (f : Str) (ClientID : Int) (LogFailure : Bool) (StorageType : Int)
        (c c' : CConsole),
        ExecuteFile env fuel f ClientID LogFailure StorageType c = Except.ok c' →
        c'.m_pFirstExec = c.m_pFirstExec) := by
  refine ⟨fun fuel g cid lf st c h => ExecuteFile_guard env fuel g cid lf st c h, ?_,
    fun fuel cid pre line post c => executeLines_append env _ cid pre line post c,
    fun fuel line cid interp c c' h => ExecuteLine_stack env fuel line cid interp c c' h,
    fun fuel f cid lf st c c' h => ExecuteFile_stack env fuel f cid lf st c c' h⟩
  intro fuel R c h
  simp only [invoke]
  exact ExecuteFile_guard env fuel _ _ _ _ _ h

/-- The witness of C8: `a.cfg` executes itself and `b.cfg`, which executes
`a.cfg`; both repeated attempts are skipped (no second `openFile` of `a.cfg`),
and the lines `echo three` and `echo two` behind them still run. -/
theorem ExecuteFile_recursion_guard_witness :
    ExecuteFile ddnet 2 "a.cfg".toList (-1) true (-2) kickConsole =
      Except.ok
        { kickConsole with
          m_pStorage := true,
          trace :=
            [Event.openFile "a.cfg".toList (-2),
             Event.print 0 "console".toList
               (Msg.str_format 128 "executing '%s'".toList ["a.cfg".toList]),
             Event.call Callback.Con_Echo
               { m_ClientID := -1, m_pCommand := "echo".toList, m_pArgsStart := "one".toList,
                 m_apArgs := ["one".toList], m_Victim := -3 },
             Event.print 0 "console".toList (Msg.text "one".toList),
             Event.call Callback.Con_Exec
               { m_ClientID := -1, m_pCommand := "exec".toList, m_pArgsStart := "a.cfg".toList,
                 m_apArgs := ["a.cfg".toList], m_Victim := -3 },
             Event.call Callback.Con_Exec
               { m_ClientID := -1, m_pCommand := "exec".toList, m_pArgsStart := "b.cfg".toList,
                 m_apArgs := ["b.cfg".toList], m_Victim := -3 },
             Event.openFile "b.cfg".toList (-2),
             Event.print 0 "console".toList
               (Msg.str_format 128 "executing '%s'".toList ["b.cfg".toList]),
             Event.call Callback.Con_Exec
               { m_ClientID := -1, m_pCommand := "exec".toList, m_pArgsStart := "a.cfg".toList,
                 m_apArgs := ["a.cfg".toList], m_Victim := -3 },
             Event.call Callback.Con_Echo
               { m_ClientID := -1, m_pCommand := "echo".toList, m_pArgsStart := "three".toList,
                 m_apArgs := ["three".toList], m_Victim := -3 },
             Event.print 0 "console".toList (Msg.text "three".toList),
             Event.call Callback.Con_Echo
               { m_ClientID := -1, m_pCommand := "echo".toList, m_pArgsStart := "two".toList,
                 m_apArgs := ["two".toList], m_Victim := -3 },
             Event.print 0 "console".toList (Msg.text "two".toList)] }
    ∧ ExecuteFile ddnet 0 "a.cfg".toList (-1) true (-2)
        { kickConsole with m_pFirstExec := ["b.cfg".toList, "a.cfg".toList] } =
      Except.ok { kickConsole with m_pFirstExec := ["b.cfg".toList, "a.cfg".toList] } :=
  ⟨rfl, (ExecuteFile_recursion_guard ddnet).1 0 "a.cfg".toList (-1) true (-2)
    { kickConsole with m_pFirstExec := ["b.cfg".toList, "a.cfg".toList] }
    ⟨"a.cfg".toList, by decide, by decide⟩⟩

/-! ### Escapes in the sub-command scan -/

/-- C11. The code at the failing input `say "a\\";echo b` with splitting
enabled: the scan of `ExecuteLineStroked` steps over the first backslash
alone, takes the second backslash with the following `"` as an escaped quote
and so stays inside the quoted region up to the end of the line, whereas the
unescaping loop of `ParseArgs` ends the token at that `"`.  One sub-command
is dispatched: `say` receives the argument `a\`, its argument text holds
`;echo b`, and `echo b` is never dispatched. -/
theorem scan_misses_escaped_backslash :
    scanSubcommand true false "say \"a\\\\\";echo b".toList = (16, none)
    ∧ unescapeQuoted "a\\\\\";echo b".toList = ("a\\".toList, some ";echo b".toList)
    ∧ ExecuteLineStroked ddnet (reentry ddnet 0) true "say \"a\\\\\";echo b".toList (-1) true
        sayConsole =
      Except.ok (traceAppend sayConsole
        [Event.call (Callback.handler 11 0)
           { m_ClientID := -1, m_pCommand := "say".toList,
             m_pArgsStart := "\"a\\\\\";echo b".toList,
             m_apArgs := ["a\\".toList], m_Victim := -3 }]) :=
  ⟨rfl, rfl, rfl⟩

/-! ### Unterminated quotes and validation errors -/

theorem unescapeQuoted_closesQuote :
    ∀ (k : Nat) (cs : Str), cs.length ≤ k →
      ((unescapeQuoted cs).2 = none ↔ closesQuote cs = false) := by
  intro k
  induction k with
  | zero =>
    intro cs h
    have : cs = [] := List.length_eq_zero.mp (by omega)
    subst this
    simp [unescapeQuoted, closesQuote]
  | succ k ih =>
    intro cs h
    cases cs with
    | nil => simp [unescapeQuoted, closesQuote]
    | cons c rest =>
      have hrest : rest.length ≤ k := by simpa using h
      by_cases h1 : c = '"'
      · subst h1
        cases rest <;> simp [unescapeQuoted_quote, closesQuote]
      · by_cases h2 : c = '\\'
        · subst h2
          cases rest with
          | nil => simp [unescapeQuoted, closesQuote]
          | cons d rest2 =>
            have hrest2 : rest2.length ≤ k := by simp at hrest; omega
            by_cases h3 : d = '\\'
            · subst h3
              rw [unescapeQuoted_bs_bs]
              simp only [closesQuote]
              simpa using ih rest2 hrest2
            · by_cases h4 : d = '"'
              · subst h4
                rw [unescapeQuoted_bs_quote]
                simp only [closesQuote]
                simpa using ih rest2 hrest2
              · have hu : unescapeQuoted ('\\' :: d :: rest2) =
                    ('\\' :: (unescapeQuoted (d :: rest2)).1, (unescapeQuoted (d :: rest2)).2) := by
                  simp [unescapeQuoted, h3, h4]
                rw [hu]
                have hc : closesQuote ('\\' :: d :: rest2) = closesQuote (d :: rest2) := by
                  simp [closesQuote, h3, h4]
                rw [hc]
                exact ih (d :: rest2) hrest
        · rw [unescapeQuoted_other c rest h1 h2]
          have hc : closesQuote (c :: rest) = closesQuote rest := by
            cases rest <;> simp [closesQuote, h1, h2]
          rw [hc]
          exact ih rest hrest

theorem ParseArgsLoop_unterminated (env : Env) (fuel : Nat) (Command : Char) (fmt : Str)
    (opt : Bool) (pStr : Str) (r : CResult) (cs : Str) (hc : Command ≠ '?')
    (hs : str_skip_whitespaces env pStr = '"' :: cs) (hq : closesQuote cs = false) :
    (ParseArgsLoop env (fuel + 1) (Command :: fmt) opt pStr r).2 = 1 := by
  have hu : (unescapeQuoted cs).2 = none :=
    (unescapeQuoted_closesQuote cs.length cs (le_refl _)).mpr hq
  simp only [ParseArgsLoop, if_neg hc, hs]
  rw [if_pos True.intro]
  cases hun : unescapeQuoted cs with
  | mk out rest =>
    rw [hun] at hu
    simp only at hu
    subst hu
    rfl

theorem dispatch_invalid_arguments (env : Env) (reenter : ReenterFn) (ClientID : Int)
    (Result : CResult) (c : CConsole) (pCommand : CCommand)
    (hname : Result.m_pCommand ≠ [])
    (hfind : FindCommand c.m_pFirstCommand Result.m_pCommand c.m_FlagMask = some pCommand)
    (hmap : ¬ (ClientID = env.CLIENT_ID_GAME ∧ ¬ hasFlag pCommand.m_Flags env.CFGFLAG_GAME))
    (hnomap : ¬ (ClientID = env.CLIENT_ID_NO_GAME ∧ hasFlag pCommand.m_Flags env.CFGFLAG_GAME))
    (hlevel : pCommand.m_AccessLevel ≥ c.m_AccessLevel)
    (hparse : (ParseArgs env
        (if Result.m_pCommand.head? = some '+' then Result.AddArgument (m_paStrokeStr true)
         else Result) pCommand.m_pParams).2 ≠ 0) :
    dispatch env reenter true ClientID Result c =
      Except.ok (Flow.next, Print c env.OUTPUT_LEVEL_STANDARD "console".toList
        (Msg.str_format 256 "Invalid arguments... Usage: %s %s".toList
          [pCommand.m_pName, pCommand.m_pParams])) := by
  unfold dispatch
  rw [if_neg hname]
  simp only [hfind]
  rw [if_neg hmap, if_neg hnomap, if_pos hlevel]
  simp only [Bool.true_or, if_true, decide_eq_true_eq]
  cases hp : ParseArgs env
      (if Result.m_pCommand.head? = some '+' then Result.AddArgument (m_paStrokeStr true)
       else Result) pCommand.m_pParams with
  | mk R2 Error =>
    rw [hp] at hparse
    simp only at hparse ⊢
    rw [if_pos hparse]

/-- C12. Unterminated quote: whenever the loop of `ParseArgs` stands at a
directive (any character but `?`) with text remaining whose next token
starts with `"`, and no `"` outside an escape sequence follows before the
end of the argument text, `ParseArgs` returns an error; and when `ParseArgs`
returns an error for a command that is found and passes the context and
access checks, the press dispatch only prints
`Invalid arguments... Usage: <name> <params>`: no callback is invoked, the
audit hook is not called and nothing is enqueued. -/
theorem ParseArgs_unterminated_quote (env : Env) :
    (∀ (fuel : Nat) (Command : Char) (fmt : Str) (opt : Bool) (pStr : Str) (r : CResult)
        (cs : Str), Command ≠ '?' → str_skip_whitespaces env pStr = '"' :: cs →
        closesQuote cs = false →
        (ParseArgsLoop env (fuel + 1) (Command :: fmt) opt pStr r).2 = 1)
    ∧ (∀ (Command : Char) (fmt : Str) (r : CResult) (cs : Str), Command ≠ '?' →
        str_skip_whitespaces env r.m_pArgsStart = '"' :: cs → closesQuote cs = false →
        (ParseArgs env r (Command :: fmt)).2 = 1)
    ∧ (∀ (reenter : ReenterFn) (ClientID : Int) (Result : CResult) (c : CConsole)
        (pCommand : CCommand), Result.m_pCommand ≠ [] →
        FindCommand c.m_pFirstCommand Result.m_pCommand c.m_FlagMask = some pCommand →
        ¬ (ClientID = env.CLIENT_ID_GAME ∧ ¬ hasFlag pCommand.m_Flags env.CFGFLAG_GAME) →
        ¬ (ClientID = env.CLIENT_ID_NO_GAME ∧ hasFlag pCommand.m_Flags env.CFGFLAG_GAME) →
        pCommand.m_AccessLevel ≥ c.m_AccessLevel →
        (ParseArgs env
          (if Result.m_pCommand.head? = some '+' then Result.AddArgument (m_paStrokeStr true)
           else Result) pCommand.m_pParams).2 ≠ 0 →
        dispatch env reenter true ClientID Result c =
          Except.ok (Flow.next, traceAppend c
            [Event.print env.OUTPUT_LEVEL_STANDARD "console".toList
              (Msg.str_format 256 "Invalid arguments... Usage: %s %s".toList
                [pCommand.m_pName, pCommand.m_pParams])])) := by
  refine ⟨fun fuel Command fmt opt pStr r cs hc hs hq =>
      ParseArgsLoop_unterminated env fuel Command fmt opt pStr r cs hc hs hq,
    fun Command fmt r cs hc hs hq => ?_,
    fun reenter cid R c pCommand h1 h2 h3 h4 h5 h6 =>
      dispatch_invalid_arguments env reenter cid R c pCommand h1 h2 h3 h4 h5 h6⟩
  unfold ParseArgs
  exact ParseArgsLoop_unterminated env _ Command fmt false _ _ cs hc hs hq

/-- The witness of C12: `say "abc` is rejected with the usage message of
`say`. -/
theorem ParseArgs_unterminated_quote_witness :
    dispatch ddnet (reentry ddnet 0) true (-1)
        (ParseStart ddnet (CResult.init ddnet (-1)) "say \"abc".toList 9).1 sayConsole =
      Except.ok (Flow.next, traceAppend sayConsole
        [Event.print 0 "console".toList
          (Msg.str_format 256 "Invalid arguments... Usage: %s %s".toList
            ["say".toList, "?r[message]".toList])]) :=
  (ParseArgs_unterminated_quote ddnet).2.2 (reentry ddnet 0) (-1)
    (ParseStart ddnet (CResult.init ddnet (-1)) "say \"abc".toList 9).1 sayConsole
    { m_pName := "say".toList, m_pHelp := "Say in chat".toList, m_pParams := "?r[message]".toList,
      m_Flags := 4, m_Temp := false, m_AccessLevel := 0, m_Callback := Callback.handler 11 0 }
    (by decide) (by decide) (by decide) (by decide) (by decide) (by decide)

/-! ### The rest-of-line directive -/

/-- C14 as stated fails: a quoted first token is unescaped and ends the
argument also for the directive `r`, so the argument text `"a b" c` yields
the argument `a b`, not the text verbatim, and the argument text `"abc` is
an error. -/
theorem ParseArgs_rest_takes_quoted_token :
    ParseArgs ddnet { CResult.init ddnet 0 with m_pArgsStart := "\"a b\" c".toList } "r".toList =
      ({ CResult.init ddnet 0 with m_pArgsStart := "\"a b\" c".toList,
                                   m_apArgs := ["a b".toList] }, 0)
    ∧ (ParseArgs ddnet { CResult.init ddnet 0 with m_pArgsStart := "\"abc".toList }
        "r".toList).2 = 1 :=
  ⟨rfl, rfl⟩

/-- C14, amended. Rest-of-line directive: for a format that starts with `r`
(with or without a hint) and every argument text whose first non-whitespace
character exists and is not a double quote, `ParseArgs` succeeds with
exactly one argument, equal to all text from that character to the end,
verbatim (inner whitespace, quotes and backslashes included). -/
theorem ParseArgs_rest_of_line (env : Env) (r : CResult) (fmt : Str) (c : Char) (cs : Str)
    (hs : str_skip_whitespaces env r.m_pArgsStart = c :: cs) (hc : c ≠ '"') :
    ParseArgs env r ('r' :: fmt) =
      ({ r with m_apArgs := r.m_apArgs ++ [c :: cs], m_Victim := env.VICTIM_NONE }, 0) := by
  have h1 : ('r' : Char) ≠ '?' := by decide
  unfold ParseArgs
  simp only [List.length_cons, ParseArgsLoop, if_neg h1, hs, if_neg hc, if_true]
  simp [CResult.AddArgument, CResult.ResetVictim]

/-- The witness of C14: with the format `r[text]` the argument text
`  say "hi"  \x ` is kept from `say` on. -/
theorem ParseArgs_rest_of_line_witness :
    ParseArgs ddnet { CResult.init ddnet 0 with m_pArgsStart := "  say \"hi\"  \\x ".toList }
        "r[text]".toList =
      ({ CResult.init ddnet 0 with m_pArgsStart := "  say \"hi\"  \\x ".toList,
                                   m_apArgs := ["say \"hi\"  \\x ".toList] }, 0) :=
  ParseArgs_rest_of_line ddnet
    { CResult.init ddnet 0 with m_pArgsStart := "  say \"hi\"  \\x ".toList } "[text]".toList
    's' "ay \"hi\"  \\x ".toList (by decide) (by decide)

/-! ### Formats with hints -/

theorem renderFormat_head (ds : List FormatItem) (h : ∀ d ∈ ds, d.WellFormed) :
    (renderFormat ds).head? ≠ some '[' ∧ (renderFormat ds).head? ≠ some ' ' := by
  cases ds with
  | nil => simp [renderFormat]
  | cons d rest =>
    obtain ⟨h1, h2, _⟩ := h d (List.mem_cons_self _ _)
    simp only [renderFormat, FormatItem.render, List.cons_append, List.head?_cons]
    exact ⟨fun hh => h1 (Option.some.inj hh), fun hh => h2 (Option.some.inj hh)⟩

theorem dropWhile_not_bracket (h rest : Str) (hh : ']' ∉ h) :
    (h ++ ']' :: rest).dropWhile (fun c => c != ']') = ']' :: rest := by
  induction h with
  | nil => simp
  | cons a as ih =>
    have ha : a ≠ ']' := fun e => hh (e ▸ List.mem_cons_self _ _)
    have has : ']' ∉ as := fun e => hh (List.mem_cons_of_mem _ e)
    simp [List.dropWhile_cons, ha, ih has]

theorem NextParam_render (d : FormatItem) (rest : Str) (hd : d.WellFormed)
    (h1 : rest.head? ≠ some '[') (h2 : rest.head? ≠ some ' ') :
    NextParam (d.render ++ rest) = rest := by
  obtain ⟨_, _, hh⟩ := hd
  cases hhint : d.hint with
  | none =>
    simp only [FormatItem.render, hhint, List.cons_append, List.nil_append, NextParam]
    rw [if_neg h1]
  | some p =>
    obtain ⟨h, sp⟩ := p
    have hb : ']' ∉ h := hh h sp hhint
    have hdw : ('[' :: (h ++ ']' :: ((if sp = true then [' '] else []) ++ rest))).dropWhile
        (fun c => c != ']') = ']' :: ((if sp = true then [' '] else []) ++ rest) := by
      have : ('[' : Char) ≠ ']' := by decide
      simp only [List.dropWhile_cons, bne_iff_ne, ne_eq, this, not_false_eq_true, decide_True,
        if_true]
      exact dropWhile_not_bracket h _ hb
    simp only [FormatItem.render, hhint, List.cons_append, List.append_assoc, NextParam,
      List.head?_cons, if_true, hdw]
    cases sp with
    | true => simp
    | false =>
      simp only [Bool.false_eq_true, if_false, List.nil_append]
      rw [if_neg h2]

theorem findVictimDirective_render :
    ∀ (ds : List FormatItem) (fuel : Nat), (∀ d ∈ ds, d.WellFormed) →
      (renderFormat ds).length < fuel →
      findVictimDirective fuel (renderFormat ds) =
        decide ('v' ∈ ds.map (fun d => d.directive)) := by
  intro ds
  induction ds with
  | nil =>
    intro fuel _ hf
    cases fuel with
    | zero => simp at hf
    | succ fuel => simp [renderFormat, findVictimDirective]
  | cons d rest ih =>
    intro fuel hwf hf
    have hd := hwf d (List.mem_cons_self _ _)
    have hrest : ∀ x ∈ rest, x.WellFormed := fun x hx => hwf x (List.mem_cons_of_mem _ hx)
    obtain ⟨g1, g2⟩ := renderFormat_head rest hrest
    cases fuel with
    | zero => simp at hf
    | succ fuel =>
      have hr : renderFormat (d :: rest) = d.directive :: (d.render.tail ++ renderFormat rest) := by
        simp [renderFormat, FormatItem.render]
      have hn : NextParam (renderFormat (d :: rest)) = renderFormat rest :=
        NextParam_render d _ hd g1 g2
      have hlen : (renderFormat rest).length < fuel := by
        have := NextParam_length_lt d.directive (d.render.tail ++ renderFormat rest)
        rw [← hr, hn] at this
        omega
      have hfv : findVictimDirective (fuel + 1) (renderFormat (d :: rest)) =
          if d.directive = 'v' then true
          else findVictimDirective fuel (NextParam (renderFormat (d :: rest))) := by
        rw [hr]
        simp only [findVictimDirective]
      rw [hfv, hn, ih fuel hrest hlen]
      by_cases hv : d.directive = 'v'
      · simp [hv]
      · have hv' : ¬ 'v' = d.directive := fun e => hv e.symm
        simp [hv, hv']

theorem ParseArgsLoop_eq_parseDirectives (env : Env) :
    ∀ (ds : List FormatItem) (fuel : Nat) (opt : Bool) (pStr : Str) (r : CResult),
      (∀ d ∈ ds, d.WellFormed) → (renderFormat ds).length < fuel →
      ParseArgsLoop env fuel (renderFormat ds) opt pStr r =
        parseDirectives env (ds.map (fun d => d.directive)) opt pStr r := by
  intro ds
  induction ds with
  | nil =>
    intro fuel opt pStr r _ hf
    cases fuel with
    | zero => simp at hf
    | succ fuel => simp [renderFormat, ParseArgsLoop, parseDirectives]
  | cons d rest ih =>
    intro fuel opt pStr r hwf hf
    have hd := hwf d (List.mem_cons_self _ _)
    have hrest : ∀ x ∈ rest, x.WellFormed := fun x hx => hwf x (List.mem_cons_of_mem _ hx)
    obtain ⟨g1, g2⟩ := renderFormat_head rest hrest
    cases fuel with
    | zero => simp at hf
    | succ fuel =>
      have hr : renderFormat (d :: rest) = d.directive :: (d.render.tail ++ renderFormat rest) := by
        simp [renderFormat, FormatItem.render]
      have hn : NextParam (renderFormat (d :: rest)) = renderFormat rest :=
        NextParam_render d _ hd g1 g2
      have hlen : (renderFormat rest).length < fuel := by
        have := NextParam_length_lt d.directive (d.render.tail ++ renderFormat rest)
        rw [← hr, hn] at this
        omega
      have hfv := findVictimDirective_render (d :: rest) ((renderFormat (d :: rest)).length + 1)
        hwf (Nat.lt_succ_self _)
      rw [hr] at hn hfv
      rw [hr]
      simp only [ParseArgsLoop, hn, hfv, List.map_cons, parseDirectives]
      by_cases hq : d.directive = '?'
      · rw [if_pos hq, if_pos hq]
        exact ih fuel true pStr r hrest hlen
      · rw [if_neg hq, if_neg hq]
        cases str_skip_whitespaces env pStr with
        | nil => rfl
        | cons c cs =>
          simp only []
          by_cases hc : c = '"'
          · rw [if_pos hc, if_pos hc]
            cases hu : unescapeQuoted cs with
            | mk out o =>
              cases o with
              | none => rfl
              | some rest2 => exact ih fuel opt rest2 _ hrest hlen
          · rw [if_neg hc, if_neg hc]
            by_cases hrr : d.directive = 'r'
            · rw [if_pos hrr, if_pos hrr]
            · rw [if_neg hrr, if_neg hrr]
              exact ih fuel opt _ _ hrest hlen

/-- C15 as stated fails at its own example: `NextParam` steps over a space
only behind a hint, so in `?i v` the space is a directive of its own.  On the
argument text `5 7` the format `?i[x] v[id]` yields the arguments `5`, `7`
and the victim 7, whereas `?i v` yields the arguments `5` and the empty
string and the victim `me`. -/
theorem ParseArgs_space_without_hint_is_directive :
    ParseArgs ddnet { CResult.init ddnet 0 with m_pArgsStart := "5 7".toList }
        "?i[x] v[id]".toList =
      ({ CResult.init ddnet 0 with m_pArgsStart := "5 7".toList,
                                   m_apArgs := ["5".toList, "7".toList], m_Victim := 7 }, 0)
    ∧ ParseArgs ddnet { CResult.init ddnet 0 with m_pArgsStart := "5 7".toList } "?i v".toList =
      ({ CResult.init ddnet 0 with m_pArgsStart := "5 7".toList,
                                   m_apArgs := ["5".toList, []], m_Victim := ddnet.VICTIM_ME }, 0) :=
  ⟨rfl, rfl⟩

theorem dropHint_wellFormed (d : FormatItem) (h : d.WellFormed) : d.dropHint.WellFormed := by
  obtain ⟨h1, h2, _⟩ := h
  exact ⟨h1, h2, fun _ _ hh => by simp [FormatItem.dropHint] at hh⟩

/-- C15, amended. Bracketed hints are functionally ignored: for every format
`F` made of directives (any character but `[` and the space) that are each
optionally followed by a `[hint]` group and one space, and the format `F'`
obtained from `F` by deleting every `[hint]` group together with the space
behind it (for example `?i[x] v[id]` and `?iv`), `ParseArgs` returns the same
error code, the same argument list and the same victim under `F` and
`F'`. -/
theorem ParseArgs_hints_ignored (env : Env) (r : CResult) (ds : List FormatItem)
    (hwf : ∀ d ∈ ds, d.WellFormed) :
    ParseArgs env r (renderFormat ds) =
      ParseArgs env r (renderFormat (ds.map FormatItem.dropHint)) := by
  have hwf2 : ∀ d ∈ ds.map FormatItem.dropHint, d.WellFormed := by
    intro d hd
    obtain ⟨x, hx, rfl⟩ := List.mem_map.mp hd
    exact dropHint_wellFormed x (hwf x hx)
  have hmap : (ds.map FormatItem.dropHint).map (fun d => d.directive) =
      ds.map (fun d => d.directive) := by
    simp [List.map_map, Function.comp_def, FormatItem.dropHint]
  unfold ParseArgs
  rw [ParseArgsLoop_eq_parseDirectives env ds _ _ _ _ hwf (Nat.lt_succ_self _),
    ParseArgsLoop_eq_parseDirectives env _ _ _ _ _ hwf2 (Nat.lt_succ_self _), hmap]

/-- The witness of C15: on the argument text `5 7` the formats `?i[x] v[id]`
and `?iv` both yield the arguments `5`, `7` and the victim 7. -/
theorem ParseArgs_hints_ignored_witness :
    ParseArgs ddnet { CResult.init ddnet 0 with m_pArgsStart := "5 7".toList }
        "?i[x] v[id]".toList =
      ParseArgs ddnet { CResult.init ddnet 0 with m_pArgsStart := "5 7".toList } "?iv".toList
    ∧ ParseArgs ddnet { CResult.init ddnet 0 with m_pArgsStart := "5 7".toList } "?iv".toList =
      ({ CResult.init ddnet 0 with m_pArgsStart := "5 7".toList,
                                   m_apArgs := ["5".toList, "7".toList], m_Victim := 7 }, 0) :=
  ⟨ParseArgs_hints_ignored ddnet { CResult.init ddnet 0 with m_pArgsStart := "5 7".toList }
      [optionalMark, { directive := 'i', hint := some ("x".toList, true) },
       { directive := 'v', hint := some ("id".toList, false) }]
      (by
        intro d hd
        simp only [List.mem_cons, List.mem_singleton, List.not_mem_nil, or_false] at hd
        rcases hd with rfl | rfl | rfl
        · exact ⟨by decide, by decide, fun _ _ hh => by simp [optionalMark] at hh⟩
        · refine ⟨by decide, by decide, fun h sp hh => ?_⟩
          simp only [Option.some.injEq, Prod.mk.injEq] at hh
          rw [← hh.1]
          decide
        · refine ⟨by decide, by decide, fun h sp hh => ?_⟩
          simp only [Option.some.injEq, Prod.mk.injEq] at hh
          rw [← hh.1]
          decide),
   rfl⟩

/-! ### Required and optional directives -/

theorem SetVictimStr_args (env : Env) (r : CResult) (a : Str) :
    (r.SetVictimStr env a).m_apArgs = r.m_apArgs := by
  unfold CResult.SetVictimStr
  split
  · rfl
  · split <;> rfl

theorem tail_length_le_pred (l : Str) : l.tail.length ≤ l.length - 1 := by
  cases l <;> simp

theorem parseDirectives_assignTokens (env : Env) :
    ∀ (cmds : List Char) (opt : Bool) (pStr : Str) (r : CResult) (k : Nat),
      (∀ c ∈ cmds, c = '?' ∨ tokenDirective c) → pStr.length ≤ k → '"' ∉ pStr →
      (parseDirectives env cmds opt pStr r).2 = (assignTokens cmds opt (tokensFuel env k pStr)).2 ∧
      (parseDirectives env cmds opt pStr r).1.m_apArgs =
        r.m_apArgs ++ (assignTokens cmds opt (tokensFuel env k pStr)).1 := by
  intro cmds
  induction cmds with
  | nil => intro opt pStr r k _ _ _; simp [parseDirectives, assignTokens]
  | cons Command rest ih =>
    intro opt pStr r k hc hk hq
    have hrest : ∀ c ∈ rest, c = '?' ∨ tokenDirective c :=
      fun c hcm => hc c (List.mem_cons_of_mem _ hcm)
    by_cases hm : Command = '?'
    · simp only [parseDirectives, assignTokens, if_pos hm]
      exact ih true pStr r k hrest hk hq
    · have htok : tokenDirective Command := by
        rcases hc Command (List.mem_cons_self _ _) with h | h
        · exact absurd h hm
        · exact h
      have hr : Command ≠ 'r' := by
        rcases htok with h | h | h | h <;> rw [h] <;> decide
      have hisTok : Command = 'v' ∨ Command = 'i' ∨ Command = 'f' ∨ Command = 's' := by
        rcases htok with h | h | h | h <;> simp [h]
      simp only [parseDirectives, assignTokens, if_neg hm]
      have hskip := str_skip_whitespaces_eq_dropWhile env pStr
      cases hs : str_skip_whitespaces env pStr with
      | nil =>
        have htoks : tokensFuel env k pStr = [] := by
          cases k with
          | zero => rfl
          | succ k =>
            simp only [tokensFuel]
            rw [← hskip, hs]
        rw [htoks]
        simp only []
        cases opt with
        | false => simp
        | true =>
          simp only [Bool.not_true, Bool.false_eq_true, if_false, if_true]
          split <;> simp [CResult.SetVictim]
      | cons c cs =>
        have hsuf : (c :: cs) <:+ pStr := by
          rw [← hs, hskip]
          exact List.dropWhile_suffix _
        have hcq : c ≠ '"' := by
          intro e
          apply hq
          rw [← e]
          exact hsuf.subset (List.mem_cons_self _ _)
        have hlen : (c :: cs).length ≤ pStr.length := hsuf.length_le
        cases k with
        | zero =>
          have hfalse : False := by
            simp only [List.length_cons] at hlen
            omega
          exact hfalse.elim
        | succ k =>
          have htoks : tokensFuel env (k + 1) pStr =
              tokenBefore env (c :: cs) ::
                tokensFuel env k (str_skip_to_whitespace env (c :: cs)).tail := by
            simp only [tokensFuel]
            rw [← hskip, hs]
            simp only [tokenBefore_eq_takeWhile, str_skip_to_whitespace_eq_dropWhile]
          have hsuf2 : (str_skip_to_whitespace env (c :: cs)).tail <:+ pStr := by
            rw [str_skip_to_whitespace_eq_dropWhile]
            exact ((List.tail_suffix _).trans (List.dropWhile_suffix _)).trans hsuf
          have hlen2 : (str_skip_to_whitespace env (c :: cs)).tail.length ≤ k := by
            have h1 := tail_length_le_pred (str_skip_to_whitespace env (c :: cs))
            have h2 : (str_skip_to_whitespace env (c :: cs)).length ≤ (c :: cs).length := by
              rw [str_skip_to_whitespace_eq_dropWhile]
              exact (List.dropWhile_suffix _).length_le
            simp only [List.length_cons] at h2 hlen hk
            omega
          have hq2 : '"' ∉ (str_skip_to_whitespace env (c :: cs)).tail :=
            fun e => hq (hsuf2.subset e)
          rw [htoks]
          simp only [if_neg hcq, if_neg hr, if_pos hisTok]
          obtain ⟨i1, i2⟩ := ih opt (str_skip_to_whitespace env (c :: cs)).tail
            (if Command = 'v' then
              (r.AddArgument (tokenBefore env (c :: cs))).SetVictimStr env
                (tokenBefore env (c :: cs))
             else r.AddArgument (tokenBefore env (c :: cs))) k hrest hlen2 hq2
          refine ⟨i1, ?_⟩
          rw [i2]
          have hargs : (if Command = 'v' then
              (r.AddArgument (tokenBefore env (c :: cs))).SetVictimStr env
                (tokenBefore env (c :: cs))
             else r.AddArgument (tokenBefore env (c :: cs))).m_apArgs =
              r.m_apArgs ++ [tokenBefore env (c :: cs)] := by
            split
            · rw [SetVictimStr_args]; rfl
            · rfl
          rw [hargs]
          simp

theorem assignTokens_cons (c : Char) (rest : List Char) (opt : Bool) (t : Str)
    (ts : List Str) (hc : c ≠ '?') :
    assignTokens (c :: rest) opt (t :: ts) =
      (t :: (assignTokens rest opt ts).1, (assignTokens rest opt ts).2) := by
  simp only [assignTokens, if_neg hc]

theorem assignTokens_nil (c : Char) (rest : List Char) (opt : Bool) (hc : c ≠ '?') :
    assignTokens (c :: rest) opt [] = ([], if opt then 0 else 1) := by
  simp only [assignTokens, if_neg hc]

theorem assignTokens_optional (cmds : List Char) (h : ∀ c ∈ cmds, tokenDirective c) :
    ∀ toks : List Str, assignTokens cmds true toks = (toks.take cmds.length, 0) := by
  induction cmds with
  | nil => intro toks; simp [assignTokens]
  | cons c rest ih =>
    intro toks
    have hc : c ≠ '?' := by
      rcases h c (List.mem_cons_self _ _) with e | e | e | e <;> rw [e] <;> decide
    have hrest : ∀ x ∈ rest, tokenDirective x := fun x hx => h x (List.mem_cons_of_mem _ hx)
    cases toks with
    | nil => rw [assignTokens_nil _ _ _ hc]; simp
    | cons t ts => rw [assignTokens_cons _ _ _ _ _ hc, ih hrest ts]; simp

theorem assignTokens_required (req : List Char) (h : ∀ c ∈ req, tokenDirective c)
    (tail : List Char) :
    ∀ toks : List Str, assignTokens (req ++ tail) false toks =
      if toks.length < req.length then (toks, 1)
      else (toks.take req.length ++ (assignTokens tail false (toks.drop req.length)).1,
            (assignTokens tail false (toks.drop req.length)).2) := by
  induction req with
  | nil => intro toks; simp
  | cons c rest ih =>
    intro toks
    have hc : c ≠ '?' := by
      rcases h c (List.mem_cons_self _ _) with e | e | e | e <;> rw [e] <;> decide
    have hrest : ∀ x ∈ rest, tokenDirective x := fun x hx => h x (List.mem_cons_of_mem _ hx)
    cases toks with
    | nil => rw [List.cons_append, assignTokens_nil _ _ _ hc]; simp
    | cons t ts =>
      rw [List.cons_append, assignTokens_cons _ _ _ _ _ hc, ih hrest ts]
      by_cases hl : ts.length < rest.length
      · simp [hl]
      · simp [hl]

theorem tokenDirective_wellFormed (d : FormatItem)
    (h : tokenDirective d.directive ∧ ∀ h sp, d.hint = some (h, sp) → ']' ∉ h) :
    d.WellFormed := by
  obtain ⟨ht, hh⟩ := h
  refine ⟨?_, ?_, hh⟩ <;> rcases ht with e | e | e | e <;> rw [e] <;> decide

/-- C13. Required versus optional directives: for every format made of
directive letters `i`, `f`, `s`, `v` (each optionally followed by a `[hint]`
and one space) with at most one `?`, and every argument text without a
double quote, `ParseArgs` returns an error exactly when the text has fewer
tokens than there are directives before the `?` (all directives, if there is
no `?`), that is, when the text runs out at a directive that no `?`
precedes; the arguments it adds are the tokens of the text in order, one per
directive that found text. -/
theorem ParseArgs_required_optional (env : Env) (r : CResult) (req opt : List FormatItem)
    (q : Bool)
    (hreq : ∀ d ∈ req ++ opt,
      tokenDirective d.directive ∧ ∀ h sp, d.hint = some (h, sp) → ']' ∉ h)
    (hquote : '"' ∉ r.m_pArgsStart) :
    (ParseArgs env r (renderFormat (req ++ (if q then optionalMark :: opt else [])))).2 =
        (if (tokens env r.m_pArgsStart).length < req.length then 1 else 0)
    ∧ (ParseArgs env r (renderFormat (req ++ (if q then optionalMark :: opt else [])))).1.m_apArgs =
        r.m_apArgs ++
          (tokens env r.m_pArgsStart).take (req.length + (if q then opt.length else 0)) := by
  have hwfreq : ∀ d ∈ req, d.WellFormed :=
    fun d hd => tokenDirective_wellFormed d (hreq d (List.mem_append_left _ hd))
  have hwfopt : ∀ d ∈ opt, d.WellFormed :=
    fun d hd => tokenDirective_wellFormed d (hreq d (List.mem_append_right _ hd))
  have hmark : optionalMark.WellFormed :=
    ⟨by decide, by decide, fun _ _ hh => by simp [optionalMark] at hh⟩
  have hwf : ∀ d ∈ req ++ (if q then optionalMark :: opt else []), d.WellFormed := by
    intro d hd
    rcases List.mem_append.mp hd with h1 | h1
    · exact hwfreq d h1
    · cases q with
      | false => simp at h1
      | true =>
        simp only [if_true, List.mem_cons] at h1
        rcases h1 with rfl | h2
        · exact hmark
        · exact hwfopt d h2
  have hreqL : ∀ c ∈ req.map (fun d => d.directive), tokenDirective c := by
    intro c hc
    obtain ⟨d, hd, rfl⟩ := List.mem_map.mp hc
    exact (hreq d (List.mem_append_left _ hd)).1
  have hoptL : ∀ c ∈ opt.map (fun d => d.directive), tokenDirective c := by
    intro c hc
    obtain ⟨d, hd, rfl⟩ := List.mem_map.mp hc
    exact (hreq d (List.mem_append_right _ hd)).1
  have hletters : (req ++ (if q then optionalMark :: opt else [])).map (fun d => d.directive) =
      req.map (fun d => d.directive) ++
        (if q then '?' :: opt.map (fun d => d.directive) else []) := by
    cases q <;> simp [optionalMark]
  have hall : ∀ c ∈ req.map (fun d => d.directive) ++
      (if q then '?' :: opt.map (fun d => d.directive) else []), c = '?' ∨ tokenDirective c := by
    intro c hc
    rcases List.mem_append.mp hc with h1 | h1
    · exact Or.inr (hreqL c h1)
    · cases q with
      | false => simp at h1
      | true =>
        simp only [if_true, List.mem_cons] at h1
        rcases h1 with rfl | h2
        · exact Or.inl rfl
        · exact Or.inr (hoptL c h2)
  have hloop : ParseArgs env r (renderFormat (req ++ (if q then optionalMark :: opt else []))) =
      parseDirectives env
        (req.map (fun d => d.directive) ++
          (if q then '?' :: opt.map (fun d => d.directive) else []))
        false r.m_pArgsStart (r.ResetVictim env) := by
    unfold ParseArgs
    rw [ParseArgsLoop_eq_parseDirectives env _ _ _ _ _ hwf (Nat.lt_succ_self _), hletters]
  obtain ⟨e1, e2⟩ := parseDirectives_assignTokens env _ false r.m_pArgsStart (r.ResetVictim env)
    r.m_pArgsStart.length hall (le_refl _) hquote
  have hassign := assignTokens_required (req.map (fun d => d.directive)) hreqL
    (if q then '?' :: opt.map (fun d => d.directive) else []) (tokens env r.m_pArgsStart)
  have htail : assignTokens (if q then '?' :: opt.map (fun d => d.directive) else []) false
      ((tokens env r.m_pArgsStart).drop req.length) =
      (((tokens env r.m_pArgsStart).drop req.length).take (if q then opt.length else 0), 0) := by
    cases q with
    | false => simp [assignTokens]
    | true =>
      simp only [if_true, assignTokens]
      rw [assignTokens_optional _ hoptL]
      simp
  rw [hloop, e1, e2]
  unfold tokens at hassign htail ⊢
  rw [hassign]
  simp only [List.length_map] at htail ⊢
  rw [htail]
  have hra : (r.ResetVictim env).m_apArgs = r.m_apArgs := rfl
  rw [hra]
  by_cases hl : (tokensFuel env r.m_pArgsStart.length r.m_pArgsStart).length < req.length
  · simp only [if_pos hl, true_and]
    rw [List.take_of_length_le (by omega)]
  · simp only [if_neg hl, true_and]
    rw [List.take_add]

/-- The witness of C13: the format `s[command] ?i[accesslevel]` accepts the
argument text `echo` with the one argument `echo`. -/
theorem ParseArgs_required_optional_witness :
    (ParseArgs ddnet { CResult.init ddnet 0 with m_pArgsStart := "echo".toList }
        "s[command] ?i[accesslevel]".toList).2 = 0
    ∧ (ParseArgs ddnet { CResult.init ddnet 0 with m_pArgsStart := "echo".toList }
        "s[command] ?i[accesslevel]".toList).1.m_apArgs = ["echo".toList] :=
  ParseArgs_required_optional ddnet { CResult.init ddnet 0 with m_pArgsStart := "echo".toList }
    [{ directive := 's', hint := some ("command".toList, true) }]
    [{ directive := 'i', hint := some ("accesslevel".toList, false) }] true
    (by
      intro d hd
      simp only [List.cons_append, List.nil_append, List.mem_cons, List.mem_singleton,
        List.not_mem_nil, or_false] at hd
      rcases hd with rfl | rfl
      · refine ⟨Or.inr (Or.inr (Or.inl rfl)), fun h sp hh => ?_⟩
        simp only [Option.some.injEq, Prod.mk.injEq] at hh
        rw [← hh.1]
        decide
      · refine ⟨Or.inl rfl, fun h sp hh => ?_⟩
        simp only [Option.some.injEq, Prod.mk.injEq] at hh
        rw [← hh.1]
        decide)
    (by decide)

/-! ### The context policy -/

/-- C19. Context policy: a sub-command of a map script
(`ClientID = CLIENT_ID_GAME`) that names a command without the GAME flag, and
a sub-command of a non-map config file (`ClientID = CLIENT_ID_NO_GAME`) that
names a command with the GAME flag, invokes nothing and enqueues nothing,
whatever the access levels are: on the press pass it only prints the
`cannot be executed from a map` message, respectively the
`cannot be executed from a non-map config file` message and the hint that
follows it; on the release pass it leaves the state unchanged.  Hence such a
dispatch invokes or enqueues a command only if the flag fits the source. -/
theorem dispatch_context_policy (env : Env) (reenter : ReenterFn) (Stroke : Bool)
    (ClientID : Int) (Result : CResult) (c : CConsole) (pCommand : CCommand)
    (hname : Result.m_pCommand ≠ [])
    (hfind : FindCommand c.m_pFirstCommand Result.m_pCommand c.m_FlagMask = some pCommand) :
    (ClientID = env.CLIENT_ID_GAME → hasFlag pCommand.m_Flags env.CFGFLAG_GAME = false →
      dispatch env reenter Stroke ClientID Result c =
        Except.ok (Flow.next,
          if Stroke then
            traceAppend c
              [Event.print env.OUTPUT_LEVEL_STANDARD "console".toList
                (Msg.str_format 96 "Command '%s' cannot be executed from a map.".toList
                  [Result.m_pCommand])]
          else c))
    ∧ (ClientID = env.CLIENT_ID_NO_GAME → hasFlag pCommand.m_Flags env.CFGFLAG_GAME = true →
      dispatch env reenter Stroke ClientID Result c =
        Except.ok (Flow.next,
          if Stroke then
            traceAppend c
              [Event.print env.OUTPUT_LEVEL_STANDARD "console".toList
                (Msg.str_format 96
                  "Command '%s' cannot be executed from a non-map config file.".toList
                  [Result.m_pCommand]),
               Event.print env.OUTPUT_LEVEL_STANDARD "console".toList
                (Msg.str_format 96
                  "Hint: Put the command in '%s.cfg' instead of '%s.map.cfg' ".toList
                  [c.g_Config.m_SvMap, c.g_Config.m_SvMap])]
          else c)) := by
  constructor
  · intro hcid hflag
    have h1 : ClientID = env.CLIENT_ID_GAME ∧ ¬ hasFlag pCommand.m_Flags env.CFGFLAG_GAME = true := by
      exact ⟨hcid, by simp [hflag]⟩
    unfold dispatch
    rw [if_neg hname, hfind]
    dsimp only
    rw [if_pos h1]
    cases Stroke <;> simp [Print, CConsole.log, traceAppend]
  · intro hcid hflag
    have h1 : ¬ (ClientID = env.CLIENT_ID_GAME ∧
        ¬ hasFlag pCommand.m_Flags env.CFGFLAG_GAME = true) := by
      intro h; exact h.2 hflag
    have h2 : ClientID = env.CLIENT_ID_NO_GAME ∧ hasFlag pCommand.m_Flags env.CFGFLAG_GAME = true :=
      ⟨hcid, hflag⟩
    unfold dispatch
    rw [if_neg hname, hfind]
    dsimp only
    rw [if_neg h1, if_pos h2]
    cases Stroke <;> simp [Print, CConsole.log, traceAppend]

/-- The witness of C19: from a map script `shutdown` is refused, from a
non-map config file `tune` is refused, each with its message. -/
theorem dispatch_context_policy_witness :
    dispatch ddnet (reentry ddnet 0) true ddnet.CLIENT_ID_GAME
        (ParseStart ddnet (CResult.init ddnet ddnet.CLIENT_ID_GAME) "shutdown".toList 9).1
        mapConsole =
      Except.ok (Flow.next, traceAppend mapConsole
        [Event.print 0 "console".toList
          (Msg.str_format 96 "Command '%s' cannot be executed from a map.".toList
            ["shutdown".toList])])
    ∧ dispatch ddnet (reentry ddnet 0) true ddnet.CLIENT_ID_NO_GAME
        (ParseStart ddnet (CResult.init ddnet ddnet.CLIENT_ID_NO_GAME) "tune x 1".toList 9).1
        mapConsole =
      Except.ok (Flow.next, traceAppend mapConsole
        [Event.print 0 "console".toList
          (Msg.str_format 96
            "Command '%s' cannot be executed from a non-map config file.".toList
            ["tune".toList]),
         Event.print 0 "console".toList
          (Msg.str_format 96 "Hint: Put the command in '%s.cfg' instead of '%s.map.cfg' ".toList
            ["dm1".toList, "dm1".toList])]) :=
  ⟨(dispatch_context_policy ddnet (reentry ddnet 0) true ddnet.CLIENT_ID_GAME
      (ParseStart ddnet (CResult.init ddnet ddnet.CLIENT_ID_GAME) "shutdown".toList 9).1
      mapConsole
      { m_pName := "shutdown".toList, m_pHelp := "Shut down".toList, m_pParams := [],
        m_Flags := 4, m_Temp := false, m_AccessLevel := 0, m_Callback := Callback.handler 22 0 }
      (by decide) (by decide)).1 rfl (by decide),
   (dispatch_context_policy ddnet (reentry ddnet 0) true ddnet.CLIENT_ID_NO_GAME
      (ParseStart ddnet (CResult.init ddnet ddnet.CLIENT_ID_NO_GAME) "tune x 1".toList 9).1
      mapConsole
      { m_pName := "tune".toList, m_pHelp := "Tune".toList,
        m_pParams := "s[name] i[value]".toList,
        m_Flags := 68, m_Temp := false, m_AccessLevel := 0, m_Callback := Callback.handler 21 0 }
      (by decide) (by decide)).2 rfl (by decide)⟩

/-! ### Direct invocation -/

theorem traceAppend_nil (c : CConsole) : traceAppend c [] = c := by
  simp [traceAppend]

theorem traceAppend_append (c : CConsole) (es fs : List Event) :
    traceAppend (traceAppend c es) fs = traceAppend c (es ++ fs) := by
  simp [traceAppend]

theorem log_eq_traceAppend (c : CConsole) (e : Event) : c.log e = traceAppend c [e] := rfl

/-- The direct path of `dispatch`: a command that is found, passes the
context and access checks, has valid arguments, is not queued and is not
dropped as test-only is run after the audit hook, with the victim
resolved. -/
theorem dispatch_direct (env : Env) (reenter : ReenterFn) (Stroke : Bool) (ClientID : Int)
    (Result Result2 : CResult) (c : CConsole) (pCommand : CCommand)
    (hname : Result.m_pCommand ≠ [])
    (hfind : FindCommand c.m_pFirstCommand Result.m_pCommand c.m_FlagMask = some pCommand)
    (hmap : ¬ (ClientID = env.CLIENT_ID_GAME ∧ ¬ hasFlag pCommand.m_Flags env.CFGFLAG_GAME))
    (hnomap : ¬ (ClientID = env.CLIENT_ID_NO_GAME ∧ hasFlag pCommand.m_Flags env.CFGFLAG_GAME))
    (hlevel : pCommand.m_AccessLevel ≥ c.m_AccessLevel)
    (hrun : Stroke = true ∨ Result.m_pCommand.head? = some '+')
    (hparse : ParseArgs env
        (if Result.m_pCommand.head? = some '+' then Result.AddArgument (m_paStrokeStr Stroke)
         else Result) pCommand.m_pParams = (Result2, 0))
    (hdirect : ¬ (c.m_StoreCommands ∧ hasFlag pCommand.m_Flags env.CFGFLAG_STORE))
    (htest : ¬ (hasFlag pCommand.m_Flags env.CMDFLAG_TEST ∧ c.g_Config.m_SvTestingCommands = 0)) :
    dispatch env reenter Stroke ClientID Result c =
      match
        (if (if Result2.GetVictim = env.VICTIM_ME then Result2.SetVictim env ClientID
              else Result2).HasVictim env ∧
            (if Result2.GetVictim = env.VICTIM_ME then Result2.SetVictim env ClientID
              else Result2).GetVictim = env.VICTIM_ALL then
          invokeVictims env reenter pCommand.m_Callback env.MAX_CLIENTS 0
            (if Result2.GetVictim = env.VICTIM_ME then Result2.SetVictim env ClientID
              else Result2)
            (traceAppend c (auditEvents env c ClientID pCommand Result2))
        else
          invoke env reenter pCommand.m_Callback
            (if Result2.GetVictim = env.VICTIM_ME then Result2.SetVictim env ClientID
              else Result2)
            (traceAppend c (auditEvents env c ClientID pCommand Result2))) with
      | Except.error e => Except.error e
      | Except.ok c2 => Except.ok (Flow.next, markCheated env pCommand c2) := by
  have hs : (Stroke || decide (Result.m_pCommand.head? = some '+')) = true := by
    rcases hrun with h | h
    · simp [h]
    · simp [h]
  have hc1 : (if c.m_pfnTeeHistorianCommandCallback.isSome ∧
        ¬ hasFlag pCommand.m_Flags env.CFGFLAG_NONTEEHISTORIC then
        c.log (Event.historian ClientID c.m_FlagMask pCommand.m_pName Result2)
      else c) = traceAppend c (auditEvents env c ClientID pCommand Result2) := by
    unfold auditEvents
    split
    · rfl
    · exact (traceAppend_nil c).symm
  unfold dispatch
  rw [if_neg hname, hfind]
  dsimp only
  rw [if_neg hmap, if_neg hnomap, if_pos hlevel, if_pos hs]
  simp only [decide_eq_true_eq]
  rw [hparse]
  dsimp only
  rw [if_neg (by simp), if_neg hdirect, if_neg htest, hc1]
  rfl

/-! ### Resolution of the victim `me` -/

/-- C20, counterexample. The victim `me` is resolved through `SetVictim(int)`,
which clamps to `VICTIM_NONE .. MAX_CLIENTS - 1`.  With the constants of the
game (`VICTIM_ALL = -1`, `MAX_CLIENTS = 64`) the line `slap me` of the invoker
`-1` resolves to the marker `all`: the callback is invoked 64 times, for the
slots 0..63, and no invocation sees the victim `-1`; for the invoker `64` the
one invocation sees the victim 63. -/
theorem dispatch_me_clamped :
    ExecuteLineStroked ddnet (reentry ddnet 0) true "slap me".toList (-1) true sayConsole =
      Except.ok (traceAppend sayConsole
        ((List.range 64).map (fun (i : Nat) =>
          Event.call (Callback.handler 12 0)
            { m_ClientID := -1, m_pCommand := "slap".toList, m_pArgsStart := "me".toList,
              m_apArgs := ["me".toList], m_Victim := (i : Int) })))
    ∧ ExecuteLineStroked ddnet (reentry ddnet 0) true "slap me".toList 64 true sayConsole =
      Except.ok (traceAppend sayConsole
        [Event.call (Callback.handler 12 0)
          { m_ClientID := 64, m_pCommand := "slap".toList, m_pArgsStart := "me".toList,
            m_apArgs := ["me".toList], m_Victim := 63 }]) :=
  ⟨rfl, rfl⟩

/-- C20 (amended). Self-victim resolution: if the invoking `ClientID` is a
client slot (`0 ≤ ClientID < MAX_CLIENTS`), a direct (non-queued) dispatch
whose parsed victim is the marker `VICTIM_ME` invokes the callback of the
command exactly once, after the audit hook, with a result whose
`GetVictim()` is `ClientID` and which is otherwise the parsed result; for an
outside handler the state afterwards is the old state with the audit event
and that one call appended.  The constants of console.h are only assumed to
satisfy `VICTIM_NONE ≤ 0` and `VICTIM_ALL < 0`. -/
theorem dispatch_victim_me (env : Env) (reenter : ReenterFn) (Stroke : Bool) (ClientID : Int)
    (Result Result2 : CResult) (c : CConsole) (pCommand : CCommand)
    (hnone : env.VICTIM_NONE ≤ 0) (hall : env.VICTIM_ALL < 0)
    (hcid0 : 0 ≤ ClientID) (hcid1 : ClientID < env.MAX_CLIENTS)
    (hname : Result.m_pCommand ≠ [])
    (hfind : FindCommand c.m_pFirstCommand Result.m_pCommand c.m_FlagMask = some pCommand)
    (hmap : ¬ (ClientID = env.CLIENT_ID_GAME ∧ ¬ hasFlag pCommand.m_Flags env.CFGFLAG_GAME))
    (hnomap : ¬ (ClientID = env.CLIENT_ID_NO_GAME ∧ hasFlag pCommand.m_Flags env.CFGFLAG_GAME))
    (hlevel : pCommand.m_AccessLevel ≥ c.m_AccessLevel)
    (hrun : Stroke = true ∨ Result.m_pCommand.head? = some '+')
    (hparse : ParseArgs env
        (if Result.m_pCommand.head? = some '+' then Result.AddArgument (m_paStrokeStr Stroke)
         else Result) pCommand.m_pParams = (Result2, 0))
    (hvictim : Result2.m_Victim = env.VICTIM_ME)
    (hdirect : ¬ (c.m_StoreCommands ∧ hasFlag pCommand.m_Flags env.CFGFLAG_STORE))
    (htest : ¬ (hasFlag pCommand.m_Flags env.CMDFLAG_TEST ∧ c.g_Config.m_SvTestingCommands = 0)) :
    (dispatch env reenter Stroke ClientID Result c =
      match invoke env reenter pCommand.m_Callback { Result2 with m_Victim := ClientID }
          (traceAppend c (auditEvents env c ClientID pCommand Result2)) with
      | Except.error e => Except.error e
      | Except.ok c2 => Except.ok (Flow.next, markCheated env pCommand c2))
    ∧ CResult.GetVictim { Result2 with m_Victim := ClientID } = ClientID
    ∧ (pCommand.m_Callback.isOpaque = true →
        dispatch env reenter Stroke ClientID Result c =
          Except.ok (Flow.next, markCheated env pCommand
            (traceAppend c (auditEvents env c ClientID pCommand Result2 ++
              [Event.call pCommand.m_Callback { Result2 with m_Victim := ClientID }])))) := by
  have hclamp : clamp ClientID env.VICTIM_NONE ((env.MAX_CLIENTS : Int) - 1) = ClientID := by
    unfold clamp
    rw [if_neg (by omega), if_neg (by omega)]
  have hR3 : (if Result2.GetVictim = env.VICTIM_ME then Result2.SetVictim env ClientID
      else Result2) = { Result2 with m_Victim := ClientID } := by
    rw [if_pos (by simpa [CResult.GetVictim] using hvictim)]
    simp only [CResult.SetVictim, hclamp]
  have hnall : ¬ (CResult.HasVictim env { Result2 with m_Victim := ClientID } = true ∧
      CResult.GetVictim { Result2 with m_Victim := ClientID } = env.VICTIM_ALL) := by
    intro h
    have h2 : ClientID = env.VICTIM_ALL := h.2
    omega
  have hd := dispatch_direct env reenter Stroke ClientID Result Result2 c pCommand hname hfind
    hmap hnomap hlevel hrun hparse hdirect htest
  rw [hR3, if_neg hnall] at hd
  refine ⟨hd, rfl, ?_⟩
  intro hop
  rw [hd, invoke_opaque env reenter _ _ _ hop, log_eq_traceAppend, traceAppend_append]

/-- The witness of C20: the line `slap me` of client 5 on the server
console. -/
theorem dispatch_victim_me_witness :
    dispatch ddnet (reentry ddnet 0) true 5
        (ParseStart ddnet (CResult.init ddnet 5) "slap me".toList 8).1 sayConsole =
      Except.ok (Flow.next, traceAppend sayConsole
        [Event.call (Callback.handler 12 0)
          { m_ClientID := 5, m_pCommand := "slap".toList, m_pArgsStart := "me".toList,
            m_apArgs := ["me".toList], m_Victim := 5 }]) :=
  (dispatch_victim_me ddnet (reentry ddnet 0) true 5
    (ParseStart ddnet (CResult.init ddnet 5) "slap me".toList 8).1
    { m_ClientID := 5, m_pCommand := "slap".toList, m_pArgsStart := "me".toList,
      m_apArgs := ["me".toList], m_Victim := -2 }
    sayConsole
    { m_pName := "slap".toList, m_pHelp := "Slap a player".toList, m_pParams := "v[id]".toList,
      m_Flags := 4, m_Temp := false, m_AccessLevel := 0, m_Callback := Callback.handler 12 0 }
    (by decide) (by decide) (by decide) (by decide) (by decide) (by decide) (by decide)
    (by decide) (by decide) (by decide) (by decide) (by decide) (by decide) (by decide)).2.2 rfl

/-! ### The release pass -/

/-- On the release pass a sub-command whose name does not start with `+`
leaves the state as it is. -/
theorem dispatch_release_noop (env : Env) (reenter : ReenterFn) (ClientID : Int)
    (Result : CResult) (c : CConsole) (hplus : Result.m_pCommand.head? ≠ some '+') :
    dispatch env reenter false ClientID Result c = Except.ok (Flow.ret, c) ∨
      dispatch env reenter false ClientID Result c = Except.ok (Flow.next, c) := by
  by_cases hname : Result.m_pCommand = []
  · exact Or.inl (dispatch_empty_command env reenter false ClientID Result c hname)
  · right
    cases hfind : FindCommand c.m_pFirstCommand Result.m_pCommand c.m_FlagMask with
    | none =>
      unfold dispatch
      rw [if_neg hname, hfind]
      rfl
    | some pCommand =>
      exact dispatch_release_plain env reenter ClientID Result c pCommand hname hplus hfind

theorem lineLoop_release_noop (env : Env) (reenter : ReenterFn) (ClientID : Int)
    (interp : Bool) :
    ∀ (fuel : Nat) (pStr : Option Str) (c : CConsole),
      (∀ s, pStr = some s → s.length ≤ fuel) →
      (∀ R ∈ partsLoop env ClientID interp fuel pStr, R.m_pCommand.head? ≠ some '+') →
      lineLoop env reenter false ClientID interp fuel pStr c = Except.ok c := by
  intro fuel
  induction fuel with
  | zero =>
    intro pStr c hlen _
    cases pStr with
    | none => exact lineLoop_none _ _ _ _ _ _ _
    | some s =>
      have hs : s = [] := List.length_eq_zero.mp (Nat.le_zero.mp (hlen s rfl))
      subst hs
      exact lineLoop_nil _ _ _ _ _ _ _
  | succ fuel ih =>
    intro pStr c hlen hplus
    cases pStr with
    | none => exact lineLoop_none _ _ _ _ _ _ _
    | some s =>
      cases s with
      | nil => exact lineLoop_nil _ _ _ _ _ _ _
      | cons a as =>
        have hhead := hplus _ (by simp only [partsLoop]; exact List.mem_cons_self _ _)
        have htail : ∀ R ∈ partsLoop env ClientID interp fuel
            (scanSubcommand interp false (a :: as)).2, R.m_pCommand.head? ≠ some '+' := by
          intro R hR
          exact hplus R (by simp only [partsLoop]; exact List.mem_cons_of_mem _ hR)
        have hrest : ∀ s, (scanSubcommand interp false (a :: as)).2 = some s →
            s.length ≤ fuel := by
          intro s hs
          have h1 := (scanSubcommand_spec interp (a :: as).length (a :: as) false
            (le_refl _)).2.1 s hs
          have h2 := hlen (a :: as) rfl
          omega
        rw [lineLoop_step]
        rcases dispatch_release_noop env reenter ClientID _ c hhead with h | h
        · rw [h]
        · rw [h]
          exact ih _ c hrest htail

theorem ExecuteLineStroked_release_parts (env : Env) (reenter : ReenterFn) (line : Str)
    (ClientID : Int) (interp : Bool) (c : CConsole)
    (hplus : ∀ R ∈ lineParts env line ClientID interp, R.m_pCommand.head? ≠ some '+') :
    ExecuteLineStroked env reenter false line ClientID interp c = Except.ok c := by
  unfold ExecuteLineStroked
  unfold lineParts at hplus
  cases hmc : str_startswith line "mc;".toList with
  | none =>
    rw [hmc] at hplus
    exact lineLoop_release_noop env reenter ClientID interp _ _ c
      (fun s hs => by cases hs; exact le_refl _) hplus
  | some w =>
    rw [hmc] at hplus
    exact lineLoop_release_noop env reenter ClientID true _ _ c
      (fun s hs => by cases hs; exact le_refl _) hplus

/-- C16. The release pass is a no-op for non-`+` commands: for every console
state and every line in which no sub-command's typed name starts with `+`
(the sub-commands are those the loop of `ExecuteLineStroked` parses, behind a
leading `mc;` if there is one), `ExecuteLineStroked` with stroke = release
returns the state unchanged: the trace has no new call, audit or print event,
the queue, the command list and the test-features flag are the old ones.
Hence `ExecuteLine` does exactly what its press pass does, and a line that is
one unknown command is reported exactly once. -/
theorem ExecuteLineStroked_release_noop (env : Env) (reenter : ReenterFn) (line : Str)
    (ClientID : Int) (interp : Bool) (c : CConsole)
    (hplus : ∀ R ∈ lineParts env line ClientID interp, R.m_pCommand.head? ≠ some '+') :
    ExecuteLineStroked env reenter false line ClientID interp c = Except.ok c
    ∧ ExecuteLine env reenter line ClientID interp c =
        ExecuteLineStroked env reenter true line ClientID interp c
    ∧ (str_startswith line "mc;".toList = none →
        scanSubcommand interp false line = (line.length, none) →
        (ParseStart env (CResult.init env ClientID) line (line.length + 1)).1.m_pCommand ≠ [] →
        FindCommand c.m_pFirstCommand
          (ParseStart env (CResult.init env ClientID) line (line.length + 1)).1.m_pCommand
          c.m_FlagMask = none →
        ExecuteLine env reenter line ClientID interp c =
          Except.ok (traceAppend c
            [Event.print env.OUTPUT_LEVEL_STANDARD "console".toList
              (Msg.str_format 256 "No such command: %s.".toList
                [(ParseStart env (CResult.init env ClientID) line
                  (line.length + 1)).1.m_pCommand])])) := by
  have hpress : ExecuteLine env reenter line ClientID interp c =
      ExecuteLineStroked env reenter true line ClientID interp c := by
    unfold ExecuteLine
    cases h1 : ExecuteLineStroked env reenter true line ClientID interp c with
    | error e => rfl
    | ok c1 =>
      have hparts : ∀ R ∈ lineParts env line ClientID interp,
          R.m_pCommand.head? ≠ some '+' := hplus
      exact ExecuteLineStroked_release_parts env reenter line ClientID interp c1 hparts
  refine ⟨ExecuteLineStroked_release_parts env reenter line ClientID interp c hplus, hpress, ?_⟩
  intro hmc hscan hname hfind
  have hne : line ≠ [] := by
    intro h0
    subst h0
    exact hname (ParseStart_nil_command env _ _)
  rw [hpress, ExecuteLineStroked_single env reenter true line ClientID interp c hmc hscan hne]
  unfold dispatch
  rw [if_neg hname, hfind]
  rfl

/-- The witness of C16: the line `nope;slap 1` on the server console; its
release pass changes nothing, and the line `nope` is reported once. -/
theorem ExecuteLineStroked_release_noop_witness :
    ExecuteLineStroked ddnet (reentry ddnet 0) false "nope;slap 1".toList (-1) true
        sayConsole = Except.ok sayConsole
    ∧ ExecuteLine ddnet (reentry ddnet 0) "nope;slap 1".toList (-1) true sayConsole =
        ExecuteLineStroked ddnet (reentry ddnet 0) true "nope;slap 1".toList (-1) true
          sayConsole
    ∧ ExecuteLine ddnet (reentry ddnet 0) "nope".toList (-1) true sayConsole =
        Except.ok (traceAppend sayConsole
          [Event.print 0 "console".toList
            (Msg.str_format 256 "No such command: %s.".toList ["nope".toList])]) :=
  ⟨(ExecuteLineStroked_release_noop ddnet (reentry ddnet 0) "nope;slap 1".toList (-1) true
      sayConsole (by decide)).1,
   (ExecuteLineStroked_release_noop ddnet (reentry ddnet 0) "nope;slap 1".toList (-1) true
      sayConsole (by decide)).2.1,
   (ExecuteLineStroked_release_noop ddnet (reentry ddnet 0) "nope".toList (-1) true
      sayConsole (by decide)).2.2 (by decide) (by decide) (by decide) (by decide)⟩

/-! ### Stroke commands -/

theorem prependArgs_AddArgument (pre : List Str) (r : CResult) (x : Str) :
    (prependArgs pre r).AddArgument x = prependArgs pre (r.AddArgument x) := by
  simp [prependArgs, CResult.AddArgument]

theorem prependArgs_SetVictimStr (env : Env) (pre : List Str) (r : CResult) (x : Str) :
    (prependArgs pre r).SetVictimStr env x = prependArgs pre (r.SetVictimStr env x) := by
  unfold CResult.SetVictimStr
  split
  · rfl
  · split <;> rfl

/-- The validator only appends to the arguments: arguments that are there
before come out in front, everything else is as without them. -/
theorem ParseArgsLoop_prepend (env : Env) (pre : List Str) :
    ∀ (fuel : Nat) (pFormat : Str) (opt : Bool) (pStr : Str) (r : CResult),
      ParseArgsLoop env fuel pFormat opt pStr (prependArgs pre r) =
        (prependArgs pre (ParseArgsLoop env fuel pFormat opt pStr r).1,
          (ParseArgsLoop env fuel pFormat opt pStr r).2) := by
  intro fuel
  induction fuel with
  | zero => intro pFormat opt pStr r; simp [ParseArgsLoop]
  | succ fuel ih =>
    intro pFormat opt pStr r
    cases pFormat with
    | nil => simp [ParseArgsLoop]
    | cons Command fmt =>
      by_cases hq : Command = '?'
      · simp only [ParseArgsLoop, hq, if_true]
        exact ih _ _ _ _
      · simp only [ParseArgsLoop, if_neg hq]
        cases hs : str_skip_whitespaces env pStr with
        | nil =>
          dsimp only
          cases opt
          · rfl
          · simp only [Bool.not_true, Bool.false_eq_true, if_false]
            split <;> rfl
        | cons ch cs =>
          dsimp only
          by_cases hc : ch = '"'
          · rw [if_pos hc, if_pos hc]
            cases hu : unescapeQuoted cs with
            | mk out rest =>
              cases rest with
              | none =>
                dsimp only
                rw [prependArgs_AddArgument]
              | some rest =>
                dsimp only
                rw [prependArgs_AddArgument]
                exact ih _ _ _ _
          · rw [if_neg hc, if_neg hc]
            by_cases hr : Command = 'r'
            · rw [if_pos hr, if_pos hr, prependArgs_AddArgument]
            · rw [if_neg hr, if_neg hr, prependArgs_AddArgument]
              by_cases hv : Command = 'v'
              · rw [if_pos hv, if_pos hv, prependArgs_SetVictimStr]
                exact ih _ _ _ _
              · rw [if_neg hv, if_neg hv]
                exact ih _ _ _ _

theorem ParseArgs_prepend (env : Env) (pre : List Str) (r : CResult) (pFormat : Str) :
    ParseArgs env (prependArgs pre r) pFormat =
      (prependArgs pre (ParseArgs env r pFormat).1, (ParseArgs env r pFormat).2) := by
  unfold ParseArgs
  exact ParseArgsLoop_prepend env pre (pFormat.length + 1) pFormat false r.m_pArgsStart
    (r.ResetVictim env)

theorem markCheated_traceAppend (env : Env) (pCommand : CCommand) (c : CConsole)
    (es : List Event) :
    traceAppend (markCheated env pCommand c) es = markCheated env pCommand (traceAppend c es) := by
  unfold markCheated
  split <;> rfl

theorem markCheated_idem (env : Env) (pCommand : CCommand) (c : CConsole) :
    markCheated env pCommand (markCheated env pCommand c) = markCheated env pCommand c := by
  unfold markCheated
  split <;> rfl

theorem auditEvents_congr (env : Env) (c c1 : CConsole) (ClientID : Int) (pCommand : CCommand)
    (R : CResult)
    (h1 : c1.m_pfnTeeHistorianCommandCallback = c.m_pfnTeeHistorianCommandCallback)
    (h2 : c1.m_FlagMask = c.m_FlagMask) :
    auditEvents env c1 ClientID pCommand R = auditEvents env c ClientID pCommand R := by
  unfold auditEvents
  rw [h1, h2]

/-- One pass of a stroke command on the direct path, for an outside
handler. -/
theorem dispatch_result_map (f : CConsole → CConsole) (x : Except Fault CConsole) :
    (match
        (match x with
         | Except.error e => Except.error e
         | Except.ok c2 => Except.ok (Flow.next, f c2) : Except Fault (Flow × CConsole)) with
      | Except.error e => Except.error e
      | Except.ok (_, c1) => Except.ok c1) = x.map f := by
  cases x <;> rfl

theorem levelless_fields {x y : CCommand} (h : levelless y = levelless x) :
    y.m_pName = x.m_pName ∧ y.m_pParams = x.m_pParams ∧ y.m_Flags = x.m_Flags ∧
    y.m_Callback = x.m_Callback := by
  have f1 := congrArg CCommand.m_pName h
  have f2 := congrArg CCommand.m_pParams h
  have f3 := congrArg CCommand.m_Flags h
  have f4 := congrArg CCommand.m_Callback h
  exact ⟨f1, f2, f3, f4⟩

theorem dispatch_stroke_invoke (env : Env) (reenter : ReenterFn) (Stroke : Bool)
    (ClientID : Int) (Result Result2 : CResult) (c : CConsole) (pCommand : CCommand)
    (hargs : Result.m_apArgs = [])
    (hplus : Result.m_pCommand.head? = some '+')
    (hfind : FindCommand c.m_pFirstCommand Result.m_pCommand c.m_FlagMask = some pCommand)
    (hmap : ¬ (ClientID = env.CLIENT_ID_GAME ∧ ¬ hasFlag pCommand.m_Flags env.CFGFLAG_GAME))
    (hnomap : ¬ (ClientID = env.CLIENT_ID_NO_GAME ∧ hasFlag pCommand.m_Flags env.CFGFLAG_GAME))
    (hlevel : pCommand.m_AccessLevel ≥ c.m_AccessLevel)
    (hparse : ParseArgs env Result pCommand.m_pParams = (Result2, 0))
    (hdirect : ¬ (c.m_StoreCommands ∧ hasFlag pCommand.m_Flags env.CFGFLAG_STORE))
    (htest : ¬ (hasFlag pCommand.m_Flags env.CMDFLAG_TEST ∧ c.g_Config.m_SvTestingCommands = 0))
    (hvictim : (resolveVictim env ClientID Result2).m_Victim ≠ env.VICTIM_ALL) :
    dispatch env reenter Stroke ClientID Result c =
      match invoke env reenter pCommand.m_Callback
          (resolveVictim env ClientID (prependArgs [m_paStrokeStr Stroke] Result2))
          (traceAppend c (auditEvents env c ClientID pCommand
            (prependArgs [m_paStrokeStr Stroke] Result2))) with
      | Except.error e => Except.error e
      | Except.ok c2 => Except.ok (Flow.next, markCheated env pCommand c2) := by
  have hname : Result.m_pCommand ≠ [] := by
    intro h; rw [h] at hplus; simp at hplus
  have hR1 : Result.AddArgument (m_paStrokeStr Stroke) =
      prependArgs [m_paStrokeStr Stroke] Result := by
    simp [CResult.AddArgument, prependArgs, hargs]
  have hparse2 : ParseArgs env
      (if Result.m_pCommand.head? = some '+' then Result.AddArgument (m_paStrokeStr Stroke)
       else Result) pCommand.m_pParams =
      (prependArgs [m_paStrokeStr Stroke] Result2, 0) := by
    rw [if_pos hplus, hR1, ParseArgs_prepend, hparse]
  have hd := dispatch_direct env reenter Stroke ClientID Result _ c pCommand hname hfind
    hmap hnomap hlevel (Or.inr hplus) hparse2 hdirect htest
  have hres : (if CResult.GetVictim (prependArgs [m_paStrokeStr Stroke] Result2) =
        env.VICTIM_ME then
        CResult.SetVictim env (prependArgs [m_paStrokeStr Stroke] Result2) ClientID
      else prependArgs [m_paStrokeStr Stroke] Result2) =
      resolveVictim env ClientID (prependArgs [m_paStrokeStr Stroke] Result2) := rfl
  have hnall : ¬ (CResult.HasVictim env (resolveVictim env ClientID
        (prependArgs [m_paStrokeStr Stroke] Result2)) = true ∧
      CResult.GetVictim (resolveVictim env ClientID
        (prependArgs [m_paStrokeStr Stroke] Result2)) = env.VICTIM_ALL) := by
    intro h
    apply hvictim
    have h2 := h.2
    unfold resolveVictim at h2 ⊢
    simp only [CResult.GetVictim, prependArgs] at h2 ⊢
    split at h2
    · rename_i hme
      rw [if_pos hme]
      exact h2
    · rename_i hme
      rw [if_neg hme]
      exact h2
  rw [hres, if_neg hnall] at hd
  exact hd

theorem dispatch_stroke_pass (env : Env) (reenter : ReenterFn) (Stroke : Bool)
    (ClientID : Int) (Result Result2 : CResult) (c : CConsole) (pCommand : CCommand)
    (hargs : Result.m_apArgs = [])
    (hplus : Result.m_pCommand.head? = some '+')
    (hfind : FindCommand c.m_pFirstCommand Result.m_pCommand c.m_FlagMask = some pCommand)
    (hmap : ¬ (ClientID = env.CLIENT_ID_GAME ∧ ¬ hasFlag pCommand.m_Flags env.CFGFLAG_GAME))
    (hnomap : ¬ (ClientID = env.CLIENT_ID_NO_GAME ∧ hasFlag pCommand.m_Flags env.CFGFLAG_GAME))
    (hlevel : pCommand.m_AccessLevel ≥ c.m_AccessLevel)
    (hparse : ParseArgs env Result pCommand.m_pParams = (Result2, 0))
    (hdirect : ¬ (c.m_StoreCommands ∧ hasFlag pCommand.m_Flags env.CFGFLAG_STORE))
    (htest : ¬ (hasFlag pCommand.m_Flags env.CMDFLAG_TEST ∧ c.g_Config.m_SvTestingCommands = 0))
    (hvictim : (resolveVictim env ClientID Result2).m_Victim ≠ env.VICTIM_ALL)
    (hop : pCommand.m_Callback.isOpaque = true) :
    dispatch env reenter Stroke ClientID Result c =
      Except.ok (Flow.next, markCheated env pCommand (traceAppend c
        (auditEvents env c ClientID pCommand
            { Result2 with m_apArgs := m_paStrokeStr Stroke :: Result2.m_apArgs } ++
          [Event.call pCommand.m_Callback
            (resolveVictim env ClientID
              { Result2 with m_apArgs := m_paStrokeStr Stroke :: Result2.m_apArgs })]))) := by
  have hname : Result.m_pCommand ≠ [] := by
    intro h; rw [h] at hplus; simp at hplus
  have hR1 : Result.AddArgument (m_paStrokeStr Stroke) =
      prependArgs [m_paStrokeStr Stroke] Result := by
    simp [CResult.AddArgument, prependArgs, hargs]
  have hparse2 : ParseArgs env
      (if Result.m_pCommand.head? = some '+' then Result.AddArgument (m_paStrokeStr Stroke)
       else Result) pCommand.m_pParams =
      ({ Result2 with m_apArgs := m_paStrokeStr Stroke :: Result2.m_apArgs }, 0) := by
    rw [if_pos hplus, hR1, ParseArgs_prepend, hparse]
    rfl
  have hd := dispatch_direct env reenter Stroke ClientID Result _ c pCommand hname hfind
    hmap hnomap hlevel (Or.inr hplus) hparse2 hdirect htest
  have hres : (if CResult.GetVictim
        { Result2 with m_apArgs := m_paStrokeStr Stroke :: Result2.m_apArgs } = env.VICTIM_ME then
        CResult.SetVictim env
          { Result2 with m_apArgs := m_paStrokeStr Stroke :: Result2.m_apArgs } ClientID
      else { Result2 with m_apArgs := m_paStrokeStr Stroke :: Result2.m_apArgs }) =
      resolveVictim env ClientID
        { Result2 with m_apArgs := m_paStrokeStr Stroke :: Result2.m_apArgs } := rfl
  have hnall : ¬ (CResult.HasVictim env (resolveVictim env ClientID
        { Result2 with m_apArgs := m_paStrokeStr Stroke :: Result2.m_apArgs }) = true ∧
      CResult.GetVictim (resolveVictim env ClientID
        { Result2 with m_apArgs := m_paStrokeStr Stroke :: Result2.m_apArgs }) =
        env.VICTIM_ALL) := by
    intro h
    apply hvictim
    have h2 := h.2
    unfold resolveVictim at h2 ⊢
    simp only [CResult.GetVictim] at h2 ⊢
    split at h2
    · rename_i hme
      rw [if_pos hme]
      exact h2
    · rename_i hme
      rw [if_neg hme]
      exact h2
  rw [hres, if_neg hnall, invoke_opaque env reenter _ _ _ hop, log_eq_traceAppend,
    traceAppend_append] at hd
  exact hd

/-- C17, counterexample. With the victim `all` a stroke command is invoked
once per client slot on each pass: the line `+slap all` on the server console
invokes the callback 128 times, 64 times with the stroke token `1` and then
64 times with the stroke token `0`. -/
theorem ExecuteLine_stroke_all_broadcasts :
    ExecuteLine ddnet (reentry ddnet 0) "+slap all".toList (-1) true sayConsole =
      Except.ok (traceAppend sayConsole
        ((List.range 64).map (fun (i : Nat) =>
            Event.call (Callback.handler 13 0)
              { m_ClientID := -1, m_pCommand := "+slap".toList, m_pArgsStart := "all".toList,
                m_apArgs := ["1".toList, "all".toList], m_Victim := (i : Int) }) ++
          (List.range 64).map (fun (i : Nat) =>
            Event.call (Callback.handler 13 0)
              { m_ClientID := -1, m_pCommand := "+slap".toList, m_pArgsStart := "all".toList,
                m_apArgs := ["0".toList, "all".toList], m_Victim := (i : Int) }))) := by
  have h1 : ExecuteLineStroked ddnet (reentry ddnet 0) true "+slap all".toList (-1) true
      sayConsole =
      Except.ok (traceAppend sayConsole
        ((List.range 64).map (fun (i : Nat) =>
            Event.call (Callback.handler 13 0)
              { m_ClientID := -1, m_pCommand := "+slap".toList, m_pArgsStart := "all".toList,
                m_apArgs := ["1".toList, "all".toList], m_Victim := (i : Int) }))) := rfl
  have h2 : ∀ c1 : CConsole, c1.m_pFirstCommand = sayConsole.m_pFirstCommand →
      c1.m_FlagMask = sayConsole.m_FlagMask → c1.m_AccessLevel = sayConsole.m_AccessLevel →
      c1.m_StoreCommands = false → c1.g_Config = sayConsole.g_Config →
      c1.m_pfnTeeHistorianCommandCallback = none →
      ExecuteLineStroked ddnet (reentry ddnet 0) false "+slap all".toList (-1) true c1 =
      Except.ok (traceAppend c1
        ((List.range 64).map (fun (i : Nat) =>
            Event.call (Callback.handler 13 0)
              { m_ClientID := -1, m_pCommand := "+slap".toList, m_pArgsStart := "all".toList,
                m_apArgs := ["0".toList, "all".toList], m_Victim := (i : Int) }))) := by
    intro c1 e1 e2 e3 e4 e5 e6
    rw [ExecuteLineStroked_single ddnet _ false _ (-1) true c1 (by decide) (by decide)
      (by decide)]
    rw [dispatch_direct ddnet _ false (-1) _
      { m_ClientID := -1, m_pCommand := "+slap".toList, m_pArgsStart := "all".toList,
        m_apArgs := ["0".toList, "all".toList], m_Victim := -1 } c1
      { m_pName := "+slap".toList, m_pHelp := "Slap while the key is held".toList,
        m_pParams := "v[id]".toList, m_Flags := 4, m_Temp := false, m_AccessLevel := 0,
        m_Callback := Callback.handler 13 0 }
      (by decide) (by rw [e1, e2]; decide) (by decide) (by decide) (by rw [e3]; decide)
      (Or.inr (by decide)) (by decide) (by rw [e4]; decide) (by rw [e5]; decide)]
    have ha : auditEvents ddnet c1 (-1)
        { m_pName := "+slap".toList, m_pHelp := "Slap while the key is held".toList,
          m_pParams := "v[id]".toList, m_Flags := 4, m_Temp := false, m_AccessLevel := 0,
          m_Callback := Callback.handler 13 0 }
        { m_ClientID := -1, m_pCommand := "+slap".toList, m_pArgsStart := "all".toList,
          m_apArgs := ["0".toList, "all".toList], m_Victim := -1 } = [] := by
      unfold auditEvents
      rw [e6]
      rfl
    rw [ha, traceAppend_nil, if_pos (by decide),
      invokeVictims_eq_invokeSlots ddnet _ _ (by decide) ddnet.MAX_CLIENTS 0 _ c1 (by decide)]
    dsimp only
    rw [invokeSlots_handler]
    rfl
  unfold ExecuteLine
  rw [h1]
  dsimp only
  have h3 := fun L : List Event => h2 (traceAppend sayConsole L) rfl rfl rfl rfl rfl rfl
  rw [h3, traceAppend_append]

/-- C17 (amended). Stroke commands: for a line that is one sub-command whose
typed name starts with `+` and names a registered command, with the context
and access checks passed, valid arguments (`ParseArgs` on the text of the line
gives `Result2` without error), no queuing, the command not dropped as
test-only and the resolved victim not the marker `all`, on each of the two
passes, `ExecuteLine` invokes the callback exactly twice, first for the press
pass and then for the release pass, each time behind the audit hook: (1) the
press pass is one invocation of the callback; (2) if the checks hold again in
the state `c1` that the press pass returns (the command is found there with at
most its access level changed), `ExecuteLine` is the one invocation of the
callback on the release pass, run in `c1`; (3) for a handler outside
`console.cpp` the checks hold again and the result of `ExecuteLine` is the
state with the two calls recorded; (4) in each invocation argument 0 is the
stroke token (`1` on press, `0` on release) and the arguments behind it are
the arguments parsed from the line, so `NumArguments` is their number plus
one. -/
theorem ExecuteLine_stroke_command (env : Env) (reenter : ReenterFn) (line : Str)
    (ClientID : Int) (interp : Bool) (c : CConsole) (pCommand : CCommand) (Result2 : CResult)
    (hmc : str_startswith line "mc;".toList = none)
    (hscan : scanSubcommand interp false line = (line.length, none))
    (hplus : (ParseStart env (CResult.init env ClientID) line
      (line.length + 1)).1.m_pCommand.head? = some '+')
    (hfind : FindCommand c.m_pFirstCommand
      (ParseStart env (CResult.init env ClientID) line (line.length + 1)).1.m_pCommand
      c.m_FlagMask = some pCommand)
    (hmap : ¬ (ClientID = env.CLIENT_ID_GAME ∧ ¬ hasFlag pCommand.m_Flags env.CFGFLAG_GAME))
    (hnomap : ¬ (ClientID = env.CLIENT_ID_NO_GAME ∧ hasFlag pCommand.m_Flags env.CFGFLAG_GAME))
    (hlevel : pCommand.m_AccessLevel ≥ c.m_AccessLevel)
    (hparse : ParseArgs env
      (ParseStart env (CResult.init env ClientID) line (line.length + 1)).1
      pCommand.m_pParams = (Result2, 0))
    (hdirect : ¬ (c.m_StoreCommands ∧ hasFlag pCommand.m_Flags env.CFGFLAG_STORE))
    (htest : ¬ (hasFlag pCommand.m_Flags env.CMDFLAG_TEST ∧ c.g_Config.m_SvTestingCommands = 0))
    (hvictim : (resolveVictim env ClientID Result2).m_Victim ≠ env.VICTIM_ALL) :
    ExecuteLineStroked env reenter true line ClientID interp c =
      (invoke env reenter pCommand.m_Callback
        (resolveVictim env ClientID { Result2 with m_apArgs := ['1'] :: Result2.m_apArgs })
        (traceAppend c (auditEvents env c ClientID pCommand
          { Result2 with m_apArgs := ['1'] :: Result2.m_apArgs }))).map
        (markCheated env pCommand)
    ∧ (∀ (c1 : CConsole) (pCommand1 : CCommand),
        ExecuteLineStroked env reenter true line ClientID interp c = Except.ok c1 →
        FindCommand c1.m_pFirstCommand
          (ParseStart env (CResult.init env ClientID) line (line.length + 1)).1.m_pCommand
          c1.m_FlagMask = some pCommand1 →
        levelless pCommand1 = levelless pCommand →
        pCommand1.m_AccessLevel ≥ c1.m_AccessLevel →
        ¬ (c1.m_StoreCommands ∧ hasFlag pCommand.m_Flags env.CFGFLAG_STORE) →
        ¬ (hasFlag pCommand.m_Flags env.CMDFLAG_TEST ∧ c1.g_Config.m_SvTestingCommands = 0) →
        ExecuteLine env reenter line ClientID interp c =
          (invoke env reenter pCommand.m_Callback
            (resolveVictim env ClientID { Result2 with m_apArgs := ['0'] :: Result2.m_apArgs })
            (traceAppend c1 (auditEvents env c1 ClientID pCommand
              { Result2 with m_apArgs := ['0'] :: Result2.m_apArgs }))).map
            (markCheated env pCommand))
    ∧ (pCommand.m_Callback.isOpaque = true →
      ExecuteLine env reenter line ClientID interp c =
        Except.ok (markCheated env pCommand (traceAppend c
          (auditEvents env c ClientID pCommand
              { Result2 with m_apArgs := ['1'] :: Result2.m_apArgs } ++
            [Event.call pCommand.m_Callback
              (resolveVictim env ClientID
                { Result2 with m_apArgs := ['1'] :: Result2.m_apArgs })] ++
            (auditEvents env c ClientID pCommand
              { Result2 with m_apArgs := ['0'] :: Result2.m_apArgs } ++
            [Event.call pCommand.m_Callback
              (resolveVictim env ClientID
                { Result2 with m_apArgs := ['0'] :: Result2.m_apArgs })])))))
    ∧ (∀ tok : Str,
        (resolveVictim env ClientID
          { Result2 with m_apArgs := tok :: Result2.m_apArgs }).m_apArgs =
          tok :: Result2.m_apArgs
        ∧ (resolveVictim env ClientID
          { Result2 with m_apArgs := tok :: Result2.m_apArgs }).GetString 0 = tok
        ∧ (resolveVictim env ClientID
          { Result2 with m_apArgs := tok :: Result2.m_apArgs }).NumArguments =
          Result2.NumArguments + 1) := by
  have hne : line ≠ [] := by
    intro h0
    subst h0
    rw [ParseStart_nil_command] at hplus
    simp at hplus
  have hres : ∀ tok : Str, (resolveVictim env ClientID
      { Result2 with m_apArgs := tok :: Result2.m_apArgs }).m_apArgs = tok :: Result2.m_apArgs := by
    intro tok
    unfold resolveVictim
    split <;> rfl
  refine ⟨?_, ?_, ?_, fun tok => ⟨hres tok, ?_, ?_⟩⟩
  · rw [ExecuteLineStroked_single env reenter true line ClientID interp c hmc hscan hne,
      dispatch_stroke_invoke env reenter true ClientID _ Result2 c pCommand rfl hplus hfind hmap
        hnomap hlevel hparse hdirect htest hvictim]
    exact dispatch_result_map _ _
  · intro c1 pCommand1 hpress hfind1 hsame hlevel1 hdirect1 htest1
    obtain ⟨_, f2, f3, f4⟩ := levelless_fields hsame
    have haudit : ∀ R, auditEvents env c1 ClientID pCommand1 R =
        auditEvents env c1 ClientID pCommand R := by
      intro R
      have f1 := (levelless_fields hsame).1
      unfold auditEvents
      rw [f1, f3]
    have hmark : ∀ x, markCheated env pCommand1 x = markCheated env pCommand x := by
      intro x
      unfold markCheated
      rw [f3]
    unfold ExecuteLine
    rw [hpress]
    dsimp only
    rw [ExecuteLineStroked_single env reenter false line ClientID interp c1 hmc hscan hne,
      dispatch_stroke_invoke env reenter false ClientID _ Result2 c1 pCommand1 rfl hplus hfind1
        (by rw [f3]; exact hmap) (by rw [f3]; exact hnomap) hlevel1
        (by rw [f2]; exact hparse) (by rw [f3]; exact hdirect1) (by rw [f3]; exact htest1)
        hvictim, f4, haudit]
    simp only [hmark]
    exact dispatch_result_map _ _
  · intro hop
    unfold ExecuteLine
    rw [ExecuteLineStroked_single env reenter true line ClientID interp c hmc hscan hne,
      dispatch_stroke_pass env reenter true ClientID _ Result2 c pCommand rfl hplus hfind hmap
        hnomap hlevel hparse hdirect htest hvictim hop]
    dsimp only
    rw [ExecuteLineStroked_single env reenter false line ClientID interp _ hmc hscan hne]
    have hc1 : ∀ c1 : CConsole, c1 = markCheated env pCommand (traceAppend c
        (auditEvents env c ClientID pCommand
            { Result2 with m_apArgs := m_paStrokeStr true :: Result2.m_apArgs } ++
          [Event.call pCommand.m_Callback
            (resolveVictim env ClientID
              { Result2 with m_apArgs := m_paStrokeStr true :: Result2.m_apArgs })])) →
        c1.m_pFirstCommand = c.m_pFirstCommand ∧ c1.m_FlagMask = c.m_FlagMask ∧
        c1.m_AccessLevel = c.m_AccessLevel ∧ c1.m_StoreCommands = c.m_StoreCommands ∧
        c1.g_Config = c.g_Config ∧
        c1.m_pfnTeeHistorianCommandCallback = c.m_pfnTeeHistorianCommandCallback := by
      intro c1 h
      subst h
      unfold markCheated
      split <;> exact ⟨rfl, rfl, rfl, rfl, rfl, rfl⟩
    obtain ⟨e1, e2, e3, e4, e5, e6⟩ := hc1 _ rfl
    rw [dispatch_stroke_pass env reenter false ClientID _ Result2 _ pCommand rfl hplus
      (by rw [e1, e2]; exact hfind) hmap hnomap (by rw [e3]; exact hlevel) hparse
      (by rw [e4]; exact hdirect) (by rw [e5]; exact htest) hvictim hop]
    dsimp only
    rw [auditEvents_congr env c _ ClientID pCommand _ e6 e2, markCheated_traceAppend,
      markCheated_idem, traceAppend_append]
    rfl
  · unfold CResult.GetString
    rw [hres tok]
    simp
  · unfold CResult.NumArguments
    rw [hres tok]
    rfl


/-- The witness of C17: the line `+slap 3` on the server console gives two
invocations, with the arguments `1 3` and `0 3` and the victim 3; the line
`+toggle cl_x 1 0` on a client console invokes the handler of `+toggle` on the
press pass, which sets the variable to 1, and on the release pass, which sets
it to 0. -/
theorem ExecuteLine_stroke_command_witness :
    ExecuteLine ddnet (reentry ddnet 0) "+slap 3".toList (-1) true sayConsole =
      Except.ok (traceAppend sayConsole
        [Event.call (Callback.handler 13 0)
          { m_ClientID := -1, m_pCommand := "+slap".toList, m_pArgsStart := "3".toList,
            m_apArgs := ["1".toList, "3".toList], m_Victim := 3 },
         Event.call (Callback.handler 13 0)
          { m_ClientID := -1, m_pCommand := "+slap".toList, m_pArgsStart := "3".toList,
            m_apArgs := ["0".toList, "3".toList], m_Victim := 3 }])
    ∧ ExecuteLineStroked ddnetVars (reentry ddnetVars 1) true "+toggle cl_x 1 0".toList (-1) true
        varsConsole = Except.ok togglePressed
    ∧ ExecuteLine ddnetVars (reentry ddnetVars 1) "+toggle cl_x 1 0".toList (-1) true
        varsConsole = Except.ok toggleReleased := by
  have hslap := (ExecuteLine_stroke_command ddnet (reentry ddnet 0) "+slap 3".toList (-1) true
    sayConsole
    { m_pName := "+slap".toList, m_pHelp := "Slap while the key is held".toList,
      m_pParams := "v[id]".toList, m_Flags := 4, m_Temp := false, m_AccessLevel := 0,
      m_Callback := Callback.handler 13 0 }
    { m_ClientID := -1, m_pCommand := "+slap".toList, m_pArgsStart := "3".toList,
      m_apArgs := ["3".toList], m_Victim := 3 }
    (by decide) (by decide) (by decide) (by decide) (by decide) (by decide) (by decide)
    (by decide) (by decide) (by decide) (by decide)).2.2.1 (by decide)
  have htoggle := ExecuteLine_stroke_command ddnetVars (reentry ddnetVars 1)
    "+toggle cl_x 1 0".toList (-1) true varsConsole toggleStrokeCommand toggleStrokeResult
    (by decide) (by decide) (by decide) (by decide) (by decide) (by decide) (by decide)
    (by decide) (by decide) (by decide) (by decide)
  have hpress : ExecuteLineStroked ddnetVars (reentry ddnetVars 1) true
      "+toggle cl_x 1 0".toList (-1) true varsConsole = Except.ok togglePressed :=
    htoggle.1.trans rfl
  exact ⟨hslap, hpress,
    (htoggle.2.1 togglePressed toggleStrokeCommand hpress (by decide) rfl (by decide)
      (by decide) (by decide)).trans rfl⟩

/-! ### The trace is only written -/

theorem shiftTrace_log (t : List Event) (c : CConsole) (e : Event) :
    (shiftTrace t c).log e = shiftTrace t (c.log e) := by
  simp [shiftTrace, CConsole.log]

theorem shiftTrace_Print (t : List Event) (c : CConsole) (l : Int) (f : Str) (m : Msg) :
    Print (shiftTrace t c) l f m = shiftTrace t (Print c l f m) := by
  simp [shiftTrace, Print, CConsole.log]

theorem shiftTrace_nil (c : CConsole) : shiftTrace [] c = c := rfl

theorem ConCommandAccess_shift (env : Env) (t : List Event) (R : CResult) (c : CConsole) :
    ConCommandAccess env R (shiftTrace t c) = shiftTrace t (ConCommandAccess env R c) := by
  have e1 : (shiftTrace t c).m_pFirstCommand = c.m_pFirstCommand := rfl
  unfold ConCommandAccess
  rw [e1]
  cases FindCommand c.m_pFirstCommand (R.GetString 0) env.CFGFLAG_SERVER with
  | none => exact shiftTrace_Print _ _ _ _ _
  | some pCommand =>
    dsimp only
    split
    · simp [shiftTrace, Print, CConsole.log]
    · simp [shiftTrace, Print, CConsole.log]

theorem commandStatusLoop_shift (env : Env) (m : Nat) (lvl : Int) (t : List Event) :
    ∀ (l : List CCommand) (aBuf : Str) (Used : Nat) (c : CConsole),
      commandStatusLoop env m lvl l aBuf Used (shiftTrace t c) =
        (shiftTrace t (commandStatusLoop env m lvl l aBuf Used c).1,
          (commandStatusLoop env m lvl l aBuf Used c).2) := by
  intro l
  induction l with
  | nil => intro aBuf Used c; rfl
  | cons a rest ih =>
    intro aBuf Used c
    simp only [commandStatusLoop]
    split
    · split
      · split
        · exact ih _ _ _
        · exact ih _ _ _
      · rw [shiftTrace_Print]
        exact ih _ _ _
    · exact ih _ _ _

theorem ConCommandStatus_shift (env : Env) (t : List Event) (R : CResult) (c : CConsole) :
    ConCommandStatus env R (shiftTrace t c) = shiftTrace t (ConCommandStatus env R c) := by
  have e1 : (shiftTrace t c).m_pFirstCommand = c.m_pFirstCommand := rfl
  have e2 : (shiftTrace t c).m_FlagMask = c.m_FlagMask := rfl
  unfold ConCommandStatus
  rw [e1, e2, commandStatusLoop_shift]
  generalize commandStatusLoop env c.m_FlagMask
    (clamp (R.GetInteger env 0) env.ACCESS_LEVEL_ADMIN env.ACCESS_LEVEL_USER)
    c.m_pFirstCommand [] 0 c = r
  obtain ⟨c1, aBuf, Used⟩ := r
  dsimp only
  split
  · exact shiftTrace_Print _ _ _ _ _
  · rfl

theorem IntVariableCommand_shift (env : Env) (d : CIntVariableData) (t : List Event)
    (R : CResult) (c : CConsole) :
    IntVariableCommand env d R (shiftTrace t c) = shiftTrace t (IntVariableCommand env d R c) := by
  unfold IntVariableCommand
  split
  · dsimp only
    split <;> rfl
  · exact shiftTrace_Print _ _ _ _ _

theorem ColVariableCommand_shift (env : Env) (d : CColVariableData) (t : List Event)
    (R : CResult) (c : CConsole) :
    ColVariableCommand env d R (shiftTrace t c) = shiftTrace t (ColVariableCommand env d R c) := by
  unfold ColVariableCommand
  split
  · dsimp only
    split <;> rfl
  · dsimp only
    split
    · simp [shiftTrace, Print, CConsole.log]
    · simp [shiftTrace, Print, CConsole.log]

theorem StrVariableCommand_shift (env : Env) (d : CStrVariableData) (t : List Event)
    (R : CResult) (c : CConsole) :
    StrVariableCommand env d R (shiftTrace t c) = shiftTrace t (StrVariableCommand env d R c) := by
  unfold StrVariableCommand
  split
  · dsimp only
    split <;> rfl
  · exact shiftTrace_Print _ _ _ _ _

theorem ConToggle_shift (env : Env) (reenter : ReenterFn)
    (hexec : ∀ t call c, reenter call (shiftTrace t c) = (reenter call c).map (shiftTrace t))
    (t : List Event) (R : CResult) (c : CConsole) :
    ConToggle env reenter R (shiftTrace t c) =
      (ConToggle env reenter R c).map (shiftTrace t) := by
  have e1 : (shiftTrace t c).m_pFirstCommand = c.m_pFirstCommand := rfl
  have e2 : (shiftTrace t c).m_FlagMask = c.m_FlagMask := rfl
  have e5 : (shiftTrace t c).g_Config = c.g_Config := rfl
  unfold ConToggle
  rw [e1, e2, e5]
  cases FindCommand c.m_pFirstCommand (R.GetString 0) c.m_FlagMask with
  | none =>
    dsimp only
    rw [shiftTrace_Print]
    rfl
  | some pCommand =>
    dsimp only
    split
    · exact hexec _ _ _
    · exact hexec _ _ _
    · exact hexec _ _ _
    · rw [shiftTrace_Print]
      rfl

theorem ConToggleStroke_shift (env : Env) (reenter : ReenterFn)
    (hexec : ∀ t call c, reenter call (shiftTrace t c) = (reenter call c).map (shiftTrace t))
    (t : List Event) (R : CResult) (c : CConsole) :
    ConToggleStroke env reenter R (shiftTrace t c) =
      (ConToggleStroke env reenter R c).map (shiftTrace t) := by
  have e1 : (shiftTrace t c).m_pFirstCommand = c.m_pFirstCommand := rfl
  have e2 : (shiftTrace t c).m_FlagMask = c.m_FlagMask := rfl
  unfold ConToggleStroke
  rw [e1, e2]
  cases FindCommand c.m_pFirstCommand (R.GetString 1) c.m_FlagMask with
  | none =>
    dsimp only
    rw [shiftTrace_Print]
    rfl
  | some pCommand =>
    dsimp only
    split
    · exact hexec _ _ _
    · rw [shiftTrace_Print]
      rfl

theorem invoke_shift (env : Env) (reenter : ReenterFn)
    (hexec : ∀ t call c, reenter call (shiftTrace t c) = (reenter call c).map (shiftTrace t))
    (t : List Event) (cb : Callback) (R : CResult) (c : CConsole) :
    invoke env reenter cb R (shiftTrace t c) =
      (invoke env reenter cb R c).map (shiftTrace t) := by
  cases cb with
  | null => rfl
  | Con_Echo =>
    simp only [invoke, shiftTrace_log, shiftTrace_Print]
    rfl
  | Con_Exec =>
    simp only [invoke, shiftTrace_log]
    exact hexec _ _ _
  | ConToggle =>
    simp only [invoke, shiftTrace_log]
    exact ConToggle_shift env reenter hexec _ _ _
  | ConToggleStroke =>
    simp only [invoke, shiftTrace_log]
    exact ConToggleStroke_shift env reenter hexec _ _ _
  | ConCommandAccess =>
    simp only [invoke, shiftTrace_log, ConCommandAccess_shift]
    rfl
  | ConCommandStatus =>
    simp only [invoke, shiftTrace_log, ConCommandStatus_shift]
    rfl
  | ConUserCommandStatus =>
    simp only [invoke, shiftTrace_log, ConUserCommandStatus, ConCommandStatus_shift]
    rfl
  | IntVariableCommand d =>
    simp only [invoke, shiftTrace_log, IntVariableCommand_shift]
    rfl
  | ColVariableCommand d =>
    simp only [invoke, shiftTrace_log, ColVariableCommand_shift]
    rfl
  | StrVariableCommand d =>
    simp only [invoke, shiftTrace_log, StrVariableCommand_shift]
    rfl
  | handler f u =>
    simp only [invoke, shiftTrace_log]
    rfl
  | Con_Chain f u n =>
    simp only [invoke, shiftTrace_log]
    rfl

theorem invokeVictims_shift (env : Env) (reenter : ReenterFn)
    (hexec : ∀ t call c, reenter call (shiftTrace t c) = (reenter call c).map (shiftTrace t))
    (t : List Event) (cb : Callback) :
    ∀ (n i : Nat) (R : CResult) (c : CConsole),
      invokeVictims env reenter cb n i R (shiftTrace t c) =
        (invokeVictims env reenter cb n i R c).map (shiftTrace t) := by
  intro n
  induction n with
  | zero => intro i R c; rfl
  | succ n ih =>
    intro i R c
    simp only [invokeVictims]
    rw [invoke_shift env reenter hexec]
    cases invoke env reenter cb (R.SetVictim env i) c with
    | error e => rfl
    | ok c1 => exact ih _ _ c1

theorem dispatch_shift (env : Env) (reenter : ReenterFn)
    (hexec : ∀ t call c, reenter call (shiftTrace t c) = (reenter call c).map (shiftTrace t))
    (t : List Event) (Stroke : Bool) (ClientID : Int) (R : CResult) (c : CConsole) :
    dispatch env reenter Stroke ClientID R (shiftTrace t c) =
      (dispatch env reenter Stroke ClientID R c).map (fun p => (p.1, shiftTrace t p.2)) := by
  have e1 : (shiftTrace t c).m_pFirstCommand = c.m_pFirstCommand := rfl
  have e2 : (shiftTrace t c).m_FlagMask = c.m_FlagMask := rfl
  have e3 : (shiftTrace t c).m_AccessLevel = c.m_AccessLevel := rfl
  have e4 : (shiftTrace t c).m_StoreCommands = c.m_StoreCommands := rfl
  have e5 : (shiftTrace t c).g_Config = c.g_Config := rfl
  have e6 : (shiftTrace t c).m_pfnTeeHistorianCommandCallback =
      c.m_pfnTeeHistorianCommandCallback := rfl
  have e7 : (shiftTrace t c).m_ExecutionQueue = c.m_ExecutionQueue := rfl
  unfold dispatch
  rw [e1, e2]
  by_cases h0 : R.m_pCommand = []
  · rw [if_pos h0, if_pos h0]
    rfl
  · rw [if_neg h0, if_neg h0]
    cases hfind : FindCommand c.m_pFirstCommand R.m_pCommand c.m_FlagMask with
    | none =>
      dsimp only
      cases Stroke
      · rfl
      · simp only [if_true, shiftTrace_Print]
        rfl
    | some pCommand =>
      dsimp only
      by_cases h1 : ClientID = env.CLIENT_ID_GAME ∧ ¬ hasFlag pCommand.m_Flags env.CFGFLAG_GAME
      · rw [if_pos h1, if_pos h1]
        cases Stroke
        · rfl
        · simp only [if_true, shiftTrace_Print]
          rfl
      · rw [if_neg h1, if_neg h1]
        by_cases h2 : ClientID = env.CLIENT_ID_NO_GAME ∧ hasFlag pCommand.m_Flags env.CFGFLAG_GAME
        · rw [if_pos h2, if_pos h2]
          cases Stroke
          · rfl
          · simp only [if_true, shiftTrace_Print, e5]
            rfl
        · rw [if_neg h2, if_neg h2, e3]
          by_cases h3 : pCommand.m_AccessLevel ≥ c.m_AccessLevel
          · rw [if_pos h3, if_pos h3]
            by_cases h4 : (Stroke || decide (R.m_pCommand.head? = some '+')) = true
            · rw [if_pos h4, if_pos h4]
              cases hpa : ParseArgs env
                  (if decide (R.m_pCommand.head? = some '+') = true then
                    R.AddArgument (m_paStrokeStr Stroke) else R) pCommand.m_pParams with
              | mk R2 Error =>
                dsimp only
                by_cases h5 : Error ≠ 0
                · rw [if_pos h5, if_pos h5, shiftTrace_Print]
                  rfl
                · rw [if_neg h5, if_neg h5, e4]
                  by_cases h6 : c.m_StoreCommands = true ∧
                      hasFlag pCommand.m_Flags env.CFGFLAG_STORE = true
                  · rw [if_pos h6, if_pos h6]
                    rfl
                  · rw [if_neg h6, if_neg h6, e5]
                    by_cases h7 : hasFlag pCommand.m_Flags env.CMDFLAG_TEST = true ∧
                        c.g_Config.m_SvTestingCommands = 0
                    · rw [if_pos h7, if_pos h7]
                      rfl
                    · rw [if_neg h7, if_neg h7, e6]
                      have hc1 : (if c.m_pfnTeeHistorianCommandCallback.isSome = true ∧
                            ¬ hasFlag pCommand.m_Flags env.CFGFLAG_NONTEEHISTORIC = true then
                            (shiftTrace t c).log
                              (Event.historian ClientID c.m_FlagMask pCommand.m_pName R2)
                          else shiftTrace t c) =
                          shiftTrace t
                            (if c.m_pfnTeeHistorianCommandCallback.isSome = true ∧
                              ¬ hasFlag pCommand.m_Flags env.CFGFLAG_NONTEEHISTORIC = true then
                              c.log (Event.historian ClientID c.m_FlagMask pCommand.m_pName R2)
                            else c) := by
                        split
                        · exact shiftTrace_log _ _ _
                        · rfl
                      rw [hc1]
                      generalize (if c.m_pfnTeeHistorianCommandCallback.isSome = true ∧
                              ¬ hasFlag pCommand.m_Flags env.CFGFLAG_NONTEEHISTORIC = true then
                              c.log (Event.historian ClientID c.m_FlagMask pCommand.m_pName R2)
                            else c) = c1
                      by_cases h8 : CResult.HasVictim env
                            (if R2.GetVictim = env.VICTIM_ME then R2.SetVictim env ClientID
                              else R2) = true ∧
                          (if R2.GetVictim = env.VICTIM_ME then R2.SetVictim env ClientID
                              else R2).GetVictim = env.VICTIM_ALL
                      · rw [if_pos h8, if_pos h8, invokeVictims_shift env reenter hexec]
                        cases invokeVictims env reenter pCommand.m_Callback env.MAX_CLIENTS 0
                            (if R2.GetVictim = env.VICTIM_ME then R2.SetVictim env ClientID
                              else R2) c1 with
                        | error e => rfl
                        | ok c2 =>
                          simp only [Except.map]
                          split <;> rfl
                      · rw [if_neg h8, if_neg h8, invoke_shift env reenter hexec]
                        cases invoke env reenter pCommand.m_Callback
                            (if R2.GetVictim = env.VICTIM_ME then R2.SetVictim env ClientID
                              else R2) c1 with
                        | error e => rfl
                        | ok c2 =>
                          simp only [Except.map]
                          split <;> rfl
            · rw [if_neg h4, if_neg h4]
              rfl
          · rw [if_neg h3, if_neg h3]
            cases Stroke
            · rfl
            · simp only [if_true, shiftTrace_Print]
              rfl

theorem lineLoop_shift (env : Env) (reenter : ReenterFn)
    (hexec : ∀ t call c, reenter call (shiftTrace t c) = (reenter call c).map (shiftTrace t))
    (t : List Event) (Stroke : Bool) (ClientID : Int) (interp : Bool) :
    ∀ (fuel : Nat) (pStr : Option Str) (c : CConsole),
      lineLoop env reenter Stroke ClientID interp fuel pStr (shiftTrace t c) =
        (lineLoop env reenter Stroke ClientID interp fuel pStr c).map (shiftTrace t) := by
  intro fuel
  induction fuel with
  | zero =>
    intro pStr c
    cases pStr with
    | none => simp only [lineLoop_none]; rfl
    | some s =>
      cases s with
      | nil => simp only [lineLoop_nil]; rfl
      | cons a as => rfl
  | succ fuel ih =>
    intro pStr c
    cases pStr with
    | none => simp only [lineLoop_none]; rfl
    | some s =>
      cases s with
      | nil => simp only [lineLoop_nil]; rfl
      | cons a as =>
        rw [lineLoop_step, lineLoop_step, dispatch_shift env reenter hexec]
        cases dispatch env reenter Stroke ClientID
            (ParseStart env (CResult.init env ClientID) (a :: as)
              ((scanSubcommand interp false (a :: as)).1 + 1)).1 c with
        | error e => rfl
        | ok p =>
          obtain ⟨fl, c1⟩ := p
          cases fl with
          | ret => rfl
          | next => exact ih _ c1

theorem ExecuteLineStroked_shift (env : Env) (reenter : ReenterFn)
    (hexec : ∀ t call c, reenter call (shiftTrace t c) = (reenter call c).map (shiftTrace t))
    (t : List Event) (Stroke : Bool) (pStr : Str) (ClientID : Int) (interp : Bool)
    (c : CConsole) :
    ExecuteLineStroked env reenter Stroke pStr ClientID interp (shiftTrace t c) =
      (ExecuteLineStroked env reenter Stroke pStr ClientID interp c).map (shiftTrace t) := by
  unfold ExecuteLineStroked
  split <;> exact lineLoop_shift env reenter hexec t _ _ _ _ _ c

theorem ExecuteLine_shift (env : Env) (reenter : ReenterFn)
    (hexec : ∀ t call c, reenter call (shiftTrace t c) = (reenter call c).map (shiftTrace t))
    (t : List Event) (pStr : Str) (ClientID : Int) (interp : Bool) (c : CConsole) :
    ExecuteLine env reenter pStr ClientID interp (shiftTrace t c) =
      (ExecuteLine env reenter pStr ClientID interp c).map (shiftTrace t) := by
  unfold ExecuteLine
  rw [ExecuteLineStroked_shift env reenter hexec]
  cases ExecuteLineStroked env reenter true pStr ClientID interp c with
  | error e => rfl
  | ok c1 => exact ExecuteLineStroked_shift env reenter hexec t false pStr ClientID interp c1

theorem executeLines_shift (env : Env) (reenter : ReenterFn)
    (hexec : ∀ t call c, reenter call (shiftTrace t c) = (reenter call c).map (shiftTrace t))
    (t : List Event) (ClientID : Int) :
    ∀ (lines : List Str) (c : CConsole),
      executeLines env reenter ClientID lines (shiftTrace t c) =
        (executeLines env reenter ClientID lines c).map (shiftTrace t) := by
  intro lines
  induction lines with
  | nil => intro c; rfl
  | cons l rest ih =>
    intro c
    simp only [executeLines]
    rw [ExecuteLine_shift env reenter hexec]
    cases ExecuteLine env reenter l ClientID env.defaultInterpretSemicolons c with
    | error e => rfl
    | ok c1 => exact ih c1

theorem ExecuteFile_shift_aux (env : Env) (fuel : Nat)
    (ih : ∀ (t : List Event) (call : Reentry) (c : CConsole),
      reentry env fuel call (shiftTrace t c) = (reentry env fuel call c).map (shiftTrace t))
    (t : List Event) (f : Str) (cid : Int) (lf : Bool) (st : Int) (c d : CConsole)
    (hd : d = shiftTrace t c) :
    ExecuteFile env (fuel + 1) f cid lf st d =
      (ExecuteFile env (fuel + 1) f cid lf st c).map (shiftTrace t) := by
  have e1 : d.m_pFirstExec = c.m_pFirstExec := by rw [hd]; rfl
  have e2 : d.m_pStorage = c.m_pStorage := by rw [hd]; rfl
  unfold ExecuteFile reentry
  by_cases hany : c.m_pFirstExec.any (fun pCur => decide (str_comp f pCur = 0)) = true
  · rw [if_pos (by rw [e1]; exact hany), if_pos hany, hd]
    rfl
  · rw [if_neg (by rw [e1]; exact hany), if_neg hany]
    dsimp only
    generalize hg1 : (if d.m_pStorage = true then d
      else { d with m_pStorage := env.kernelStorage }) = d1
    generalize hg : (if c.m_pStorage = true then c
      else { c with m_pStorage := env.kernelStorage }) = c1
    have hd1 : d1 = shiftTrace t c1 := by
      rw [← hg1, ← hg, e2]
      split
      · exact hd
      · rw [hd]; rfl
    have e3 : d1.m_pStorage = c1.m_pStorage := by rw [hd1]; rfl
    by_cases hst : (!c1.m_pStorage) = true
    · rw [if_pos (by rw [e3]; exact hst), if_pos hst, hd1]
      rfl
    · rw [if_neg (by rw [e3]; exact hst), if_neg hst]
      cases hopen : env.OpenFile f st with
      | none =>
        dsimp only
        subst hd1
        cases lf <;> simp [shiftTrace, Print, CConsole.log, Except.map]
      | some lines =>
        dsimp only
        have hc4 : Print (CConsole.log
              { d1 with m_pFirstExec := f :: d1.m_pFirstExec }
              (Event.openFile f st)) env.OUTPUT_LEVEL_STANDARD "console".toList
              (Msg.str_format 128 "executing '%s'".toList [f]) =
            shiftTrace t (Print (CConsole.log
              { c1 with m_pFirstExec := f :: c1.m_pFirstExec }
              (Event.openFile f st)) env.OUTPUT_LEVEL_STANDARD "console".toList
              (Msg.str_format 128 "executing '%s'".toList [f])) := by
          subst hd1
          simp [shiftTrace, Print, CConsole.log]
        rw [hc4, executeLines_shift env (reentry env fuel) ih]
        cases executeLines env (reentry env fuel) cid lines
            (Print (CConsole.log { c1 with m_pFirstExec := f :: c1.m_pFirstExec }
              (Event.openFile f st)) env.OUTPUT_LEVEL_STANDARD "console".toList
              (Msg.str_format 128 "executing '%s'".toList [f])) with
        | error e => rfl
        | ok c5 =>
          subst hd1
          rfl

/-- What a call back into the console does is independent of the events
logged before: the trace is only appended to. -/
theorem reentry_shift (env : Env) :
    ∀ (fuel : Nat) (t : List Event) (call : Reentry) (c : CConsole),
      reentry env fuel call (shiftTrace t c) = (reentry env fuel call c).map (shiftTrace t) := by
  intro fuel
  induction fuel with
  | zero =>
    intro t call c
    cases call with
    | ExecuteFile f cid lf st =>
      have hany : ∀ b : Bool, (shiftTrace t c).m_pFirstExec.any
          (fun pCur => decide (str_comp f pCur = 0)) = b →
          c.m_pFirstExec.any (fun pCur => decide (str_comp f pCur = 0)) = b := fun _ h => h
      unfold reentry
      cases h : (shiftTrace t c).m_pFirstExec.any (fun pCur => decide (str_comp f pCur = 0))
      · rw [hany _ h]
        rfl
      · rw [hany _ h]
        rfl
    | ExecuteLine s cid interp => rfl
  | succ fuel ih =>
    intro t call c
    cases call with
    | ExecuteFile f cid lf st => exact ExecuteFile_shift_aux env fuel ih t f cid lf st c _ rfl
    | ExecuteLine s cid interp => exact ExecuteLine_shift env (reentry env fuel) ih t s cid interp c

/-- What `ExecuteFile` does is independent of the events logged before: the
trace is only appended to. -/
theorem ExecuteFile_shift (env : Env) (fuel : Nat) (t : List Event) (f : Str) (cid : Int)
    (lf : Bool) (st : Int) (c : CConsole) :
    ExecuteFile env fuel f cid lf st (shiftTrace t c) =
      (ExecuteFile env fuel f cid lf st c).map (shiftTrace t) :=
  reentry_shift env fuel t (Reentry.ExecuteFile f cid lf st) c

/-! ### Failing sub-commands -/

/-- A failing sub-command only prints its messages, and the loop goes on. -/
theorem dispatch_fails (env : Env) (reenter : ReenterFn) (Stroke : Bool) (ClientID : Int)
    (Result : CResult) (c : CConsole)
    (hfail : FailsDispatch env Stroke ClientID Result c) :
    dispatch env reenter Stroke ClientID Result c =
      Except.ok (Flow.next,
        traceAppend c (failureMessages env Stroke ClientID Result c)) := by
  obtain ⟨hname, hchk⟩ := hfail
  unfold dispatch failureMessages
  rw [if_neg hname]
  cases hfind : FindCommand c.m_pFirstCommand Result.m_pCommand c.m_FlagMask with
  | none =>
    dsimp only
    cases Stroke
    · simp [traceAppend]
    · rfl
  | some pCommand =>
    have hc := hchk pCommand (by rw [hfind]; rfl)
    dsimp only
    by_cases h1 : ClientID = env.CLIENT_ID_GAME ∧ ¬ hasFlag pCommand.m_Flags env.CFGFLAG_GAME
    · rw [if_pos h1, if_pos h1]
      cases Stroke
      · simp [traceAppend]
      · rfl
    · rw [if_neg h1, if_neg h1]
      by_cases h2 : ClientID = env.CLIENT_ID_NO_GAME ∧ hasFlag pCommand.m_Flags env.CFGFLAG_GAME
      · rw [if_pos h2, if_pos h2]
        cases Stroke
        · simp [traceAppend]
        · simp [traceAppend, Print, CConsole.log]
      · rw [if_neg h2, if_neg h2]
        by_cases h3 : pCommand.m_AccessLevel ≥ c.m_AccessLevel
        · rw [if_pos h3, if_pos h3]
          have h4 : (Stroke = true ∨ Result.m_pCommand.head? = some '+') ∧
              (ParseArgs env
                (if Result.m_pCommand.head? = some '+' then
                  Result.AddArgument (m_paStrokeStr Stroke)
                 else Result) pCommand.m_pParams).2 ≠ 0 := by
            rcases hc with h | h | h | h
            · exact absurd h h1
            · exact absurd h h2
            · exact absurd h3 h
            · exact h
          have hs : (Stroke || decide (Result.m_pCommand.head? = some '+')) = true := by
            rcases h4.1 with h | h
            · simp [h]
            · simp [h]
          rw [if_pos hs]
          simp only [decide_eq_true_eq]
          cases hpa : ParseArgs env
              (if Result.m_pCommand.head? = some '+' then
                Result.AddArgument (m_paStrokeStr Stroke)
               else Result) pCommand.m_pParams with
          | mk R2 Error =>
            have h5 : Error ≠ 0 := by
              have := h4.2
              rw [hpa] at this
              exact this
            dsimp only
            rw [if_pos h5]
            rfl
        · rw [if_neg h3, if_neg h3]
          cases Stroke
          · simp [traceAppend]
          · rfl

theorem failureMessages_prints (env : Env) (Stroke : Bool) (ClientID : Int) (Result : CResult)
    (c : CConsole) :
    ∀ e ∈ failureMessages env Stroke ClientID Result c,
      ∃ Level pFrom pStr, e = Event.print Level pFrom pStr := by
  intro e he
  unfold failureMessages at he
  split at he
  · split at he
    · simp only [List.mem_singleton] at he
      exact ⟨_, _, _, he⟩
    · simp at he
  · split at he
    · split at he
      · simp only [List.mem_singleton] at he
        exact ⟨_, _, _, he⟩
      · simp at he
    · split at he
      · split at he
        · simp only [List.mem_cons, List.mem_singleton, List.not_mem_nil, or_false] at he
          rcases he with he | he
          · exact ⟨_, _, _, he⟩
          · exact ⟨_, _, _, he⟩
        · simp at he
      · split at he
        · simp only [List.mem_singleton] at he
          exact ⟨_, _, _, he⟩
        · split at he
          · simp only [List.mem_singleton] at he
            exact ⟨_, _, _, he⟩
          · simp at he

theorem insertEvents_shiftTrace (t es : List Event) (c : CConsole) :
    insertEvents t.length es (shiftTrace t c) = shiftTrace (t ++ es) c := by
  simp [insertEvents, shiftTrace]

theorem shiftTrace_clear (c : CConsole) : shiftTrace c.trace { c with trace := [] } = c := by
  simp [shiftTrace]

theorem shiftTrace_clear_append (c : CConsole) (es : List Event) :
    shiftTrace (c.trace ++ es) { c with trace := [] } = traceAppend c es := by
  simp [shiftTrace, traceAppend]

/-- Events put behind the trace of the start state show up at that place in
the result of the loop, and nowhere else. -/
theorem lineLoop_insert (env : Env) (reenter : ReenterFn)
    (hexec : ∀ t call c, reenter call (shiftTrace t c) = (reenter call c).map (shiftTrace t))
    (Stroke : Bool) (ClientID : Int) (interp : Bool) (fuel : Nat) (pStr : Option Str)
    (c : CConsole) (es : List Event) :
    lineLoop env reenter Stroke ClientID interp fuel pStr (traceAppend c es) =
      (lineLoop env reenter Stroke ClientID interp fuel pStr c).map
        (insertEvents c.trace.length es) := by
  have h1 := lineLoop_shift env reenter hexec (c.trace ++ es) Stroke ClientID interp fuel pStr
    { c with trace := [] }
  have h2 := lineLoop_shift env reenter hexec c.trace Stroke ClientID interp fuel pStr
    { c with trace := [] }
  rw [shiftTrace_clear_append] at h1
  rw [shiftTrace_clear] at h2
  rw [h1, h2]
  cases lineLoop env reenter Stroke ClientID interp fuel pStr { c with trace := [] } with
  | error e => rfl
  | ok x =>
    simp only [Except.map]
    rw [insertEvents_shiftTrace]

/-- C18. Errors do not unwind past their sub-command.  The loop of
`ExecuteLineStroked` stands at the sub-command that starts the rest `a :: as`
of the line, in the state `c` that the earlier sub-commands have left.  If
this sub-command (non-empty name) fails the lookup, the map or non-map
context check, the access check or the validation of its arguments, then
(1) the loop goes on with the part behind the separator, from the state `c`
with only the messages of the failure appended, so that the effects of the
earlier sub-commands stand and every later sub-command is still dispatched;
(2) the later sub-commands give the same result as from `c` itself, that is
as if the failing sub-command had been absent, but for the messages at their
place in the trace; (3) the messages are `Print` calls only.  Files run by
`exec` are included (`depth` bounds their nesting). -/
theorem lineLoop_failure_continues (env : Env) (depth : Nat) (Stroke : Bool) (ClientID : Int)
    (interp : Bool) (fuel : Nat) (a : Char) (as : Str) (c : CConsole)
    (hfail : FailsDispatch env Stroke ClientID
      (ParseStart env (CResult.init env ClientID) (a :: as)
        ((scanSubcommand interp false (a :: as)).1 + 1)).1 c) :
    lineLoop env (reentry env depth) Stroke ClientID interp (fuel + 1) (some (a :: as)) c =
      lineLoop env (reentry env depth) Stroke ClientID interp fuel
        (scanSubcommand interp false (a :: as)).2
        (traceAppend c (failureMessages env Stroke ClientID
          (ParseStart env (CResult.init env ClientID) (a :: as)
            ((scanSubcommand interp false (a :: as)).1 + 1)).1 c))
    ∧ lineLoop env (reentry env depth) Stroke ClientID interp fuel
        (scanSubcommand interp false (a :: as)).2
        (traceAppend c (failureMessages env Stroke ClientID
          (ParseStart env (CResult.init env ClientID) (a :: as)
            ((scanSubcommand interp false (a :: as)).1 + 1)).1 c)) =
      (lineLoop env (reentry env depth) Stroke ClientID interp fuel
        (scanSubcommand interp false (a :: as)).2 c).map
        (insertEvents c.trace.length (failureMessages env Stroke ClientID
          (ParseStart env (CResult.init env ClientID) (a :: as)
            ((scanSubcommand interp false (a :: as)).1 + 1)).1 c))
    ∧ ∀ e ∈ failureMessages env Stroke ClientID
          (ParseStart env (CResult.init env ClientID) (a :: as)
            ((scanSubcommand interp false (a :: as)).1 + 1)).1 c,
        ∃ Level pFrom pStr, e = Event.print Level pFrom pStr := by
  refine ⟨?_, ?_, failureMessages_prints env Stroke ClientID _ c⟩
  · rw [lineLoop_step, dispatch_fails env _ Stroke ClientID _ c hfail]
  · exact lineLoop_insert env (reentry env depth) (reentry_shift env depth) Stroke
      ClientID interp fuel _ c _

/-- The witness of C18: on the server console the line `nope;slap;slap 1`
prints the messages of its two failing sub-commands (an unknown command and a
missing argument) and still invokes `slap 1`. -/
theorem lineLoop_failure_continues_witness :
    lineLoop ddnet (reentry ddnet 0) true (-1) true 16 (some "nope;slap;slap 1".toList)
        sayConsole =
      Except.ok (traceAppend sayConsole
        [Event.print 0 "console".toList
          (Msg.str_format 256 "No such command: %s.".toList ["nope".toList]),
         Event.print 0 "console".toList
          (Msg.str_format 256 "Invalid arguments... Usage: %s %s".toList
            ["slap".toList, "v[id]".toList]),
         Event.call (Callback.handler 12 0)
          { m_ClientID := -1, m_pCommand := "slap".toList, m_pArgsStart := "1".toList,
            m_apArgs := ["1".toList], m_Victim := 1 }]) :=
  (lineLoop_failure_continues ddnet 0 true (-1) true 15 'n' "ope;slap;slap 1".toList
    sayConsole (by decide)).1.trans rfl

/-! ### The queued path -/

/-- C21. The code at the failing input: on a console with buffering enabled
the line `follow me` of client 5 enqueues an entry whose result still holds
the marker `VICTIM_ME` (-2), and the drain `StoreCommands(false)` invokes the
callback with that result, so `GetVictim()` is -2, not 5.  With buffering
switched off the same line invokes the callback with the victim 5. -/
theorem queue_keeps_victim_marker :
    ExecuteLine ddnet (reentry ddnet 0) "follow me".toList 5 true queueConsole =
      Except.ok (enqueue queueConsole
        [{ m_Callback := Callback.handler 31 0, m_Result := followResult 5 "me".toList (-2) }])
    ∧ (StoreCommands ddnet (reentry ddnet 0) false
        (enqueue queueConsole
          [{ m_Callback := Callback.handler 31 0,
             m_Result := followResult 5 "me".toList (-2) }])).map (fun c => c.trace) =
      Except.ok [Event.call (Callback.handler 31 0) (followResult 5 "me".toList (-2))]
    ∧ (followResult 5 "me".toList (-2)).GetVictim = ddnet.VICTIM_ME
    ∧ StoreCommands ddnet (reentry ddnet 0) false queueConsole = Except.ok directConsole
    ∧ (ExecuteLine ddnet (reentry ddnet 0) "follow me".toList 5 true
        (SetTeeHistorianCommandCallback none directConsole)).map (fun c => c.trace) =
      Except.ok [Event.call (Callback.handler 31 0) (followResult 5 "me".toList 5)] :=
  ⟨rfl, rfl, rfl, rfl, rfl⟩

/-- C22. The code at the failing input: with an audit hook installed and
buffering enabled, the line `follow 3` of client 5 is enqueued without a
notification of the hook, and the drain `StoreCommands(false)` invokes the
callback without one: the trace holds the call and no audit event.  With
buffering switched off the same line notifies the hook before the call. -/
theorem queue_skips_audit_hook :
    queueConsole.m_pfnTeeHistorianCommandCallback = some 1
    ∧ ExecuteLine ddnet (reentry ddnet 0) "follow 3".toList 5 true queueConsole =
      Except.ok (enqueue queueConsole
        [{ m_Callback := Callback.handler 31 0, m_Result := followResult 5 "3".toList 3 }])
    ∧ (StoreCommands ddnet (reentry ddnet 0) false
        (enqueue queueConsole
          [{ m_Callback := Callback.handler 31 0,
             m_Result := followResult 5 "3".toList 3 }])).map (fun c => c.trace) =
      Except.ok [Event.call (Callback.handler 31 0) (followResult 5 "3".toList 3)]
    ∧ (ExecuteLine ddnet (reentry ddnet 0) "follow 3".toList 5 true directConsole).map
        (fun c => c.trace) =
      Except.ok [Event.historian 5 2 "follow".toList (followResult 5 "3".toList 3),
        Event.call (Callback.handler 31 0) (followResult 5 "3".toList 3)] :=
  ⟨rfl, rfl, rfl, rfl⟩

/-! ### Registration -/

/-- C24. The code at the failing input: starting from the empty registry,
`Register` of `a`, of `b` and then of `B` (which `FindCommand` matches with
`b`) overwrites the name in place; the names along the list are then `a`,
`B`, and `str_comp("a", "B")` is positive. -/
theorem Register_respelling_unsorts :
    commandNames (Register ddnet "B".toList [] 4 (Callback.handler 3 0) []
      (Register ddnet "b".toList [] 4 (Callback.handler 2 0) []
        (Register ddnet "a".toList [] 4 (Callback.handler 1 0) []
          (emptyConsole ddnet 4 { m_SvTestingCommands := 0, m_SvMap := [] })))) =
      ["a".toList, "B".toList]
    ∧ 0 < str_comp "a".toList "B".toList
    ∧ ¬ NamesSorted (Register ddnet "B".toList [] 4 (Callback.handler 3 0) []
      (Register ddnet "b".toList [] 4 (Callback.handler 2 0) []
        (Register ddnet "a".toList [] 4 (Callback.handler 1 0) []
          (emptyConsole ddnet 4 { m_SvTestingCommands := 0, m_SvMap := [] })))).m_pFirstCommand :=
  ⟨rfl, by decide, by decide⟩

/-- C25. The code at the failing input: starting from the empty registry,
`Register` of `a` and `x` for the server, of `x` for the client and then of
`x` for both overwrites the first match only; afterwards two descriptors
named `x` carry the server flag. -/
theorem Register_overlap_duplicates :
    (Register ddnet "x".toList [] 6 (Callback.handler 4 0) []
      (Register ddnet "x".toList [] 2 (Callback.handler 3 0) []
        (Register ddnet "x".toList [] 4 (Callback.handler 2 0) []
          (Register ddnet "a".toList [] 4 (Callback.handler 1 0) []
            (emptyConsole ddnet 4 { m_SvTestingCommands := 0, m_SvMap := [] }))))).m_pFirstCommand.map
        (fun c => (c.m_pName, c.m_Flags)) =
      [("a".toList, 4), ("x".toList, 6), ("x".toList, 4)]
    ∧ ¬ NamesUnique (Register ddnet "x".toList [] 6 (Callback.handler 4 0) []
      (Register ddnet "x".toList [] 2 (Callback.handler 3 0) []
        (Register ddnet "x".toList [] 4 (Callback.handler 2 0) []
          (Register ddnet "a".toList [] 4 (Callback.handler 1 0) []
            (emptyConsole ddnet 4 { m_SvTestingCommands := 0, m_SvMap := [] }))))).m_pFirstCommand :=
  ⟨rfl, by unfold NamesUnique; decide⟩

/-! ### Returns from the whole line -/

theorem ParseStart_separator_empty (env : Env) (r : CResult) (rest : Str) :
    (ParseStart env r (';' :: rest)
      ((scanSubcommand true false (';' :: rest)).1 + 1)).1.m_pCommand = [] := by
  have hs : scanSubcommand true false (';' :: rest) = (0, some rest) := by
    rw [scanSubcommand_plain true false ';' rest (by decide) (by decide)]
    simp
  rw [hs]
  unfold ParseStart
  by_cases h : 0 + 1 < env.storageSize
  · simp [h, str_copy, str_skip_whitespaces, tokenBefore]
  · have h0 : env.storageSize - 1 = 0 := by omega
    simp [h, str_copy, h0, str_skip_whitespaces, tokenBefore]

/-- C29. An empty sub-command ends the processing of the whole line: when the
loop of `ExecuteLineStroked` stands at a sub-command whose command name is
empty, the function returns at once with the state `c` that the sub-commands
before it have left, whatever follows in the line: no later sub-command is
looked up, reported, enqueued or invoked in that pass.  With splitting
enabled that is the case, in particular, when the rest of the line starts
with the separator `;` (the second part of `a;;b`). -/
theorem lineLoop_empty_command_returns (env : Env) (reenter : ReenterFn) (Stroke : Bool)
    (ClientID : Int) (interp : Bool) (fuel : Nat) (a : Char) (as : Str) (c : CConsole)
    (hempty : (ParseStart env (CResult.init env ClientID) (a :: as)
      ((scanSubcommand interp false (a :: as)).1 + 1)).1.m_pCommand = []) :
    dispatch env reenter Stroke ClientID
        (ParseStart env (CResult.init env ClientID) (a :: as)
          ((scanSubcommand interp false (a :: as)).1 + 1)).1 c = Except.ok (Flow.ret, c)
    ∧ lineLoop env reenter Stroke ClientID interp (fuel + 1) (some (a :: as)) c = Except.ok c
    ∧ ∀ rest : Str,
        lineLoop env reenter Stroke ClientID true (fuel + 1) (some (';' :: rest)) c =
          Except.ok c := by
  refine ⟨dispatch_empty_command env reenter Stroke ClientID _ c hempty, ?_, ?_⟩
  · rw [lineLoop_step, dispatch_empty_command env reenter Stroke ClientID _ c hempty]
  · intro rest
    rw [lineLoop_step, dispatch_empty_command env reenter Stroke ClientID _ c
      (ParseStart_separator_empty env _ rest)]

/-- The witness of C29: in the line `slap 1; ;slap 2` the part between the
separators is blank; at that part the loop returns, and the whole line
invokes `slap 1` only. -/
theorem lineLoop_empty_command_returns_witness :
    lineLoop ddnet (reentry ddnet 0) true (-1) true 9 (some " ;slap 2".toList)
        sayConsole = Except.ok sayConsole
    ∧ ExecuteLineStroked ddnet (reentry ddnet 0) true "slap 1; ;slap 2".toList (-1) true
        sayConsole =
      Except.ok (traceAppend sayConsole
        [Event.call (Callback.handler 12 0)
          { m_ClientID := -1, m_pCommand := "slap".toList, m_pArgsStart := "1".toList,
            m_apArgs := ["1".toList], m_Victim := 1 }]) :=
  ⟨(lineLoop_empty_command_returns ddnet (reentry ddnet 0) true (-1) true 8 ' '
      ";slap 2".toList sayConsole (by decide)).2.1, rfl⟩

/-- C30. Dropping a test-only command ends the processing of the whole line:
when the loop of `ExecuteLineStroked` stands at a sub-command that reaches the
direct path (command found, context and access checks passed, arguments
valid, not queued) and the command is flagged test-only while test commands
are disabled, the function returns at once with the state unchanged, whatever
follows in the line: nothing is printed or invoked and no later sub-command is
dispatched in that pass. -/
theorem lineLoop_test_command_returns (env : Env) (reenter : ReenterFn) (Stroke : Bool)
    (ClientID : Int) (interp : Bool) (fuel : Nat) (a : Char) (as : Str) (c : CConsole)
    (pCommand : CCommand) (Result2 : CResult)
    (hname : (ParseStart env (CResult.init env ClientID) (a :: as)
      ((scanSubcommand interp false (a :: as)).1 + 1)).1.m_pCommand ≠ [])
    (hfind : FindCommand c.m_pFirstCommand
      (ParseStart env (CResult.init env ClientID) (a :: as)
        ((scanSubcommand interp false (a :: as)).1 + 1)).1.m_pCommand c.m_FlagMask =
      some pCommand)
    (hmap : ¬ (ClientID = env.CLIENT_ID_GAME ∧ ¬ hasFlag pCommand.m_Flags env.CFGFLAG_GAME))
    (hnomap : ¬ (ClientID = env.CLIENT_ID_NO_GAME ∧ hasFlag pCommand.m_Flags env.CFGFLAG_GAME))
    (hlevel : pCommand.m_AccessLevel ≥ c.m_AccessLevel)
    (hrun : Stroke = true ∨
      (ParseStart env (CResult.init env ClientID) (a :: as)
        ((scanSubcommand interp false (a :: as)).1 + 1)).1.m_pCommand.head? = some '+')
    (hparse : ParseArgs env
        (if (ParseStart env (CResult.init env ClientID) (a :: as)
            ((scanSubcommand interp false (a :: as)).1 + 1)).1.m_pCommand.head? = some '+' then
          (ParseStart env (CResult.init env ClientID) (a :: as)
            ((scanSubcommand interp false (a :: as)).1 + 1)).1.AddArgument (m_paStrokeStr Stroke)
         else (ParseStart env (CResult.init env ClientID) (a :: as)
            ((scanSubcommand interp false (a :: as)).1 + 1)).1) pCommand.m_pParams =
      (Result2, 0))
    (hdirect : ¬ (c.m_StoreCommands ∧ hasFlag pCommand.m_Flags env.CFGFLAG_STORE))
    (htest : hasFlag pCommand.m_Flags env.CMDFLAG_TEST ∧ c.g_Config.m_SvTestingCommands = 0) :
    dispatch env reenter Stroke ClientID
        (ParseStart env (CResult.init env ClientID) (a :: as)
          ((scanSubcommand interp false (a :: as)).1 + 1)).1 c = Except.ok (Flow.ret, c)
    ∧ lineLoop env reenter Stroke ClientID interp (fuel + 1) (some (a :: as)) c =
        Except.ok c := by
  have hs : (Stroke || decide ((ParseStart env (CResult.init env ClientID) (a :: as)
      ((scanSubcommand interp false (a :: as)).1 + 1)).1.m_pCommand.head? = some '+')) = true := by
    rcases hrun with h | h
    · simp [h]
    · simp [h]
  have hd : dispatch env reenter Stroke ClientID
      (ParseStart env (CResult.init env ClientID) (a :: as)
        ((scanSubcommand interp false (a :: as)).1 + 1)).1 c = Except.ok (Flow.ret, c) := by
    unfold dispatch
    rw [if_neg hname, hfind]
    dsimp only
    rw [if_neg hmap, if_neg hnomap, if_pos hlevel, if_pos hs]
    simp only [decide_eq_true_eq]
    rw [hparse]
    dsimp only
    rw [if_neg (by simp), if_neg hdirect, if_pos htest]
  refine ⟨hd, ?_⟩
  rw [lineLoop_step, hd]

/-- The witness of C30: on the server console with test commands disabled the
line `super;slap 1` returns at `super`; `slap 1` is not dispatched. -/
theorem lineLoop_test_command_returns_witness :
    lineLoop ddnet (reentry ddnet 0) true (-1) true 12 (some "super;slap 1".toList)
        testConsole = Except.ok testConsole :=
  (lineLoop_test_command_returns ddnet (reentry ddnet 0) true (-1) true 11 's'
    "uper;slap 1".toList testConsole
    { m_pName := "super".toList, m_pHelp := "Become super".toList, m_pParams := [],
      m_Flags := 1028, m_Temp := false, m_AccessLevel := 0, m_Callback := Callback.handler 14 0 }
    { m_ClientID := -1, m_pCommand := "super".toList, m_pArgsStart := [], m_apArgs := [],
      m_Victim := -3 }
    (by decide) (by decide) (by decide) (by decide) (by decide) (by decide) (by decide)
    (by decide) (by decide)).2

/-! ### Chaining -/

theorem FindCommand_updateFound (f : CCommand → CCommand)
    (hn : ∀ x, (f x).m_pName = x.m_pName) (hf : ∀ x, (f x).m_Flags = x.m_Flags) :
    ∀ (l : List CCommand) (n : Str) (m : Nat),
      FindCommand (updateFound f l n m) n m = (FindCommand l n m).map f := by
  intro l
  induction l with
  | nil => intro n m; rfl
  | cons a rest ih =>
    intro n m
    by_cases h1 : hasFlag a.m_Flags m = true
    · by_cases h2 : str_comp_nocase a.m_pName n = 0
      · simp [updateFound, FindCommand, h1, h2, hn, hf]
      · simp [updateFound, FindCommand, h1, h2, ih]
    · simp [updateFound, FindCommand, h1, ih]

theorem updateFound_map {β : Type} (g : CCommand → β) (f : CCommand → CCommand)
    (hg : ∀ x, g (f x) = g x) :
    ∀ (l : List CCommand) (n : Str) (m : Nat), (updateFound f l n m).map g = l.map g := by
  intro l
  induction l with
  | nil => intro n m; rfl
  | cons a rest ih =>
    intro n m
    by_cases h1 : hasFlag a.m_Flags m = true
    · by_cases h2 : str_comp_nocase a.m_pName n = 0
      · simp [updateFound, h1, h2, hg]
      · simp [updateFound, h1, h2, ih]
    · simp [updateFound, h1, ih]

theorem Chain_found (env : Env) (pName : Str) (f u : Nat) (c : CConsole) (cmd : CCommand)
    (hfind : FindCommand c.m_pFirstCommand pName c.m_FlagMask = some cmd) :
    (Chain env pName f u c).m_pFirstCommand =
      updateFound (wrapCallback f u) c.m_pFirstCommand pName c.m_FlagMask ∧
    (Chain env pName f u c).m_FlagMask = c.m_FlagMask := by
  unfold Chain
  rw [hfind]
  exact ⟨rfl, rfl⟩

theorem Chain_FindCommand (env : Env) (pName : Str) (f u : Nat) (c : CConsole) (cmd : CCommand)
    (hfind : FindCommand c.m_pFirstCommand pName c.m_FlagMask = some cmd) :
    (Chain env pName f u c).m_FlagMask = c.m_FlagMask ∧
    FindCommand (Chain env pName f u c).m_pFirstCommand pName c.m_FlagMask =
      some (wrapCallback f u cmd) ∧
    (Chain env pName f u c).m_pFirstCommand.map (fun x => x.m_pName) =
      c.m_pFirstCommand.map (fun x => x.m_pName) := by
  obtain ⟨h1, h2⟩ := Chain_found env pName f u c cmd hfind
  refine ⟨h2, ?_, ?_⟩
  · rw [h1, FindCommand_updateFound (wrapCallback f u) (fun _ => rfl) (fun _ => rfl), hfind]
    rfl
  · rw [h1]
    exact updateFound_map (fun x => x.m_pName) (wrapCallback f u) (fun _ => rfl) _ _ _

theorem chainAll_FindCommand (env : Env) (pName : Str) :
    ∀ (fs : List (Nat × Nat)) (c : CConsole) (cmd : CCommand),
      FindCommand c.m_pFirstCommand pName c.m_FlagMask = some cmd →
      (chainAll env pName fs c).m_FlagMask = c.m_FlagMask ∧
      FindCommand (chainAll env pName fs c).m_pFirstCommand pName c.m_FlagMask =
        some { cmd with m_Callback := wrapAll fs cmd.m_Callback } ∧
      (chainAll env pName fs c).m_pFirstCommand.map (fun x => x.m_pName) =
        c.m_pFirstCommand.map (fun x => x.m_pName) := by
  intro fs
  induction fs with
  | nil => intro c cmd h; exact ⟨rfl, h, rfl⟩
  | cons p rest ih =>
    intro c cmd h
    obtain ⟨f, u⟩ := p
    obtain ⟨h1, h2, h3⟩ := Chain_FindCommand env pName f u c cmd h
    have h2' : FindCommand (Chain env pName f u c).m_pFirstCommand pName
        (Chain env pName f u c).m_FlagMask = some (wrapCallback f u cmd) := by
      rw [h1]; exact h2
    obtain ⟨i1, i2, i3⟩ := ih (Chain env pName f u c) _ h2'
    simp only [chainAll, wrapAll]
    refine ⟨i1.trans h1, ?_, i3.trans h3⟩
    rw [h1] at i2
    exact i2

theorem invokeForwarding_chain (env : Env) (reenter : ReenterFn) (f u : Nat) (next : Callback)
    (R : CResult) (c : CConsole) :
    invokeForwarding env reenter (Callback.Con_Chain f u next) R c =
      invokeForwarding env reenter next R
        (c.log (Event.call (Callback.Con_Chain f u next) R)) := by
  simp [invokeForwarding]

theorem invokeForwarding_wrapAll (env : Env) (reenter : ReenterFn) (R : CResult) :
    ∀ (fs : List (Nat × Nat)) (cb : Callback) (c : CConsole),
      invokeForwarding env reenter (wrapAll fs cb) R c =
        invokeForwarding env reenter cb R (traceAppend c (chainCalls fs cb R)) := by
  intro fs
  induction fs with
  | nil => intro cb c; simp [wrapAll, chainCalls, traceAppend_nil]
  | cons p rest ih =>
    intro cb c
    obtain ⟨f, u⟩ := p
    simp only [wrapAll, chainCalls]
    rw [ih, invokeForwarding_chain, log_eq_traceAppend, traceAppend_append]

/-- C26. Chaining wraps and never removes.  Let `FindCommand` find the
descriptor `cmd` for `pName` under the active flag mask.  (1) After
`Chain(pName, f, u)` the descriptor found is `cmd` with the callback
`Con_Chain` holding `(f, u, cb)`, where `cb` is the old callback with its user
data, nothing else changed; invoking it with a result `r` is the call
`Con_Chain(r, (f, u, cb))`, that is `f(r, u, cb)`.  (2) After installing the
interceptors `fs` in order the descriptor found carries the nested callback
with the newest interceptor outermost, and the names along the list are the
old ones.  (3) When every interceptor forwards once, one invocation calls the
interceptors newest first, each with the next-older callback as the one to
forward to, and then the original callback once with the same result. -/
theorem Chain_wraps (env : Env) (reenter : ReenterFn) (pName : Str) (fs : List (Nat × Nat))
    (c : CConsole) (cmd : CCommand)
    (hfind : FindCommand c.m_pFirstCommand pName c.m_FlagMask = some cmd) :
    (∀ f u : Nat,
      FindCommand (Chain env pName f u c).m_pFirstCommand pName c.m_FlagMask =
        some { cmd with m_Callback := Callback.Con_Chain f u cmd.m_Callback }
      ∧ ∀ (r : CResult) (c1 : CConsole),
        invoke env reenter (Callback.Con_Chain f u cmd.m_Callback) r c1 =
          Except.ok (c1.log (Event.call (Callback.Con_Chain f u cmd.m_Callback) r)))
    ∧ FindCommand (chainAll env pName fs c).m_pFirstCommand pName c.m_FlagMask =
        some { cmd with m_Callback := wrapAll fs cmd.m_Callback }
    ∧ (chainAll env pName fs c).m_pFirstCommand.map (fun x => x.m_pName) =
        c.m_pFirstCommand.map (fun x => x.m_pName)
    ∧ (∀ (r : CResult) (c1 : CConsole),
        invokeForwarding env reenter (wrapAll fs cmd.m_Callback) r c1 =
          invokeForwarding env reenter cmd.m_Callback r
            (traceAppend c1 (chainCalls fs cmd.m_Callback r)))
    ∧ (∀ (fn user : Nat) (r : CResult) (c1 : CConsole),
        cmd.m_Callback = Callback.handler fn user →
        invokeForwarding env reenter (wrapAll fs cmd.m_Callback) r c1 =
          Except.ok (traceAppend c1
            (chainCalls fs (Callback.handler fn user) r ++
              [Event.call (Callback.handler fn user) r]))) := by
  obtain ⟨_, h2, h3⟩ := chainAll_FindCommand env pName fs c cmd hfind
  refine ⟨?_, h2, h3, ?_, ?_⟩
  · intro f u
    exact ⟨(Chain_FindCommand env pName f u c cmd hfind).2.1, fun r c1 => rfl⟩
  · intro r c1
    exact invokeForwarding_wrapAll env reenter r fs _ c1
  · intro fn user r c1 hcb
    rw [invokeForwarding_wrapAll, hcb]
    simp [invokeForwarding, invoke, CConsole.log, traceAppend]

/-- The witness of C26: two interceptors around `kick` on the server
console. -/
theorem Chain_wraps_witness :
    FindCommand (chainAll ddnet "kick".toList [(1, 10), (2, 20)] kickConsole).m_pFirstCommand
        "kick".toList kickConsole.m_FlagMask =
      some { m_pName := "kick".toList, m_pHelp := "Kick a player".toList,
             m_pParams := "v[id]".toList, m_Flags := 4, m_Temp := false, m_AccessLevel := 0,
             m_Callback := Callback.Con_Chain 2 20 (Callback.Con_Chain 1 10
               (Callback.handler 7 0)) }
    ∧ invokeForwarding ddnet (reentry ddnet 0)
        (Callback.Con_Chain 2 20 (Callback.Con_Chain 1 10 (Callback.handler 7 0)))
        (CResult.init ddnet 0) kickConsole =
      Except.ok (traceAppend kickConsole
        [Event.call (Callback.Con_Chain 2 20 (Callback.Con_Chain 1 10 (Callback.handler 7 0)))
          (CResult.init ddnet 0),
         Event.call (Callback.Con_Chain 1 10 (Callback.handler 7 0)) (CResult.init ddnet 0),
         Event.call (Callback.handler 7 0) (CResult.init ddnet 0)]) :=
  ⟨(Chain_wraps ddnet (reentry ddnet 0) "kick".toList [(1, 10), (2, 20)] kickConsole
      { m_pName := "kick".toList, m_pHelp := "Kick a player".toList,
        m_pParams := "v[id]".toList, m_Flags := 4, m_Temp := false, m_AccessLevel := 0,
        m_Callback := Callback.handler 7 0 } (by decide)).2.1,
   (Chain_wraps ddnet (reentry ddnet 0) "kick".toList [(1, 10), (2, 20)] kickConsole
      { m_pName := "kick".toList, m_pHelp := "Kick a player".toList,
        m_pParams := "v[id]".toList, m_Flags := 4, m_Temp := false, m_AccessLevel := 0,
        m_Callback := Callback.handler 7 0 } (by decide)).2.2.2.2 7 0 (CResult.init ddnet 0)
      kickConsole rfl⟩

/-! ### Permanent descriptors -/

theorem updateFound_countP (f : CCommand → CCommand) (hf : ∀ x, (f x).m_Temp = false) :
    ∀ (l : List CCommand) (n : Str) (m : Nat),
      l.countP (fun x => !x.m_Temp) ≤ (updateFound f l n m).countP (fun x => !x.m_Temp) := by
  intro l
  induction l with
  | nil => intro n m; simp [updateFound]
  | cons a rest ih =>
    intro n m
    by_cases h1 : hasFlag a.m_Flags m = true
    · by_cases h2 : str_comp_nocase a.m_pName n = 0
      · simp only [updateFound, h1, h2, if_true, List.countP_cons, hf]
        split <;> simp
      · simp only [updateFound, h1, h2, if_true, if_false, List.countP_cons]
        have := ih n m
        omega
    · have h1' : hasFlag a.m_Flags m = false := by simpa using h1
      simp only [updateFound, h1', Bool.false_eq_true, if_false, List.countP_cons]
      have := ih n m
      omega

theorem unlinkNext_countP (pName : Str) :
    ∀ (l : List CCommand),
      (unlinkNext pName l).1.countP (fun x => !x.m_Temp) = l.countP (fun x => !x.m_Temp) := by
  intro l
  induction l with
  | nil => rfl
  | cons a rest ih =>
    cases rest with
    | nil => rfl
    | cons b rest2 =>
      by_cases h : b.m_Temp = true ∧ str_comp b.m_pName pName = 0
      · simp only [unlinkNext, h, and_self, if_true, List.countP_cons]
        simp [h.1]
      · simp only [unlinkNext, if_neg h]
        simp only [List.countP_cons] at ih ⊢
        omega

theorem AddCommandSorted_countP (x : CCommand) (l : List CCommand) (hl : 2 ≤ l.length) :
    (AddCommandSorted x l).countP (fun y => !y.m_Temp) =
      l.countP (fun y => !y.m_Temp) + (if x.m_Temp then 0 else 1) := by
  obtain ⟨l1, l2, h1, h2, _, _⟩ := AddCommandSorted_split x l hl
  rw [h2, h1]
  simp only [List.countP_append, List.countP_cons]
  cases x.m_Temp
  · simp
    omega
  · simp

theorem countP_le_length_two (c : CConsole) (h : 2 ≤ permanentCount c) :
    2 ≤ c.m_pFirstCommand.length :=
  le_trans h (List.countP_le_length _)

/-- No registry operation lowers the number of permanent descriptors of a
list that holds at least two of them. -/
theorem apply_permanentCount (env : Env) (op : RegistryOp) (c : CConsole)
    (h : 2 ≤ permanentCount c) : permanentCount c ≤ permanentCount (op.apply env c) := by
  have hl := countP_le_length_two c h
  unfold permanentCount at h ⊢
  cases op with
  | register pName pParams Flags cb pHelp =>
    simp only [RegistryOp.apply, Register]
    cases FindCommand c.m_pFirstCommand pName Flags with
    | none =>
      dsimp only
      rw [AddCommandSorted_countP _ _ hl]
      omega
    | some _ =>
      dsimp only
      exact updateFound_countP _ (registerFields_temp env pName pParams Flags cb pHelp) _ _ _
  | registerTemp pName pParams Flags pHelp =>
    simp only [RegistryOp.apply, RegisterTemp]
    cases c.m_pRecycleList with
    | nil =>
      dsimp only
      rw [AddCommandSorted_countP _ _ hl]
      omega
    | cons r rest =>
      dsimp only
      rw [AddCommandSorted_countP _ _ hl]
      omega
  | deregisterTemp pName =>
    simp only [RegistryOp.apply, DeregisterTemp]
    cases hlist : c.m_pFirstCommand with
    | nil => simp [hlist]
    | cons first rest =>
      dsimp only
      by_cases h1 : first.m_Temp = true ∧ str_comp first.m_pName pName = 0
      · rw [if_pos h1]
        simp [h1.1]
      · rw [if_neg h1]
        have hu := unlinkNext_countP pName (first :: rest)
        cases hun : unlinkNext pName (first :: rest) with
        | mk l removed =>
          rw [hun] at hu
          cases removed <;> exact le_of_eq hu.symm
  | deregisterTempAll =>
    simp only [RegistryOp.apply, DeregisterTempAll, unlinkTemp_skipTemp]
    rw [List.countP_filter]
    simp
  | chain pName f u =>
    simp only [RegistryOp.apply, Chain]
    cases FindCommand c.m_pFirstCommand pName c.m_FlagMask with
    | none => exact le_refl _
    | some _ =>
      dsimp only
      have hm := updateFound_map (fun x => x.m_Temp)
        (fun (cmd : CCommand) =>
          { cmd with m_Callback := Callback.Con_Chain f u cmd.m_Callback })
        (fun _ => rfl) c.m_pFirstCommand pName c.m_FlagMask
      have hc : ∀ l : List CCommand,
          l.countP (fun x => !x.m_Temp) = (l.map (fun x => x.m_Temp)).countP (fun b => !b) := by
        intro l
        rw [List.countP_map]
        rfl
      rw [hc c.m_pFirstCommand, hc (updateFound _ c.m_pFirstCommand pName c.m_FlagMask), hm]

theorem applyOps_permanentCount (env : Env) :
    ∀ (ops : List RegistryOp) (c : CConsole), 2 ≤ permanentCount c →
      2 ≤ permanentCount (applyOps env ops c) := by
  intro ops
  induction ops with
  | nil => intro c h; exact h
  | cons op rest ih =>
    intro c h
    exact ih _ (le_trans h (apply_permanentCount env op c h))

theorem new_permanentCount (env : Env) (FlagMask : Nat) (cfg : CConfig) :
    2 ≤ permanentCount (CConsole.new env FlagMask cfg) := by
  obtain ⟨h1, h2, _, _⟩ := new_settled env FlagMask cfg
  unfold permanentCount
  rw [List.countP_eq_length.mpr (by intro x hx; simp [h2 x hx])]
  exact h1

/-- C28. In every console state reached from the constructor by a finite
sequence of `Register`, `RegisterTemp`, `DeregisterTemp`, `DeregisterTempAll`
and `Chain` calls, the command list holds at least two permanent descriptors,
and no further such call lowers their number (permanent descriptors are never
unlinked).  So the list has at least two descriptors, `AddCommandSorted`
links every descriptor it is given into the list without dropping one, and a
`Register` of a name that is not found and every `RegisterTemp` yield the old
list with the one new descriptor put in. -/
theorem registry_two_permanent (env : Env) (FlagMask : Nat) (cfg : CConfig)
    (ops : List RegistryOp) :
    2 ≤ permanentCount (applyOps env ops (CConsole.new env FlagMask cfg))
    ∧ 2 ≤ (applyOps env ops (CConsole.new env FlagMask cfg)).m_pFirstCommand.length
    ∧ (∀ op : RegistryOp,
        permanentCount (applyOps env ops (CConsole.new env FlagMask cfg)) ≤
          permanentCount (op.apply env (applyOps env ops (CConsole.new env FlagMask cfg))))
    ∧ (∀ x : CCommand, ∃ l1 l2,
        (applyOps env ops (CConsole.new env FlagMask cfg)).m_pFirstCommand = l1 ++ l2 ∧
        AddCommandSorted x (applyOps env ops (CConsole.new env FlagMask cfg)).m_pFirstCommand =
          l1 ++ x :: l2)
    ∧ (∀ (pName pParams : Str) (Flags : Nat) (cb : Callback) (pHelp : Str),
        FindCommand (applyOps env ops (CConsole.new env FlagMask cfg)).m_pFirstCommand
          pName Flags = none →
        ∃ l1 l2,
          (applyOps env ops (CConsole.new env FlagMask cfg)).m_pFirstCommand = l1 ++ l2 ∧
          (Register env pName pParams Flags cb pHelp
            (applyOps env ops (CConsole.new env FlagMask cfg))).m_pFirstCommand =
            l1 ++ registerFields env pName pParams Flags cb pHelp (CCommand.new env) :: l2)
    ∧ (∀ (pName pParams : Str) (Flags : Nat) (pHelp : Str), ∃ d l1 l2,
        (applyOps env ops (CConsole.new env FlagMask cfg)).m_pFirstCommand = l1 ++ l2 ∧
        (RegisterTemp env pName pParams Flags pHelp
          (applyOps env ops (CConsole.new env FlagMask cfg))).m_pFirstCommand =
          l1 ++ d :: l2) := by
  have hp := applyOps_permanentCount env ops _ (new_permanentCount env FlagMask cfg)
  have hl := countP_le_length_two _ hp
  generalize applyOps env ops (CConsole.new env FlagMask cfg) = c at hp hl ⊢
  refine ⟨hp, hl, fun op => apply_permanentCount env op c hp, ?_, ?_, ?_⟩
  · intro x
    obtain ⟨l1, l2, h1, h2, _, _⟩ := AddCommandSorted_split x c.m_pFirstCommand hl
    exact ⟨l1, l2, h1, h2⟩
  · intro pName pParams Flags cb pHelp hnone
    obtain ⟨l1, l2, h1, h2, _, _⟩ := AddCommandSorted_split
      (registerFields env pName pParams Flags cb pHelp (CCommand.new env)) c.m_pFirstCommand hl
    refine ⟨l1, l2, h1, ?_⟩
    unfold Register
    rw [hnone]
    exact h2
  · intro pName pParams Flags pHelp
    unfold RegisterTemp
    cases c.m_pRecycleList with
    | nil =>
      dsimp only
      obtain ⟨l1, l2, h1, h2, _, _⟩ := AddCommandSorted_split
        { CCommand.new env with
          m_pName := str_copy pName env.TEMPCMD_NAME_LENGTH,
          m_pHelp := str_copy pHelp env.TEMPCMD_HELP_LENGTH,
          m_pParams := str_copy pParams env.TEMPCMD_PARAMS_LENGTH,
          m_Callback := Callback.null, m_Flags := Flags, m_Temp := true } c.m_pFirstCommand hl
      exact ⟨_, l1, l2, h1, h2⟩
    | cons r rest =>
      dsimp only
      obtain ⟨l1, l2, h1, h2, _, _⟩ := AddCommandSorted_split
        { r with
          m_pName := str_copy pName env.TEMPCMD_NAME_LENGTH,
          m_pHelp := str_copy pHelp env.TEMPCMD_HELP_LENGTH,
          m_pParams := str_copy pParams env.TEMPCMD_PARAMS_LENGTH,
          m_Callback := Callback.null, m_Flags := Flags, m_Temp := true } c.m_pFirstCommand hl
      exact ⟨_, l1, l2, h1, h2⟩

/-! ### Null callbacks -/

theorem CallbacksSet_congr (FlagMask : Nat) (c d : CConsole)
    (h1 : d.m_FlagMask = c.m_FlagMask) (h2 : d.m_pFirstCommand = c.m_pFirstCommand)
    (h3 : d.m_ExecutionQueue = c.m_ExecutionQueue) (h : CallbacksSet FlagMask c) :
    CallbacksSet FlagMask d := by
  unfold CallbacksSet at h ⊢
  rw [h1, h2, h3]
  exact h

theorem FindCommand_mem :
    ∀ (l : List CCommand) (n : Str) (m : Nat) (x : CCommand),
      FindCommand l n m = some x → x ∈ l ∧ hasFlag x.m_Flags m = true := by
  intro l
  induction l with
  | nil => intro n m x h; simp [FindCommand] at h
  | cons a rest ih =>
    intro n m x h
    by_cases h1 : hasFlag a.m_Flags m = true
    · by_cases h2 : str_comp_nocase a.m_pName n = 0
      · simp only [FindCommand, h1, h2, if_true, Option.some.injEq] at h
        subst h
        exact ⟨List.mem_cons_self _ _, h1⟩
      · simp only [FindCommand, h1, h2, if_true, if_false] at h
        obtain ⟨i1, i2⟩ := ih n m x h
        exact ⟨List.mem_cons_of_mem _ i1, i2⟩
    · have h1' : hasFlag a.m_Flags m = false := by simpa using h1
      simp only [FindCommand, h1', Bool.false_eq_true, if_false] at h
      obtain ⟨i1, i2⟩ := ih n m x h
      exact ⟨List.mem_cons_of_mem _ i1, i2⟩

theorem CallbacksSet_local (FlagMask : Nat) (c d : CConsole) (h : LocalStep c d)
    (hc : CallbacksSet FlagMask c) : CallbacksSet FlagMask d := by
  obtain ⟨h1, h2, _⟩ := h
  obtain ⟨m1, m2, m3⟩ := hc
  have e1 : d.m_FlagMask = c.m_FlagMask := by rw [h1]; rfl
  have e2 : d.m_ExecutionQueue = c.m_ExecutionQueue := by rw [h1]; rfl
  refine ⟨e1.trans m1, ?_, ?_⟩
  · intro x hx hflag
    have hx' : levelless x ∈ c.m_pFirstCommand.map levelless := by
      rw [← h2]
      exact List.mem_map_of_mem _ hx
    obtain ⟨y, hy, hxy⟩ := List.mem_map.mp hx'
    have f1 : (levelless y).m_Flags = (levelless x).m_Flags := congrArg CCommand.m_Flags hxy
    have f2 : (levelless y).m_Callback = (levelless x).m_Callback :=
      congrArg CCommand.m_Callback hxy
    change y.m_Flags = x.m_Flags at f1
    change y.m_Callback = x.m_Callback at f2
    rw [← f2]
    exact m2 y hy (by rw [f1]; exact hflag)
  · rw [e2]
    exact m3

theorem invoke_safe (env : Env) (reenter : ReenterFn) (FlagMask : Nat)
    (hexec : ∀ call c, CallbacksSet FlagMask c → SafeResult FlagMask (reenter call c))
    (cb : Callback) (R : CResult) (c : CConsole) (hcb : cb ≠ Callback.null)
    (hc : CallbacksSet FlagMask c) : SafeResult FlagMask (invoke env reenter cb R c) := by
  by_cases hr : cb.reenters = true
  · rcases invoke_reenters env reenter cb R c hr with ⟨m, hm⟩ | ⟨call, hcall⟩
    · rw [hm]
      exact CallbacksSet_congr FlagMask c _ rfl rfl rfl hc
    · rw [hcall]
      exact hexec _ _ (CallbacksSet_congr FlagMask c _ rfl rfl rfl hc)
  · have hr' : cb.reenters = false := by simpa using hr
    obtain ⟨c', hc'⟩ := invoke_local_ok env reenter cb R c hr' hcb
    rw [hc']
    exact CallbacksSet_local FlagMask _ _ (invoke_local env reenter cb R c c' hr' hc')
      (CallbacksSet_congr FlagMask c _ rfl rfl rfl hc)

theorem invokeVictims_safe (env : Env) (reenter : ReenterFn) (FlagMask : Nat)
    (hexec : ∀ call c, CallbacksSet FlagMask c → SafeResult FlagMask (reenter call c))
    (cb : Callback) (hcb : cb ≠ Callback.null) :
    ∀ (n i : Nat) (R : CResult) (c : CConsole), CallbacksSet FlagMask c →
      SafeResult FlagMask (invokeVictims env reenter cb n i R c) := by
  intro n
  induction n with
  | zero => intro i R c hc; exact hc
  | succ n ih =>
    intro i R c hc
    have h := invoke_safe env reenter FlagMask hexec cb (R.SetVictim env i) c hcb hc
    simp only [invokeVictims]
    cases hi : invoke env reenter cb (R.SetVictim env i) c with
    | error e => rw [hi] at h; exact h
    | ok c1 =>
      rw [hi] at h
      exact ih _ _ c1 h

theorem dispatch_safe (env : Env) (reenter : ReenterFn) (FlagMask : Nat)
    (hexec : ∀ call c, CallbacksSet FlagMask c → SafeResult FlagMask (reenter call c))
    (Stroke : Bool) (ClientID : Int) (R : CResult) (c : CConsole)
    (hc : CallbacksSet FlagMask c) :
    SafeResult FlagMask ((dispatch env reenter Stroke ClientID R c).map (fun p => p.2)) := by
  have hlog : ∀ l f m, CallbacksSet FlagMask (Print c l f m) :=
    fun l f m => CallbacksSet_congr FlagMask c _ rfl rfl rfl hc
  unfold dispatch
  by_cases h0 : R.m_pCommand = []
  · rw [if_pos h0]
    exact hc
  · rw [if_neg h0]
    cases hfind : FindCommand c.m_pFirstCommand R.m_pCommand c.m_FlagMask with
    | none =>
      dsimp only
      cases Stroke
      · exact hc
      · exact hlog _ _ _
    | some pCommand =>
      have hmem := FindCommand_mem _ _ _ _ hfind
      have hcb : pCommand.m_Callback ≠ Callback.null := by
        have hm := hmem.2
        rw [hc.1] at hm
        exact hc.2.1 pCommand hmem.1 hm
      dsimp only
      by_cases h1 : ClientID = env.CLIENT_ID_GAME ∧ ¬ hasFlag pCommand.m_Flags env.CFGFLAG_GAME
      · rw [if_pos h1]
        cases Stroke
        · exact hc
        · exact hlog _ _ _
      · rw [if_neg h1]
        by_cases h2 : ClientID = env.CLIENT_ID_NO_GAME ∧ hasFlag pCommand.m_Flags env.CFGFLAG_GAME
        · rw [if_pos h2]
          cases Stroke
          · exact hc
          · exact CallbacksSet_congr FlagMask c _ rfl rfl rfl hc
        · rw [if_neg h2]
          by_cases h3 : pCommand.m_AccessLevel ≥ c.m_AccessLevel
          · rw [if_pos h3]
            by_cases h4 : (Stroke || decide (R.m_pCommand.head? = some '+')) = true
            · rw [if_pos h4]
              cases hpa : ParseArgs env
                  (if decide (R.m_pCommand.head? = some '+') = true then
                    R.AddArgument (m_paStrokeStr Stroke) else R) pCommand.m_pParams with
              | mk R2 Error =>
                dsimp only
                by_cases h5 : Error ≠ 0
                · rw [if_pos h5]
                  exact hlog _ _ _
                · rw [if_neg h5]
                  by_cases h6 : c.m_StoreCommands = true ∧
                      hasFlag pCommand.m_Flags env.CFGFLAG_STORE = true
                  · rw [if_pos h6]
                    refine ⟨hc.1, hc.2.1, ?_⟩
                    intro e he
                    rcases List.mem_append.mp he with he | he
                    · exact hc.2.2 e he
                    · simp only [List.mem_singleton] at he
                      rw [he]
                      exact hcb
                  · rw [if_neg h6]
                    by_cases h7 : hasFlag pCommand.m_Flags env.CMDFLAG_TEST = true ∧
                        c.g_Config.m_SvTestingCommands = 0
                    · rw [if_pos h7]
                      exact hc
                    · rw [if_neg h7]
                      have hc1 : CallbacksSet FlagMask
                          (if c.m_pfnTeeHistorianCommandCallback.isSome = true ∧
                            ¬ hasFlag pCommand.m_Flags env.CFGFLAG_NONTEEHISTORIC = true then
                            c.log (Event.historian ClientID c.m_FlagMask pCommand.m_pName R2)
                          else c) := by
                        split
                        · exact CallbacksSet_congr FlagMask c _ rfl rfl rfl hc
                        · exact hc
                      generalize (if c.m_pfnTeeHistorianCommandCallback.isSome = true ∧
                            ¬ hasFlag pCommand.m_Flags env.CFGFLAG_NONTEEHISTORIC = true then
                            c.log (Event.historian ClientID c.m_FlagMask pCommand.m_pName R2)
                          else c) = c1 at hc1
                      generalize (if R2.GetVictim = env.VICTIM_ME then R2.SetVictim env ClientID
                          else R2) = R3
                      have hrun : SafeResult FlagMask
                          (if CResult.HasVictim env R3 = true ∧ R3.GetVictim = env.VICTIM_ALL then
                            invokeVictims env reenter pCommand.m_Callback env.MAX_CLIENTS 0 R3 c1
                          else invoke env reenter pCommand.m_Callback R3 c1) := by
                        by_cases h8 : CResult.HasVictim env R3 = true ∧
                            R3.GetVictim = env.VICTIM_ALL
                        · rw [if_pos h8]
                          exact invokeVictims_safe env reenter FlagMask hexec _ hcb _ _ _ _ hc1
                        · rw [if_neg h8]
                          exact invoke_safe env reenter FlagMask hexec _ _ _ hcb hc1
                      generalize (if CResult.HasVictim env R3 = true ∧
                            R3.GetVictim = env.VICTIM_ALL then
                            invokeVictims env reenter pCommand.m_Callback env.MAX_CLIENTS 0 R3 c1
                          else invoke env reenter pCommand.m_Callback R3 c1) = run at hrun
                      cases run with
                      | error e => exact hrun
                      | ok c2 =>
                        show CallbacksSet FlagMask _
                        split
                        · exact CallbacksSet_congr FlagMask c2 _ rfl rfl rfl hrun
                        · exact hrun
            · rw [if_neg h4]
              exact hc
          · rw [if_neg h3]
            cases Stroke
            · exact hc
            · exact hlog _ _ _

theorem lineLoop_safe (env : Env) (reenter : ReenterFn) (FlagMask : Nat)
    (hexec : ∀ call c, CallbacksSet FlagMask c → SafeResult FlagMask (reenter call c))
    (Stroke : Bool) (ClientID : Int) (interp : Bool) :
    ∀ (fuel : Nat) (pStr : Option Str) (c : CConsole), CallbacksSet FlagMask c →
      SafeResult FlagMask (lineLoop env reenter Stroke ClientID interp fuel pStr c) := by
  intro fuel
  induction fuel with
  | zero =>
    intro pStr c hc
    cases pStr with
    | none => rw [lineLoop_none]; exact hc
    | some s =>
      cases s with
      | nil => rw [lineLoop_nil]; exact hc
      | cons a as => rfl
  | succ fuel ih =>
    intro pStr c hc
    cases pStr with
    | none => rw [lineLoop_none]; exact hc
    | some s =>
      cases s with
      | nil => rw [lineLoop_nil]; exact hc
      | cons a as =>
        rw [lineLoop_step]
        have hd := dispatch_safe env reenter FlagMask hexec Stroke ClientID
          (ParseStart env (CResult.init env ClientID) (a :: as)
            ((scanSubcommand interp false (a :: as)).1 + 1)).1 c hc
        cases hdis : dispatch env reenter Stroke ClientID
            (ParseStart env (CResult.init env ClientID) (a :: as)
              ((scanSubcommand interp false (a :: as)).1 + 1)).1 c with
        | error e => rw [hdis] at hd; exact hd
        | ok p =>
          rw [hdis] at hd
          obtain ⟨fl, c1⟩ := p
          cases fl with
          | ret => exact hd
          | next => exact ih _ c1 hd

theorem ExecuteLineStroked_safe (env : Env) (reenter : ReenterFn) (FlagMask : Nat)
    (hexec : ∀ call c, CallbacksSet FlagMask c → SafeResult FlagMask (reenter call c))
    (Stroke : Bool) (pStr : Str) (ClientID : Int) (interp : Bool) (c : CConsole)
    (hc : CallbacksSet FlagMask c) :
    SafeResult FlagMask (ExecuteLineStroked env reenter Stroke pStr ClientID interp c) := by
  unfold ExecuteLineStroked
  split <;> exact lineLoop_safe env reenter FlagMask hexec _ _ _ _ _ c hc

theorem ExecuteLine_safe (env : Env) (reenter : ReenterFn) (FlagMask : Nat)
    (hexec : ∀ call c, CallbacksSet FlagMask c → SafeResult FlagMask (reenter call c))
    (pStr : Str) (ClientID : Int) (interp : Bool) (c : CConsole)
    (hc : CallbacksSet FlagMask c) :
    SafeResult FlagMask (ExecuteLine env reenter pStr ClientID interp c) := by
  unfold ExecuteLine
  have h := ExecuteLineStroked_safe env reenter FlagMask hexec true pStr ClientID interp c hc
  cases h1 : ExecuteLineStroked env reenter true pStr ClientID interp c with
  | error e => rw [h1] at h; exact h
  | ok c1 =>
    rw [h1] at h
    exact ExecuteLineStroked_safe env reenter FlagMask hexec false pStr ClientID interp c1 h

theorem executeLines_safe (env : Env) (reenter : ReenterFn) (FlagMask : Nat)
    (hexec : ∀ call c, CallbacksSet FlagMask c → SafeResult FlagMask (reenter call c))
    (ClientID : Int) :
    ∀ (lines : List Str) (c : CConsole), CallbacksSet FlagMask c →
      SafeResult FlagMask (executeLines env reenter ClientID lines c) := by
  intro lines
  induction lines with
  | nil => intro c hc; exact hc
  | cons l rest ih =>
    intro c hc
    simp only [executeLines]
    have h := ExecuteLine_safe env reenter FlagMask hexec l ClientID
      env.defaultInterpretSemicolons c hc
    cases h1 : ExecuteLine env reenter l ClientID env.defaultInterpretSemicolons c with
    | error e => rw [h1] at h; exact h
    | ok c1 =>
      rw [h1] at h
      exact ih c1 h

theorem reentry_safe (env : Env) (FlagMask : Nat) :
    ∀ (fuel : Nat) (call : Reentry) (c : CConsole),
      CallbacksSet FlagMask c → SafeResult FlagMask (reentry env fuel call c) := by
  intro fuel
  induction fuel with
  | zero =>
    intro call c hc
    cases call with
    | ExecuteFile f cid lf st =>
      unfold reentry
      split
      · exact hc
      · rfl
    | ExecuteLine s cid interp => rfl
  | succ fuel ih =>
    intro call c hc
    cases call with
    | ExecuteLine s cid interp =>
      exact ExecuteLine_safe env (reentry env fuel) FlagMask ih s cid interp c hc
    | ExecuteFile f cid lf st =>
      unfold reentry
      by_cases hany : c.m_pFirstExec.any (fun pCur => decide (str_comp f pCur = 0)) = true
      · rw [if_pos hany]
        exact hc
      · rw [if_neg hany]
        dsimp only
        have hc1 : CallbacksSet FlagMask (if c.m_pStorage = true then c
            else { c with m_pStorage := env.kernelStorage }) := by
          split
          · exact hc
          · exact CallbacksSet_congr FlagMask c _ rfl rfl rfl hc
        generalize (if c.m_pStorage = true then c
            else { c with m_pStorage := env.kernelStorage }) = c1 at hc1
        by_cases hst : (!c1.m_pStorage) = true
        · rw [if_pos hst]
          exact hc1
        · rw [if_neg hst]
          cases hopen : env.OpenFile f st with
          | none =>
            dsimp only
            cases lf <;> exact CallbacksSet_congr FlagMask c1 _ rfl rfl rfl hc1
          | some lines =>
            dsimp only
            have h := executeLines_safe env (reentry env fuel) FlagMask ih cid lines
              (Print (CConsole.log { c1 with m_pFirstExec := f :: c1.m_pFirstExec }
                (Event.openFile f st)) env.OUTPUT_LEVEL_STANDARD "console".toList
                (Msg.str_format 128 "executing '%s'".toList [f]))
              (CallbacksSet_congr FlagMask c1 _ rfl rfl rfl hc1)
            cases h1 : executeLines env (reentry env fuel) cid lines
                (Print (CConsole.log { c1 with m_pFirstExec := f :: c1.m_pFirstExec }
                  (Event.openFile f st)) env.OUTPUT_LEVEL_STANDARD "console".toList
                  (Msg.str_format 128 "executing '%s'".toList [f])) with
            | error e => rw [h1] at h; exact h
            | ok c5 =>
              rw [h1] at h
              exact CallbacksSet_congr FlagMask c5 _ rfl rfl rfl h

theorem ExecuteFile_safe (env : Env) (FlagMask : Nat) (fuel : Nat) (f : Str) (cid : Int)
    (lf : Bool) (st : Int) (c : CConsole) (hc : CallbacksSet FlagMask c) :
    SafeResult FlagMask (ExecuteFile env fuel f cid lf st c) :=
  reentry_safe env FlagMask fuel (Reentry.ExecuteFile f cid lf st) c hc

theorem runQueue_safe (env : Env) (reenter : ReenterFn) (FlagMask : Nat)
    (hexec : ∀ call c, CallbacksSet FlagMask c → SafeResult FlagMask (reenter call c)) :
    ∀ (es : List CQueueEntry) (c : CConsole), (∀ e ∈ es, e.m_Callback ≠ Callback.null) →
      CallbacksSet FlagMask c → SafeResult FlagMask (runQueue env reenter es c) := by
  intro es
  induction es with
  | nil => intro c _ hc; exact hc
  | cons e rest ih =>
    intro c hes hc
    simp only [runQueue]
    have h := invoke_safe env reenter FlagMask hexec e.m_Callback e.m_Result c
      (hes e (List.mem_cons_self _ _)) hc
    cases h1 : invoke env reenter e.m_Callback e.m_Result c with
    | error x => rw [h1] at h; exact h
    | ok c1 =>
      rw [h1] at h
      exact ih c1 (fun e' he' => hes e' (List.mem_cons_of_mem _ he')) h

theorem StoreCommands_safe (env : Env) (reenter : ReenterFn) (FlagMask : Nat)
    (hexec : ∀ call c, CallbacksSet FlagMask c → SafeResult FlagMask (reenter call c))
    (Store : Bool) (c : CConsole) (hc : CallbacksSet FlagMask c) :
    SafeResult FlagMask (StoreCommands env reenter Store c) := by
  unfold StoreCommands
  cases Store
  · simp only [Bool.not_false, if_true]
    have h := runQueue_safe env reenter FlagMask hexec c.m_ExecutionQueue c hc.2.2 hc
    cases h1 : runQueue env reenter c.m_ExecutionQueue c with
    | error e => rw [h1] at h; exact h
    | ok c1 =>
      rw [h1] at h
      exact ⟨h.1, h.2.1, by intro e he; simp at he⟩
  · exact CallbacksSet_congr FlagMask c _ rfl rfl rfl hc

theorem AddCommandSorted_subset (x : CCommand) (l : List CCommand) (y : CCommand)
    (hy : y ∈ AddCommandSorted x l) : y = x ∨ y ∈ l := by
  cases l with
  | nil =>
    simp only [AddCommandSorted, List.mem_singleton] at hy
    exact Or.inl hy
  | cons a rest =>
    cases rest with
    | nil =>
      simp only [AddCommandSorted, insertBehind] at hy
      split at hy
      · simp only [List.mem_singleton] at hy
        exact Or.inl hy
      · simp only [List.mem_cons, List.mem_singleton, List.not_mem_nil, or_false] at hy
        rcases hy with h | h
        · exact Or.inr (by rw [h]; exact List.mem_cons_self _ _)
        · exact Or.inl h
    | cons b rest2 =>
      exact AddCommandSorted_mem x (a :: b :: rest2) (by simp) y hy

theorem unlinkNext_subset (pName : Str) :
    ∀ (l : List CCommand) (y : CCommand), y ∈ (unlinkNext pName l).1 → y ∈ l := by
  intro l
  induction l with
  | nil => intro y hy; simp [unlinkNext] at hy
  | cons a rest ih =>
    intro y hy
    cases rest with
    | nil => exact hy
    | cons b rest2 =>
      by_cases h : b.m_Temp = true ∧ str_comp b.m_pName pName = 0
      · simp only [unlinkNext, h, and_self, if_true] at hy
        rcases List.mem_cons.mp hy with h1 | h1
        · rw [h1]; exact List.mem_cons_self _ _
        · exact List.mem_cons_of_mem _ (List.mem_cons_of_mem _ h1)
      · simp only [unlinkNext, if_neg h] at hy
        rcases List.mem_cons.mp hy with h1 | h1
        · rw [h1]; exact List.mem_cons_self _ _
        · exact List.mem_cons_of_mem _ (ih y h1)

theorem registerFields_callback (env : Env) (n p : Str) (f : Nat) (cb : Callback) (h : Str)
    (cmd : CCommand) : (registerFields env n p f cb h cmd).m_Callback = cb := by
  unfold registerFields
  dsimp only
  split <;> rfl

/-- Every admissible registry operation keeps the callbacks set. -/
theorem apply_CallbacksSet (env : Env) (FlagMask : Nat) (op : RegistryOp) (c : CConsole)
    (hadm : (ConsoleOp.registry op).Admissible FlagMask) (hc : CallbacksSet FlagMask c) :
    CallbacksSet FlagMask (op.apply env c) := by
  obtain ⟨hm, hl, hq⟩ := hc
  cases op with
  | register pName pParams Flags cb pHelp =>
    have hcb : cb ≠ Callback.null := hadm
    simp only [RegistryOp.apply, Register]
    cases FindCommand c.m_pFirstCommand pName Flags with
    | none =>
      refine ⟨hm, ?_, hq⟩
      intro y hy hflag
      rcases AddCommandSorted_subset _ _ y hy with h | h
      · rw [h, registerFields_callback]
        exact hcb
      · exact hl y h hflag
    | some _ =>
      refine ⟨hm, ?_, hq⟩
      intro y hy hflag
      rcases updateFound_mem _ _ _ _ y hy with h | ⟨z, _, h⟩
      · exact hl y h hflag
      · rw [h, registerFields_callback]
        exact hcb
  | registerTemp pName pParams Flags pHelp =>
    have hfl : hasFlag Flags FlagMask = false := hadm
    simp only [RegistryOp.apply, RegisterTemp]
    cases c.m_pRecycleList with
    | nil =>
      refine ⟨hm, ?_, hq⟩
      intro y hy hflag
      rcases AddCommandSorted_subset _ _ y hy with h | h
      · rw [h] at hflag
        rw [hfl] at hflag
        exact absurd hflag (by simp)
      · exact hl y h hflag
    | cons r rest =>
      refine ⟨hm, ?_, hq⟩
      intro y hy hflag
      rcases AddCommandSorted_subset _ _ y hy with h | h
      · rw [h] at hflag
        rw [hfl] at hflag
        exact absurd hflag (by simp)
      · exact hl y h hflag
  | deregisterTemp pName =>
    simp only [RegistryOp.apply, DeregisterTemp]
    cases hlist : c.m_pFirstCommand with
    | nil => exact ⟨hm, by rw [hlist]; simp, hq⟩
    | cons first rest =>
      rw [hlist] at hl
      dsimp only
      by_cases h1 : first.m_Temp = true ∧ str_comp first.m_pName pName = 0
      · rw [if_pos h1]
        exact ⟨hm, fun y hy hflag => hl y (List.mem_cons_of_mem _ hy) hflag, hq⟩
      · rw [if_neg h1]
        have hsub := unlinkNext_subset pName (first :: rest)
        cases hun : unlinkNext pName (first :: rest) with
        | mk l removed =>
          rw [hun] at hsub
          cases removed <;> exact ⟨hm, fun y hy hflag => hl y (hsub y hy) hflag, hq⟩
  | deregisterTempAll =>
    simp only [RegistryOp.apply, DeregisterTempAll, unlinkTemp_skipTemp]
    exact ⟨hm, fun y hy hflag => hl y (List.mem_of_mem_filter hy) hflag, hq⟩
  | chain pName f u =>
    simp only [RegistryOp.apply, Chain]
    cases FindCommand c.m_pFirstCommand pName c.m_FlagMask with
    | none => exact ⟨hm, hl, hq⟩
    | some _ =>
      refine ⟨hm, ?_, hq⟩
      intro y hy hflag
      rcases updateFound_mem _ _ _ _ y hy with h | ⟨z, _, h⟩
      · exact hl y h hflag
      · rw [h]
        simp

theorem registerConfigVariables_CallbacksSet (env : Env) (FlagMask : Nat) :
    ∀ (vs : List ConfigVariable) (c : CConsole), CallbacksSet FlagMask c →
      CallbacksSet FlagMask (registerConfigVariables env vs c) := by
  intro vs
  induction vs with
  | nil => intro c hc; exact hc
  | cons v rest ih =>
    intro c hc
    simp only [registerConfigVariables]
    apply ih
    unfold registerConfigVariable
    split
    · exact apply_CallbacksSet env FlagMask (RegistryOp.register _ _ _ _ _) c
        (by simp [ConsoleOp.Admissible]) hc
    · split
      · exact apply_CallbacksSet env FlagMask (RegistryOp.register _ _ _ _ _) c
          (by simp [ConsoleOp.Admissible]) hc
      · exact apply_CallbacksSet env FlagMask (RegistryOp.register _ _ _ _ _) c
          (by simp [ConsoleOp.Admissible]) hc

theorem new_CallbacksSet (env : Env) (FlagMask : Nat) (cfg : CConfig) :
    CallbacksSet FlagMask (CConsole.new env FlagMask cfg) := by
  have hreg : ∀ (n p : Str) (f : Nat) (cb : Callback) (h : Str) (c : CConsole),
      cb ≠ Callback.null → CallbacksSet FlagMask c →
      CallbacksSet FlagMask (Register env n p f cb h c) :=
    fun n p f cb h c hcb hc =>
      apply_CallbacksSet env FlagMask (RegistryOp.register n p f cb h) c hcb hc
  unfold CConsole.new
  dsimp only
  refine CallbacksSet_congr FlagMask (registerConfigVariables env env.configVariables _) _
    rfl rfl rfl ?_
  apply registerConfigVariables_CallbacksSet
  iterate 7 apply hreg _ _ _ _ _ _ (by simp)
  exact ⟨rfl, by simp, by simp⟩

theorem run_safe (env : Env) (depth : Nat) (FlagMask : Nat) (op : ConsoleOp) (c : CConsole)
    (hadm : op.Admissible FlagMask) (hc : CallbacksSet FlagMask c) :
    SafeResult FlagMask (op.run env depth c) := by
  cases op with
  | registry op => exact apply_CallbacksSet env FlagMask op c hadm hc
  | executeLineStroked Stroke pStr ClientID interp =>
    exact ExecuteLineStroked_safe env _ FlagMask (reentry_safe env FlagMask depth) _ _ _ _ c hc
  | executeLine pStr ClientID interp =>
    exact ExecuteLine_safe env _ FlagMask (reentry_safe env FlagMask depth) _ _ _ c hc
  | executeFile f cid lf st => exact ExecuteFile_safe env FlagMask depth f cid lf st c hc
  | storeCommands Store =>
    exact StoreCommands_safe env _ FlagMask (reentry_safe env FlagMask depth) Store c hc

theorem runOps_safe (env : Env) (depth : Nat) (FlagMask : Nat) :
    ∀ (ops : List ConsoleOp) (c : CConsole), (∀ op ∈ ops, op.Admissible FlagMask) →
      CallbacksSet FlagMask c → SafeResult FlagMask (runOps env depth ops c) := by
  intro ops
  induction ops with
  | nil => intro c _ hc; exact hc
  | cons op rest ih =>
    intro c hadm hc
    simp only [runOps]
    have h := run_safe env depth FlagMask op c (hadm op (List.mem_cons_self _ _)) hc
    cases h1 : op.run env depth c with
    | error e => rw [h1] at h; exact h
    | ok c1 =>
      rw [h1] at h
      exact ih c1 (fun o ho => hadm o (List.mem_cons_of_mem _ ho)) h

/-- C27 as stated fails: `RegisterTemp` leaves a null callback and the
dispatch does not test for it.  On a fresh server console the temporary
command `tmp`, registered with the server flag, is found by the line `tmp`
and its null callback is called; registered with the STORE flag as well, it is
enqueued and the drain `StoreCommands(false)` calls the null callback. -/
theorem temp_command_null_callback :
    ExecuteLineStroked ddnet (reentry ddnet 0) true "tmp".toList (-1) true
        (RegisterTemp ddnet "tmp".toList [] 4 []
          (CConsole.new ddnet 4 { m_SvTestingCommands := 0, m_SvMap := [] })) =
      Except.error Fault.nullCallback
    ∧ runOps ddnet 0
        [ConsoleOp.registry (RegistryOp.registerTemp "tmp".toList [] 12 []),
         ConsoleOp.executeLine "tmp".toList (-1) true,
         ConsoleOp.storeCommands false]
        (CConsole.new ddnet 4 { m_SvTestingCommands := 0, m_SvMap := [] }) =
      Except.error Fault.nullCallback :=
  ⟨rfl, rfl⟩

/-- C27 (amended). A command never crashes the interpreter through a missing
callback: start from the constructor and run any finite sequence of
`Register` (with callbacks that are not null), `RegisterTemp` (with flags of
which none is in the flag mask of the console), `DeregisterTemp`,
`DeregisterTempAll`, `Chain`, `ExecuteLineStroked`, `ExecuteLine`,
`ExecuteFile` and `StoreCommands` calls.  Then no call of the sequence calls a
null callback (the run returns, or the nesting depth of `exec` is used up),
and in the state reached every descriptor found under the flag mask and every
queue entry has a callback, so that no line and no drain calls a null
callback in it. -/
theorem runOps_callbacks_set (env : Env) (depth : Nat) (FlagMask : Nat) (cfg : CConfig)
    (ops : List ConsoleOp) (hadm : ∀ op ∈ ops, op.Admissible FlagMask) :
    SafeResult FlagMask (runOps env depth ops (CConsole.new env FlagMask cfg))
    ∧ runOps env depth ops (CConsole.new env FlagMask cfg) ≠ Except.error Fault.nullCallback
    ∧ ∀ c : CConsole, runOps env depth ops (CConsole.new env FlagMask cfg) = Except.ok c →
        CallbacksSet FlagMask c
        ∧ (∀ (Stroke : Bool) (pStr : Str) (ClientID : Int) (interp : Bool),
            ExecuteLineStroked env (reentry env depth) Stroke pStr ClientID interp c ≠
              Except.error Fault.nullCallback)
        ∧ (∀ Store : Bool,
            StoreCommands env (reentry env depth) Store c ≠
              Except.error Fault.nullCallback) := by
  have hsafe := runOps_safe env depth FlagMask ops _ hadm (new_CallbacksSet env FlagMask cfg)
  have hne : ∀ r : Except Fault CConsole, SafeResult FlagMask r →
      r ≠ Except.error Fault.nullCallback := by
    intro r hr h
    rw [h] at hr
    exact absurd hr (by simp [SafeResult])
  refine ⟨hsafe, hne _ hsafe, ?_⟩
  intro c hrun
  rw [hrun] at hsafe
  have hc : CallbacksSet FlagMask c := hsafe
  refine ⟨hc, ?_, ?_⟩
  · intro Stroke pStr ClientID interp
    exact hne _ (ExecuteLineStroked_safe env _ FlagMask (reentry_safe env FlagMask depth)
      Stroke pStr ClientID interp c hc)
  · intro Store
    exact hne _ (StoreCommands_safe env _ FlagMask (reentry_safe env FlagMask depth)
      Store c hc)

/-- The witness of C27: on a server console a temporary command with the
client flag is not found by the line that names it; the line reports it as
unknown and runs the registered command. -/
theorem runOps_callbacks_set_witness :
    runOps ddnet 0
        [ConsoleOp.registry (RegistryOp.registerTemp "tmp".toList [] 2 []),
         ConsoleOp.registry (RegistryOp.register "hi".toList [] 4 (Callback.handler 1 0) []),
         ConsoleOp.executeLine "tmp;hi".toList (-1) true,
         ConsoleOp.storeCommands false]
        (CConsole.new ddnet 4 { m_SvTestingCommands := 0, m_SvMap := [] }) ≠
      Except.error Fault.nullCallback :=
  (runOps_callbacks_set ddnet 0 4 { m_SvTestingCommands := 0, m_SvMap := [] }
    [ConsoleOp.registry (RegistryOp.registerTemp "tmp".toList [] 2 []),
     ConsoleOp.registry (RegistryOp.register "hi".toList [] 4 (Callback.handler 1 0) []),
     ConsoleOp.executeLine "tmp;hi".toList (-1) true,
     ConsoleOp.storeCommands false] (by decide)).2.1

/-! ### Sorted insertion and lookup -/

theorem takeWhile_dropWhile_split {α : Type} (p : α → Bool) :
    ∀ (l1 l2 : List α), (∀ y ∈ l1, p y = true) → (∀ y, l2.head? = some y → p y = false) →
      (l1 ++ l2).takeWhile p = l1 ∧ (l1 ++ l2).dropWhile p = l2 := by
  intro l1
  induction l1 with
  | nil =>
    intro l2 _ h2
    cases l2 with
    | nil => exact ⟨rfl, rfl⟩
    | cons a rest =>
      have ha := h2 a rfl
      simp [List.takeWhile, List.dropWhile, ha]
  | cons a rest ih =>
    intro l2 h1 h2
    have ha := h1 a (List.mem_cons_self _ _)
    obtain ⟨i1, i2⟩ := ih l2 (fun y hy => h1 y (List.mem_cons_of_mem _ hy)) h2
    simp [List.takeWhile, List.dropWhile, ha, i1, i2]

/-- C31. Sorted insertion: for every command list with at least two entries
whose names are in non-decreasing `str_comp` order and every new descriptor
`x`, the list after `AddCommandSorted(x)` is the old list with `x` put in at
one position, behind the entries at the front whose names are smaller than
the name of `x` and so before the first entry whose name is greater than or
equal to it, and the names of the new list are again in non-decreasing
`str_comp` order. -/
theorem AddCommandSorted_inserts_sorted (x : CCommand) (l : List CCommand)
    (hl : 2 ≤ l.length) (hs : NamesSorted l) :
    AddCommandSorted x l =
      l.takeWhile (fun y => decide (0 < str_comp x.m_pName y.m_pName)) ++
        x :: l.dropWhile (fun y => decide (0 < str_comp x.m_pName y.m_pName))
    ∧ NamesSorted (AddCommandSorted x l) := by
  refine ⟨?_, AddCommandSorted_sorted x l hl hs⟩
  obtain ⟨l1, l2, h1, h2, h3, h4⟩ := AddCommandSorted_split x l hl
  have hsplit := takeWhile_dropWhile_split
    (fun y : CCommand => decide (0 < str_comp x.m_pName y.m_pName)) l1 l2
    (fun y hy => by
      have := h3 y hy
      simp only [decide_eq_true_eq]
      omega)
    (fun y hy => by
      have := h4 y hy
      simp only [decide_eq_false_iff_not]
      omega)
  rw [h2, h1, hsplit.1, hsplit.2]

/-- The witness of C31: `b` is put between `a` and `c`. -/
theorem AddCommandSorted_inserts_sorted_witness :
    (AddCommandSorted { CCommand.new ddnet with m_pName := "b".toList }
      [{ CCommand.new ddnet with m_pName := "a".toList },
       { CCommand.new ddnet with m_pName := "c".toList }]).map (fun y => y.m_pName) =
      ["a".toList, "b".toList, "c".toList] :=
  congrArg (List.map (fun y => y.m_pName))
    (AddCommandSorted_inserts_sorted { CCommand.new ddnet with m_pName := "b".toList }
      [{ CCommand.new ddnet with m_pName := "a".toList },
       { CCommand.new ddnet with m_pName := "c".toList }] (by decide) (by decide)).1

/-- C33. The function `FindCommand(name, mask)` returns the first descriptor
in list order whose flags intersect the mask and whose name equals `name`
case-insensitively (`str_comp_nocase`), and it returns null if and only if no
descriptor of the list satisfies both conditions. -/
theorem FindCommand_first_match (l : List CCommand) (pName : Str) (FlagMask : Nat) :
    FindCommand l pName FlagMask =
      l.find? (fun x => hasFlag x.m_Flags FlagMask &&
        decide (str_comp_nocase x.m_pName pName = 0))
    ∧ (FindCommand l pName FlagMask = none ↔
        ∀ x ∈ l, ¬ (hasFlag x.m_Flags FlagMask = true ∧ str_comp_nocase x.m_pName pName = 0)) := by
  have h1 : FindCommand l pName FlagMask =
      l.find? (fun x => hasFlag x.m_Flags FlagMask &&
        decide (str_comp_nocase x.m_pName pName = 0)) := by
    induction l with
    | nil => rfl
    | cons a rest ih =>
      by_cases hf : hasFlag a.m_Flags FlagMask = true
      · by_cases hn : str_comp_nocase a.m_pName pName = 0
        · simp [FindCommand, List.find?, hf, hn]
        · simp [FindCommand, List.find?, hf, hn, ih]
      · simp [FindCommand, List.find?, hf, ih]
  refine ⟨h1, ?_⟩
  rw [h1, List.find?_eq_none]
  simp

/-! ### Temporary descriptors -/

theorem unlinkNext_eq_eraseP (pName : Str) :
    ∀ (rest : List CCommand) (first : CCommand),
      unlinkNext pName (first :: rest) =
        (first :: rest.eraseP (isTempNamed pName), rest.find? (isTempNamed pName)) := by
  intro rest
  induction rest with
  | nil => intro first; rfl
  | cons b rest2 ih =>
    intro first
    by_cases h : b.m_Temp = true ∧ str_comp b.m_pName pName = 0
    · have hp : isTempNamed pName b = true := by simp [isTempNamed, h.1, h.2]
      simp [unlinkNext, h, List.eraseP_cons, hp, List.find?_cons]
    · have hp : isTempNamed pName b = false := by
        simp only [isTempNamed, Bool.and_eq_false_imp, decide_eq_false_iff_not]
        intro h1 h2
        exact h ⟨h1, h2⟩
      simp only [unlinkNext, if_neg h, ih b, List.eraseP_cons, hp, List.find?_cons]
      rfl

/-- C39. The function `DeregisterTemp(name)` unlinks at most one descriptor: the first
temporary descriptor in list order whose name equals `name` exactly
(`str_comp`), which becomes the head of the freelist; every other descriptor
stays in the list in the same relative order, and nothing else in the console
changes.  If no temporary descriptor has that name, the console is
unchanged. -/
theorem DeregisterTemp_unlinks_first (pName : Str) (c : CConsole) :
    DeregisterTemp pName c = unlinkFirstTemp pName c
    ∧ (unlinkFirstTemp pName c).m_pFirstCommand =
        c.m_pFirstCommand.eraseP (fun x => x.m_Temp && decide (str_comp x.m_pName pName = 0))
    ∧ (∀ d, c.m_pFirstCommand.find?
          (fun x => x.m_Temp && decide (str_comp x.m_pName pName = 0)) = some d →
        (DeregisterTemp pName c).m_pRecycleList = d :: c.m_pRecycleList)
    ∧ ((∀ x ∈ c.m_pFirstCommand, ¬ (x.m_Temp = true ∧ str_comp x.m_pName pName = 0)) →
        DeregisterTemp pName c = c) := by
  have h1 : DeregisterTemp pName c = unlinkFirstTemp pName c := by
    unfold DeregisterTemp unlinkFirstTemp
    cases hl : c.m_pFirstCommand with
    | nil =>
      have h0 : c = { c with m_pFirstCommand := c.m_pFirstCommand } := rfl
      rw [hl] at h0
      simpa using h0
    | cons first rest =>
      dsimp only
      by_cases h : first.m_Temp = true ∧ str_comp first.m_pName pName = 0
      · have hp : isTempNamed pName first = true := by simp [isTempNamed, h.1, h.2]
        rw [if_pos h]
        simp [List.eraseP_cons, hp, List.find?_cons]
      · have hp : isTempNamed pName first = false := by
          simp only [isTempNamed, Bool.and_eq_false_imp, decide_eq_false_iff_not]
          intro i1 i2
          exact h ⟨i1, i2⟩
        rw [if_neg h, unlinkNext_eq_eraseP]
        cases hf : rest.find? (isTempNamed pName) with
        | none => simp [List.eraseP_cons, hp, List.find?_cons, hf]
        | some d => simp [List.eraseP_cons, hp, List.find?_cons, hf]
  refine ⟨h1, rfl, ?_, ?_⟩
  · intro d hd
    rw [h1]
    have hd' : c.m_pFirstCommand.find? (isTempNamed pName) = some d := hd
    simp [unlinkFirstTemp, hd']
  · intro hnone
    rw [h1]
    have hall : ∀ x ∈ c.m_pFirstCommand, ¬ isTempNamed pName x = true := by
      intro x hx hp
      simp only [isTempNamed, Bool.and_eq_true, decide_eq_true_eq] at hp
      exact hnone x hx hp
    have he : c.m_pFirstCommand.eraseP (isTempNamed pName) = c.m_pFirstCommand :=
      List.eraseP_of_forall_not hall
    have hf : c.m_pFirstCommand.find? (isTempNamed pName) = none :=
      List.find?_eq_none.mpr hall
    simp [unlinkFirstTemp, he, hf]

theorem AddCommandSorted_self_mem (x : CCommand) (l : List CCommand) :
    x ∈ AddCommandSorted x l := by
  cases l with
  | nil => simp [AddCommandSorted]
  | cons a rest =>
    cases rest with
    | nil =>
      simp only [AddCommandSorted, insertBehind]
      split <;> simp
    | cons b rest2 =>
      obtain ⟨l1, l2, _, h2, _, _⟩ := AddCommandSorted_split x (a :: b :: rest2) (by simp)
      rw [h2]
      simp

/-- C40. Freelist reuse: if the freelist is not empty, `RegisterTemp` takes no
bytes from the arena, takes the head of the freelist as the descriptor and
leaves the rest of the freelist; if the freelist is empty, it allocates the
descriptor and its three strings in the arena.  In both cases the descriptor
is linked into the command list by `AddCommandSorted`, and it has the given
name, format and help, each cut to its storage length, the given flags, a null
callback with null user data, and is marked temporary. -/
theorem RegisterTemp_reuses_freelist (env : Env) (t : TempCommand) (c : CConsole) :
    (∀ (r : CCommand) (rest : List CCommand), c.m_pRecycleList = r :: rest →
      (RegisterTemp env t.pName t.pParams t.Flags t.pHelp c).m_TempCommands = c.m_TempCommands ∧
      (RegisterTemp env t.pName t.pParams t.Flags t.pHelp c).m_pRecycleList = rest ∧
      (RegisterTemp env t.pName t.pParams t.Flags t.pHelp c).m_pFirstCommand =
        AddCommandSorted (recycledDescriptor env t r) c.m_pFirstCommand)
    ∧ (c.m_pRecycleList = [] →
      (RegisterTemp env t.pName t.pParams t.Flags t.pHelp c).m_TempCommands =
        c.m_TempCommands + tempSize env ∧
      (RegisterTemp env t.pName t.pParams t.Flags t.pHelp c).m_pRecycleList = [] ∧
      (RegisterTemp env t.pName t.pParams t.Flags t.pHelp c).m_pFirstCommand =
        AddCommandSorted (tempDescriptor env t) c.m_pFirstCommand)
    ∧ ∃ d ∈ (RegisterTemp env t.pName t.pParams t.Flags t.pHelp c).m_pFirstCommand,
        d.m_pName = str_copy t.pName env.TEMPCMD_NAME_LENGTH ∧
        d.m_pParams = str_copy t.pParams env.TEMPCMD_PARAMS_LENGTH ∧
        d.m_pHelp = str_copy t.pHelp env.TEMPCMD_HELP_LENGTH ∧
        d.m_Flags = t.Flags ∧ d.m_Callback = Callback.null ∧ d.m_Temp = true := by
  have hrec : ∀ (r : CCommand) (rest : List CCommand), c.m_pRecycleList = r :: rest →
      (RegisterTemp env t.pName t.pParams t.Flags t.pHelp c).m_TempCommands = c.m_TempCommands ∧
      (RegisterTemp env t.pName t.pParams t.Flags t.pHelp c).m_pRecycleList = rest ∧
      (RegisterTemp env t.pName t.pParams t.Flags t.pHelp c).m_pFirstCommand =
        AddCommandSorted (recycledDescriptor env t r) c.m_pFirstCommand := by
    intro r rest h
    unfold RegisterTemp
    rw [h]
    exact ⟨rfl, rfl, rfl⟩
  have hnew : c.m_pRecycleList = [] →
      (RegisterTemp env t.pName t.pParams t.Flags t.pHelp c).m_TempCommands =
        c.m_TempCommands + tempSize env ∧
      (RegisterTemp env t.pName t.pParams t.Flags t.pHelp c).m_pRecycleList = [] ∧
      (RegisterTemp env t.pName t.pParams t.Flags t.pHelp c).m_pFirstCommand =
        AddCommandSorted (tempDescriptor env t) c.m_pFirstCommand := by
    intro h
    rw [RegisterTemp_fresh env t c h]
    exact ⟨rfl, h, rfl⟩
  refine ⟨hrec, hnew, ?_⟩
  cases hr : c.m_pRecycleList with
  | nil =>
    refine ⟨tempDescriptor env t, ?_, rfl, rfl, rfl, rfl, rfl, rfl⟩
    rw [(hnew hr).2.2]
    exact AddCommandSorted_self_mem _ _
  | cons r rest =>
    refine ⟨recycledDescriptor env t r, ?_, rfl, rfl, rfl, rfl, rfl, rfl⟩
    rw [(hrec r rest hr).2.2]
    exact AddCommandSorted_self_mem _ _

/-! ### Re-registration -/

theorem str_comp_self (a : Str) : str_comp a a = 0 := by
  induction a with
  | nil => rfl
  | cons x xs ih => simp [str_comp, ih]

theorem str_comp_nocase_self (a : Str) : str_comp_nocase a a = 0 :=
  str_comp_self _

theorem hasFlag_self (Flags x : Nat) (h : hasFlag x Flags = true) : hasFlag Flags Flags = true := by
  unfold hasFlag at h ⊢
  simp only [bne_iff_ne, ne_eq] at h ⊢
  intro h0
  apply h
  rw [Nat.and_self] at h0
  rw [h0]
  exact Nat.and_zero x

theorem FindCommand_split (f : CCommand → CCommand) :
    ∀ (l : List CCommand) (n : Str) (m : Nat) (x : CCommand), FindCommand l n m = some x →
      ∃ l1 l2, l = l1 ++ x :: l2 ∧ FindCommand l1 n m = none ∧
        updateFound f l n m = l1 ++ f x :: l2 := by
  intro l
  induction l with
  | nil => intro n m x h; simp [FindCommand] at h
  | cons a rest ih =>
    intro n m x h
    by_cases h1 : hasFlag a.m_Flags m = true
    · by_cases h2 : str_comp_nocase a.m_pName n = 0
      · simp only [FindCommand, h1, h2, if_true, Option.some.injEq] at h
        subst h
        exact ⟨[], rest, rfl, rfl, by simp [updateFound, h1, h2]⟩
      · simp only [FindCommand, h1, h2, if_true, if_false] at h
        obtain ⟨l1, l2, i1, i2, i3⟩ := ih n m x h
        refine ⟨a :: l1, l2, by rw [i1]; rfl, by simp [FindCommand, h1, h2, i2], ?_⟩
        simp [updateFound, h1, h2, i3]
    · have h1' : hasFlag a.m_Flags m = false := by simpa using h1
      simp only [FindCommand, h1', Bool.false_eq_true, if_false] at h
      obtain ⟨l1, l2, i1, i2, i3⟩ := ih n m x h
      refine ⟨a :: l1, l2, by rw [i1]; rfl, by simp [FindCommand, h1', i2], ?_⟩
      simp [updateFound, h1', i3]

theorem FindCommand_append_none :
    ∀ (l1 l : List CCommand) (n : Str) (m : Nat), FindCommand l1 n m = none →
      FindCommand (l1 ++ l) n m = FindCommand l n m ∧
      ∀ f, updateFound f (l1 ++ l) n m = l1 ++ updateFound f l n m := by
  intro l1
  induction l1 with
  | nil => intro l n m _; exact ⟨rfl, fun _ => rfl⟩
  | cons a rest ih =>
    intro l n m h
    by_cases h1 : hasFlag a.m_Flags m = true
    · by_cases h2 : str_comp_nocase a.m_pName n = 0
      · simp [FindCommand, h1, h2] at h
      · simp only [FindCommand, h1, h2, if_true, if_false] at h
        obtain ⟨i1, i2⟩ := ih l n m h
        refine ⟨by simp [FindCommand, h1, h2, i1], fun f => ?_⟩
        simp [updateFound, h1, h2, i2]
    · have h1' : hasFlag a.m_Flags m = false := by simpa using h1
      simp only [FindCommand, h1', Bool.false_eq_true, if_false] at h
      obtain ⟨i1, i2⟩ := ih l n m h
      refine ⟨by simp [FindCommand, h1', i1], fun f => ?_⟩
      simp [updateFound, h1', i2]

theorem registerFields_idem (env : Env) (n p : Str) (f : Nat) (cb : Callback) (h : Str)
    (cmd : CCommand) :
    registerFields env n p f cb h (registerFields env n p f cb h cmd) =
      registerFields env n p f cb h cmd := by
  unfold registerFields
  dsimp only
  split <;> rfl

theorem registerFields_fields (env : Env) (n p : Str) (f : Nat) (cb : Callback) (h : Str)
    (cmd : CCommand) :
    (registerFields env n p f cb h cmd).m_pParams = p ∧
    (registerFields env n p f cb h cmd).m_pHelp = h ∧
    (registerFields env n p f cb h cmd).m_Flags = f := by
  unfold registerFields
  dsimp only
  split <;> exact ⟨rfl, rfl, rfl⟩

/-- C32. Idempotent re-registration: if `FindCommand(name, flags)` finds the
descriptor `cmd`, then `Register(name, params, flags, cb, help)` adds no
descriptor and moves none: the list is the old list with `cmd` overwritten in
place, the descriptors before and behind it untouched; the overwritten
descriptor has the callback (with its user data), the format, the help and the
flags of the call and is marked non-temporary; nothing else in the console
changes; and a second `Register` call with the same arguments changes
nothing. -/
theorem Register_overwrites_in_place (env : Env) (pName pParams : Str) (Flags : Nat)
    (cb : Callback) (pHelp : Str) (c : CConsole) (cmd : CCommand)
    (hfind : FindCommand c.m_pFirstCommand pName Flags = some cmd) :
    (∃ l1 l2, c.m_pFirstCommand = l1 ++ cmd :: l2 ∧
      Register env pName pParams Flags cb pHelp c =
        { c with m_pFirstCommand :=
            l1 ++ registerFields env pName pParams Flags cb pHelp cmd :: l2 })
    ∧ (Register env pName pParams Flags cb pHelp c).m_pFirstCommand.length =
        c.m_pFirstCommand.length
    ∧ ((registerFields env pName pParams Flags cb pHelp cmd).m_Callback = cb ∧
        (registerFields env pName pParams Flags cb pHelp cmd).m_pParams = pParams ∧
        (registerFields env pName pParams Flags cb pHelp cmd).m_pHelp = pHelp ∧
        (registerFields env pName pParams Flags cb pHelp cmd).m_Flags = Flags ∧
        (registerFields env pName pParams Flags cb pHelp cmd).m_Temp = false)
    ∧ Register env pName pParams Flags cb pHelp (Register env pName pParams Flags cb pHelp c) =
        Register env pName pParams Flags cb pHelp c := by
  obtain ⟨l1, l2, h1, h2, h3⟩ := FindCommand_split
    (registerFields env pName pParams Flags cb pHelp) c.m_pFirstCommand pName Flags cmd hfind
  have hreg : Register env pName pParams Flags cb pHelp c =
      { c with m_pFirstCommand :=
          l1 ++ registerFields env pName pParams Flags cb pHelp cmd :: l2 } := by
    unfold Register
    rw [hfind]
    dsimp only
    rw [h3]
  have hfl := (FindCommand_mem _ _ _ _ hfind).2
  have hmatch : FindCommand
      (registerFields env pName pParams Flags cb pHelp cmd :: l2) pName Flags =
      some (registerFields env pName pParams Flags cb pHelp cmd) := by
    simp [FindCommand, registerFields_name, (registerFields_fields env _ _ _ _ _ _).2.2,
      hasFlag_self Flags _ hfl, str_comp_nocase_self]
  have hupd : updateFound (registerFields env pName pParams Flags cb pHelp)
      (registerFields env pName pParams Flags cb pHelp cmd :: l2) pName Flags =
      registerFields env pName pParams Flags cb pHelp cmd :: l2 := by
    simp [updateFound, registerFields_name, (registerFields_fields env _ _ _ _ _ _).2.2,
      hasFlag_self Flags _ hfl, str_comp_nocase_self, registerFields_idem]
  refine ⟨⟨l1, l2, h1, hreg⟩, ?_, ?_, ?_⟩
  · rw [hreg, h1]
    simp
  · exact ⟨registerFields_callback _ _ _ _ _ _ _, (registerFields_fields _ _ _ _ _ _ _).1,
      (registerFields_fields _ _ _ _ _ _ _).2.1, (registerFields_fields _ _ _ _ _ _ _).2.2,
      registerFields_temp _ _ _ _ _ _ _⟩
  · rw [hreg]
    have hf2 := (FindCommand_append_none l1
      (registerFields env pName pParams Flags cb pHelp cmd :: l2) pName Flags h2)
    unfold Register
    dsimp only
    rw [hf2.1, hmatch]
    dsimp only
    rw [hf2.2, hupd]

/-- The witness of C32: re-registering `kick` on the server console. -/
theorem Register_overwrites_in_place_witness :
    Register ddnet "kick".toList "v[id] ?r[reason]".toList 4 (Callback.handler 8 0)
        "Kick".toList
        (Register ddnet "kick".toList "v[id] ?r[reason]".toList 4 (Callback.handler 8 0)
          "Kick".toList kickConsole) =
      Register ddnet "kick".toList "v[id] ?r[reason]".toList 4 (Callback.handler 8 0)
        "Kick".toList kickConsole :=
  (Register_overwrites_in_place ddnet "kick".toList "v[id] ?r[reason]".toList 4
    (Callback.handler 8 0) "Kick".toList kickConsole
    { m_pName := "kick".toList, m_pHelp := "Kick a player".toList, m_pParams := "v[id]".toList,
      m_Flags := 4, m_Temp := false, m_AccessLevel := 0, m_Callback := Callback.handler 7 0 }
    (by decide)).2.2.2

/-! ### Victim tokens -/

theorem str_comp_eq_zero (a b : Str) : str_comp a b = 0 ↔ a = b := by
  constructor
  · intro h
    induction a generalizing b with
    | nil => cases b <;> simp [str_comp] at h ⊢
    | cons x xs ih =>
      cases b with
      | nil => simp [str_comp] at h
      | cons y ys =>
        simp only [str_comp] at h
        by_cases h1 : x.toNat < y.toNat
        · simp [h1] at h
        · by_cases h2 : y.toNat < x.toNat
          · simp [h1, h2] at h
          · simp only [h1, h2, if_false] at h
            have hn : x.toNat = y.toNat := by omega
            have hxy : x = y := by
              rw [← Char.ofNat_toNat x, ← Char.ofNat_toNat y, hn]
            rw [hxy, ih ys h]
  · intro h
    rw [h]
    exact str_comp_self b

theorem SetVictimStr_eq (env : Env) (r : CResult) (tok : Str) :
    r.SetVictimStr env tok = { r with m_Victim := victimOf env tok } := by
  unfold CResult.SetVictimStr victimOf
  by_cases h1 : tok = "me".toList
  · rw [if_pos ((str_comp_eq_zero _ _).mpr h1), if_pos h1]
  · rw [if_neg (fun h => h1 ((str_comp_eq_zero _ _).mp h)), if_neg h1]
    by_cases h2 : tok = "all".toList
    · rw [if_pos ((str_comp_eq_zero _ _).mpr h2), if_pos h2]
    · rw [if_neg (fun h => h2 ((str_comp_eq_zero _ _).mp h)), if_neg h2]

/-- C34. Victim token: when the loop of `ParseArgs` stands at a `v` directive
and the next token does not start with a double quote, the token (the text up
to the next whitespace) is added as a positional argument and the victim is
set to `VICTIM_ME` if the token is exactly `me`, to `VICTIM_ALL` if it is
exactly `all`, and otherwise to `clamp(n, 0, MAX_CLIENTS - 1)` for the integer
value `n` of the token, which is a client slot when there is one; for a
format that is the one directive `v` (with or without a hint) that is the
result of `ParseArgs`. -/
theorem ParseArgs_victim_token (env : Env) (fuel : Nat) (fmt : Str) (opt : Bool) (pStr : Str)
    (r : CResult) (c : Char) (cs : Str)
    (hs : str_skip_whitespaces env pStr = c :: cs) (hc : c ≠ '"') :
    ParseArgsLoop env (fuel + 1) ('v' :: fmt) opt pStr r =
      ParseArgsLoop env fuel (NextParam ('v' :: fmt)) opt
        (str_skip_to_whitespace env (c :: cs)).tail
        { r with m_apArgs := r.m_apArgs ++ [tokenBefore env (c :: cs)],
                 m_Victim := victimOf env (tokenBefore env (c :: cs)) }
    ∧ (tokenBefore env (c :: cs) ≠ "me".toList → tokenBefore env (c :: cs) ≠ "all".toList →
        0 < env.MAX_CLIENTS →
        0 ≤ victimOf env (tokenBefore env (c :: cs)) ∧
        victimOf env (tokenBefore env (c :: cs)) < env.MAX_CLIENTS)
    ∧ (NextParam ('v' :: fmt) = [] → pStr = r.m_pArgsStart →
        ParseArgs env r ('v' :: fmt) =
          ({ r with m_apArgs := r.m_apArgs ++ [tokenBefore env (c :: cs)],
                    m_Victim := victimOf env (tokenBefore env (c :: cs)) }, 0)) := by
  have hv : ('v' : Char) ≠ '?' := by decide
  have hr : ('v' : Char) ≠ 'r' := by decide
  have hstep : ∀ (k : Nat) (o : Bool) (r0 : CResult),
      ParseArgsLoop env (k + 1) ('v' :: fmt) o pStr r0 =
        ParseArgsLoop env k (NextParam ('v' :: fmt)) o
          (str_skip_to_whitespace env (c :: cs)).tail
          { r0 with m_apArgs := r0.m_apArgs ++ [tokenBefore env (c :: cs)],
                    m_Victim := victimOf env (tokenBefore env (c :: cs)) } := by
    intro k o r0
    simp only [ParseArgsLoop, if_neg hv, hs, if_neg hc, if_neg hr, true_or, if_true]
    rw [SetVictimStr_eq]
    rfl
  refine ⟨hstep fuel opt r, ?_, ?_⟩
  · intro h1 h2 hmax
    unfold victimOf
    rw [if_neg h1, if_neg h2]
    unfold clamp
    split
    · constructor <;> omega
    · split <;> constructor <;> omega
  · intro hnext hp
    subst hp
    unfold ParseArgs
    rw [List.length_cons, hstep, hnext]
    cases fmt.length <;> simp [ParseArgsLoop, CResult.ResetVictim]

/-- The witness of C34: the token `70` under the format `v[id]` gives the
argument `70` and the victim 63. -/
theorem ParseArgs_victim_token_witness :
    ParseArgs ddnet { CResult.init ddnet 0 with m_pArgsStart := "70".toList } "v[id]".toList =
      ({ CResult.init ddnet 0 with m_pArgsStart := "70".toList, m_apArgs := ["70".toList],
                                   m_Victim := 63 }, 0) :=
  (ParseArgs_victim_token ddnet 6 "[id]".toList false "70".toList
    { CResult.init ddnet 0 with m_pArgsStart := "70".toList } '7' "0".toList
    (by decide) (by decide)).2.2 (by decide) rfl

/-- C35. The code at the failing inputs: with the format `v` the quoted
argument texts `"all"`, `"me"` and `"3"` are added as the arguments `all`,
`me` and `3`, but the victim stays `VICTIM_NONE` (-3): `SetVictim` is called
only in the branch for unquoted tokens, where the same texts without quotes
give `VICTIM_ALL` (-1), `VICTIM_ME` (-2) and 3.  So the line `slap "all"`
invokes the callback once, without a victim, where `slap all` invokes it for
every client slot. -/
theorem quoted_victim_not_set :
    ParseArgs ddnet { CResult.init ddnet 0 with m_pArgsStart := "\"all\"".toList } "v".toList =
      ({ CResult.init ddnet 0 with m_pArgsStart := "\"all\"".toList,
                                   m_apArgs := ["all".toList], m_Victim := -3 }, 0)
    ∧ ParseArgs ddnet { CResult.init ddnet 0 with m_pArgsStart := "\"me\"".toList } "v".toList =
      ({ CResult.init ddnet 0 with m_pArgsStart := "\"me\"".toList,
                                   m_apArgs := ["me".toList], m_Victim := -3 }, 0)
    ∧ ParseArgs ddnet { CResult.init ddnet 0 with m_pArgsStart := "\"3\"".toList } "v".toList =
      ({ CResult.init ddnet 0 with m_pArgsStart := "\"3\"".toList,
                                   m_apArgs := ["3".toList], m_Victim := -3 }, 0)
    ∧ (ParseArgs ddnet { CResult.init ddnet 0 with m_pArgsStart := "all".toList }
        "v".toList).1.m_Victim = -1
    ∧ (ParseArgs ddnet { CResult.init ddnet 0 with m_pArgsStart := "me".toList }
        "v".toList).1.m_Victim = -2
    ∧ (ParseArgs ddnet { CResult.init ddnet 0 with m_pArgsStart := "3".toList }
        "v".toList).1.m_Victim = 3
    ∧ ExecuteLineStroked ddnet (reentry ddnet 0) true "slap \"all\"".toList (-1) true
        sayConsole =
      Except.ok (traceAppend sayConsole
        [Event.call (Callback.handler 12 0)
          { m_ClientID := -1, m_pCommand := "slap".toList, m_pArgsStart := "\"all\"".toList,
            m_apArgs := ["all".toList], m_Victim := -3 }]) :=
  ⟨rfl, rfl, rfl, rfl, rfl, rfl, rfl⟩

/-! ### What the execution of lines keeps -/

theorem reentry_keeps (env : Env) (P : CConsole → Prop) (hS : Stable P)
    (hstorage : ∀ c b, P c → P { c with m_pStorage := b })
    (hstack : ∀ c l, P c → P { c with m_pFirstExec := l }) :
    ∀ (fuel : Nat) (call : Reentry) (c c' : CConsole),
      P c → reentry env fuel call c = Except.ok c' → P c' := by
  intro fuel
  induction fuel with
  | zero =>
    intro call c c' hP h
    cases call with
    | ExecuteLine s cid interp => simp [reentry] at h
    | ExecuteFile f cid lf st =>
      unfold reentry at h
      split at h
      · simp only [Except.ok.injEq] at h
        rw [← h]; exact hP
      · simp at h
  | succ fuel ih =>
    intro call c c' hP h
    cases call with
    | ExecuteLine s cid interp =>
      exact ExecuteLine_keeps env (reentry env fuel) P hS
        (fun call x x' hx hrun => ih call x x' hx hrun) s cid interp c c' h hP
    | ExecuteFile f cid lf st =>
      unfold reentry at h
      by_cases hany : c.m_pFirstExec.any (fun pCur => decide (str_comp f pCur = 0)) = true
      · rw [if_pos hany] at h
        simp only [Except.ok.injEq] at h
        rw [← h]; exact hP
      · rw [if_neg hany] at h
        dsimp only at h
        have hc1 : P (if c.m_pStorage = true then c
            else { c with m_pStorage := env.kernelStorage }) := by
          split
          · exact hP
          · exact hstorage _ _ hP
        generalize (if c.m_pStorage = true then c
            else { c with m_pStorage := env.kernelStorage }) = c1 at hc1 h
        by_cases hst : (!c1.m_pStorage) = true
        · rw [if_pos hst] at h
          simp only [Except.ok.injEq] at h
          rw [← h]; exact hc1
        · rw [if_neg hst] at h
          have hc3 : P (CConsole.log { c1 with m_pFirstExec := f :: c1.m_pFirstExec }
              (Event.openFile f st)) := hS.hlog _ _ (hstack _ _ hc1)
          cases hopen : env.OpenFile f st with
          | none =>
            rw [hopen] at h
            dsimp only at h
            simp only [Except.ok.injEq] at h
            rw [← h]
            apply hstack
            cases lf
            · exact hc3
            · exact hS.hlog _ _ hc3
          | some lines =>
            rw [hopen] at h
            dsimp only at h
            cases h1 : executeLines env (reentry env fuel) cid lines
                (Print (CConsole.log { c1 with m_pFirstExec := f :: c1.m_pFirstExec }
                  (Event.openFile f st)) env.OUTPUT_LEVEL_STANDARD "console".toList
                  (Msg.str_format 128 "executing '%s'".toList [f])) with
            | error e => rw [h1] at h; simp at h
            | ok c5 =>
              rw [h1] at h
              simp only [Except.ok.injEq] at h
              rw [← h]
              apply hstack
              exact executeLines_keeps env (reentry env fuel) P hS
                (fun call x x' hx hrun => ih call x x' hx hrun) cid lines _ c5 h1
                (hS.hlog _ _ hc3)

theorem ExecuteFile_keeps (env : Env) (P : CConsole → Prop) (hS : Stable P)
    (hstorage : ∀ c b, P c → P { c with m_pStorage := b })
    (hstack : ∀ c l, P c → P { c with m_pFirstExec := l })
    (fuel : Nat) (f : Str) (cid : Int) (lf : Bool) (st : Int) (c c' : CConsole)
    (hP : P c) (h : ExecuteFile env fuel f cid lf st c = Except.ok c') : P c' :=
  reentry_keeps env P hS hstorage hstack fuel (Reentry.ExecuteFile f cid lf st) c c' hP h

theorem runQueue_keeps (env : Env) (reenter : ReenterFn) (P : CConsole → Prop)
    (hS : Stable P)
    (hexec : ∀ call c c', P c → reenter call c = Except.ok c' → P c') :
    ∀ (es : List CQueueEntry) (c c' : CConsole),
      runQueue env reenter es c = Except.ok c' → P c → P c' := by
  intro es
  induction es with
  | nil =>
    intro c c' h hP
    simp only [runQueue, Except.ok.injEq] at h
    rw [← h]; exact hP
  | cons e rest ih =>
    intro c c' h hP
    simp only [runQueue] at h
    cases h1 : invoke env reenter e.m_Callback e.m_Result c with
    | error x => rw [h1] at h; simp at h
    | ok c1 =>
      rw [h1] at h
      exact ih _ _ h (invoke_keeps env reenter P hS hexec _ _ _ _ h1 hP)

/-! ### Queue or invoke -/

/-- C36 as stated fails: a dispatch that is not queued runs the callback, and
the callbacks of `exec` and `toggle` execute lines, which are dispatched in
turn.  On a client console with buffering enabled the line
`exec settings.cfg` is dispatched directly (`exec` does not carry the STORE
flag), and when it returns the queue holds the entry for the line
`gfx_mode 1` of the file.  Likewise the line `toggle gfx_x 0 1` is dispatched
directly, `ConToggle` executes the line `gfx_x 1`, and the queue holds the
entry for it. -/
theorem exec_dispatch_enqueues :
    storeConsole.m_StoreCommands = true
    ∧ storeConsole.m_ExecutionQueue = []
    ∧ (FindCommand storeConsole.m_pFirstCommand "exec".toList storeConsole.m_FlagMask).map
        (fun x => (x.m_Callback, hasFlag x.m_Flags ddnetFiles.CFGFLAG_STORE)) =
      some (Callback.Con_Exec, false)
    ∧ (dispatch ddnetFiles (reentry ddnetFiles 1) true (-1)
        (ParseStart ddnetFiles (CResult.init ddnetFiles (-1)) "exec settings.cfg".toList 18).1
        storeConsole).map (fun p => (p.1, p.2.m_ExecutionQueue)) =
      Except.ok (Flow.next, [gfxEntry])
    ∧ varsConsole.m_StoreCommands = true
    ∧ varsConsole.m_ExecutionQueue = []
    ∧ (FindCommand varsConsole.m_pFirstCommand "toggle".toList varsConsole.m_FlagMask).map
        (fun x => (x.m_Callback, hasFlag x.m_Flags ddnetVars.CFGFLAG_STORE)) =
      some (Callback.ConToggle, false)
    ∧ (dispatch ddnetVars (reentry ddnetVars 1) true (-1)
        (ParseStart ddnetVars (CResult.init ddnetVars (-1)) "toggle gfx_x 0 1".toList 17).1
        varsConsole).map (fun p => (p.1, p.2.m_ExecutionQueue)) =
      Except.ok (Flow.next, [gfxXEntry]) :=
  ⟨rfl, rfl, rfl, rfl, rfl, rfl, rfl, rfl⟩

/-- The direct path for a test-only command while test commands are disabled:
the function returns with the state unchanged. -/
theorem dispatch_dropped (env : Env) (reenter : ReenterFn) (Stroke : Bool) (ClientID : Int)
    (Result Result2 : CResult) (c : CConsole) (pCommand : CCommand)
    (hname : Result.m_pCommand ≠ [])
    (hfind : FindCommand c.m_pFirstCommand Result.m_pCommand c.m_FlagMask = some pCommand)
    (hmap : ¬ (ClientID = env.CLIENT_ID_GAME ∧ ¬ hasFlag pCommand.m_Flags env.CFGFLAG_GAME))
    (hnomap : ¬ (ClientID = env.CLIENT_ID_NO_GAME ∧ hasFlag pCommand.m_Flags env.CFGFLAG_GAME))
    (hlevel : pCommand.m_AccessLevel ≥ c.m_AccessLevel)
    (hrun : Stroke = true ∨ Result.m_pCommand.head? = some '+')
    (hparse : ParseArgs env
        (if Result.m_pCommand.head? = some '+' then Result.AddArgument (m_paStrokeStr Stroke)
         else Result) pCommand.m_pParams = (Result2, 0))
    (hdirect : ¬ (c.m_StoreCommands ∧ hasFlag pCommand.m_Flags env.CFGFLAG_STORE))
    (htest : hasFlag pCommand.m_Flags env.CMDFLAG_TEST ∧ c.g_Config.m_SvTestingCommands = 0) :
    dispatch env reenter Stroke ClientID Result c = Except.ok (Flow.ret, c) := by
  have hs : (Stroke || decide (Result.m_pCommand.head? = some '+')) = true := by
    rcases hrun with h | h
    · simp [h]
    · simp [h]
  unfold dispatch
  rw [if_neg hname, hfind]
  dsimp only
  rw [if_neg hmap, if_neg hnomap, if_pos hlevel, if_pos hs]
  simp only [decide_eq_true_eq]
  rw [hparse]
  dsimp only
  rw [if_neg (by simp), if_neg hdirect, if_pos htest]


theorem Stable_trace (n : Nat) : Stable (fun x => n ≤ x.trace.length) := by
  refine ⟨?_, fun _ _ hx _ => hx, fun _ hx => hx, ?_⟩
  · intro x e hx
    show n ≤ (x.trace ++ [e]).length
    rw [List.length_append]
    exact Nat.le_trans hx (Nat.le_add_right _ _)
  · intro x d h hx
    obtain ⟨_, _, es, h3, _⟩ := h
    show n ≤ d.trace.length
    rw [h3, List.length_append]
    exact Nat.le_trans hx (Nat.le_add_right _ _)

theorem reentry_trace_mono (env : Env) (depth : Nat) (call : Reentry) (c c' : CConsole)
    (h : reentry env depth call c = Except.ok c') : c.trace.length ≤ c'.trace.length :=
  reentry_keeps env (fun x => c.trace.length ≤ x.trace.length) (Stable_trace _)
    (fun _ _ hx => hx) (fun _ _ hx => hx) depth call c c' (Nat.le_refl _) h

theorem ExecuteFile_trace_mono (env : Env) (depth : Nat) (f : Str) (cid : Int) (lf : Bool)
    (st : Int) (c c' : CConsole) (h : ExecuteFile env depth f cid lf st c = Except.ok c') :
    c.trace.length ≤ c'.trace.length :=
  reentry_trace_mono env depth (Reentry.ExecuteFile f cid lf st) c c' h

theorem invoke_trace_grows (env : Env) (depth : Nat) (cb : Callback) (R : CResult)
    (c c' : CConsole) (h : invoke env (reentry env depth) cb R c = Except.ok c') :
    c.trace.length < c'.trace.length := by
  have hlog : (c.log (Event.call cb R)).trace.length = c.trace.length + 1 := by
    simp [CConsole.log]
  by_cases hcb : cb.reenters = true
  · rcases invoke_reenters env (reentry env depth) cb R c hcb with ⟨m, hm⟩ | ⟨call, hcall⟩
    · rw [hm] at h
      simp only [Except.ok.injEq] at h
      rw [← h]
      simp [Print, CConsole.log]
    · rw [hcall] at h
      have := reentry_trace_mono env depth call _ _ h
      omega
  · have hcb' : cb.reenters = false := by simpa using hcb
    obtain ⟨_, _, es, h3, _⟩ := invoke_local env _ cb R c c' hcb' h
    rw [h3, List.length_append]
    omega

theorem invokeVictims_trace_grows (env : Env) (depth : Nat) (cb : Callback) :
    ∀ (n i : Nat) (R : CResult) (c c' : CConsole),
      invokeVictims env (reentry env depth) cb n i R c = Except.ok c' →
      c' = c ∨ c.trace.length < c'.trace.length := by
  intro n
  induction n with
  | zero =>
    intro i R c c' h
    simp only [invokeVictims, Except.ok.injEq] at h
    exact Or.inl h.symm
  | succ n ih =>
    intro i R c c' h
    simp only [invokeVictims] at h
    cases hi : invoke env (reentry env depth) cb (R.SetVictim env i) c with
    | error e => rw [hi] at h; simp at h
    | ok c1 =>
      rw [hi] at h
      have h1 := invoke_trace_grows env depth cb _ c c1 hi
      right
      rcases ih _ _ c1 c' h with h2 | h2
      · rw [h2]; exact h1
      · omega

theorem invoke_queue (env : Env) (reenter : ReenterFn) (cb : Callback) (R : CResult)
    (c c' : CConsole) (hcb : cb.reenters = false)
    (h : invoke env reenter cb R c = Except.ok c') :
    c'.m_ExecutionQueue = c.m_ExecutionQueue :=
  (invoke_local env reenter cb R c c' hcb h).fields.2.2.2.2.2.2.1

theorem invokeVictims_queue (env : Env) (reenter : ReenterFn) (cb : Callback)
    (hcb : cb.reenters = false) :
    ∀ (n i : Nat) (R : CResult) (c c' : CConsole),
      invokeVictims env reenter cb n i R c = Except.ok c' →
      c'.m_ExecutionQueue = c.m_ExecutionQueue := by
  intro n
  induction n with
  | zero =>
    intro i R c c' h
    simp only [invokeVictims, Except.ok.injEq] at h
    rw [← h]
  | succ n ih =>
    intro i R c c' h
    simp only [invokeVictims] at h
    cases hi : invoke env reenter cb (R.SetVictim env i) c with
    | error e => rw [hi] at h; simp at h
    | ok c1 =>
      rw [hi] at h
      rw [ih _ _ c1 c' h, invoke_queue env reenter cb _ c c1 hcb hi]

theorem Stable_queue_extends (q : List CQueueEntry) :
    Stable (fun x => ∃ es, x.m_ExecutionQueue = q ++ es) := by
  refine ⟨fun _ _ hx => hx, ?_, fun _ hx => hx, ?_⟩
  · intro x es hx _
    obtain ⟨fs, hfs⟩ := hx
    refine ⟨fs ++ es, ?_⟩
    show x.m_ExecutionQueue ++ es = q ++ (fs ++ es)
    rw [hfs, List.append_assoc]
  · intro x d h hx
    obtain ⟨fs, hfs⟩ := hx
    exact ⟨fs, (h.fields.2.2.2.2.2.2.1).trans hfs⟩

theorem markCheated_fields (env : Env) (pCommand : CCommand) (c : CConsole) :
    (markCheated env pCommand c).trace = c.trace ∧
    (markCheated env pCommand c).m_ExecutionQueue = c.m_ExecutionQueue := by
  unfold markCheated
  split <;> exact ⟨rfl, rfl⟩

theorem auditEvents_length (env : Env) (c : CConsole) (ClientID : Int) (pCommand : CCommand)
    (R : CResult) : (traceAppend c (auditEvents env c ClientID pCommand R)).m_ExecutionQueue =
      c.m_ExecutionQueue ∧
    c.trace.length ≤ (traceAppend c (auditEvents env c ClientID pCommand R)).trace.length := by
  refine ⟨rfl, ?_⟩
  simp [traceAppend]

/-- C36 (amended). Queue or invoke: for a dispatch that has passed lookup,
context check, access check and argument validation, (1) if buffering is
enabled and the command carries the STORE flag, exactly one entry, the
callback of the command with the parsed result, is appended to the execution
queue and nothing else changes: neither the callback nor the audit hook is
invoked; (2) in every other case the outcome is not that of appending an
entry to the queue, and the dispatch itself appends nothing: the entries of
the queue stay, and the queue is left unchanged unless the command's callback
is one that executes lines (`Con_Exec`, `ConToggle`, `ConToggleStroke`), which
are dispatched in turn and may be queued behind them. -/
theorem dispatch_queue_or_invoke (env : Env) (depth : Nat) (Stroke : Bool) (ClientID : Int)
    (Result Result2 : CResult) (c : CConsole) (pCommand : CCommand)
    (hname : Result.m_pCommand ≠ [])
    (hfind : FindCommand c.m_pFirstCommand Result.m_pCommand c.m_FlagMask = some pCommand)
    (hmap : ¬ (ClientID = env.CLIENT_ID_GAME ∧ ¬ hasFlag pCommand.m_Flags env.CFGFLAG_GAME))
    (hnomap : ¬ (ClientID = env.CLIENT_ID_NO_GAME ∧ hasFlag pCommand.m_Flags env.CFGFLAG_GAME))
    (hlevel : pCommand.m_AccessLevel ≥ c.m_AccessLevel)
    (hrun : Stroke = true ∨ Result.m_pCommand.head? = some '+')
    (hparse : ParseArgs env
        (if Result.m_pCommand.head? = some '+' then Result.AddArgument (m_paStrokeStr Stroke)
         else Result) pCommand.m_pParams = (Result2, 0)) :
    ((c.m_StoreCommands = true ∧ hasFlag pCommand.m_Flags env.CFGFLAG_STORE = true) →
      dispatch env (reentry env depth) Stroke ClientID Result c =
        Except.ok (Flow.next,
          enqueue c [{ m_Callback := pCommand.m_Callback, m_Result := Result2 }]))
    ∧ (¬ (c.m_StoreCommands = true ∧ hasFlag pCommand.m_Flags env.CFGFLAG_STORE = true) →
      ∀ (fl : Flow) (c1 : CConsole),
        dispatch env (reentry env depth) Stroke ClientID Result c = Except.ok (fl, c1) →
        (∀ e : CQueueEntry, c1 ≠ enqueue c [e])
        ∧ (∃ es, c1.m_ExecutionQueue = c.m_ExecutionQueue ++ es)
        ∧ (pCommand.m_Callback.reenters = false →
            c1.m_ExecutionQueue = c.m_ExecutionQueue)) := by
  have hs : (Stroke || decide (Result.m_pCommand.head? = some '+')) = true := by
    rcases hrun with h | h
    · simp [h]
    · simp [h]
  have hne : ∀ (c1 : CConsole) (e : CQueueEntry),
      (c1.m_ExecutionQueue = c.m_ExecutionQueue ∨ c.trace.length < c1.trace.length) →
      c1 ≠ enqueue c [e] := by
    intro c1 e h heq
    rcases h with h | h
    · rw [heq] at h
      have hl := congrArg List.length h
      simp [enqueue] at hl
    · rw [heq] at h
      simp [enqueue] at h
  constructor
  · intro hq
    unfold dispatch
    rw [if_neg hname, hfind]
    dsimp only
    rw [if_neg hmap, if_neg hnomap, if_pos hlevel, if_pos hs]
    simp only [decide_eq_true_eq]
    rw [hparse]
    dsimp only
    rw [if_neg (by simp), if_pos hq]
    rfl
  · intro hq fl c1 hd
    have hpre : ∃ es, c1.m_ExecutionQueue = c.m_ExecutionQueue ++ es :=
      dispatch_keeps env (reentry env depth)
        (fun x => ∃ es, x.m_ExecutionQueue = c.m_ExecutionQueue ++ es)
        (Stable_queue_extends _)
        (fun call x x' hx hrun => reentry_keeps env _ (Stable_queue_extends _)
          (fun _ _ hy => hy) (fun _ _ hy => hy) depth call x x' hx hrun)
        Stroke ClientID Result c c1 fl hd ⟨[], (List.append_nil _).symm⟩
    by_cases htest : hasFlag pCommand.m_Flags env.CMDFLAG_TEST = true ∧
        c.g_Config.m_SvTestingCommands = 0
    · rw [dispatch_dropped env _ Stroke ClientID Result Result2 c pCommand hname hfind hmap
        hnomap hlevel hrun hparse hq htest] at hd
      simp only [Except.ok.injEq, Prod.mk.injEq] at hd
      rw [← hd.2]
      exact ⟨fun e => hne c e (Or.inl rfl), ⟨[], (List.append_nil _).symm⟩, fun _ => rfl⟩
    · rw [dispatch_direct env _ Stroke ClientID Result Result2 c pCommand hname hfind hmap
        hnomap hlevel hrun hparse hq htest] at hd
      obtain ⟨ha1, ha2⟩ := auditEvents_length env c ClientID pCommand Result2
      generalize traceAppend c (auditEvents env c ClientID pCommand Result2) = ca at hd ha1 ha2
      generalize (if Result2.GetVictim = env.VICTIM_ME then Result2.SetVictim env ClientID
        else Result2) = R3 at hd
      by_cases h8 : CResult.HasVictim env R3 = true ∧ R3.GetVictim = env.VICTIM_ALL
      · rw [if_pos h8] at hd
        cases hrunv : invokeVictims env (reentry env depth) pCommand.m_Callback
            env.MAX_CLIENTS 0 R3 ca with
        | error e => rw [hrunv] at hd; simp at hd
        | ok c2 =>
          rw [hrunv] at hd
          simp only [Except.ok.injEq, Prod.mk.injEq] at hd
          obtain ⟨m1, m2⟩ := markCheated_fields env pCommand c2
          rw [hd.2] at m1 m2
          refine ⟨fun e => hne c1 e ?_, hpre, ?_⟩
          · rcases invokeVictims_trace_grows env depth _ _ _ _ _ _ hrunv with h | h
            · left
              rw [m2, h, ha1]
            · right
              rw [m1]
              omega
          · intro hcb
            rw [m2, invokeVictims_queue env _ _ hcb _ _ _ _ _ hrunv, ha1]
      · rw [if_neg h8] at hd
        cases hruni : invoke env (reentry env depth) pCommand.m_Callback R3 ca with
        | error e => rw [hruni] at hd; simp at hd
        | ok c2 =>
          rw [hruni] at hd
          simp only [Except.ok.injEq, Prod.mk.injEq] at hd
          obtain ⟨m1, m2⟩ := markCheated_fields env pCommand c2
          rw [hd.2] at m1 m2
          refine ⟨fun e => hne c1 e ?_, hpre, ?_⟩
          · right
            rw [m1]
            have := invoke_trace_grows env depth _ _ _ _ hruni
            omega
          · intro hcb
            rw [m2, invoke_queue env _ _ _ _ _ hcb hruni, ha1]

/-- The witness of C36: with buffering enabled the line `gfx_mode 1` is
appended to the queue. -/
theorem dispatch_queue_or_invoke_witness :
    dispatch ddnet (reentry ddnet 0) true (-1)
        (ParseStart ddnet (CResult.init ddnet (-1)) "gfx_mode 1".toList 11).1 storeConsole =
      Except.ok (Flow.next, enqueue storeConsole [gfxEntry]) :=
  (dispatch_queue_or_invoke ddnet 0 true (-1)
    (ParseStart ddnet (CResult.init ddnet (-1)) "gfx_mode 1".toList 11).1
    gfxEntry.m_Result storeConsole
    { m_pName := "gfx_mode".toList, m_pHelp := "Set the mode".toList,
      m_pParams := "i[mode]".toList, m_Flags := 10, m_Temp := false, m_AccessLevel := 0,
      m_Callback := Callback.handler 9 1 }
    (by decide) (by decide) (by decide) (by decide) (by decide) (by decide) (by decide)).1
    (by decide)


/-! ### Invariants of a session -/

/-- The registry operations touch the command list, the freelist, the arena
and (when `Chain` fails) the output only. -/
theorem apply_frame (env : Env) (op : RegistryOp) (c : CConsole) :
    (op.apply env c).m_StoreCommands = c.m_StoreCommands ∧
    (op.apply env c).m_ExecutionQueue = c.m_ExecutionQueue ∧
    (op.apply env c).m_Cheated = c.m_Cheated ∧
    (op.apply env c).m_FlagMask = c.m_FlagMask := by
  cases op with
  | register pName pParams Flags cb pHelp =>
    simp only [RegistryOp.apply, Register]
    cases FindCommand c.m_pFirstCommand pName Flags <;> exact ⟨rfl, rfl, rfl, rfl⟩
  | registerTemp pName pParams Flags pHelp =>
    simp only [RegistryOp.apply, RegisterTemp]
    cases c.m_pRecycleList <;> exact ⟨rfl, rfl, rfl, rfl⟩
  | deregisterTemp pName =>
    simp only [RegistryOp.apply, DeregisterTemp]
    cases c.m_pFirstCommand with
    | nil => exact ⟨rfl, rfl, rfl, rfl⟩
    | cons first rest =>
      dsimp only
      split
      · exact ⟨rfl, rfl, rfl, rfl⟩
      · cases hun : unlinkNext pName (first :: rest) with
        | mk l removed => cases removed <;> exact ⟨rfl, rfl, rfl, rfl⟩
  | deregisterTempAll => exact ⟨rfl, rfl, rfl, rfl⟩
  | chain pName f u =>
    simp only [RegistryOp.apply, Chain]
    cases FindCommand c.m_pFirstCommand pName c.m_FlagMask <;> exact ⟨rfl, rfl, rfl, rfl⟩

theorem session_keeps (env : Env) (depth : Nat) (P : CConsole → Prop) (hS : Stable P)
    (hstorage : ∀ c b, P c → P { c with m_pStorage := b })
    (hstack : ∀ c l, P c → P { c with m_pFirstExec := l })
    (hmask : ∀ c m, P c → P { c with m_FlagMask := m })
    (hreg : ∀ op c, P c → P (RegistryOp.apply env op c))
    (hdrain : ∀ c, P c → P { c with m_ExecutionQueue := [], m_StoreCommands := false })
    (hbuffer : ∀ c, P c → P { c with m_StoreCommands := true }) :
    ∀ (ops : List SessionOp) (c c' : CConsole),
      runSession env depth ops c = Except.ok c' → P c → P c' := by
  have hexec : ∀ call x x', P x → reentry env depth call x = Except.ok x' → P x' :=
    reentry_keeps env P hS hstorage hstack depth
  have hop : ∀ (op : ConsoleOp) (c c' : CConsole), op.run env depth c = Except.ok c' →
      P c → P c' := by
    intro op c c' h hP
    cases op with
    | registry op =>
      simp only [ConsoleOp.run, Except.ok.injEq] at h
      rw [← h]
      exact hreg op c hP
    | executeLineStroked Stroke pStr ClientID interp =>
      exact ExecuteLineStroked_keeps env _ P hS hexec _ _ _ _ _ _ h hP
    | executeLine pStr ClientID interp =>
      exact ExecuteLine_keeps env _ P hS hexec _ _ _ _ _ h hP
    | executeFile f cid lf st =>
      exact hexec (Reentry.ExecuteFile f cid lf st) c c' hP h
    | storeCommands Store =>
      simp only [ConsoleOp.run, StoreCommands] at h
      cases Store
      · simp only [Bool.not_false, if_true] at h
        cases hq : runQueue env (reentry env depth) c.m_ExecutionQueue c with
        | error e => rw [hq] at h; simp at h
        | ok c1 =>
          rw [hq] at h
          simp only [Except.ok.injEq] at h
          rw [← h]
          exact hdrain c1 (runQueue_keeps env _ P hS hexec _ _ _ hq hP)
      · simp only [Bool.not_true, Bool.false_eq_true, if_false, Except.ok.injEq] at h
        rw [← h]
        exact hbuffer c hP
  intro ops
  induction ops with
  | nil =>
    intro c c' h hP
    simp only [runSession, Except.ok.injEq] at h
    rw [← h]; exact hP
  | cons op rest ih =>
    intro c c' h hP
    simp only [runSession] at h
    cases h1 : op.run env depth c with
    | error e => rw [h1] at h; simp at h
    | ok c1 =>
      rw [h1] at h
      apply ih c1 c' h
      cases op with
      | console o => exact hop o c c1 h1 hP
      | executeLineFlag pStr FlagMask ClientID interp =>
        simp only [SessionOp.run, ExecuteLineFlag] at h1
        cases h2 : ExecuteLine env (reentry env depth) pStr ClientID interp
            { c with m_FlagMask := FlagMask } with
        | error e => rw [h2] at h1; simp at h1
        | ok c2 =>
          rw [h2] at h1
          simp only [Except.ok.injEq] at h1
          rw [← h1]
          exact hmask _ _ (ExecuteLine_keeps env _ P hS hexec _ _ _ _ _ h2
            (hmask _ _ hP))

theorem registerConfigVariables_frame (env : Env) :
    ∀ (vs : List ConfigVariable) (c : CConsole),
      (registerConfigVariables env vs c).m_StoreCommands = c.m_StoreCommands ∧
      (registerConfigVariables env vs c).m_ExecutionQueue = c.m_ExecutionQueue := by
  intro vs
  induction vs with
  | nil => intro c; exact ⟨rfl, rfl⟩
  | cons v rest ih =>
    intro c
    simp only [registerConfigVariables]
    obtain ⟨h1, h2⟩ := ih (registerConfigVariable env v c)
    have hf : (registerConfigVariable env v c).m_StoreCommands = c.m_StoreCommands ∧
        (registerConfigVariable env v c).m_ExecutionQueue = c.m_ExecutionQueue := by
      unfold registerConfigVariable
      split
      · exact ⟨(apply_frame env (RegistryOp.register _ _ _ _ _) c).1,
          (apply_frame env (RegistryOp.register _ _ _ _ _) c).2.1⟩
      · split
        · exact ⟨(apply_frame env (RegistryOp.register _ _ _ _ _) c).1,
            (apply_frame env (RegistryOp.register _ _ _ _ _) c).2.1⟩
        · exact ⟨(apply_frame env (RegistryOp.register _ _ _ _ _) c).1,
            (apply_frame env (RegistryOp.register _ _ _ _ _) c).2.1⟩
    exact ⟨h1.trans hf.1, h2.trans hf.2⟩

theorem new_StoreCommands (env : Env) (FlagMask : Nat) (cfg : CConfig) :
    (CConsole.new env FlagMask cfg).m_StoreCommands = true := by
  have hreg : ∀ (n p : Str) (f : Nat) (cb : Callback) (h : Str) (c : CConsole),
      (Register env n p f cb h c).m_StoreCommands = c.m_StoreCommands :=
    fun n p f cb h c => (apply_frame env (RegistryOp.register n p f cb h) c).1
  unfold CConsole.new
  dsimp only
  rw [(registerConfigVariables_frame env _ _).1]
  simp only [hreg]

/-- C37. Queue emptiness invariant: in every state reached from the
constructor by a finite sequence of top-level calls of `ExecuteLine`,
`ExecuteLineFlag`, `ExecuteLineStroked`, `ExecuteFile`, `StoreCommands` and
the registry operations, observed between the calls, the execution queue is
empty if buffering is disabled; and `StoreCommands(true)` only sets the
buffering flag: the entries of the queue are unchanged. -/
theorem session_queue_empty (env : Env) (depth : Nat) (FlagMask : Nat) (cfg : CConfig)
    (ops : List SessionOp) (c : CConsole)
    (h : runSession env depth ops (CConsole.new env FlagMask cfg) = Except.ok c) :
    (c.m_StoreCommands = false → c.m_ExecutionQueue = [])
    ∧ ∀ c0 : CConsole, ∃ c1,
        StoreCommands env (reentry env depth) true c0 = Except.ok c1 ∧
        c1.m_ExecutionQueue = c0.m_ExecutionQueue ∧ c1.m_StoreCommands = true := by
  constructor
  · refine session_keeps env depth
      (fun x => x.m_StoreCommands = false → x.m_ExecutionQueue = [])
      ⟨fun _ _ hx => hx, ?_, fun _ hx => hx, ?_⟩ (fun _ _ hx => hx) (fun _ _ hx => hx)
      (fun _ _ hx => hx) ?_ (fun _ _ _ => rfl) ?_ ops _ c h ?_
    · intro x es _ hb hf
      rw [show (enqueue x es).m_StoreCommands = x.m_StoreCommands from rfl, hb] at hf
      exact absurd hf (by simp)
    · intro x d hl hx hf
      rw [hl.fields.2.2.1] at hf
      rw [hl.fields.2.2.2.2.2.2.1]
      exact hx hf
    · intro op x hx
      obtain ⟨f1, f2, _, _⟩ := apply_frame env op x
      rw [f1, f2]
      exact hx
    · intro x _ hf
      exact absurd hf (by simp)
    · intro hf
      rw [new_StoreCommands] at hf
      exact absurd hf (by simp)
  · intro c0
    exact ⟨{ c0 with m_StoreCommands := true }, rfl, rfl, rfl⟩

/-- The witness of C37: after the session `followSession` buffering is off
and the queue is empty. -/
theorem session_queue_empty_witness :
    runSession ddnet 0 followSession clientConsole = Except.ok followSessionEnd
    ∧ followSessionEnd.m_StoreCommands = false
    ∧ (followSessionEnd.m_StoreCommands = false → followSessionEnd.m_ExecutionQueue = []) :=
  ⟨rfl, rfl,
   (session_queue_empty ddnet 0 ddnet.CFGFLAG_CLIENT { m_SvTestingCommands := 0, m_SvMap := [] }
      followSession followSessionEnd rfl).1⟩

/-- C38. Test-only gate on the direct path: for a dispatch of a command
flagged test-only that reaches the direct path (command found, context and
access checks passed, arguments valid, not queued), (1) while test commands
are disabled the function returns with the state unchanged: neither the audit
hook nor the callback is invoked, nothing is printed and `m_Cheated` keeps
its value; (2) while test commands are enabled the callback is invoked, behind
the audit hook and with the victim resolved, and `m_Cheated` is true
afterwards; (3) no top-level call on the console sets `m_Cheated` back to
false. -/
theorem dispatch_test_gate (env : Env) (depth : Nat) (Stroke : Bool) (ClientID : Int)
    (Result Result2 : CResult) (c : CConsole) (pCommand : CCommand)
    (hname : Result.m_pCommand ≠ [])
    (hfind : FindCommand c.m_pFirstCommand Result.m_pCommand c.m_FlagMask = some pCommand)
    (hmap : ¬ (ClientID = env.CLIENT_ID_GAME ∧ ¬ hasFlag pCommand.m_Flags env.CFGFLAG_GAME))
    (hnomap : ¬ (ClientID = env.CLIENT_ID_NO_GAME ∧ hasFlag pCommand.m_Flags env.CFGFLAG_GAME))
    (hlevel : pCommand.m_AccessLevel ≥ c.m_AccessLevel)
    (hrun : Stroke = true ∨ Result.m_pCommand.head? = some '+')
    (hparse : ParseArgs env
        (if Result.m_pCommand.head? = some '+' then Result.AddArgument (m_paStrokeStr Stroke)
         else Result) pCommand.m_pParams = (Result2, 0))
    (hdirect : ¬ (c.m_StoreCommands ∧ hasFlag pCommand.m_Flags env.CFGFLAG_STORE))
    (hflag : hasFlag pCommand.m_Flags env.CMDFLAG_TEST = true) :
    (c.g_Config.m_SvTestingCommands = 0 →
      dispatch env (reentry env depth) Stroke ClientID Result c = Except.ok (Flow.ret, c))
    ∧ (c.g_Config.m_SvTestingCommands ≠ 0 →
      dispatch env (reentry env depth) Stroke ClientID Result c =
        match
          (if (resolveVictim env ClientID Result2).HasVictim env ∧
              (resolveVictim env ClientID Result2).GetVictim = env.VICTIM_ALL then
            invokeVictims env (reentry env depth) pCommand.m_Callback env.MAX_CLIENTS 0
              (resolveVictim env ClientID Result2)
              (traceAppend c (auditEvents env c ClientID pCommand Result2))
          else
            invoke env (reentry env depth) pCommand.m_Callback
              (resolveVictim env ClientID Result2)
              (traceAppend c (auditEvents env c ClientID pCommand Result2))) with
        | Except.error e => Except.error e
        | Except.ok c2 => Except.ok (Flow.next, { c2 with m_Cheated := true }))
    ∧ (c.g_Config.m_SvTestingCommands ≠ 0 → ∀ (fl : Flow) (c1 : CConsole),
        dispatch env (reentry env depth) Stroke ClientID Result c = Except.ok (fl, c1) →
        c1.m_Cheated = true)
    ∧ (∀ (ops : List SessionOp) (c0 c1 : CConsole),
        runSession env depth ops c0 = Except.ok c1 → c0.m_Cheated = true →
        c1.m_Cheated = true) := by
  have hdir : c.g_Config.m_SvTestingCommands ≠ 0 →
      dispatch env (reentry env depth) Stroke ClientID Result c =
        match
          (if (resolveVictim env ClientID Result2).HasVictim env ∧
              (resolveVictim env ClientID Result2).GetVictim = env.VICTIM_ALL then
            invokeVictims env (reentry env depth) pCommand.m_Callback env.MAX_CLIENTS 0
              (resolveVictim env ClientID Result2)
              (traceAppend c (auditEvents env c ClientID pCommand Result2))
          else
            invoke env (reentry env depth) pCommand.m_Callback
              (resolveVictim env ClientID Result2)
              (traceAppend c (auditEvents env c ClientID pCommand Result2))) with
        | Except.error e => Except.error e
        | Except.ok c2 => Except.ok (Flow.next, { c2 with m_Cheated := true }) := by
    intro hon
    rw [dispatch_direct env _ Stroke ClientID Result Result2 c pCommand hname hfind hmap
      hnomap hlevel hrun hparse hdirect (fun h => hon h.2)]
    have hm : ∀ c2, markCheated env pCommand c2 = { c2 with m_Cheated := true } := by
      intro c2
      unfold markCheated
      rw [if_pos hflag]
    simp only [hm]
    rfl
  refine ⟨?_, hdir, ?_, ?_⟩
  · intro hoff
    exact dispatch_dropped env _ Stroke ClientID Result Result2 c pCommand hname hfind hmap
      hnomap hlevel hrun hparse hdirect ⟨hflag, hoff⟩
  · intro hon fl c1 hd
    rw [hdir hon] at hd
    split at hd
    · simp at hd
    · simp only [Except.ok.injEq, Prod.mk.injEq] at hd
      rw [← hd.2]
  · intro ops c0 c1 hrun0 hc0
    exact session_keeps env depth (fun x => x.m_Cheated = true)
      ⟨fun _ _ hx => hx, fun _ _ hx _ => hx, fun _ _ => rfl,
        fun _ _ hl hx => (hl.fields.2.2.2.1).trans hx⟩
      (fun _ _ hx => hx) (fun _ _ hx => hx) (fun _ _ hx => hx)
      (fun op x hx => ((apply_frame env op x).2.2.1).trans hx)
      (fun _ hx => hx) (fun _ hx => hx) ops c0 c1 hrun0 hc0

/-- The witness of C38: the line `super` with test commands disabled and
enabled. -/
theorem dispatch_test_gate_witness :
    dispatch ddnet (reentry ddnet 0) true (-1)
        (ParseStart ddnet (CResult.init ddnet (-1)) "super".toList 6).1 testConsole =
      Except.ok (Flow.ret, testConsole)
    ∧ dispatch ddnet (reentry ddnet 0) true (-1)
        (ParseStart ddnet (CResult.init ddnet (-1)) "super".toList 6).1 testConsoleEnabled =
      Except.ok (Flow.next,
        { traceAppend testConsoleEnabled [Event.call (Callback.handler 14 0) superResult] with
          m_Cheated := true }) :=
  ⟨(dispatch_test_gate ddnet 0 true (-1)
      (ParseStart ddnet (CResult.init ddnet (-1)) "super".toList 6).1 superResult testConsole
      superCommand (by decide) (by decide) (by decide) (by decide) (by decide) (by decide)
      (by decide) (by decide) (by decide)).1 rfl,
   ((dispatch_test_gate ddnet 0 true (-1)
      (ParseStart ddnet (CResult.init ddnet (-1)) "super".toList 6).1 superResult
      testConsoleEnabled superCommand (by decide) (by decide) (by decide) (by decide)
      (by decide) (by decide) (by decide) (by decide) (by decide)).2.1 (by decide)).trans rfl⟩


end Console
